import Mathlib

/-!
# standardese: recovery of declarator details from the lexemes of a declaration

A shallow embedding of `src/cpp_function.cpp`.  A token stream is the list of the
lexemes that are still to be read; every scanner takes the stream and the records it
updates and returns the new ones.  The cursor argument `cur` of the C++ functions only
feeds `source_location(cur)` in error values and is left out.

The helpers of `src/markup/html_helper.cpp`, `include_guard` of
`src/translation_unit.cpp` and the filter loop of `src/preprocessor.cpp` follow the
definitions for `cpp_function.cpp`; they work on the bytes of a `std::string`.
-/

namespace standardese

/-! ## Outcomes -/

/-- Ways in which a scanner ends without a result. -/
inductive error where
  /-- Value of `throw parse_error(source_location(cur), msg)`. -/
  | parse_error (msg : String)
  /-- An `assert` of the source does not hold. -/
  | assertion_failed
  /-- A lexeme is consumed (`get`, `bump`) when none is left. -/
  | end_of_stream
  /-- A loop of the embedding used up its iteration budget. -/
  | out_of_fuel
  deriving DecidableEq, Repr

deriving instance DecidableEq for Except

/-! ## Token cursor (`detail::token_stream`) -/

/-- Modelled from the spec: `detail::token_stream` (tokenizer.hpp is not among the
sources).  The stream is the sequence of lexemes not yet consumed, whitespace lexemes
included. -/
abbrev token_stream := List String

/-- Modelled from the spec: `token_stream::peek().get_value()`, the next lexeme without
consuming it; the empty text when no lexeme is left. -/
def peek (stream : token_stream) : String :=
  stream.headD ""

/-- Modelled from the spec: `token_stream::done()`. -/
def done (stream : token_stream) : Bool :=
  stream.isEmpty

/-- Modelled from the spec: `token_stream::bump()`, consume one lexeme. -/
def bump : token_stream → Except error token_stream
  | [] => .error .end_of_stream
  | _ :: rest => .ok rest

/-- Modelled from the spec: `token_stream::get().get_value()`, consume one lexeme and
return its text. -/
def get : token_stream → Except error (String × token_stream)
  | [] => .error .end_of_stream
  | t :: rest => .ok (t, rest)

/-! ## Characters and strings -/

/-- The function `std::isspace` in the "C" locale. -/
def isspace (c : Char) : Bool :=
  c = ' ' || c = '\t' || c = '\n' || c = Char.ofNat 11 || c = Char.ofNat 12 || c = '\r'

/-- The test `std::isspace(spelling[0])`; the first character of an empty text is the
terminating NUL, which is no whitespace. -/
def starts_with_space (spelling : String) : Bool :=
  match spelling.data with
  | [] => false
  | c :: _ => isspace c

/-- The first character `spelling[0]`, NUL for the empty text. -/
def first_char (spelling : String) : Char :=
  spelling.data.headD (Char.ofNat 0)

/-- Modelled from the spec: `detail::erase_trailing_ws` (parse_utils.hpp is not among the
sources): remove the whitespace characters at the end of the text. -/
def erase_trailing_ws (s : String) : String :=
  ⟨(s.data.reverse.dropWhile isspace).reverse⟩

/-- Modelled from the spec: `detail::erase_template_args` (parse_utils.hpp is not among the
sources): strip the template-argument suffix of a name, that is everything from its
first `<` on. -/
def erase_template_args (name : String) : String :=
  ⟨name.data.takeWhile (fun c => c != '<')⟩

/-! ## Helpers of `detail/parse_utils.hpp` -/

/-- Modelled from the spec: `detail::skip_whitespace` (parse_utils.hpp is not among the
sources): consume lexemes as long as the next one starts with a whitespace character. -/
def skip_whitespace : token_stream → token_stream
  | [] => []
  | t :: rest => if starts_with_space t then skip_whitespace rest else t :: rest

/-- Modelled from the spec: `detail::skip_if_token` (parse_utils.hpp is not among the
sources): when the next lexeme is `token`, consume it together with the whitespace
after it and answer `true`; otherwise consume nothing and answer `false`. -/
def skip_if_token (stream : token_stream) (token : String) : Bool × token_stream :=
  match stream with
  | [] => (false, [])
  | t :: rest => if t = token then (true, skip_whitespace rest) else (false, t :: rest)

/-- Modelled from the spec: `detail::skip(stream, cur, value)` (parse_utils.hpp is not
among the sources): the next lexeme has to be `value` and is consumed. -/
def skip (stream : token_stream) (value : String) : Except error token_stream :=
  if peek stream = value then bump stream
  else .error (.parse_error ("expected \'" ++ value ++ "\' got \'" ++ peek stream ++ "\'"))

/-- Modelled from the spec: `detail::skip(stream, cur, {values...})` (parse_utils.hpp is
not among the sources): skip the lexemes in turn, with the whitespace after each. -/
def skip_all : token_stream → List String → Except error token_stream
  | stream, [] => .ok stream
  | stream, value :: values =>
    match skip stream value with
    | .error e => .error e
    | .ok stream => skip_all (skip_whitespace stream) values

/-- The loop of `skip_bracket_count`: `bracket_count` is the number of brackets that are
open, never 0 on entry. -/
def skip_bracket_count_loop {σ : Type} (open_ close : String) (f : σ → String → σ) :
    token_stream → Nat → σ → Except error (σ × token_stream)
  | [], _, _ => .error .end_of_stream
  | spelling :: rest, bracket_count, acc =>
    let bracket_count :=
      if spelling = open_ then bracket_count + 1
      else if spelling = close then bracket_count - 1
      else bracket_count
    if bracket_count = 0 then .ok (f acc spelling, rest)
    else skip_bracket_count_loop open_ close f rest bracket_count (f acc spelling)

/-- Modelled from the spec: `detail::skip_bracket_count(stream, cur, open, close, f)`
(parse_utils.hpp is not among the sources): consume a balanced bracket region that
starts at the next lexeme, which has to be `open`, and hand every lexeme after that
opening bracket, the matching closing bracket included, to the callback `f`.  The
callback of the source updates variables it captured by reference; here it maps the
old value `σ` of these variables to the new one. -/
def skip_bracket_count {σ : Type} (stream : token_stream) (open_ close : String)
    (f : σ → String → σ) (init : σ) : Except error (σ × token_stream) :=
  match skip stream open_ with
  | .error e => .error e
  | .ok stream => skip_bracket_count_loop open_ close f stream 1 init

/-- Modelled from the spec: `detail::skip_attribute` (parse_utils.hpp is not among the
sources); the spec only says that attributes are skipped transparently.  An attribute
is a region `[[ ... ]]` or `__attribute__(( ... ))`; it is consumed with the whitespace
after it, any other stream is left as it is. -/
def skip_attribute (stream : token_stream) : Except error token_stream :=
  match stream with
  | [] => .ok []
  | t :: rest =>
    if t = "[" ∧ peek rest = "[" then
      match skip_bracket_count rest "[" "]" (fun (u : Unit) _ => u) () with
      | .error e => .error e
      | .ok (_, stream) =>
        match skip stream "]" with
        | .error e => .error e
        | .ok stream => .ok (skip_whitespace stream)
    else if t = "__attribute__" then
      match skip (skip_whitespace rest) "(" with
      | .error e => .error e
      | .ok stream =>
        match skip_bracket_count stream "(" ")" (fun (u : Unit) _ => u) () with
        | .error e => .error e
        | .ok (_, stream) =>
          match skip stream ")" with
          | .error e => .error e
          | .ok stream => .ok (skip_whitespace stream)
    else .ok (t :: rest)

/-! ## Data model (`cpp_function.hpp`) -/

/-- Modelled from the spec: definition kind ∈ {normal, defaulted, deleted}
(cpp_function.hpp is not among the sources). -/
inductive cpp_function_definition where
  | cpp_function_definition_normal
  | cpp_function_definition_defaulted
  | cpp_function_definition_deleted
  deriving DecidableEq, Repr

/-- Modelled from the spec: the flags of the flag set (cpp_function.hpp is not among the
sources). -/
inductive cpp_function_flags where
  | cpp_variadic_fnc
  | cpp_constexpr_fnc
  | cpp_explicit_conversion
  deriving DecidableEq, Repr

/-- Modelled from the spec: virtual-kind ∈ {none, introduced, overridden, final, pure,
static} (cpp_function.hpp is not among the sources); `cpp_virtual_new` is introduced. -/
inductive cpp_virtual where
  | cpp_virtual_none
  | cpp_virtual_static
  | cpp_virtual_pure
  | cpp_virtual_new
  | cpp_virtual_overriden
  | cpp_virtual_final
  deriving DecidableEq, Repr

/-- Modelled from the spec: cv-qualifier ∈ {none, const, volatile, const-volatile}
(cpp_function.hpp is not among the sources). -/
inductive cpp_cv where
  | cpp_cv_none
  | cpp_cv_const
  | cpp_cv_volatile
  | cpp_cv_const_volatile
  deriving DecidableEq, Repr

/-- Modelled from the spec: ref-qualifier ∈ {none, lvalue, rvalue} (cpp_function.hpp is
not among the sources). -/
inductive cpp_ref_qualifier where
  | cpp_ref_none
  | cpp_ref_lvalue
  | cpp_ref_rvalue
  deriving DecidableEq, Repr

open cpp_function_definition cpp_function_flags cpp_virtual cpp_cv cpp_ref_qualifier

/-- Modelled from the spec: the const bit of a cv-qualifier. -/
def is_const : cpp_cv → Bool
  | cpp_cv_const => true
  | cpp_cv_const_volatile => true
  | _ => false

/-- Modelled from the spec: the volatile bit of a cv-qualifier. -/
def is_volatile : cpp_cv → Bool
  | cpp_cv_volatile => true
  | cpp_cv_const_volatile => true
  | _ => false

/-- The cv-qualifier with the given bits. -/
def cv_of_bits (c v : Bool) : cpp_cv :=
  match c, v with
  | false, false => cpp_cv_none
  | true, false => cpp_cv_const
  | false, true => cpp_cv_volatile
  | true, true => cpp_cv_const_volatile

/-- Modelled from the spec: Declaration Info (cpp_function.hpp is not among the sources):
definition kind, flag set, has-explicit-noexcept and noexcept-expression. -/
structure cpp_function_info where
  definition : cpp_function_definition := cpp_function_definition_normal
  is_variadic : Bool := false
  is_constexpr : Bool := false
  is_explicit : Bool := false
  explicit_noexcept : Bool := false
  noexcept_expression : String := ""
  deriving DecidableEq, Repr

/-- Modelled from the spec: `cpp_function_info::set_flag`, add one flag to the flag
set. -/
def cpp_function_info.set_flag (info : cpp_function_info) :
    cpp_function_flags → cpp_function_info
  | cpp_variadic_fnc => { info with is_variadic := true }
  | cpp_constexpr_fnc => { info with is_constexpr := true }
  | cpp_explicit_conversion => { info with is_explicit := true }

/-- Modelled from the spec: Member Declaration Info (cpp_function.hpp is not among the
sources). -/
structure cpp_member_function_info where
  cv_qualifier : cpp_cv := cpp_cv_none
  ref_qualifier : cpp_ref_qualifier := cpp_ref_none
  virtual_flag : cpp_virtual := cpp_virtual_none
  deriving DecidableEq, Repr

/-- Modelled from the spec: `cpp_member_function_info::set_cv`, which sets cv-qualifier
bits additively (both may be set). -/
def cpp_member_function_info.set_cv (info : cpp_member_function_info) (cv : cpp_cv) :
    cpp_member_function_info :=
  { info with
    cv_qualifier :=
      cv_of_bits (is_const info.cv_qualifier || is_const cv)
        (is_volatile info.cv_qualifier || is_volatile cv) }

/-! ## Scanners of `cpp_function.cpp` -/

/-- The loop of `parse_noexcept` after the opening bracket (cpp_function.cpp:266-277). -/
def parse_noexcept_loop : token_stream → Nat → String → Except error (String × token_stream)
  | [], _, _ => .error .end_of_stream
  | spelling :: rest, bracket_count, expression =>
    let bracket_count :=
      if spelling = "(" then bracket_count + 1
      else if spelling = ")" then bracket_count - 1
      else bracket_count
    if bracket_count ≠ 0 then
      parse_noexcept_loop rest bracket_count (expression ++ spelling)
    else .ok (expression, rest)

/-- The function `parse_noexcept` (cpp_function.cpp:256-286). -/
def parse_noexcept (stream : token_stream) : Except error (String × token_stream) :=
  let stream := skip_whitespace stream
  if peek stream = "(" then
    match bump stream with
    | .error e => .error e
    | .ok stream => parse_noexcept_loop stream 1 ""
  else .ok ("true", stream)

/-- The function `is_declaration_end` (cpp_function.cpp:288-313).  The result is the
returned flag, the new value of `is_special_definition` and the stream. -/
def is_declaration_end (stream : token_stream) (is_special_definition : Bool) :
    Except error (Bool × Bool × token_stream) :=
  match skip_attribute stream with
  | .error e => .error e
  | .ok stream =>
    if (peek stream).length > 1 then .ok (false, is_special_definition, stream)
    else
      let c := first_char (peek stream)
      if c = ':' ∨ c = ';' ∨ c = '\x7b' then
        .ok (true, false, skip_whitespace stream.tail)
      else if c = '=' then
        .ok (true, true, skip_whitespace stream.tail)
      else .ok (false, is_special_definition, stream)

/-- The function `parse_special_definition` (cpp_function.cpp:317-333). -/
def parse_special_definition (stream : token_stream) :
    Except error (cpp_function_definition × token_stream) :=
  match get stream with
  | .error e => .error e
  | .ok (spelling, stream) =>
    if spelling = "default" then .ok (cpp_function_definition_defaulted, stream)
    else if spelling = "delete" then .ok (cpp_function_definition_deleted, stream)
    else if spelling = "0" then .ok (cpp_function_definition_normal, stream)
    else .error (.parse_error ("unknown function definition \'= " ++ spelling ++ "\'"))

/-- The local variables of `parse_member_function_suffix` and the records it updates. -/
structure suffix_state where
  stream : token_stream
  trailing_return_type : String
  special_definition : Bool
  finfo : cpp_function_info
  minfo : cpp_member_function_info
  deriving DecidableEq, Repr

/-- The loop over a trailing return type (cpp_function.cpp:359-363): every lexeme up to
the end of the declaration is appended to the text. -/
def trailing_return_type_loop : Nat → suffix_state → Except error suffix_state
  | 0, _ => .error .out_of_fuel
  | fuel + 1, st =>
    match is_declaration_end st.stream st.special_definition with
    | .error e => .error e
    | .ok (true, special, stream) =>
      .ok { st with stream := stream, special_definition := special }
    | .ok (false, special, stream) =>
      match get stream with
      | .error e => .error e
      | .ok (spelling, stream) =>
        trailing_return_type_loop fuel
          { st with stream := stream, special_definition := special,
                    trailing_return_type := st.trailing_return_type ++ spelling }

/-- The body of the loop of `parse_member_function_suffix` (cpp_function.cpp:342-392):
the test `is_declaration_end` and one iteration.  The flag of the result tells whether
the loop is left, at the end of the declaration or by the `break` after a trailing return
type; `special_definition` then tells whether the declaration ended with `=`. -/
def parse_member_function_suffix_step (st : suffix_state) :
    Except error (Bool × suffix_state) :=
  match is_declaration_end st.stream st.special_definition with
  | .error e => .error e
  | .ok (true, special, stream) =>
    .ok (true, { st with stream := stream, special_definition := special })
  | .ok (false, special, stream) =>
    if done stream then .error .assertion_failed
    else
      match skip_attribute stream with
      | .error e => .error e
      | .ok stream =>
        if (skip_if_token stream ")").1 then
          match skip_bracket_count (skip_if_token stream ")").2 "(" ")"
              (fun (text : String) str => text ++ str) (st.trailing_return_type ++ ")(") with
          | .error e => .error e
          | .ok (text, stream) =>
            .ok (false, { st with stream := stream, special_definition := special,
                                  trailing_return_type := text })
        else if (skip_if_token stream "->").1 then
          match trailing_return_type_loop ((skip_if_token stream "->").2.length + 1)
              { st with stream := (skip_if_token stream "->").2,
                        special_definition := special } with
          | .error e => .error e
          | .ok st => .ok (true, st)
        else if (skip_if_token stream "const").1 then
          .ok (false, { st with stream := (skip_if_token stream "const").2,
                                special_definition := special,
                                minfo := st.minfo.set_cv cpp_cv_const })
        else if (skip_if_token stream "volatile").1 then
          .ok (false, { st with stream := (skip_if_token stream "volatile").2,
                                special_definition := special,
                                minfo := st.minfo.set_cv cpp_cv_volatile })
        else if (skip_if_token stream "&").1 then
          .ok (false, { st with stream := (skip_if_token stream "&").2,
                                special_definition := special,
                                minfo := { st.minfo with ref_qualifier := cpp_ref_lvalue } })
        else if (skip_if_token stream "&&").1 then
          .ok (false, { st with stream := (skip_if_token stream "&&").2,
                                special_definition := special,
                                minfo := { st.minfo with ref_qualifier := cpp_ref_rvalue } })
        else if (skip_if_token stream "final").1 then
          .ok (false, { st with stream := (skip_if_token stream "final").2,
                                special_definition := special,
                                minfo := { st.minfo with virtual_flag := cpp_virtual_final } })
        else if (skip_if_token stream "override").1 then
          .ok (false, { st with stream := (skip_if_token stream "override").2,
                                special_definition := special,
                                minfo := { st.minfo with virtual_flag := cpp_virtual_overriden } })
        else if (skip_if_token stream "noexcept").1 then
          match parse_noexcept (skip_if_token stream "noexcept").2 with
          | .error e => .error e
          | .ok (expression, stream) =>
            .ok (false, { st with stream := stream, special_definition := special,
                                  finfo := { st.finfo with explicit_noexcept := true,
                                                           noexcept_expression := expression } })
        else if !starts_with_space (peek stream) then
          match get stream with
          | .error e => .error e
          | .ok (str, _) => .error (.parse_error ("unexpected token \'" ++ str ++ "\'"))
        else
          match get stream with
          | .error e => .error e
          | .ok (_, stream) =>
            .ok (false, { st with stream := stream, special_definition := special })

/-- The loop of `parse_member_function_suffix` (cpp_function.cpp:342-392): iterate the
body until the loop is left. -/
def parse_member_function_suffix_loop : Nat → suffix_state → Except error suffix_state
  | 0, _ => .error .out_of_fuel
  | fuel + 1, st =>
    match parse_member_function_suffix_step st with
    | .error e => .error e
    | .ok (true, st) => .ok st
    | .ok (false, st) => parse_member_function_suffix_loop fuel st

/-- The end of `parse_member_function_suffix` (cpp_function.cpp:394-403): a special
definition `= 0` makes the function pure virtual, the others set the definition. -/
def parse_member_function_suffix_end (st : suffix_state) : Except error suffix_state :=
  if st.special_definition then
    match parse_special_definition st.stream with
    | .error e => .error e
    | .ok (res, stream) =>
      if res = cpp_function_definition_normal then
        .ok { st with stream := stream,
                      minfo := { st.minfo with virtual_flag := cpp_virtual_pure } }
      else
        .ok { st with stream := stream, finfo := { st.finfo with definition := res } }
  else .ok st

/-- The function `parse_member_function_suffix` (cpp_function.cpp:335-404).  The result
holds the returned text in `trailing_return_type`, the updated records and the stream.
Every iteration of the loop consumes a lexeme, so one more iteration than there are
lexemes is enough. -/
def parse_member_function_suffix (stream : token_stream) (finfo : cpp_function_info)
    (minfo : cpp_member_function_info) : Except error suffix_state :=
  match parse_member_function_suffix_loop (stream.length + 1)
      { stream := stream, trailing_return_type := "", special_definition := false,
        finfo := finfo, minfo := minfo } with
  | .error e => .error e
  | .ok st => parse_member_function_suffix_end st

/-! ## The scanners before the suffix -/

/-- The function `skip_template_parameter_declaration` (cpp_function.cpp:111-121). -/
def skip_template_parameter_declaration (stream : token_stream) : Except error token_stream :=
  if peek stream = "template" then
    match bump stream with
    | .error e => .error e
    | .ok stream =>
      match skip_all (skip_whitespace stream) ["<", ">"] with
      | .error e => .error e
      | .ok stream => .ok (skip_whitespace stream)
  else .ok (skip_whitespace stream)

/-- The inner loop of `parse_member_function_prefix` after the keyword `operator`
(cpp_function.cpp:152-167).  `ptr` is the part of the name that is not matched yet;
`strncmp(ptr, spelling, spelling.size())` is 0 exactly when the lexeme is an initial
segment of it.  The result is the stream at the `break`. -/
def operator_name_loop : token_stream → List Char → Except error token_stream
  | [], _ => .error .end_of_stream
  | spelling :: rest, ptr =>
    let ptr := ptr.dropWhile isspace
    if !starts_with_space spelling then
      if spelling.data.isPrefixOf ptr then
        operator_name_loop rest (ptr.drop spelling.length)
      else .ok (spelling :: rest)
    else operator_name_loop rest ptr

/-- The local variables of `parse_member_function_prefix` and the records it updates. -/
structure prefix_state where
  stream : token_stream
  return_type : String
  allow_auto : Bool
  finfo : cpp_function_info
  minfo : cpp_member_function_info
  deriving DecidableEq, Repr

/-- The body of the loop of `parse_member_function_prefix` (cpp_function.cpp:130-177):
the test for the name and one iteration.  The flag of the result tells whether the loop
is left, after the name or by the `break` after an operator name. -/
def parse_member_function_prefix_step (name : String) (st : prefix_state) :
    Except error (Bool × prefix_state) :=
  if (skip_if_token st.stream name).1 then
    .ok (true, { st with stream := (skip_if_token st.stream name).2 })
  else
    match skip_attribute st.stream with
    | .error e => .error e
    | .ok stream =>
      if (skip_if_token stream "extern").1 then
        .ok (false, { st with stream := (skip_if_token stream "extern").2 })
      else if (skip_if_token stream "static").1 then
        .ok (false, { st with stream := (skip_if_token stream "static").2,
                              minfo := { st.minfo with virtual_flag := cpp_virtual_static } })
      else if (skip_if_token stream "constexpr").1 then
        .ok (false, { st with stream := (skip_if_token stream "constexpr").2,
                              finfo := st.finfo.set_flag cpp_constexpr_fnc })
      else if (skip_if_token stream "virtual").1 then
        .ok (false, { st with stream := (skip_if_token stream "virtual").2,
                              minfo := { st.minfo with virtual_flag := cpp_virtual_new } })
      else if !st.allow_auto && (skip_if_token stream "auto").1 then
        .ok (false, { st with stream := (skip_if_token stream "auto").2 })
      else if (skip_if_token stream "operator").1 then
        match operator_name_loop (skip_if_token stream "operator").2
            (name.data.drop "operator".length) with
        | .error e => .error e
        | .ok stream => .ok (true, { st with stream := stream })
      else
        match get stream with
        | .error e => .error e
        | .ok (spelling, stream) =>
          .ok (false, { st with stream := stream,
                                allow_auto := if spelling = "decltype" then true else st.allow_auto,
                                return_type := st.return_type ++ spelling })

/-- The loop of `parse_member_function_prefix` (cpp_function.cpp:130-177): iterate the
body until the loop is left. -/
def parse_member_function_prefix_loop (name : String) :
    Nat → prefix_state → Except error prefix_state
  | 0, _ => .error .out_of_fuel
  | fuel + 1, st =>
    match parse_member_function_prefix_step name st with
    | .error e => .error e
    | .ok (true, st) => .ok st
    | .ok (false, st) => parse_member_function_prefix_loop name fuel st

/-- The function `parse_member_function_prefix` (cpp_function.cpp:123-180); the returned
text is the field `return_type` of the result. -/
def parse_member_function_prefix (stream : token_stream) (name : String)
    (finfo : cpp_function_info) (minfo : cpp_member_function_info) :
    Except error prefix_state :=
  parse_member_function_prefix_loop name (stream.length + 1)
    { stream := stream, return_type := "", allow_auto := false, finfo := finfo, minfo := minfo }

/-- The backward loop of `skip_template_arguments` (cpp_function.cpp:201-233) over the
buffered lexemes, last one first, each with its position in the stream.  `paren_count`
is an `unsigned`; `next` is the position `*iter.base()` of the lexeme visited before.
The result is the position the stream is moved to, if a boundary is found. -/
def skip_template_arguments_scan (returns_function : Bool) :
    List (Nat × String) → Nat → Bool → Option Nat → Except error (Option Nat)
  | [], _, _, _ => .ok none
  | (pos, str) :: more, paren_count, was_opening_paren, next =>
    if paren_count = (if returns_function then 1 else 0) ∧ was_opening_paren = true
        ∧ str = ">" then
      .ok next
    else if str = "(" then
      if more.isEmpty then .error .assertion_failed
      else
        skip_template_arguments_scan returns_function more
          ((paren_count + (2 ^ 32 - 1)) % 2 ^ 32) true (some pos)
    else if str = ")" then
      skip_template_arguments_scan returns_function more
        ((paren_count + 1) % 2 ^ 32) false (some pos)
    else
      skip_template_arguments_scan returns_function more paren_count false (some pos)

/-- The function `skip_template_arguments` (cpp_function.cpp:182-237); the result is the
new value of `args` and the stream. -/
def skip_template_arguments (stream : token_stream) (args : String)
    (returns_function : Bool) : Except error (String × token_stream) :=
  if peek stream = "<" then
    let tokens := stream.enum.filter (fun p => !starts_with_space p.2)
    if tokens.getLast?.map Prod.snd ≠ some ";" then .error .assertion_failed
    else
      match skip_template_arguments_scan returns_function tokens.reverse 0 false none with
      | .error e => .error e
      | .ok none => .error .assertion_failed
      | .ok (some pos) =>
        if peek (stream.drop pos) = "(" then
          .ok (args ++ String.join (stream.take pos), stream.drop pos)
        else .error .assertion_failed
  else .ok (args, stream)

/-- The callback of `skip_parameters` (cpp_function.cpp:246-253) on the pair
(`variadic`, `variadic_param`). -/
def skip_parameters_callback (vars : Bool × Bool) (spelling : String) : Bool × Bool :=
  if vars.2 = true ∧ spelling = "..." then (true, vars.2)
  else if vars.2 = false ∧ first_char spelling = ',' then (vars.1, true)
  else if !starts_with_space spelling then (vars.1, false)
  else vars

/-- The function `skip_parameters` (cpp_function.cpp:239-254); the result is `variadic`
and the stream. -/
def skip_parameters (stream : token_stream) : Except error (Bool × token_stream) :=
  match skip_bracket_count stream "(" ")" skip_parameters_callback (false, true) with
  | .error e => .error e
  | .ok (vars, stream) => .ok (vars.1, stream)

/-- The function `is_function_ptr` (cpp_function.cpp:406-414): the last character that
is no whitespace is `*`. -/
def is_function_ptr (return_type : String) : Bool :=
  if return_type.data.isEmpty then false
  else (return_type.data.reverse.dropWhile isspace).head? = some '*'

/-! ## Front end and records -/

/-- Modelled from the spec: Type Reference (cpp_type.hpp is not among the sources): the
display text; the opaque handle of the front end is left out. -/
structure cpp_type_ref where
  name : String
  deriving DecidableEq, Repr

/-- Modelled from the spec: `cpp_type_ref::get_full_name`, the display text the signature
is built from. -/
def cpp_type_ref.get_full_name (type : cpp_type_ref) : String :=
  type.name

/-- Modelled from the spec: a child node of a declaration as the front end reports it:
whether it is a parameter declaration (`CXCursor_ParmDecl`), its name and its
lexemes. -/
structure child_cursor where
  is_parm_decl : Bool
  name : String
  tokens : token_stream
  deriving DecidableEq, Repr

/-- Modelled from the spec: what the front end reports for the node of a declaration
(section 6): the name (`detail::parse_name(cur)`), whether the node is a function
template, the spelling of the result type, the number of argument types of the
pointee of the result type (`clang_getNumArgTypes`, -1 when it is no function type),
whether there are overridden declarations (`clang_getOverriddenCursors`) and the
child nodes. -/
structure cpp_cursor where
  name : String
  is_function_template : Bool := false
  result_type_spelling : String := ""
  result_pointee_num_arg_types : Int := -1
  has_overridden : Bool := false
  children : List child_cursor := []
  deriving DecidableEq, Repr

/-- Modelled from the spec: Parameter Record (cpp_function.hpp is not among the
sources). -/
structure cpp_function_parameter where
  name : String
  type : cpp_type_ref
  default_value : String
  deriving DecidableEq, Repr

/-- The record built by `cpp_function::parse`; `specialization_name` is the name given to
the owning specialization by `set_template_specialization_name`, if it is called. -/
structure cpp_function where
  name : String
  return_type : cpp_type_ref
  info : cpp_function_info
  parameters : List cpp_function_parameter
  signature : String
  specialization_name : Option String
  deriving DecidableEq, Repr

/-- The record built by `cpp_member_function::parse`. -/
structure cpp_member_function where
  name : String
  return_type : cpp_type_ref
  finfo : cpp_function_info
  info : cpp_member_function_info
  parameters : List cpp_function_parameter
  signature : String
  specialization_name : Option String
  deriving DecidableEq, Repr

/-- The record built by `cpp_conversion_op::parse`. -/
structure cpp_conversion_op where
  target_type : cpp_type_ref
  finfo : cpp_function_info
  info : cpp_member_function_info
  specialization_name : Option String
  deriving DecidableEq, Repr

/-- The record built by `cpp_constructor::parse`. -/
structure cpp_constructor where
  name : String
  info : cpp_function_info
  parameters : List cpp_function_parameter
  signature : String
  specialization_name : Option String
  deriving DecidableEq, Repr

/-- The record built by `cpp_destructor::parse`. -/
structure cpp_destructor where
  name : String
  info : cpp_function_info
  virtual_flag : cpp_virtual
  deriving DecidableEq, Repr

/-- Modelled from the spec: `is_virtual` (cpp_function.hpp is not among the sources): a
virtual-kind other than none. -/
def is_virtual (virt : cpp_virtual) : Bool :=
  virt != cpp_virtual_none

/-- The function `is_implicit_virtual` (cpp_function.cpp:540-550). -/
def is_implicit_virtual (cur : cpp_cursor) : Bool :=
  cur.has_overridden

/-- The function `cpp_function_base::set_template_specialization_name`
(cpp_function.cpp:101-107): the name the owning specialization gets. -/
def set_template_specialization_name (cur : cpp_cursor) (name : String) : String :=
  cur.name ++ name

/-! ## Parameters and signature -/

/-- The loop of `cpp_function_parameter::parse` (cpp_function.cpp:26-35) on the stream and
the triple (`in_type`, `type_name`, `default_value`). -/
def cpp_function_parameter.parse_loop (name : String) :
    Nat → token_stream → Bool × String × String → Except error (String × String)
  | 0, _, _ => .error .out_of_fuel
  | fuel + 1, stream, (in_type, type_name, default_value) =>
    if peek stream = ";" then .ok (type_name, default_value)
    else
      match skip_attribute stream with
      | .error e => .error e
      | .ok stream =>
        if (skip_if_token stream name).1 then
          cpp_function_parameter.parse_loop name fuel (skip_if_token stream name).2
            (in_type, type_name, default_value)
        else if (skip_if_token stream "=").1 then
          cpp_function_parameter.parse_loop name fuel (skip_if_token stream "=").2
            (false, type_name, default_value)
        else
          match get stream with
          | .error e => .error e
          | .ok (spelling, stream) =>
            cpp_function_parameter.parse_loop name fuel stream
              (if in_type then (in_type, type_name ++ spelling, default_value)
               else (in_type, type_name, default_value ++ spelling))

/-- The function `cpp_function_parameter::parse` (cpp_function.cpp:16-44). -/
def cpp_function_parameter.parse (cur : child_cursor) : Except error cpp_function_parameter :=
  if !cur.is_parm_decl then .error .assertion_failed
  else
    match cpp_function_parameter.parse_loop cur.name (cur.tokens.length + 1) cur.tokens
        (true, "", "") with
    | .error e => .error e
    | .ok (type_name, default_value) =>
      .ok { name := cur.name, type := { name := erase_trailing_ws type_name },
            default_value := erase_trailing_ws default_value }

/-- The visit of the child nodes in `parse_parameters` (cpp_function.cpp:460-465); `i`
counts the parameter declarations met so far. -/
def parse_parameters_visit (no_params_return : Int) :
    List child_cursor → Int → List cpp_function_parameter →
      Except error (List cpp_function_parameter)
  | [], _, parameters => .ok parameters
  | child :: children, i, parameters =>
    if child.is_parm_decl then
      if i ≥ no_params_return then
        match cpp_function_parameter.parse child with
        | .error e => .error e
        | .ok parameter =>
          parse_parameters_visit no_params_return children (i + 1) (parameters ++ [parameter])
      else parse_parameters_visit no_params_return children (i + 1) parameters
    else parse_parameters_visit no_params_return children i parameters

/-- The function `parse_parameters` (cpp_function.cpp:446-466); the result is the list of
the parameters added to the record. -/
def parse_parameters (cur : cpp_cursor) : Except error (List cpp_function_parameter) :=
  let no_params_return :=
    if cur.result_pointee_num_arg_types = -1 then 0 else cur.result_pointee_num_arg_types
  parse_parameters_visit no_params_return cur.children 0 []

/-- The character `result.back()` of a text that is not empty. -/
def back (s : String) : Option Char :=
  s.data.getLast?

/-- The operation `result.pop_back()`. -/
def pop_back (s : String) : String :=
  ⟨s.data.dropLast⟩

/-- The function `calc_signature` (cpp_function.cpp:468-485). -/
def calc_signature (parameters : List cpp_function_parameter) (variadic : Bool) : String :=
  let result := parameters.foldl (fun result param => result ++ param.type.get_full_name ++ ",") "("
  let result := if back result = some ',' then pop_back result else result
  let result := if variadic then result ++ ",..." else result
  result ++ ")"

/-- The function `member_signature` (cpp_function.cpp:487-498); the result is the new
value of `signature`. -/
def member_signature (signature : String) (info : cpp_member_function_info) : String :=
  let signature := if is_const info.cv_qualifier then signature ++ " const" else signature
  let signature := if is_volatile info.cv_qualifier then signature ++ " volatile" else signature
  if info.ref_qualifier = cpp_ref_rvalue then signature ++ " &&"
  else if info.ref_qualifier = cpp_ref_lvalue then signature ++ " &"
  else signature

/-! ## The five kinds of declaration -/

/-- What `parse_member_function` leaves behind: the returned type, the new value of
`template_args` and the two records. -/
structure member_function_result where
  return_type : cpp_type_ref
  template_args : String
  finfo : cpp_function_info
  minfo : cpp_member_function_info
  deriving DecidableEq, Repr

/-- The function `parse_member_function` (cpp_function.cpp:416-444). -/
def parse_member_function (stream : token_stream) (name : String) (template_args : String)
    (finfo : cpp_function_info) (minfo : cpp_member_function_info) :
    Except error member_function_result :=
  match skip_template_parameter_declaration stream with
  | .error e => .error e
  | .ok stream =>
    match parse_member_function_prefix stream name finfo minfo with
    | .error e => .error e
    | .ok pre =>
      match skip_template_arguments pre.stream template_args
          (is_function_ptr pre.return_type) with
      | .error e => .error e
      | .ok (template_args, stream) =>
        match skip_parameters stream with
        | .error e => .error e
        | .ok (variadic, stream) =>
          let finfo := if variadic then pre.finfo.set_flag cpp_variadic_fnc else pre.finfo
          match parse_member_function_suffix stream finfo pre.minfo with
          | .error e => .error e
          | .ok suf =>
            let return_type := pre.return_type ++ suf.trailing_return_type
            let return_type :=
              if return_type = "" then "auto" else erase_trailing_ws return_type
            let finfo :=
              if suf.finfo.noexcept_expression = "" then
                { suf.finfo with noexcept_expression := "false" }
              else suf.finfo
            .ok { return_type := { name := return_type }, template_args := template_args,
                  finfo := finfo, minfo := suf.minfo }

/-- The function `cpp_function::parse` (cpp_function.cpp:501-530) on the lexemes of the
declaration and the facts of the front end. -/
def cpp_function.parse (stream : token_stream) (cur : cpp_cursor) : Except error cpp_function :=
  match parse_member_function stream cur.name "" {} {} with
  | .error e => .error e
  | .ok res =>
    if is_virtual res.minfo.virtual_flag then
      .error (.parse_error "virtual specifier on normal function")
    else if res.minfo.cv_qualifier ≠ cpp_cv_none then
      .error (.parse_error "cv qualifier on normal function")
    else if res.minfo.ref_qualifier ≠ cpp_ref_none then
      .error (.parse_error "ref qualifier on normal function")
    else
      match parse_parameters cur with
      | .error e => .error e
      | .ok parameters =>
        .ok { name := cur.name, return_type := res.return_type, info := res.finfo,
              parameters := parameters,
              signature := calc_signature parameters res.finfo.is_variadic,
              specialization_name :=
                if res.template_args ≠ "" then
                  some (set_template_specialization_name cur res.template_args)
                else none }

/-- The function `cpp_member_function::parse` (cpp_function.cpp:553-583). -/
def cpp_member_function.parse (stream : token_stream) (cur : cpp_cursor) :
    Except error cpp_member_function :=
  match parse_member_function stream cur.name "" {} {} with
  | .error e => .error e
  | .ok res =>
    match parse_parameters cur with
    | .error e => .error e
    | .ok parameters =>
      let signature :=
        member_signature (calc_signature parameters res.finfo.is_variadic) res.minfo
      let minfo :=
        if (res.minfo.virtual_flag = cpp_virtual_none ∨ res.minfo.virtual_flag = cpp_virtual_new)
            ∧ is_implicit_virtual cur = true then
          { res.minfo with virtual_flag := cpp_virtual_overriden }
        else res.minfo
      .ok { name := cur.name, return_type := res.return_type, finfo := res.finfo,
            info := minfo, parameters := parameters, signature := signature,
            specialization_name :=
              if res.template_args ≠ "" then
                some (set_template_specialization_name cur res.template_args)
              else none }

/-- The function `parse_conversion_op_type` (cpp_function.cpp:595-624): the text after
`operator ` in the name, or for a template the spelling of the result type. -/
def parse_conversion_op_type (cur : cpp_cursor) : Except error cpp_type_ref :=
  if !cur.is_function_template then
    let target_type_spelling : String := ⟨cur.name.data.drop 9⟩
    if first_char target_type_spelling = ' ' then .error .assertion_failed
    else .ok { name := target_type_spelling }
  else .ok { name := cur.result_type_spelling }

/-- The first loop of `cpp_conversion_op::parse` (cpp_function.cpp:644-663) on the
stream and the two records. -/
def cpp_conversion_op.parse_loop :
    Nat → token_stream → cpp_function_info → cpp_member_function_info →
      Except error (token_stream × cpp_function_info × cpp_member_function_info)
  | 0, _, _, _ => .error .out_of_fuel
  | fuel + 1, stream, finfo, minfo =>
    if (skip_if_token stream "operator").1 then
      .ok ((skip_if_token stream "operator").2, finfo, minfo)
    else
      match skip_attribute stream with
      | .error e => .error e
      | .ok stream =>
        if (skip_if_token stream "explicit").1 then
          cpp_conversion_op.parse_loop fuel (skip_if_token stream "explicit").2
            (finfo.set_flag cpp_explicit_conversion) minfo
        else if (skip_if_token stream "constexpr").1 then
          cpp_conversion_op.parse_loop fuel (skip_if_token stream "constexpr").2
            (finfo.set_flag cpp_constexpr_fnc) minfo
        else if (skip_if_token stream "virtual").1 then
          cpp_conversion_op.parse_loop fuel (skip_if_token stream "virtual").2
            finfo { minfo with virtual_flag := cpp_virtual_new }
        else if !starts_with_space (peek stream) then
          match get stream with
          | .error e => .error e
          | .ok (str, _) => .error (.parse_error ("unexpected token \'" ++ str ++ "\'"))
        else
          match get stream with
          | .error e => .error e
          | .ok (_, stream) => cpp_conversion_op.parse_loop fuel stream finfo minfo

/-- The second loop of `cpp_conversion_op::parse` (cpp_function.cpp:666-667): skip until
the parameters. -/
def cpp_conversion_op.skip_until_parameters : token_stream → Except error token_stream
  | [] => .error .end_of_stream
  | t :: rest =>
    if t ≠ "(" ∧ t ≠ "<" then cpp_conversion_op.skip_until_parameters rest
    else .ok (t :: rest)

/-- The function `cpp_conversion_op::parse` (cpp_function.cpp:627-695). -/
def cpp_conversion_op.parse (stream : token_stream) (cur : cpp_cursor) :
    Except error cpp_conversion_op :=
  match parse_conversion_op_type cur with
  | .error e => .error e
  | .ok type =>
    match skip_template_parameter_declaration stream with
    | .error e => .error e
    | .ok stream =>
      match cpp_conversion_op.parse_loop (stream.length + 1) stream {} {} with
      | .error e => .error e
      | .ok (stream, finfo, minfo) =>
        match cpp_conversion_op.skip_until_parameters stream with
        | .error e => .error e
        | .ok stream =>
          match skip_template_arguments stream "" false with
          | .error e => .error e
          | .ok (template_args, stream) =>
            match skip_parameters stream with
            | .error e => .error e
            | .ok (variadic, stream) =>
              if variadic then .error (.parse_error "conversion op is variadic")
              else
                match parse_member_function_suffix stream finfo minfo with
                | .error e => .error e
                | .ok suf =>
                  if suf.trailing_return_type ≠ "" then
                    .error (.parse_error "conversion op has trailing return type")
                  else
                    let finfo :=
                      if suf.finfo.noexcept_expression = "" then
                        { suf.finfo with noexcept_expression := "false" }
                      else suf.finfo
                    let minfo :=
                      if (suf.minfo.virtual_flag = cpp_virtual_none
                            ∨ suf.minfo.virtual_flag = cpp_virtual_new)
                          ∧ is_implicit_virtual cur = true then
                        { suf.minfo with virtual_flag := cpp_virtual_overriden }
                      else suf.minfo
                    .ok { target_type := type, finfo := finfo, info := minfo,
                          specialization_name :=
                            if template_args ≠ "" then
                              some (set_template_specialization_name cur template_args)
                            else none }

/-- The first loop of `cpp_constructor::parse` (cpp_function.cpp:724-741). -/
def cpp_constructor.parse_loop (name : String) :
    Nat → token_stream → cpp_function_info → Except error (token_stream × cpp_function_info)
  | 0, _, _ => .error .out_of_fuel
  | fuel + 1, stream, info =>
    if (skip_if_token stream name).1 then .ok ((skip_if_token stream name).2, info)
    else
      match skip_attribute stream with
      | .error e => .error e
      | .ok stream =>
        if (skip_if_token stream "explicit").1 then
          cpp_constructor.parse_loop name fuel (skip_if_token stream "explicit").2
            (info.set_flag cpp_explicit_conversion)
        else if (skip_if_token stream "constexpr").1 then
          cpp_constructor.parse_loop name fuel (skip_if_token stream "constexpr").2
            (info.set_flag cpp_constexpr_fnc)
        else if !starts_with_space (peek stream) then
          match get stream with
          | .error e => .error e
          | .ok (str, _) => .error (.parse_error ("unexpected token \'" ++ str ++ "\'"))
        else
          match get stream with
          | .error e => .error e
          | .ok (_, stream) => cpp_constructor.parse_loop name fuel stream info

/-- The suffix loop of `cpp_constructor::parse` (cpp_function.cpp:754-773) on the stream,
`special_definition` and the record. -/
def cpp_constructor.suffix_loop :
    Nat → token_stream → Bool → cpp_function_info →
      Except error (token_stream × Bool × cpp_function_info)
  | 0, _, _, _ => .error .out_of_fuel
  | fuel + 1, stream, special_definition, info =>
    match is_declaration_end stream special_definition with
    | .error e => .error e
    | .ok (true, special, stream) => .ok (stream, special, info)
    | .ok (false, special, stream) =>
      if done stream then .error .assertion_failed
      else
        match skip_attribute stream with
        | .error e => .error e
        | .ok stream =>
          if (skip_if_token stream "noexcept").1 then
            match parse_noexcept (skip_if_token stream "noexcept").2 with
            | .error e => .error e
            | .ok (expression, stream) =>
              cpp_constructor.suffix_loop fuel stream special
                { info with explicit_noexcept := true, noexcept_expression := expression }
          else if !starts_with_space (peek stream) then
            match get stream with
            | .error e => .error e
            | .ok (str, _) => .error (.parse_error ("unexpected token \'" ++ str ++ "\'"))
          else
            match get stream with
            | .error e => .error e
            | .ok (_, stream) => cpp_constructor.suffix_loop fuel stream special info

/-- The function `cpp_constructor::parse` (cpp_function.cpp:709-793). -/
def cpp_constructor.parse (stream : token_stream) (cur : cpp_cursor) :
    Except error cpp_constructor :=
  match skip_template_parameter_declaration stream with
  | .error e => .error e
  | .ok stream =>
    let name := erase_template_args cur.name
    match cpp_constructor.parse_loop name (stream.length + 1) stream {} with
    | .error e => .error e
    | .ok (stream, info) =>
      match skip_template_arguments stream "" false with
      | .error e => .error e
      | .ok (template_args, stream) =>
        match skip_parameters stream with
        | .error e => .error e
        | .ok (variadic, stream) =>
          let info := if variadic then info.set_flag cpp_variadic_fnc else info
          match cpp_constructor.suffix_loop (stream.length + 1) stream false info with
          | .error e => .error e
          | .ok (stream, special_definition, info) =>
            let special : Except error cpp_function_info :=
              if special_definition then
                match parse_special_definition stream with
                | .error e => .error e
                | .ok (res, _) =>
                  if res = cpp_function_definition_normal then
                    .error (.parse_error "constructor is pure virtual")
                  else .ok { info with definition := res }
              else .ok info
            match special with
            | .error e => .error e
            | .ok info =>
              let info :=
                if !info.explicit_noexcept then { info with noexcept_expression := "false" }
                else info
              match parse_parameters cur with
              | .error e => .error e
              | .ok parameters =>
                .ok { name := name, info := info, parameters := parameters,
                      signature := calc_signature parameters info.is_variadic,
                      specialization_name :=
                        if template_args ≠ "" then
                          some (set_template_specialization_name cur template_args)
                        else none }

/-- The suffix loop of `cpp_destructor::parse` (cpp_function.cpp:835-858) on the stream,
`special_definition`, the record and `virtual_flag`. -/
def cpp_destructor.suffix_loop :
    Nat → token_stream → Bool → cpp_function_info → cpp_virtual →
      Except error (token_stream × Bool × cpp_function_info × cpp_virtual)
  | 0, _, _, _, _ => .error .out_of_fuel
  | fuel + 1, stream, special_definition, info, virtual_flag =>
    match is_declaration_end stream special_definition with
    | .error e => .error e
    | .ok (true, special, stream) => .ok (stream, special, info, virtual_flag)
    | .ok (false, special, stream) =>
      if done stream then .error .assertion_failed
      else
        match skip_attribute stream with
        | .error e => .error e
        | .ok stream =>
          if (skip_if_token stream "final").1 then
            cpp_destructor.suffix_loop fuel (skip_if_token stream "final").2 special info
              cpp_virtual_final
          else if (skip_if_token stream "override").1 then
            cpp_destructor.suffix_loop fuel (skip_if_token stream "override").2 special info
              cpp_virtual_overriden
          else if (skip_if_token stream "noexcept").1 then
            match parse_noexcept (skip_if_token stream "noexcept").2 with
            | .error e => .error e
            | .ok (expression, stream) =>
              cpp_destructor.suffix_loop fuel stream special
                { info with explicit_noexcept := true, noexcept_expression := expression }
                virtual_flag
          else if !starts_with_space (peek stream) then
            match get stream with
            | .error e => .error e
            | .ok (str, _) => .error (.parse_error ("unexpected token \'" ++ str ++ "\'"))
          else
            match get stream with
            | .error e => .error e
            | .ok (_, stream) =>
              cpp_destructor.suffix_loop fuel stream special info virtual_flag

/-- The start of `cpp_destructor::parse` (cpp_function.cpp:817-831): the keywords before
the name, then the name and the empty parameter list.  The result is the stream at the
suffix, the record and `virtual_flag`. -/
def cpp_destructor.parse_head (stream : token_stream) (name : String) :
    Except error (token_stream × cpp_function_info × cpp_virtual) :=
  let info : cpp_function_info := {}
  let start : token_stream × cpp_function_info × cpp_virtual :=
    if (skip_if_token stream "virtual").1 then
      ((skip_if_token stream "virtual").2, info, cpp_virtual_new)
    else if (skip_if_token stream "constexpr").1 then
      ((skip_if_token stream "constexpr").2, info.set_flag cpp_constexpr_fnc, cpp_virtual_none)
    else (stream, info, cpp_virtual_none)
  match skip_attribute start.1 with
  | .error e => .error e
  | .ok stream =>
    match skip_all (skip_whitespace stream) ["~", ⟨name.data.drop 1⟩, "(", ")"] with
    | .error e => .error e
    | .ok stream => .ok (stream, start.2.1, start.2.2)

/-- The function `cpp_destructor::parse` (cpp_function.cpp:807-880). -/
def cpp_destructor.parse (stream : token_stream) (cur : cpp_cursor) :
    Except error cpp_destructor :=
  let name := erase_template_args cur.name
  match cpp_destructor.parse_head stream name with
  | .error e => .error e
  | .ok (stream, info, virtual_flag) =>
    match cpp_destructor.suffix_loop (stream.length + 1) stream false info virtual_flag with
    | .error e => .error e
    | .ok (stream, special_definition, info, virtual_flag) =>
      let special : Except error (cpp_function_info × cpp_virtual) :=
        if special_definition then
          match parse_special_definition stream with
          | .error e => .error e
          | .ok (res, _) =>
            if res = cpp_function_definition_normal then .ok (info, cpp_virtual_pure)
            else .ok ({ info with definition := res }, virtual_flag)
        else .ok (info, virtual_flag)
      match special with
      | .error e => .error e
      | .ok (info, virtual_flag) =>
        let info :=
          if !info.explicit_noexcept then { info with noexcept_expression := "true" }
          else info
        let virtual_flag :=
          if (virtual_flag = cpp_virtual_none ∨ virtual_flag = cpp_virtual_new)
              ∧ is_implicit_virtual cur = true then
            cpp_virtual_overriden
          else virtual_flag
        .ok { name := name, info := info, virtual_flag := virtual_flag }

/-! ## Notions of the specification -/

/-- Lexemes of a qualifier suffix: whitespace, `const`, `volatile`, `&` and `&&`. -/
def qualifier_or_space (t : String) : Prop :=
  starts_with_space t = true ∨ t = "const" ∨ t = "volatile" ∨ t = "&" ∨ t = "&&"

/-- The lexemes that end a declaration: `;`, the opening brace, `:` and `=`. -/
def terminator (t : String) : Prop :=
  t = ";" ∨ t = "\x7b" ∨ t = ":" ∨ t = "="

/-- Effect of the qualifier lexemes of a list on the member info, in reading order. -/
def apply_qualifiers : List String → cpp_member_function_info → cpp_member_function_info
  | [], minfo => minfo
  | t :: rest, minfo =>
    if t = "const" then apply_qualifiers rest (minfo.set_cv cpp_cv_const)
    else if t = "volatile" then apply_qualifiers rest (minfo.set_cv cpp_cv_volatile)
    else if t = "&" then apply_qualifiers rest { minfo with ref_qualifier := cpp_ref_lvalue }
    else if t = "&&" then apply_qualifiers rest { minfo with ref_qualifier := cpp_ref_rvalue }
    else apply_qualifiers rest minfo

/-- The parameter slots of the lexemes between the brackets of a parameter list: the
runs of lexemes that the comma lexemes separate. -/
def parameter_slots : List String → List (List String)
  | [] => [[]]
  | t :: rest =>
    if t = "," then [] :: parameter_slots rest
    else (t :: (parameter_slots rest).headD []) :: (parameter_slots rest).tail

/-- The first lexeme of the slot that is no whitespace is `...`. -/
def slot_starts_with_ellipsis (slot : List String) : Bool :=
  (slot.dropWhile starts_with_space).head? = some "..."

/-- The slot holds a lexeme that is no whitespace. -/
def slot_not_blank (slot : List String) : Bool :=
  slot.any (fun t => !starts_with_space t)

/-- The parameter slots at nesting depth `depth` of the outer brackets: only the commas
outside of inner brackets separate them. -/
def top_level_slots : Nat → List String → List (List String)
  | _, [] => [[]]
  | depth, t :: rest =>
    if t = "," ∧ depth = 0 then [] :: top_level_slots depth rest
    else
      let inner := if t = "(" then depth + 1 else if t = ")" then depth - 1 else depth
      (t :: (top_level_slots inner rest).headD []) :: (top_level_slots inner rest).tail

/-- The type texts of the parameters, in declaration order. -/
def type_texts (parameters : List cpp_function_parameter) : List String :=
  parameters.map (fun param => param.type.get_full_name)

/-- The text that `member_signature` adds for a cv-qualifier and a ref-qualifier. -/
def qualifier_text (cv : cpp_cv) (ref : cpp_ref_qualifier) : String :=
  (if is_const cv then " const" else "") ++ (if is_volatile cv then " volatile" else "")
    ++ (match ref with
        | cpp_ref_none => ""
        | cpp_ref_lvalue => " &"
        | cpp_ref_rvalue => " &&")

/-- The brackets `(` and `)` among the lexemes are balanced, `depth` of them being open at
the start. -/
def balanced_from : Nat → List String → Bool
  | depth, [] => depth = 0
  | depth, t :: rest =>
    if t = "(" then balanced_from (depth + 1) rest
    else if t = ")" then depth ≠ 0 && balanced_from (depth - 1) rest
    else balanced_from depth rest

/-- The suffix of a function or member-function declaration: the stream that
`parse_member_function` hands to `parse_member_function_suffix`, after the template
preamble, the prefix with the name, the template arguments and the parameter list. -/
def member_function_suffix_stream (stream : token_stream) (name : String) :
    Except error token_stream :=
  match skip_template_parameter_declaration stream with
  | .error e => .error e
  | .ok stream =>
    match parse_member_function_prefix stream name {} {} with
    | .error e => .error e
    | .ok pre =>
      match skip_template_arguments pre.stream "" (is_function_ptr pre.return_type) with
      | .error e => .error e
      | .ok (_, stream) =>
        match skip_parameters stream with
        | .error e => .error e
        | .ok (_, stream) => .ok stream

/-- The suffix of a conversion-operator declaration: the stream that
`cpp_conversion_op::parse` hands to `parse_member_function_suffix`. -/
def conversion_op_suffix_stream (stream : token_stream) : Except error token_stream :=
  match skip_template_parameter_declaration stream with
  | .error e => .error e
  | .ok stream =>
    match cpp_conversion_op.parse_loop (stream.length + 1) stream {} {} with
    | .error e => .error e
    | .ok (stream, _, _) =>
      match cpp_conversion_op.skip_until_parameters stream with
      | .error e => .error e
      | .ok stream =>
        match skip_template_arguments stream "" false with
        | .error e => .error e
        | .ok (_, stream) =>
          match skip_parameters stream with
          | .error e => .error e
          | .ok (_, stream) => .ok stream

/-- The suffix of a constructor declaration: the stream at the suffix loop of
`cpp_constructor::parse`. -/
def constructor_suffix_stream (stream : token_stream) (cur : cpp_cursor) :
    Except error token_stream :=
  match skip_template_parameter_declaration stream with
  | .error e => .error e
  | .ok stream =>
    match cpp_constructor.parse_loop (erase_template_args cur.name) (stream.length + 1)
        stream {} with
    | .error e => .error e
    | .ok (stream, _) =>
      match skip_template_arguments stream "" false with
      | .error e => .error e
      | .ok (_, stream) =>
        match skip_parameters stream with
        | .error e => .error e
        | .ok (_, stream) => .ok stream

/-- The suffix of a destructor declaration: the stream at the suffix loop of
`cpp_destructor::parse`. -/
def destructor_suffix_stream (stream : token_stream) (cur : cpp_cursor) :
    Except error token_stream :=
  match cpp_destructor.parse_head stream (erase_template_args cur.name) with
  | .error e => .error e
  | .ok (stream, _, _) => .ok stream


/-- The virtual-kind of the record for a scanned virtual-kind: `overridden` when the
scanned one is `none` or `introduced` and the front end reports an overridden declaration,
the scanned one in every other case. -/
def promoted_virtual (scanned : cpp_virtual) (cur : cpp_cursor) : cpp_virtual :=
  if (scanned = cpp_virtual_none ∨ scanned = cpp_virtual_new) ∧ cur.has_overridden = true then
    cpp_virtual_overriden
  else scanned

/-- The scan of a conversion-operator declaration through its parameter list, as
`cpp_conversion_op::parse` runs it: the text of the template
arguments, whether the parameter scanner reports variadic, the stream after the list and
the two records. -/
def conversion_op_parameters (stream : token_stream) :
    Except error
      (String × Bool × token_stream × cpp_function_info × cpp_member_function_info) :=
  match skip_template_parameter_declaration stream with
  | .error e => .error e
  | .ok stream =>
    match cpp_conversion_op.parse_loop (stream.length + 1) stream {} {} with
    | .error e => .error e
    | .ok (stream, finfo, minfo) =>
      match cpp_conversion_op.skip_until_parameters stream with
      | .error e => .error e
      | .ok stream =>
        match skip_template_arguments stream "" false with
        | .error e => .error e
        | .ok (template_args, stream) =>
          match skip_parameters stream with
          | .error e => .error e
          | .ok (variadic, stream) => .ok (template_args, variadic, stream, finfo, minfo)

/-- The virtual-kind that the scan of a destructor declaration records: the one of the
keywords before the name and of the suffix loop, or `pure` after `= 0`. -/
def destructor_scanned_virtual (stream : token_stream) (cur : cpp_cursor) :
    Except error cpp_virtual :=
  match cpp_destructor.parse_head stream (erase_template_args cur.name) with
  | .error e => .error e
  | .ok (stream, info, virtual_flag) =>
    match cpp_destructor.suffix_loop (stream.length + 1) stream false info virtual_flag with
    | .error e => .error e
    | .ok (stream, special_definition, _, virtual_flag) =>
      if special_definition then
        match parse_special_definition stream with
        | .error e => .error e
        | .ok (res, _) =>
          if res = cpp_function_definition_normal then .ok cpp_virtual_pure
          else .ok virtual_flag
      else .ok virtual_flag

/-- The replacements of a recorded virtual-kind that the transitions
none → introduced → {overridden | final}, none → static and none → pure allow, in one or
more steps; keeping the recorded kind replaces nothing. -/
def allowed_transition (recorded updated : cpp_virtual) : Bool :=
  recorded = updated ||
    match recorded, updated with
    | cpp_virtual_none, _ => true
    | cpp_virtual_new, cpp_virtual_overriden => true
    | cpp_virtual_new, cpp_virtual_final => true
    | _, _ => false

/-- A lexeme before the name that the prefix scanner appends to the return-type text: it
is not the name, no specifier keyword that the scanner drops (`extern`, `static`,
`constexpr`, `virtual`, `auto`, `operator`) and no start of an attribute. -/
def return_type_lexeme (name t : String) : Bool :=
  t != name && t != "[" && t != "__attribute__" && t != "extern" && t != "static"
    && t != "constexpr" && t != "virtual" && t != "auto" && t != "operator"

/-- The lexemes that the suffix resolver accepts as a keyword of their own. -/
def suffix_keyword (t : String) : Prop :=
  t = "const" ∨ t = "volatile" ∨ t = "&" ∨ t = "&&" ∨ t = "final" ∨ t = "override"

/-- The relation `suffix_items stream rest`: `stream` is `rest` after a sequence of items
that the suffix resolver accepts before the terminator, each of them whitespace, one of
the keywords `const`, `volatile`, `&`, `&&`, `final`, `override`, `noexcept` alone or with
its bracketed expression, or the closing `)` of a function-pointer return type with the
bracketed parameter list that follows it.  The lexemes inside the brackets belong to the
item; a trailing return type is no item, it runs to the terminator. -/
inductive suffix_items : token_stream → token_stream → Prop
  | done (s : token_stream) : suffix_items s s
  | space (t : String) (rest s : token_stream) :
      starts_with_space t = true → suffix_items rest s → suffix_items (t :: rest) s
  | keyword (t : String) (rest s : token_stream) :
      suffix_keyword t → suffix_items rest s → suffix_items (t :: rest) s
  | noexcept_bare (rest s : token_stream) :
      peek (skip_whitespace rest) ≠ "(" → suffix_items rest s →
      suffix_items ("noexcept" :: rest) s
  | noexcept_expression (ws inner : List String) (rest s : token_stream) :
      (∀ w ∈ ws, starts_with_space w = true) → balanced_from 0 inner = true →
      suffix_items rest s →
      suffix_items ("noexcept" :: (ws ++ "(" :: (inner ++ ")" :: rest))) s
  | function_pointer (ws inner : List String) (rest s : token_stream) :
      (∀ w ∈ ws, starts_with_space w = true) → balanced_from 0 inner = true →
      suffix_items rest s →
      suffix_items (")" :: (ws ++ "(" :: (inner ++ ")" :: rest))) s

/-- A lexeme that the suffix resolver does not expect: no whitespace, no terminator and
none of `)`, `->`, `const`, `volatile`, `&`, `&&`, `final`, `override`, `noexcept`. -/
def unexpected_lexeme (t : String) : Prop :=
  starts_with_space t = false ∧ ¬ terminator t
    ∧ t ∉ [")", "->", "const", "volatile", "&", "&&", "final", "override", "noexcept"]

/-- The stream holds no attribute: `skip_attribute` leaves every tail of it as it is. -/
def no_attribute (stream : token_stream) : Bool :=
  stream.tails.all (fun s => decide (skip_attribute s = .ok s))

/-- The relation `noexcept_items stream rest`: `stream` is `rest` after a sequence of
whitespace lexemes and `noexcept` specifications, each `noexcept` alone or with its
bracketed expression. -/
inductive noexcept_items : token_stream → token_stream → Prop
  | done (s : token_stream) : noexcept_items s s
  | space (t : String) (rest s : token_stream) :
      starts_with_space t = true → noexcept_items rest s → noexcept_items (t :: rest) s
  | noexcept_bare (rest s : token_stream) :
      peek (skip_whitespace rest) ≠ "(" → noexcept_items rest s →
      noexcept_items ("noexcept" :: rest) s
  | noexcept_expression (ws inner : List String) (rest s : token_stream) :
      (∀ w ∈ ws, starts_with_space w = true) → balanced_from 0 inner = true →
      noexcept_items rest s →
      noexcept_items ("noexcept" :: (ws ++ "(" :: (inner ++ ")" :: rest))) s

/-- The parse error `unexpected token '<lexeme>'` that the suffix loops raise. -/
def unexpected_token (x : String) : error :=
  .parse_error ("unexpected token \'" ++ x ++ "\'")

/-- A lexeme that the suffix loop of a constructor does not expect: no whitespace, no
terminator and not `noexcept`. -/
def constructor_unexpected_lexeme (t : String) : Prop :=
  starts_with_space t = false ∧ ¬ terminator t ∧ t ≠ "noexcept"

/-- The scan of a constructor declaration through its parameter list, as
`cpp_constructor::parse` runs it: the captured text of the template arguments, whether
the parameter scanner reports variadic, the stream after the list and the record. -/
def constructor_parameters (stream : token_stream) (cur : cpp_cursor) :
    Except error (String × Bool × token_stream × cpp_function_info) :=
  match skip_template_parameter_declaration stream with
  | .error e => .error e
  | .ok stream =>
    match cpp_constructor.parse_loop (erase_template_args cur.name) (stream.length + 1)
        stream {} with
    | .error e => .error e
    | .ok (stream, info) =>
      match skip_template_arguments stream "" false with
      | .error e => .error e
      | .ok (template_args, stream) =>
        match skip_parameters stream with
        | .error e => .error e
        | .ok (variadic, stream) => .ok (template_args, variadic, stream, info)

/-- The rule of the specialization rename for a captured text: no rename for the empty
text, otherwise the new name of the owning specialization, the name of the declaration
followed by the text. -/
def specialization_rename (cur : cpp_cursor) (text : String) : Option String :=
  if text ≠ "" then some (cur.name ++ text) else none

/-- A keyword that the prefix scanner drops together with the whitespace after it:
`extern`, `static`, `constexpr` or `virtual`. -/
def prefix_keyword (t : String) : Bool :=
  t == "extern" || t == "static" || t == "constexpr" || t == "virtual"

/-- The lexemes before the name that make up the return-type text, in order.  A keyword
and an `auto` that is met while `allow_auto` is false (no `decltype` lexeme was kept
before) are dropped, and so are the whitespace lexemes right after a dropped lexeme
(`after_dropped`); every other lexeme is kept. -/
def kept_lexemes : Bool → Bool → List String → List String
  | _, _, [] => []
  | allow_auto, after_dropped, t :: rest =>
    if after_dropped && starts_with_space t then kept_lexemes allow_auto true rest
    else if prefix_keyword t || (t == "auto" && !allow_auto) then
      kept_lexemes allow_auto true rest
    else t :: kept_lexemes (allow_auto || t == "decltype") false rest

/-- The virtual-kind after the lexemes before the name: static or introduced when
the last `static` or `virtual` lexeme among them is `static` or `virtual`, the given kind
when there is none. -/
def prefix_virtual (init : cpp_virtual) (pre : List String) : cpp_virtual :=
  match (pre.filter (fun t => t == "static" || t == "virtual")).getLast? with
  | none => init
  | some t => if t = "static" then cpp_virtual_static else cpp_virtual_new

/-- A lexeme before the name that the prefix loop scans as a lexeme of its own: it is
not the name, not `operator` and starts no attribute. -/
def scanned_lexeme (name t : String) : Bool :=
  t != name && t != "operator" && t != "[" && t != "__attribute__"

/-- A lexeme inside a trailing return type: no terminator and no start of an
attribute. -/
def trailing_lexeme (t : String) : Prop :=
  ¬ terminator t ∧ t ≠ "[" ∧ t ≠ "__attribute__"

/-- A lexeme that is not empty and does not start with a whitespace character. -/
def solid_lexeme (t : String) : Bool :=
  match t.data with
  | [] => false
  | c :: _ => !isspace c

/-- One symbol lexeme of an operator name with what may stand before it: blank characters
in the name and whitespace lexemes in the stream. -/
structure operator_symbol where
  name_blanks : List Char
  whitespace : List String
  symbol : String
  deriving DecidableEq, Repr

/-- The characters of an operator name after `operator`: the symbols in order, each after
its blanks, and the blanks at the end. -/
def operator_name_chars (symbols : List operator_symbol) (end_blanks : List Char) : List Char :=
  (symbols.map (fun p => p.name_blanks ++ p.symbol.data)).flatten ++ end_blanks

/-- The lexemes of an operator name after `operator`: the symbols in order, each after its
whitespace lexemes. -/
def operator_name_lexemes (symbols : List operator_symbol) : List String :=
  (symbols.map (fun p => p.whitespace ++ [p.symbol])).flatten

/-- The blanks of the name are whitespace characters, the whitespace lexemes are
whitespace, and the symbols are solid lexemes. -/
def operator_symbols_ok (symbols : List operator_symbol) : Bool :=
  symbols.all (fun p => p.name_blanks.all isspace && p.whitespace.all starts_with_space
    && solid_lexeme p.symbol)

/-- The backward scan for the boundary in the words of the specification, over the
buffered lexemes, last one first, each with its position: a counter that is decremented
on `(` and incremented on `)`; the boundary is the first `>` that is met while the counter
equals `target` and the lexeme visited before was `(`.  The counter is an integer that
starts at `count`.  The result is, as for the scan of the code, the position of the lexeme
visited before the boundary, or `none` when there is no boundary. -/
def described_scan (target : Int) :
    List (Nat × String) → Int → Bool → Option Nat → Option Nat
  | [], _, _, _ => none
  | (pos, str) :: more, count, was_opening_paren, next =>
    if count = target ∧ was_opening_paren = true ∧ str = ">" then next
    else if str = "(" then described_scan target more (count - 1) true (some pos)
    else if str = ")" then described_scan target more (count + 1) false (some pos)
    else described_scan target more count false (some pos)

/-- The value the specification gives to the counter at the start and asks for at the
boundary: 1 when the return type is a function pointer, 0 otherwise. -/
def scan_baseline (returns_function : Bool) : Int :=
  if returns_function then 1 else 0

/-- The text holds a character that is no whitespace, so it is not emptied when the
whitespace at its end is removed. -/
def has_text (s : String) : Bool :=
  s.data.any (fun c => !isspace c)

/-- A lexeme of a parameter declaration that the loop of `cpp_function_parameter::parse`
takes as a lexeme of the type or of the default value, or as the name: it is not `;`,
not `=` and starts no attribute. -/
def parameter_lexeme (t : String) : Bool :=
  t != ";" && t != "=" && t != "[" && t != "__attribute__"

/-- The lexemes of a part of a parameter declaration that make up its text, in order: the
lexemes equal to the name are dropped, and so are the whitespace lexemes right after a
dropped lexeme (`after_dropped`, which also holds right after the `=`). -/
def parameter_kept (name : String) : Bool → List String → List String
  | _, [] => []
  | after_dropped, t :: rest =>
    if after_dropped && starts_with_space t then parameter_kept name true rest
    else if t = name then parameter_kept name true rest
    else t :: parameter_kept name false rest

/-- The stream of a suffix as the claim on termination takes it: the last lexeme is `;`,
the brackets `(` and `)` are balanced, and no lexeme starts an attribute. -/
def closed_suffix (s : token_stream) : Prop :=
  s.getLast? = some ";" ∧ balanced_from 0 s = true ∧ no_attribute s = true

/-! ## `markup/html_helper.cpp`

A `std::string` is the list of its bytes, each a number from 0 to 255. -/

/-- The bytes of a string literal of the source. -/
def literal (s : String) : List Nat :=
  s.data.map Char.toNat

/-- The body of the loop of `detail::escape_html` (html_helper.cpp:19-33): what is
appended to `result` for the byte `c`. -/
def escape_html_char (c : Nat) : List Nat :=
  if c = '&'.toNat then literal "&amp;"
  else if c = '<'.toNat then literal "&lt;"
  else if c = '>'.toNat then literal "&gt;"
  else if c = '"'.toNat then literal "&quot;"
  else if c = '\''.toNat then literal "&#x27;"
  else if c = '/'.toNat then literal "&#x2F;"
  else [c]

/-- The function `detail::escape_html` (html_helper.cpp:14-35). -/
def escape_html (str : List Nat) : List Nat :=
  str.foldl (fun result c => result ++ escape_html_char c) []

/-- The array `safe` of `needs_url_escaping` (html_helper.cpp:43-46), without the
terminating NUL. -/
def safe : List Nat :=
  literal ("-_.+!*(),%#@?=;:/,+$" ++ "0123456789" ++ "abcdefghijklmnopqrstuvwxyz"
    ++ "ABCDEFGHIJKLMNOPQRSTUVWXYZ")

/-- The function `needs_url_escaping` (html_helper.cpp:39-48).  `std::strchr(safe, c)`
finds the byte in the array, the terminating NUL included, so it is not null for the
byte 0 either. -/
def needs_url_escaping (c : Nat) : Bool :=
  !(decide (c ∈ safe) || c == 0)

/-- The conversion `unsigned(c)` of a byte to 32 bits.  Whether `char` is signed is left
to the platform: where it is, a byte from 128 on is a negative number and converts to
its value plus 2^32 - 256. -/
def to_unsigned (char_is_signed : Bool) (c : Nat) : Nat :=
  if char_is_signed = true ∧ 128 ≤ c then (c + (2 ^ 32 - 256)) % 2 ^ 32 else c % 2 ^ 32

/-- The character of the hexadecimal digit `d`, upper case. -/
def hex_digit (d : Nat) : Nat :=
  if d < 10 then '0'.toNat + d else 'A'.toNat + (d - 10)

/-- The text `%02X` gives for a value below 2^32: its hexadecimal digits without leading
zeros, filled up with zeros to two characters. -/
def format_02X (v : Nat) : List Nat :=
  let digits := ([7, 6, 5, 4, 3, 2, 1, 0].map (fun i => v / 16 ^ i % 16)).dropWhile (· = 0)
  List.replicate (2 - digits.length) '0'.toNat ++ digits.map hex_digit

/-- The call `std::snprintf(buf, 3, "%02X", v)`: at most two characters of the text are
written before the terminating NUL. -/
def snprintf_02X (v : Nat) : List Nat :=
  (format_02X v).take 2

/-- The body of the loop of `detail::escape_url` (html_helper.cpp:56-68): what is
appended to `result` for the byte `c`. -/
def escape_url_char (char_is_signed : Bool) (c : Nat) : List Nat :=
  if c = '&'.toNat then literal "&amp;"
  else if c = '\''.toNat then literal "&#x27"
  else if needs_url_escaping c then
    literal "%" ++ snprintf_02X (to_unsigned char_is_signed c)
  else [c]

/-- The function `detail::escape_url` (html_helper.cpp:51-71). -/
def escape_url (char_is_signed : Bool) (str : List Nat) : List Nat :=
  str.foldl (fun result c => result ++ escape_url_char char_is_signed c) []

/-- The six character references of `escape_html`. -/
def html_references : List (List Nat) :=
  [literal "&amp;", literal "&lt;", literal "&gt;", literal "&quot;", literal "&#x27;",
   literal "&#x2F;"]

/-- The six characters `escape_html` replaces. -/
def html_special : List Nat :=
  literal "&<>\"\'/"

/-- What the specification asks of `escape_url` for a byte other than `&` and the
apostrophe: a byte of the safe set is copied, any other byte becomes `%` and the two
upper-case hexadecimal digits of its value. -/
def percent_encoded (c : Nat) : List Nat :=
  if c ∈ safe then [c]
  else [ '%'.toNat, hex_digit (c / 16), hex_digit (c % 16)]

/-! ## `translation_unit.cpp`

The buffer `source.c_str()` is the list of the bytes from `ptr` on, the terminating NUL
included; the empty list stands for a pointer behind the terminating NUL. -/

/-- Ways in which a scan over a character buffer ends without a result. -/
inductive buffer_error where
  /-- A byte is read behind the terminating NUL of the buffer. -/
  | out_of_bounds
  /-- An `assert` of the source does not hold. -/
  | assertion_failed
  /-- The exception `std::invalid_argument` of `std::stoi`. -/
  | invalid_argument
  /-- The exception `std::out_of_range` of `std::stoi`. -/
  | out_of_range
  /-- A loop of the embedding used up its iteration budget. -/
  | out_of_fuel
  deriving DecidableEq, Repr

/-- The function `std::isspace` in the "C" locale on a byte. -/
def byte_isspace (c : Nat) : Bool :=
  c = ' '.toNat || (9 ≤ c && c ≤ 13)

/-- The inner loop of `include_guard` with the `++ptr` after it
(translation_unit.cpp:130-132): the bytes up to the next line feed or NUL are the line,
and `ptr` is moved behind that byte. -/
def read_line : List Nat → List Nat × List Nat
  | [] => ([], [])
  | c :: rest =>
    if c = 0 ∨ c = '\n'.toNat then ([], rest)
    else ((c :: (read_line rest).1), (read_line rest).2)

/-- The test `cur_line.compare(0, n, s) == 0`: the substring of the first `n` bytes of
the line, shorter when the line is, is equal to the whole text `s`. -/
def compare_eq (cur_line : List Nat) (n : Nat) (s : String) : Bool :=
  cur_line.take n == literal s

/-- The loop of `include_guard` (translation_unit.cpp:127-153).  Leaving the loop by
`break` gives the empty text of the `return` after it. -/
def include_guard_loop : Nat → List Nat → Except buffer_error (List Nat)
  | 0, _ => .error .out_of_fuel
  | fuel + 1, ptr =>
    if ptr.isEmpty then .error .out_of_bounds
    else
      let cur_line := (read_line ptr).1
      let ptr := (read_line ptr).2
      if cur_line.isEmpty ∨ compare_eq cur_line 2 "/**" ∨ compare_eq cur_line 2 "//" then
        include_guard_loop fuel ptr
      else if cur_line.head? ≠ some '#'.toNat then .ok []
      else if cur_line = literal "#pragma once" then .ok []
      else if compare_eq cur_line 3 "#if" then include_guard_loop fuel ptr
      else if compare_eq cur_line "#define".length "#define" then
        .ok ((cur_line.drop "#define".length).dropWhile byte_isspace)
      else include_guard_loop fuel ptr

/-- The function `include_guard` (translation_unit.cpp:120-159).  `guarded` is the answer
of the front end, `clang_isFileMultipleIncludeGuarded`.  Every iteration moves `ptr` by
a byte at least, so one more iteration than the buffer has bytes is enough. -/
def include_guard (guarded : Bool) (source : List Nat) : Except buffer_error (List Nat) :=
  if !guarded then .ok []
  else include_guard_loop (source.length + 2) (source ++ [0])

/-- A line `include_guard` is to pass over, with the exception of the comment lines
that begin with `/**`: an empty line, a comment line that begins with `//`, or a line
that begins with `#if`. -/
def passed_line (l : List Nat) : Bool :=
  l.isEmpty || (literal "//").isPrefixOf l || (literal "#if").isPrefixOf l

/-- The bytes of a line hold neither a line feed nor a NUL. -/
def line_bytes (l : List Nat) : Bool :=
  l.all (fun c => c != 0 && c != '\n'.toNat)

/-- The text of the lines, each ended by a line feed. -/
def lines_text (ls : List (List Nat)) : List Nat :=
  (ls.map (fun l => l ++ [ '\n'.toNat])).flatten

/-! ## `preprocessor.cpp`

As for `include_guard`, a character buffer is the list of the bytes from `ptr` on, the
terminating NUL included, and the empty list stands for a pointer behind that NUL. -/

/-- The flag `line_marker::enter_new`, flag 1 of a line marker. -/
def enter_new : Nat := 1

/-- The flag `line_marker::enter_old`, flag 2 of a line marker. -/
def enter_old : Nat := 2

/-- The flag `line_marker::system`, flag 3 of a line marker. -/
def system : Nat := 4

/-- The structure `line_marker` (preprocessor.cpp:68-92). -/
structure line_marker where
  file_name : List Nat
  line : Nat
  flags : Nat
  deriving DecidableEq, Repr

/-- The member `line_marker::set_flag`. -/
def line_marker.set_flag (m : line_marker) (f : Nat) : line_marker :=
  { m with flags := m.flags ||| f }

/-- The member `line_marker::is_set`. -/
def line_marker.is_set (m : line_marker) (f : Nat) : Bool :=
  (m.flags &&& f) != 0

/-- The loops `while (*ptr == ' ') ++ptr;` of `parse_line_marker`. -/
def skip_blanks : List Nat → Except buffer_error (List Nat)
  | [] => .error .out_of_bounds
  | c :: rest => if c = ' '.toNat then skip_blanks rest else .ok (c :: rest)

/-- The function `std::isdigit` on a byte. -/
def isdigit (c : Nat) : Bool :=
  '0'.toNat ≤ c && c ≤ '9'.toNat

/-- The loop `while (std::isdigit(*ptr)) line += *ptr++;` (preprocessor.cpp:111-113): the
digits read and the buffer after them. -/
def read_digits : List Nat → Except buffer_error (List Nat × List Nat)
  | [] => .error .out_of_bounds
  | c :: rest =>
    if isdigit c then
      match read_digits rest with
      | .error e => .error e
      | .ok (line, ptr) => .ok (c :: line, ptr)
    else .ok ([], c :: rest)

/-- The call `std::stoi(line)` on a text of digits: no digit at all or a value that is
no `int` raises an exception. -/
def stoi (line : List Nat) : Except buffer_error Nat :=
  if line.isEmpty then .error .invalid_argument
  else
    let value := line.foldl (fun value c => 10 * value + (c - '0'.toNat)) 0
    if value ≥ 2 ^ 31 then .error .out_of_range else .ok value

/-- The loop `while (*ptr != '"') file_name += *ptr++;` with the `++ptr` after it
(preprocessor.cpp:122-125): the name read and the buffer after the closing quote. -/
def read_file_name : List Nat → Except buffer_error (List Nat × List Nat)
  | [] => .error .out_of_bounds
  | c :: rest =>
    if c ≠ '"'.toNat then
      match read_file_name rest with
      | .error e => .error e
      | .ok (file_name, ptr) => .ok (c :: file_name, ptr)
    else .ok ([], rest)

/-- The `switch` on a flag character (preprocessor.cpp:137-152). -/
def read_flag (c : Nat) (result : line_marker) : Except buffer_error line_marker :=
  if c = '1'.toNat then .ok (result.set_flag enter_new)
  else if c = '2'.toNat then .ok (result.set_flag enter_old)
  else if c = '3'.toNat then .ok (result.set_flag system)
  else if c = '4'.toNat then .ok result
  else .error .assertion_failed

/-- The loop over the flags (preprocessor.cpp:132-154): the marker and the buffer at the
line feed that ends the loop. -/
def read_flags : List Nat → line_marker → Except buffer_error (line_marker × List Nat)
  | [], _ => .error .out_of_bounds
  | c :: rest, result =>
    if c = '\n'.toNat then .ok (result, c :: rest)
    else if c = ' '.toNat then
      match rest with
      | [] => .error .out_of_bounds
      | c2 :: rest2 =>
        match read_flag c2 result with
        | .error e => .error e
        | .ok result => read_flags rest2 result
    else
      match read_flag c result with
      | .error e => .error e
      | .ok result => read_flags rest result

/-- The function `parse_line_marker` (preprocessor.cpp:103-158): the marker and the new
value of `ptr`. -/
def parse_line_marker (ptr : List Nat) : Except buffer_error (line_marker × List Nat) :=
  match ptr with
  | [] => .error .out_of_bounds
  | c :: ptr =>
    if c ≠ '#'.toNat then .error .assertion_failed
    else
      match skip_blanks ptr with
      | .error e => .error e
      | .ok ptr =>
        match read_digits ptr with
        | .error e => .error e
        | .ok (line, ptr) =>
          match stoi line with
          | .error e => .error e
          | .ok line =>
            match skip_blanks ptr with
            | .error e => .error e
            | .ok [] => .error .out_of_bounds
            | .ok (c :: ptr) =>
              if c ≠ '"'.toNat then .error .assertion_failed
              else
                match read_file_name ptr with
                | .error e => .error e
                | .ok (file_name, ptr) =>
                  match skip_blanks ptr with
                  | .error e => .error e
                  | .ok ptr => read_flags ptr { file_name := file_name, line := line, flags := 0 }

/-- The local variables of the loop of `preprocessor::preprocess`. -/
structure filter_state where
  preprocessed : List Nat
  file_depth : Int
  was_newl : Bool
  in_c_comment : Bool
  write_char : Bool
  deriving DecidableEq, Repr

/-- The branch of the loop for a line marker (preprocessor.cpp:187-219) after
`parse_line_marker`. -/
def filter_marker (full_path : List Nat) (st : filter_state) (marker : line_marker) :
    Except buffer_error filter_state :=
  if marker.file_name = full_path then
    if st.file_depth > 1 then .error .assertion_failed
    else .ok { st with file_depth := 0, write_char := false }
  else if marker.is_set enter_new then
    let file_depth := st.file_depth + 1
    if file_depth = 1 ∧ marker.file_name ≠ literal "<built-in>"
        ∧ marker.file_name ≠ literal "<command line>" then
      .ok { st with
            file_depth := file_depth,
            preprocessed :=
              st.preprocessed ++ literal "#include "
                ++ (if marker.is_set system then literal "<" else literal "\"")
                ++ marker.file_name
                ++ (if marker.is_set system then literal ">" else literal "\"")
                ++ literal "\n" }
    else .ok { st with file_depth := file_depth }
  else if marker.is_set enter_old then .ok { st with file_depth := st.file_depth - 1 }
  else .ok st

/-- The end of the body of the loop (preprocessor.cpp:223-226) for the byte `c` at
`ptr`. -/
def filter_write (st : filter_state) (c : Nat) : filter_state :=
  if st.file_depth = 0 ∧ st.write_char = true then
    { st with preprocessed := st.preprocessed ++ [c] }
  else if st.file_depth = 0 then { st with write_char := true }
  else st

/-- The body of the loop of `preprocessor::preprocess` (preprocessor.cpp:170-226) with the
`++ptr` of the loop, for a buffer that starts with the byte `c`, not the NUL; `ptr[1]` is
the first byte of `rest`.  The result is the new state and the new value of `ptr`. -/
def filter_step (full_path : List Nat) (st : filter_state) (c : Nat) (rest : List Nat) :
    Except buffer_error (filter_state × List Nat) :=
  if c = '\n'.toNat then .ok (filter_write { st with was_newl := true } c, rest)
  else if st.in_c_comment = true ∧ c = '*'.toNat ∧ rest.head? = some '/'.toNat then
    .ok (filter_write { st with in_c_comment := false, was_newl := false } c, rest)
  else if c = '/'.toNat ∧ rest.head? = some '*'.toNat then
    .ok (filter_write { st with in_c_comment := true, was_newl := false } c, rest)
  else if st.was_newl = true ∧ st.in_c_comment = false ∧ c = '#'.toNat
      ∧ rest.head? ≠ some 'p'.toNat then
    match parse_line_marker (c :: rest) with
    | .error e => .error e
    | .ok (_, []) => .error .out_of_bounds
    | .ok (marker, c2 :: rest2) =>
      if c2 ≠ '\n'.toNat then .error .assertion_failed
      else
        match filter_marker full_path st marker with
        | .error e => .error e
        | .ok st => .ok (filter_write st c2, rest2)
  else .ok (filter_write { st with was_newl := false } c, rest)

/-- The loop of `preprocessor::preprocess` (preprocessor.cpp:168-227); it ends at the
first NUL of the buffer. -/
def filter_loop (full_path : List Nat) :
    Nat → filter_state → List Nat → Except buffer_error (List Nat)
  | 0, _, _ => .error .out_of_fuel
  | _ + 1, _, [] => .error .out_of_bounds
  | fuel + 1, st, c :: rest =>
    if c = 0 then .ok st.preprocessed
    else
      match filter_step full_path st c rest with
      | .error e => .error e
      | .ok (st, ptr) => filter_loop full_path fuel st ptr

/-- The function `preprocessor::preprocess` (preprocessor.cpp:161-229) on the output
`full_preprocessed` of the preprocessor.  Every iteration moves `ptr` by a byte at
least, so one more iteration than the buffer has bytes is enough. -/
def preprocess (full_path : List Nat) (full_preprocessed : List Nat) :
    Except buffer_error (List Nat) :=
  filter_loop full_path (full_preprocessed.length + 2)
    { preprocessed := [], file_depth := 0, was_newl := true, in_c_comment := false,
      write_char := true }
    (full_preprocessed ++ [0])
/-! ## Lexemes, whitespace and the end of a declaration -/

theorem skip_attribute_other (t : String) (rest : token_stream)
    (h1 : t ≠ "[") (h2 : t ≠ "__attribute__") :
    skip_attribute (t :: rest) = .ok (t :: rest) := by
  simp [skip_attribute, h1, h2]

theorem space_ne (t s : String) (ht : starts_with_space t = true)
    (hs : starts_with_space s = false) : t ≠ s := by
  intro h; subst h; simp [ht] at hs

theorem space_first_char (t : String) (ht : starts_with_space t = true) :
    isspace (first_char t) = true := by
  unfold starts_with_space at ht
  unfold first_char
  cases h : t.data with
  | nil => simp [h] at ht
  | cons c cs => simp [h] at ht; simpa using ht

theorem is_declaration_end_space (t : String) (rest : token_stream) (sp : Bool)
    (ht : starts_with_space t = true) :
    is_declaration_end (t :: rest) sp = .ok (false, sp, t :: rest) := by
  have h1 : t ≠ "[" := space_ne t _ ht (by decide)
  have h2 : t ≠ "__attribute__" := space_ne t _ ht (by decide)
  have hc := space_first_char t ht
  have c1 : first_char t ≠ ':' := by intro h; rw [h] at hc; revert hc; decide
  have c2 : first_char t ≠ ';' := by intro h; rw [h] at hc; revert hc; decide
  have c3 : first_char t ≠ '\x7b' := by intro h; rw [h] at hc; revert hc; decide
  have c4 : first_char t ≠ '=' := by intro h; rw [h] at hc; revert hc; decide
  simp [is_declaration_end, skip_attribute_other t rest h1 h2, peek, c1, c2, c3, c4]

theorem is_declaration_end_terminator (t : String) (rest : token_stream) (sp : Bool)
    (ht : terminator t) :
    is_declaration_end (t :: rest) sp = .ok (true, decide (t = "="), skip_whitespace rest) := by
  rcases ht with h | h | h | h <;> subst h <;>
    simp [is_declaration_end, skip_attribute, peek, first_char] <;> decide

theorem terminator_not_space (t : String) (ht : terminator t) : starts_with_space t = false := by
  rcases ht with h | h | h | h <;> subst h <;> decide

theorem eq_singleton_of_first_char (t : String) (c : Char) (hlen : ¬ t.length > 1)
    (hc : first_char t = c) (h0 : c ≠ Char.ofNat 0) : t = String.singleton c := by
  apply String.ext
  have hl : t.data.length ≤ 1 := by
    have e : t.length = t.data.length := rfl
    omega
  unfold first_char at hc
  cases hd : t.data with
  | nil => rw [hd] at hc; exact absurd hc.symm h0
  | cons a as =>
    rw [hd] at hc hl
    cases as with
    | nil => simp at hc; simp [String.singleton, hc]
    | cons b bs => simp at hl

theorem is_declaration_end_other (t : String) (rest : token_stream) (sp : Bool)
    (h1 : t ≠ "[") (h2 : t ≠ "__attribute__") (ht : ¬ terminator t) :
    is_declaration_end (t :: rest) sp = .ok (false, sp, t :: rest) := by
  by_cases hlen : t.length > 1
  · simp [is_declaration_end, skip_attribute_other t rest h1 h2, peek, hlen]
  · have c1 : first_char t ≠ ':' := fun h =>
      ht (Or.inr (Or.inr (Or.inl (eq_singleton_of_first_char t _ hlen h (by decide)))))
    have c2 : first_char t ≠ ';' := fun h =>
      ht (Or.inl (eq_singleton_of_first_char t _ hlen h (by decide)))
    have c3 : first_char t ≠ '\x7b' := fun h =>
      ht (Or.inr (Or.inl (eq_singleton_of_first_char t _ hlen h (by decide))))
    have c4 : first_char t ≠ '=' := fun h =>
      ht (Or.inr (Or.inr (Or.inr (eq_singleton_of_first_char t _ hlen h (by decide)))))
    simp [is_declaration_end, skip_attribute_other t rest h1 h2, peek, hlen, c1, c2, c3, c4]

theorem skip_whitespace_append (qs : List String) (t : String) (rest : token_stream)
    (ht : starts_with_space t = false) :
    skip_whitespace (qs ++ t :: rest) = qs.dropWhile starts_with_space ++ t :: rest := by
  induction qs with
  | nil => simp [skip_whitespace, ht]
  | cons q qs ih =>
    by_cases hq : starts_with_space q = true
    · simp [skip_whitespace, hq, ih]
    · simp [skip_whitespace, hq]

/-! ## Single iterations of the suffix loop -/

theorem suffix_step_terminator (st : suffix_state) (t : String) (rest : token_stream)
    (hst : st.stream = t :: rest) (ht : terminator t) :
    parse_member_function_suffix_step st =
      .ok (true, { st with stream := skip_whitespace rest,
                           special_definition := decide (t = "=") }) := by
  simp [parse_member_function_suffix_step, hst, is_declaration_end_terminator t rest _ ht]

theorem suffix_step_space (st : suffix_state) (t : String) (rest : token_stream)
    (hst : st.stream = t :: rest) (ht : starts_with_space t = true) :
    parse_member_function_suffix_step st = .ok (false, { st with stream := rest }) := by
  have e1 := is_declaration_end_space t rest st.special_definition ht
  have a1 : t ≠ "[" := space_ne t _ ht (by decide)
  have a2 : t ≠ "__attribute__" := space_ne t _ ht (by decide)
  have n1 : t ≠ ")" := space_ne t _ ht (by decide)
  have n2 : t ≠ "->" := space_ne t _ ht (by decide)
  have n3 : t ≠ "const" := space_ne t _ ht (by decide)
  have n4 : t ≠ "volatile" := space_ne t _ ht (by decide)
  have n5 : t ≠ "&" := space_ne t _ ht (by decide)
  have n6 : t ≠ "&&" := space_ne t _ ht (by decide)
  have n7 : t ≠ "final" := space_ne t _ ht (by decide)
  have n8 : t ≠ "override" := space_ne t _ ht (by decide)
  have n9 : t ≠ "noexcept" := space_ne t _ ht (by decide)
  simp [parse_member_function_suffix_step, hst, e1, done, skip_attribute_other t _ a1 a2,
    skip_if_token, n1, n2, n3, n4, n5, n6, n7, n8, n9, peek, ht, get]

theorem not_terminator_of_length (t : String) (h : t.length > 1) : ¬ terminator t := by
  intro ht
  rcases ht with e | e | e | e <;> subst e <;> revert h <;> decide

theorem suffix_step_const (st : suffix_state) (rest : token_stream)
    (hst : st.stream = "const" :: rest) :
    parse_member_function_suffix_step st =
      .ok (false, { st with stream := skip_whitespace rest,
                            minfo := st.minfo.set_cv cpp_cv_const }) := by
  have e := is_declaration_end_other "const" rest st.special_definition (by decide) (by decide)
    (not_terminator_of_length _ (by decide))
  simp [parse_member_function_suffix_step, hst, e, done, skip_attribute, peek, skip_if_token]

theorem suffix_step_volatile (st : suffix_state) (rest : token_stream)
    (hst : st.stream = "volatile" :: rest) :
    parse_member_function_suffix_step st =
      .ok (false, { st with stream := skip_whitespace rest,
                            minfo := st.minfo.set_cv cpp_cv_volatile }) := by
  have e := is_declaration_end_other "volatile" rest st.special_definition (by decide)
    (by decide) (not_terminator_of_length _ (by decide))
  simp [parse_member_function_suffix_step, hst, e, done, skip_attribute, peek, skip_if_token]

theorem suffix_step_lvalue (st : suffix_state) (rest : token_stream)
    (hst : st.stream = "&" :: rest) :
    parse_member_function_suffix_step st =
      .ok (false, { st with stream := skip_whitespace rest,
                            minfo := { st.minfo with ref_qualifier := cpp_ref_lvalue } }) := by
  have e := is_declaration_end_other "&" rest st.special_definition (by decide) (by decide)
    (by unfold terminator; decide)
  simp [parse_member_function_suffix_step, hst, e, done, skip_attribute, peek, skip_if_token]

theorem suffix_step_rvalue (st : suffix_state) (rest : token_stream)
    (hst : st.stream = "&&" :: rest) :
    parse_member_function_suffix_step st =
      .ok (false, { st with stream := skip_whitespace rest,
                            minfo := { st.minfo with ref_qualifier := cpp_ref_rvalue } }) := by
  have e := is_declaration_end_other "&&" rest st.special_definition (by decide) (by decide)
    (not_terminator_of_length _ (by decide))
  simp [parse_member_function_suffix_step, hst, e, done, skip_attribute, peek, skip_if_token]

/-! ## Qualifier lexemes -/

theorem apply_qualifiers_space (t : String) (qs : List String)
    (minfo : cpp_member_function_info) (ht : starts_with_space t = true) :
    apply_qualifiers (t :: qs) minfo = apply_qualifiers qs minfo := by
  have h1 : t ≠ "const" := space_ne t _ ht (by decide)
  have h2 : t ≠ "volatile" := space_ne t _ ht (by decide)
  have h3 : t ≠ "&" := space_ne t _ ht (by decide)
  have h4 : t ≠ "&&" := space_ne t _ ht (by decide)
  simp [apply_qualifiers, h1, h2, h3, h4]

theorem apply_qualifiers_dropWhile (qs : List String) (minfo : cpp_member_function_info) :
    apply_qualifiers (qs.dropWhile starts_with_space) minfo = apply_qualifiers qs minfo := by
  induction qs with
  | nil => rfl
  | cons q qs ih =>
    by_cases hq : starts_with_space q = true
    · rw [List.dropWhile_cons_of_pos hq, ih, apply_qualifiers_space q qs minfo hq]
    · rw [List.dropWhile_cons_of_neg hq]

/-- The suffix loop on a run of qualifier lexemes that ends with a terminator. -/
theorem suffix_loop_qualifiers (term : String) (rest : token_stream) (hterm : terminator term) :
    ∀ (n : Nat) (qs : List String), qs.length ≤ n → (∀ t ∈ qs, qualifier_or_space t) →
    ∀ (fuel : Nat) (st : suffix_state), qs.length < fuel → st.stream = qs ++ term :: rest →
      parse_member_function_suffix_loop fuel st =
        .ok { st with stream := skip_whitespace rest,
                      special_definition := decide (term = "="),
                      minfo := apply_qualifiers qs st.minfo } := by
  intro n
  induction n with
  | zero =>
    intro qs hlen _ fuel st hfuel hst
    have hq : qs = [] := List.length_eq_zero.mp (Nat.le_zero.mp hlen)
    subst hq
    obtain ⟨fuel, rfl⟩ : ∃ k, fuel = k + 1 := ⟨fuel - 1, by simp at hfuel; omega⟩
    simp [parse_member_function_suffix_loop, suffix_step_terminator st term rest hst hterm,
      apply_qualifiers]
  | succ n ih =>
    intro qs hlen hqs fuel st hfuel hst
    obtain ⟨fuel, rfl⟩ : ∃ k, fuel = k + 1 := ⟨fuel - 1, by omega⟩
    cases qs with
    | nil =>
      simp [parse_member_function_suffix_loop, suffix_step_terminator st term rest hst hterm,
        apply_qualifiers]
    | cons t qs =>
      have hts := terminator_not_space term hterm
      have hdrop : (qs.dropWhile starts_with_space).length ≤ n := by
        have := (List.dropWhile_sublist starts_with_space (l := qs)).length_le
        simp at hlen; omega
      have hdropq : ∀ u ∈ qs.dropWhile starts_with_space, qualifier_or_space u := fun u hu =>
        hqs u (List.mem_cons_of_mem _ ((List.dropWhile_sublist _).subset hu))
      have hfuel2 : (qs.dropWhile starts_with_space).length < fuel := by
        have := (List.dropWhile_sublist starts_with_space (l := qs)).length_le
        simp at hfuel; omega
      rcases hqs t (List.mem_cons_self _ _) with h | h | h | h | h
      · have := ih qs (by simp at hlen; omega) (fun u hu => hqs u (List.mem_cons_of_mem _ hu))
          fuel { st with stream := qs ++ term :: rest } (by simp at hfuel; omega) rfl
        simp [parse_member_function_suffix_loop, suffix_step_space st t _ hst h, this,
          apply_qualifiers_space t qs st.minfo h]
      · subst h
        have := ih _ hdrop hdropq fuel
          { st with stream := qs.dropWhile starts_with_space ++ term :: rest,
                    minfo := st.minfo.set_cv cpp_cv_const } hfuel2 rfl
        simp [parse_member_function_suffix_loop, suffix_step_const st _ hst,
          skip_whitespace_append qs term rest hts, this, apply_qualifiers,
          apply_qualifiers_dropWhile]
      · subst h
        have := ih _ hdrop hdropq fuel
          { st with stream := qs.dropWhile starts_with_space ++ term :: rest,
                    minfo := st.minfo.set_cv cpp_cv_volatile } hfuel2 rfl
        simp [parse_member_function_suffix_loop, suffix_step_volatile st _ hst,
          skip_whitespace_append qs term rest hts, this, apply_qualifiers,
          apply_qualifiers_dropWhile]
      · subst h
        have := ih _ hdrop hdropq fuel
          { st with stream := qs.dropWhile starts_with_space ++ term :: rest,
                    minfo := { st.minfo with ref_qualifier := cpp_ref_lvalue } } hfuel2 rfl
        simp [parse_member_function_suffix_loop, suffix_step_lvalue st _ hst,
          skip_whitespace_append qs term rest hts, this, apply_qualifiers,
          apply_qualifiers_dropWhile]
      · subst h
        have := ih _ hdrop hdropq fuel
          { st with stream := qs.dropWhile starts_with_space ++ term :: rest,
                    minfo := { st.minfo with ref_qualifier := cpp_ref_rvalue } } hfuel2 rfl
        simp [parse_member_function_suffix_loop, suffix_step_rvalue st _ hst,
          skip_whitespace_append qs term rest hts, this, apply_qualifiers,
          apply_qualifiers_dropWhile]

theorem is_const_cv_of_bits (c v : Bool) : is_const (cv_of_bits c v) = c := by
  cases c <;> cases v <;> rfl

theorem is_volatile_cv_of_bits (c v : Bool) : is_volatile (cv_of_bits c v) = v := by
  cases c <;> cases v <;> rfl

theorem cv_of_bits_eq (cv : cpp_cv) : cv_of_bits (is_const cv) (is_volatile cv) = cv := by
  cases cv <;> rfl

theorem apply_qualifiers_virtual (qs : List String) (minfo : cpp_member_function_info) :
    (apply_qualifiers qs minfo).virtual_flag = minfo.virtual_flag := by
  induction qs generalizing minfo with
  | nil => rfl
  | cons t qs ih =>
    unfold apply_qualifiers
    split_ifs <;> simp [ih, cpp_member_function_info.set_cv]

theorem apply_qualifiers_const (qs : List String) (minfo : cpp_member_function_info) :
    is_const (apply_qualifiers qs minfo).cv_qualifier =
      (is_const minfo.cv_qualifier || decide ("const" ∈ qs)) := by
  have k1 : is_const cpp_cv_const = true := rfl
  have k2 : is_const cpp_cv_volatile = false := rfl
  induction qs generalizing minfo with
  | nil => simp [apply_qualifiers]
  | cons t qs ih =>
    unfold apply_qualifiers
    split_ifs with h1 h2 h3 h4
    · subst h1
      rw [ih]
      simp [cpp_member_function_info.set_cv, is_const_cv_of_bits, k1]
    · subst h2
      have : ¬ ("const" = "volatile") := by decide
      rw [ih]
      simp [cpp_member_function_info.set_cv, is_const_cv_of_bits, k2, this]
    · subst h3
      have : ¬ ("const" = "&") := by decide
      rw [ih]
      simp [this]
    · subst h4
      have : ¬ ("const" = "&&") := by decide
      rw [ih]
      simp [this]
    · have : ¬ ("const" = t) := fun h => h1 h.symm
      rw [ih]
      simp [this]

theorem apply_qualifiers_volatile (qs : List String) (minfo : cpp_member_function_info) :
    is_volatile (apply_qualifiers qs minfo).cv_qualifier =
      (is_volatile minfo.cv_qualifier || decide ("volatile" ∈ qs)) := by
  have k1 : is_volatile cpp_cv_const = false := rfl
  have k2 : is_volatile cpp_cv_volatile = true := rfl
  induction qs generalizing minfo with
  | nil => simp [apply_qualifiers]
  | cons t qs ih =>
    unfold apply_qualifiers
    split_ifs with h1 h2 h3 h4
    · subst h1
      have : ¬ ("volatile" = "const") := by decide
      rw [ih]
      simp [cpp_member_function_info.set_cv, is_volatile_cv_of_bits, k1, this]
    · subst h2
      rw [ih]
      simp [cpp_member_function_info.set_cv, is_volatile_cv_of_bits, k2]
    · subst h3
      have : ¬ ("volatile" = "&") := by decide
      rw [ih]
      simp [this]
    · subst h4
      have : ¬ ("volatile" = "&&") := by decide
      rw [ih]
      simp [this]
    · have : ¬ ("volatile" = t) := fun h => h2 h.symm
      rw [ih]
      simp [this]

theorem apply_qualifiers_ref (qs : List String) (minfo : cpp_member_function_info)
    (href : qs.count "&" + qs.count "&&" ≤ 1) :
    (apply_qualifiers qs minfo).ref_qualifier =
      if "&" ∈ qs then cpp_ref_lvalue
      else if "&&" ∈ qs then cpp_ref_rvalue
      else minfo.ref_qualifier := by
  induction qs generalizing minfo with
  | nil => simp [apply_qualifiers]
  | cons t qs ih =>
    by_cases h3 : t = "&"
    · subst h3
      have d : ("&" == "&&") = false := by decide
      simp [List.count_cons, d] at href
      have m1 : "&" ∉ qs := List.count_eq_zero.mp (by omega)
      have m2 : "&&" ∉ qs := List.count_eq_zero.mp (by omega)
      have e : apply_qualifiers ("&" :: qs) minfo =
          apply_qualifiers qs { minfo with ref_qualifier := cpp_ref_lvalue } := by
        simp [apply_qualifiers]
      rw [e, ih _ (by omega)]
      simp [m1, m2]
    · by_cases h4 : t = "&&"
      · subst h4
        have d : ("&&" == "&") = false := by decide
        simp [List.count_cons, d] at href
        have m1 : "&" ∉ qs := List.count_eq_zero.mp (by omega)
        have m2 : "&&" ∉ qs := List.count_eq_zero.mp (by omega)
        have e : apply_qualifiers ("&&" :: qs) minfo =
            apply_qualifiers qs { minfo with ref_qualifier := cpp_ref_rvalue } := by
          simp [apply_qualifiers]
        have e2 : ¬ ("&" = "&&") := by decide
        rw [e, ih _ (by omega)]
        simp [m1, m2, e2]
      · have c : (t == "&") = false := by simpa using h3
        have d : (t == "&&") = false := by simpa using h4
        simp [List.count_cons, c, d] at href
        have a : ¬ ("&" = t) := fun h => h3 h.symm
        have b : ¬ ("&&" = t) := fun h => h4 h.symm
        have e : (apply_qualifiers (t :: qs) minfo).ref_qualifier =
            (apply_qualifiers qs minfo).ref_qualifier := by
          conv_lhs => rw [apply_qualifiers]
          split_ifs <;>
            simp [ih _ href, cpp_member_function_info.set_cv]
        rw [e, ih _ href]
        simp [a, b]

theorem apply_qualifiers_perm (qs qs2 : List String) (minfo : cpp_member_function_info)
    (hp : qs2.Perm qs) (href : qs.count "&" + qs.count "&&" ≤ 1) :
    apply_qualifiers qs2 minfo = apply_qualifiers qs minfo := by
  have href2 : qs2.count "&" + qs2.count "&&" ≤ 1 := by
    rw [hp.count_eq, hp.count_eq]; exact href
  have hv : (apply_qualifiers qs2 minfo).virtual_flag = (apply_qualifiers qs minfo).virtual_flag := by
    rw [apply_qualifiers_virtual, apply_qualifiers_virtual]
  have hr : (apply_qualifiers qs2 minfo).ref_qualifier = (apply_qualifiers qs minfo).ref_qualifier := by
    rw [apply_qualifiers_ref _ _ href, apply_qualifiers_ref _ _ href2]
    simp [hp.mem_iff]
  have hc : (apply_qualifiers qs2 minfo).cv_qualifier = (apply_qualifiers qs minfo).cv_qualifier := by
    rw [← cv_of_bits_eq (apply_qualifiers qs2 minfo).cv_qualifier,
      ← cv_of_bits_eq (apply_qualifiers qs minfo).cv_qualifier]
    simp only [apply_qualifiers_const, apply_qualifiers_volatile, hp.mem_iff]
  cases h1 : apply_qualifiers qs2 minfo
  cases h2 : apply_qualifiers qs minfo
  simp [h1, h2] at hv hr hc
  simp [hv, hr, hc]

theorem suffix_end_ordinary (st : suffix_state) (h : st.special_definition = false) :
    parse_member_function_suffix_end st = .ok st := by
  simp [parse_member_function_suffix_end, h]

theorem suffix_end_special (st : suffix_state) (h : st.special_definition = true)
    (hp : peek st.stream = "default" ∨ peek st.stream = "delete" ∨ peek st.stream = "0") :
    ∃ res, parse_member_function_suffix_end st = .ok res
      ∧ res.minfo.cv_qualifier = st.minfo.cv_qualifier
      ∧ res.minfo.ref_qualifier = st.minfo.ref_qualifier := by
  cases hs : st.stream with
  | nil =>
    rw [hs] at hp
    have hn : ¬ (("" : String) = "default" ∨ ("" : String) = "delete" ∨ ("" : String) = "0") := by
      decide
    exact absurd hp hn
  | cons t rest =>
    rw [hs] at hp
    simp only [peek, List.headD] at hp
    rcases hp with e | e | e <;> subst e <;>
      simp [parse_member_function_suffix_end, h, hs, parse_special_definition, get]

/-- On a run of qualifier lexemes followed by a terminator the suffix resolver does the
loop over the run and then its closing part. -/
theorem suffix_of_qualifiers (qs rest : List String) (term : String)
    (finfo : cpp_function_info) (minfo : cpp_member_function_info)
    (hqs : ∀ t ∈ qs, qualifier_or_space t) (hterm : terminator term) :
    parse_member_function_suffix (qs ++ term :: rest) finfo minfo =
      parse_member_function_suffix_end
        { stream := skip_whitespace rest, trailing_return_type := "",
          special_definition := decide (term = "="), finfo := finfo,
          minfo := apply_qualifiers qs minfo } := by
  unfold parse_member_function_suffix
  rw [suffix_loop_qualifiers term rest hterm qs.length qs (le_refl _) hqs _ _
    (by simp; omega) rfl]

/-- C1: on a member-function suffix made of `const`, `volatile` and at most one of `&` and
`&&`, in any order and with any whitespace, followed by a terminator (`;`, the opening
brace, `:`, or `=` with `default`, `delete` or `0` after it),
`parse_member_function_suffix` returns with the const bit set iff `const` occurs, the
volatile bit set iff `volatile` occurs and the ref-qualifier of the ref lexeme that is
present (none if there is none); every permutation of the lexemes gives the same
result. -/
theorem parse_member_function_suffix_qualifiers (qs rest : List String) (term : String)
    (finfo : cpp_function_info) (virt : cpp_virtual)
    (hqs : ∀ t ∈ qs, qualifier_or_space t)
    (href : qs.count "&" + qs.count "&&" ≤ 1)
    (hterm : term = ";" ∨ term = "\x7b" ∨ term = ":" ∨
      (term = "=" ∧ (peek (skip_whitespace rest) = "default"
        ∨ peek (skip_whitespace rest) = "delete" ∨ peek (skip_whitespace rest) = "0"))) :
    ∃ res, parse_member_function_suffix (qs ++ term :: rest) finfo { virtual_flag := virt }
        = .ok res
      ∧ (is_const res.minfo.cv_qualifier = true ↔ "const" ∈ qs)
      ∧ (is_volatile res.minfo.cv_qualifier = true ↔ "volatile" ∈ qs)
      ∧ res.minfo.ref_qualifier =
          (if "&" ∈ qs then cpp_ref_lvalue
           else if "&&" ∈ qs then cpp_ref_rvalue else cpp_ref_none)
      ∧ ∀ qs2 : List String, qs2.Perm qs →
          parse_member_function_suffix (qs2 ++ term :: rest) finfo { virtual_flag := virt }
            = .ok res := by
  have ht : terminator term := by
    rcases hterm with h | h | h | h
    · exact Or.inl h
    · exact Or.inr (Or.inl h)
    · exact Or.inr (Or.inr (Or.inl h))
    · exact Or.inr (Or.inr (Or.inr h.1))
  have hperm : ∀ qs2 : List String, qs2.Perm qs →
      parse_member_function_suffix (qs2 ++ term :: rest) finfo { virtual_flag := virt } =
        parse_member_function_suffix (qs ++ term :: rest) finfo { virtual_flag := virt } := by
    intro qs2 hp
    rw [suffix_of_qualifiers qs2 rest term finfo _ (fun t h => hqs t (hp.mem_iff.mp h)) ht,
      suffix_of_qualifiers qs rest term finfo _ hqs ht, apply_qualifiers_perm qs qs2 _ hp href]
  have hc : (is_const (apply_qualifiers qs { virtual_flag := virt }).cv_qualifier = true
      ↔ "const" ∈ qs) := by
    rw [apply_qualifiers_const]; simp [is_const]
  have hv : (is_volatile (apply_qualifiers qs { virtual_flag := virt }).cv_qualifier = true
      ↔ "volatile" ∈ qs) := by
    rw [apply_qualifiers_volatile]; simp [is_volatile]
  have hr := apply_qualifiers_ref qs { virtual_flag := virt } href
  have key : ∃ res, parse_member_function_suffix (qs ++ term :: rest) finfo
        { virtual_flag := virt } = .ok res
      ∧ res.minfo.cv_qualifier = (apply_qualifiers qs { virtual_flag := virt }).cv_qualifier
      ∧ res.minfo.ref_qualifier =
          (apply_qualifiers qs { virtual_flag := virt }).ref_qualifier := by
    rw [suffix_of_qualifiers qs rest term finfo _ hqs ht]
    by_cases he : term = "="
    · have hp : peek (skip_whitespace rest) = "default"
          ∨ peek (skip_whitespace rest) = "delete" ∨ peek (skip_whitespace rest) = "0" := by
        rcases hterm with h | h | h | h
        · rw [h] at he; exact absurd he (by decide)
        · rw [h] at he; exact absurd he (by decide)
        · rw [h] at he; exact absurd he (by decide)
        · exact h.2
      exact suffix_end_special _ (by simp [he]) hp
    · exact ⟨_, suffix_end_ordinary _ (by simp [he]), rfl, rfl⟩
  obtain ⟨res, h1, h2, h3⟩ := key
  refine ⟨res, h1, ?_, ?_, ?_, ?_⟩
  · rw [h2]; exact hc
  · rw [h2]; exact hv
  · rw [h3, hr]
  · intro qs2 hp
    rw [hperm qs2 hp, h1]

/-- C1 at `volatile const &` followed by `;`. -/
theorem parse_member_function_suffix_qualifiers_witness :
    (∀ t ∈ [" ", "volatile", " ", "const", " ", "&"], qualifier_or_space t)
    ∧ List.count "&" [" ", "volatile", " ", "const", " ", "&"]
        + List.count "&&" [" ", "volatile", " ", "const", " ", "&"] ≤ 1
    ∧ ∃ res, parse_member_function_suffix
          ([" ", "volatile", " ", "const", " ", "&"] ++ ";" :: []) {}
          { virtual_flag := cpp_virtual_none } = .ok res
        ∧ (is_const res.minfo.cv_qualifier = true
            ↔ "const" ∈ [" ", "volatile", " ", "const", " ", "&"])
        ∧ (is_volatile res.minfo.cv_qualifier = true
            ↔ "volatile" ∈ [" ", "volatile", " ", "const", " ", "&"])
        ∧ res.minfo.ref_qualifier =
            (if "&" ∈ [" ", "volatile", " ", "const", " ", "&"] then cpp_ref_lvalue
             else if "&&" ∈ [" ", "volatile", " ", "const", " ", "&"] then cpp_ref_rvalue
             else cpp_ref_none)
        ∧ ∀ qs2 : List String, qs2.Perm [" ", "volatile", " ", "const", " ", "&"] →
            parse_member_function_suffix (qs2 ++ ";" :: []) {}
              { virtual_flag := cpp_virtual_none } = .ok res :=
  have hq : ∀ t ∈ [" ", "volatile", " ", "const", " ", "&"], qualifier_or_space t := by
    intro t ht
    simp only [List.mem_cons, List.mem_singleton, List.not_mem_nil, or_false] at ht
    unfold qualifier_or_space
    rcases ht with h | h | h | h | h | h <;> subst h <;> decide
  have hcount : List.count "&" [" ", "volatile", " ", "const", " ", "&"]
      + List.count "&&" [" ", "volatile", " ", "const", " ", "&"] ≤ 1 := by decide
  ⟨hq, hcount,
    parse_member_function_suffix_qualifiers [" ", "volatile", " ", "const", " ", "&"] [] ";" {}
      cpp_virtual_none hq hcount (Or.inl rfl)⟩

/-! ## Every scanner leaves a final segment of the stream -/

theorem skip_whitespace_suffix (s : token_stream) : skip_whitespace s <:+ s := by
  induction s with
  | nil => exact List.suffix_refl _
  | cons t rest ih =>
    unfold skip_whitespace
    split_ifs
    · exact ih.trans (List.suffix_cons _ _)
    · exact List.suffix_refl _

theorem skip_if_token_true (s : token_stream) (token : String)
    (h : (skip_if_token s token).1 = true) :
    ∃ rest, s = token :: rest ∧ (skip_if_token s token).2 = skip_whitespace rest := by
  cases s with
  | nil => simp [skip_if_token] at h
  | cons t rest =>
    by_cases e : t = token
    · subst e; exact ⟨rest, rfl, by simp [skip_if_token]⟩
    · simp [skip_if_token, e] at h

theorem skip_if_token_false (s : token_stream) (token : String)
    (h : ¬ (skip_if_token s token).1 = true) : ∀ rest, s ≠ token :: rest := by
  intro rest e
  subst e
  simp [skip_if_token] at h

theorem skip_if_token_suffix (s : token_stream) (token : String) :
    (skip_if_token s token).2 <:+ s := by
  cases s with
  | nil => exact List.suffix_refl _
  | cons t rest =>
    by_cases e : t = token
    · simp only [skip_if_token, e, if_true]
      exact (skip_whitespace_suffix rest).trans (List.suffix_cons _ _)
    · simp only [skip_if_token, e, if_false]
      exact List.suffix_refl _

theorem bump_suffix (s s2 : token_stream) (h : bump s = .ok s2) : s2 <:+ s := by
  cases s with
  | nil => simp [bump] at h
  | cons t rest => simp [bump] at h; subst h; exact List.suffix_cons _ _

theorem get_eq (s s2 : token_stream) (t : String) (h : get s = .ok (t, s2)) : s = t :: s2 := by
  cases s with
  | nil => simp [get] at h
  | cons u rest => simp [get] at h; rw [h.1, h.2]

theorem skip_suffix (s s2 : token_stream) (value : String) (h : skip s value = .ok s2) :
    s2 <:+ s := by
  unfold skip at h
  split_ifs at h
  exact bump_suffix s s2 h

theorem skip_all_suffix (values : List String) :
    ∀ (s s2 : token_stream), skip_all s values = .ok s2 → s2 <:+ s := by
  induction values with
  | nil => intro s s2 h; simp [skip_all] at h; subst h; exact List.suffix_refl _
  | cons v vs ih =>
    intro s s2 h
    rw [skip_all] at h
    cases hs : skip s v with
    | error e => rw [hs] at h; cases h
    | ok s1 =>
      rw [hs] at h
      exact ((ih _ _ h).trans (skip_whitespace_suffix s1)).trans (skip_suffix s s1 v hs)

theorem skip_bracket_count_loop_suffix {σ : Type} (open_ close : String) (f : σ → String → σ) :
    ∀ (s : token_stream) (n : Nat) (acc res : σ) (s2 : token_stream),
      skip_bracket_count_loop open_ close f s n acc = .ok (res, s2) → s2 <:+ s := by
  intro s
  induction s with
  | nil => intro n acc res s2 h; simp [skip_bracket_count_loop] at h
  | cons t rest ih =>
    intro n acc res s2 h
    rw [skip_bracket_count_loop] at h
    split_ifs at h
    all_goals first
      | (cases h; exact List.suffix_cons _ _)
      | exact (ih _ _ _ _ h).trans (List.suffix_cons _ _)

theorem skip_bracket_count_suffix {σ : Type} (s : token_stream) (open_ close : String)
    (f : σ → String → σ) (init res : σ) (s2 : token_stream)
    (h : skip_bracket_count s open_ close f init = .ok (res, s2)) : s2 <:+ s := by
  unfold skip_bracket_count at h
  cases hs : skip s open_ with
  | error e => rw [hs] at h; cases h
  | ok s1 =>
    rw [hs] at h
    exact (skip_bracket_count_loop_suffix open_ close f s1 1 init res s2 h).trans
      (skip_suffix s s1 open_ hs)

theorem skip_attribute_suffix (s s2 : token_stream) (h : skip_attribute s = .ok s2) :
    s2 <:+ s := by
  cases s with
  | nil => simp [skip_attribute] at h; subst h; exact List.suffix_refl _
  | cons t rest =>
    rw [skip_attribute] at h
    split_ifs at h
    · cases h1 : skip_bracket_count rest "[" "]" (fun (u : Unit) _ => u) () with
      | error e => rw [h1] at h; cases h
      | ok v =>
        obtain ⟨u, s3⟩ := v
        rw [h1] at h
        dsimp only at h
        cases h2 : skip s3 "]" with
        | error e => rw [h2] at h; cases h
        | ok s4 =>
          rw [h2] at h
          cases h
          exact (((skip_whitespace_suffix s4).trans (skip_suffix _ _ _ h2)).trans
            (skip_bracket_count_suffix _ _ _ _ _ _ _ h1)).trans (List.suffix_cons _ _)
    · cases h0 : skip (skip_whitespace rest) "(" with
      | error e => rw [h0] at h; cases h
      | ok s3 =>
        rw [h0] at h
        dsimp only at h
        cases h1 : skip_bracket_count s3 "(" ")" (fun (u : Unit) _ => u) () with
        | error e => rw [h1] at h; cases h
        | ok v =>
          obtain ⟨u, s4⟩ := v
          rw [h1] at h
          dsimp only at h
          cases h2 : skip s4 ")" with
          | error e => rw [h2] at h; cases h
          | ok s5 =>
            rw [h2] at h
            cases h
            exact (((((skip_whitespace_suffix s5).trans (skip_suffix _ _ _ h2)).trans
              (skip_bracket_count_suffix _ _ _ _ _ _ _ h1)).trans (skip_suffix _ _ _ h0)).trans
              (skip_whitespace_suffix rest)).trans (List.suffix_cons _ _)
    · cases h; exact List.suffix_refl _

theorem is_declaration_end_suffix (s s2 : token_stream) (sp sp2 b : Bool)
    (h : is_declaration_end s sp = .ok (b, sp2, s2)) : s2 <:+ s := by
  unfold is_declaration_end at h
  cases h1 : skip_attribute s with
  | error e => rw [h1] at h; cases h
  | ok s1 =>
    rw [h1] at h
    dsimp only at h
    have hs1 := skip_attribute_suffix s s1 h1
    have htail : skip_whitespace s1.tail <:+ s :=
      ((skip_whitespace_suffix _).trans (List.tail_suffix s1)).trans hs1
    split_ifs at h <;> cases h <;> assumption

theorem parse_noexcept_loop_suffix :
    ∀ (s : token_stream) (n : Nat) (e res : String) (s2 : token_stream),
      parse_noexcept_loop s n e = .ok (res, s2) → s2 <:+ s := by
  intro s
  induction s with
  | nil => intro n e res s2 h; simp [parse_noexcept_loop] at h
  | cons t rest ih =>
    intro n e res s2 h
    rw [parse_noexcept_loop] at h
    split_ifs at h
    all_goals first
      | (cases h; exact List.suffix_cons _ _)
      | exact (ih _ _ _ _ h).trans (List.suffix_cons _ _)

theorem parse_noexcept_suffix (s s2 : token_stream) (res : String)
    (h : parse_noexcept s = .ok (res, s2)) : s2 <:+ s := by
  unfold parse_noexcept at h
  dsimp only at h
  split_ifs at h
  · cases h1 : bump (skip_whitespace s) with
    | error e => rw [h1] at h; cases h
    | ok s1 =>
      rw [h1] at h
      exact ((parse_noexcept_loop_suffix _ _ _ _ _ h).trans (bump_suffix _ _ h1)).trans
        (skip_whitespace_suffix s)
  · cases h; exact skip_whitespace_suffix s

theorem trailing_return_type_loop_frame (fuel : Nat) (st res : suffix_state)
    (h : trailing_return_type_loop fuel st = .ok res) :
    res.finfo = st.finfo ∧ res.minfo = st.minfo ∧ res.stream <:+ st.stream := by
  induction fuel generalizing st with
  | zero => simp [trailing_return_type_loop] at h
  | succ n ih =>
    rw [trailing_return_type_loop] at h
    cases hde : is_declaration_end st.stream st.special_definition with
    | error e => rw [hde] at h; cases h
    | ok v =>
      obtain ⟨b, sp, s1⟩ := v
      have hs1 := is_declaration_end_suffix _ _ _ _ _ hde
      rw [hde] at h
      cases b with
      | true => cases h; exact ⟨rfl, rfl, hs1⟩
      | false =>
        dsimp only at h
        cases hg : get s1 with
        | error e => rw [hg] at h; cases h
        | ok w =>
          obtain ⟨t, s2⟩ := w
          rw [hg] at h
          have hi := ih _ h
          have e := get_eq _ _ _ hg
          exact ⟨hi.1, hi.2.1, (hi.2.2.trans (by rw [e]; exact List.suffix_cons _ _)).trans hs1⟩

/-! ## The iterations of the suffix loop, case by case -/

/-- Every successful iteration of the suffix loop is one of: the end of the declaration,
the parameter list after a function-pointer return type, a trailing return type, one
of the keywords, or a whitespace lexeme. -/
theorem suffix_step_cases (st res : suffix_state) (b : Bool)
    (h : parse_member_function_suffix_step st = .ok (b, res)) :
    (∃ sp s1, is_declaration_end st.stream st.special_definition = .ok (true, sp, s1)
        ∧ b = true ∧ res = { st with stream := s1, special_definition := sp })
    ∨ ∃ sp s1 t rest,
        is_declaration_end st.stream st.special_definition = .ok (false, sp, s1)
        ∧ skip_attribute s1 = .ok (t :: rest)
        ∧ ((t = ")" ∧ b = false ∧ ∃ text s3,
              skip_bracket_count (skip_whitespace rest) "(" ")"
                (fun (text : String) str => text ++ str) (st.trailing_return_type ++ ")(")
                = .ok (text, s3)
              ∧ res = { st with stream := s3, special_definition := sp,
                                trailing_return_type := text })
          ∨ (t = "->" ∧ b = true
              ∧ trailing_return_type_loop ((skip_whitespace rest).length + 1)
                  { st with stream := skip_whitespace rest, special_definition := sp }
                  = .ok res)
          ∨ (t = "const" ∧ b = false
              ∧ res = { st with stream := skip_whitespace rest, special_definition := sp,
                                minfo := st.minfo.set_cv cpp_cv_const })
          ∨ (t = "volatile" ∧ b = false
              ∧ res = { st with stream := skip_whitespace rest, special_definition := sp,
                                minfo := st.minfo.set_cv cpp_cv_volatile })
          ∨ (t = "&" ∧ b = false
              ∧ res = { st with stream := skip_whitespace rest, special_definition := sp,
                                minfo := { st.minfo with ref_qualifier := cpp_ref_lvalue } })
          ∨ (t = "&&" ∧ b = false
              ∧ res = { st with stream := skip_whitespace rest, special_definition := sp,
                                minfo := { st.minfo with ref_qualifier := cpp_ref_rvalue } })
          ∨ (t = "final" ∧ b = false
              ∧ res = { st with stream := skip_whitespace rest, special_definition := sp,
                                minfo := { st.minfo with virtual_flag := cpp_virtual_final } })
          ∨ (t = "override" ∧ b = false
              ∧ res = { st with stream := skip_whitespace rest, special_definition := sp,
                                minfo := { st.minfo with
                                           virtual_flag := cpp_virtual_overriden } })
          ∨ (t = "noexcept" ∧ b = false ∧ ∃ e s3,
              parse_noexcept (skip_whitespace rest) = .ok (e, s3)
              ∧ res = { st with stream := s3, special_definition := sp,
                                finfo := { st.finfo with explicit_noexcept := true,
                                                         noexcept_expression := e } })
          ∨ (starts_with_space t = true ∧ b = false
              ∧ res = { st with stream := rest, special_definition := sp })) := by
  unfold parse_member_function_suffix_step at h
  cases hde : is_declaration_end st.stream st.special_definition with
  | error e => rw [hde] at h; cases h
  | ok v =>
    obtain ⟨b1, sp, s1⟩ := v
    rw [hde] at h
    cases b1 with
    | true => cases h; exact Or.inl ⟨sp, s1, rfl, rfl, rfl⟩
    | false =>
      refine Or.inr ⟨sp, s1, ?_⟩
      dsimp only at h
      by_cases hd : done s1 = true
      · rw [if_pos hd] at h; cases h
      rw [if_neg hd] at h
      cases hsa : skip_attribute s1 with
      | error e => rw [hsa] at h; cases h
      | ok s2 =>
        rw [hsa] at h
        dsimp only at h
        cases s2 with
        | nil => simp [skip_if_token, peek, starts_with_space, get] at h
        | cons t rest =>
          refine ⟨t, rest, rfl, rfl, ?_⟩
          by_cases c1 : t = ")"
          · subst c1
            simp only [skip_if_token, if_true] at h
            cases hb : skip_bracket_count (skip_whitespace rest) "(" ")"
                (fun (text : String) str => text ++ str) (st.trailing_return_type ++ ")(") with
            | error e => rw [hb] at h; cases h
            | ok w =>
              obtain ⟨text, s3⟩ := w
              rw [hb] at h
              cases h
              exact Or.inl ⟨rfl, rfl, text, s3, rfl, rfl⟩
          by_cases c2 : t = "->"
          · subst c2
            simp only [skip_if_token, if_true, if_false, c1] at h
            refine Or.inr (Or.inl ⟨rfl, ?_⟩)
            cases ht : trailing_return_type_loop ((skip_whitespace rest).length + 1)
                { st with stream := skip_whitespace rest, special_definition := sp } with
            | error e => rw [ht] at h; cases h
            | ok r => rw [ht] at h; cases h; exact ⟨rfl, rfl⟩
          by_cases c3 : t = "const"
          · subst c3
            simp only [skip_if_token, if_true, if_false, c1, c2] at h
            cases h
            exact Or.inr (Or.inr (Or.inl ⟨rfl, rfl, rfl⟩))
          by_cases c4 : t = "volatile"
          · subst c4
            simp only [skip_if_token, if_true, if_false, c1, c2, c3] at h
            cases h
            exact Or.inr (Or.inr (Or.inr (Or.inl ⟨rfl, rfl, rfl⟩)))
          by_cases c5 : t = "&"
          · subst c5
            simp only [skip_if_token, if_true, if_false, c1, c2, c3, c4] at h
            cases h
            exact Or.inr (Or.inr (Or.inr (Or.inr (Or.inl ⟨rfl, rfl, rfl⟩))))
          by_cases c6 : t = "&&"
          · subst c6
            simp only [skip_if_token, if_true, if_false, c1, c2, c3, c4, c5] at h
            cases h
            exact Or.inr (Or.inr (Or.inr (Or.inr (Or.inr (Or.inl ⟨rfl, rfl, rfl⟩)))))
          by_cases c7 : t = "final"
          · subst c7
            simp only [skip_if_token, if_true, if_false, c1, c2, c3, c4, c5, c6] at h
            cases h
            exact Or.inr (Or.inr (Or.inr (Or.inr (Or.inr (Or.inr (Or.inl ⟨rfl, rfl, rfl⟩))))))
          by_cases c8 : t = "override"
          · subst c8
            simp only [skip_if_token, if_true, if_false, c1, c2, c3, c4, c5, c6, c7] at h
            cases h
            exact Or.inr (Or.inr (Or.inr (Or.inr (Or.inr (Or.inr (Or.inr
              (Or.inl ⟨rfl, rfl, rfl⟩)))))))
          by_cases c9 : t = "noexcept"
          · subst c9
            simp only [skip_if_token, if_true, if_false, c1, c2, c3, c4, c5, c6, c7, c8] at h
            cases hn : parse_noexcept (skip_whitespace rest) with
            | error e => rw [hn] at h; cases h
            | ok w =>
              obtain ⟨e, s3⟩ := w
              rw [hn] at h
              cases h
              exact Or.inr (Or.inr (Or.inr (Or.inr (Or.inr (Or.inr (Or.inr (Or.inr
                (Or.inl ⟨rfl, rfl, e, s3, rfl, rfl⟩))))))))
          simp only [skip_if_token, if_false, c1, c2, c3, c4, c5, c6, c7, c8, c9, peek,
            List.headD, get] at h
          by_cases hsp : starts_with_space t = true
          · simp [hsp] at h
            exact Or.inr (Or.inr (Or.inr (Or.inr (Or.inr (Or.inr (Or.inr (Or.inr
              (Or.inr ⟨hsp, h.1, h.2.symm⟩))))))))
          · simp [hsp] at h

/-- What an iteration of the suffix loop leaves alone: the stream only loses lexemes at
its front, the definition kind and the flags stay, and the whole Declaration Info stays
when no lexeme `noexcept` is left to read. -/
theorem suffix_step_frame (st res : suffix_state) (b : Bool)
    (h : parse_member_function_suffix_step st = .ok (b, res)) :
    res.stream <:+ st.stream
    ∧ res.finfo.definition = st.finfo.definition
    ∧ res.finfo.is_variadic = st.finfo.is_variadic
    ∧ res.finfo.is_constexpr = st.finfo.is_constexpr
    ∧ res.finfo.is_explicit = st.finfo.is_explicit
    ∧ ("noexcept" ∉ st.stream → res.finfo = st.finfo) := by
  rcases suffix_step_cases st res b h with ⟨sp, s1, hde, _, hres⟩ | ⟨sp, s1, t, rest, hde, hsa, hc⟩
  · subst hres
    exact ⟨is_declaration_end_suffix _ _ _ _ _ hde, rfl, rfl, rfl, rfl, fun _ => rfl⟩
  · have h1 : (t :: rest) <:+ st.stream :=
      (skip_attribute_suffix _ _ hsa).trans (is_declaration_end_suffix _ _ _ _ _ hde)
    have hrest : rest <:+ st.stream := (List.suffix_cons _ _).trans h1
    have hws : skip_whitespace rest <:+ st.stream := (skip_whitespace_suffix rest).trans hrest
    rcases hc with ⟨_, _, text, s3, hb, hres⟩ | ⟨_, _, ht⟩ | ⟨_, _, hres⟩ | ⟨_, _, hres⟩
      | ⟨_, _, hres⟩ | ⟨_, _, hres⟩ | ⟨_, _, hres⟩ | ⟨_, _, hres⟩ | ⟨htok, _, e, s3, hn, hres⟩
      | ⟨_, _, hres⟩
    · subst hres
      exact ⟨(skip_bracket_count_suffix _ _ _ _ _ _ _ hb).trans hws, rfl, rfl, rfl, rfl,
        fun _ => rfl⟩
    · have hf := trailing_return_type_loop_frame _ _ _ ht
      refine ⟨hf.2.2.trans hws, ?_, ?_, ?_, ?_, fun _ => hf.1⟩ <;> rw [hf.1]
    · subst hres; exact ⟨hws, rfl, rfl, rfl, rfl, fun _ => rfl⟩
    · subst hres; exact ⟨hws, rfl, rfl, rfl, rfl, fun _ => rfl⟩
    · subst hres; exact ⟨hws, rfl, rfl, rfl, rfl, fun _ => rfl⟩
    · subst hres; exact ⟨hws, rfl, rfl, rfl, rfl, fun _ => rfl⟩
    · subst hres; exact ⟨hws, rfl, rfl, rfl, rfl, fun _ => rfl⟩
    · subst hres; exact ⟨hws, rfl, rfl, rfl, rfl, fun _ => rfl⟩
    · subst hres
      refine ⟨(parse_noexcept_suffix _ _ _ hn).trans hws, rfl, rfl, rfl, rfl, fun hno => ?_⟩
      exact absurd (h1.subset (by rw [htok]; exact List.mem_cons_self _ _)) hno
    · subst hres; exact ⟨hrest, rfl, rfl, rfl, rfl, fun _ => rfl⟩

/-- The suffix loop as a whole leaves the same things alone. -/
theorem suffix_loop_frame (fuel : Nat) (st res : suffix_state)
    (h : parse_member_function_suffix_loop fuel st = .ok res) :
    res.stream <:+ st.stream
    ∧ res.finfo.definition = st.finfo.definition
    ∧ res.finfo.is_variadic = st.finfo.is_variadic
    ∧ res.finfo.is_constexpr = st.finfo.is_constexpr
    ∧ res.finfo.is_explicit = st.finfo.is_explicit
    ∧ ("noexcept" ∉ st.stream → res.finfo = st.finfo) := by
  induction fuel generalizing st with
  | zero => simp [parse_member_function_suffix_loop] at h
  | succ n ih =>
    rw [parse_member_function_suffix_loop] at h
    cases hs : parse_member_function_suffix_step st with
    | error e => rw [hs] at h; cases h
    | ok v =>
      obtain ⟨b, st1⟩ := v
      rw [hs] at h
      have f1 := suffix_step_frame st st1 b hs
      cases b with
      | true => cases h; exact f1
      | false =>
        have f2 := ih st1 h
        refine ⟨f2.1.trans f1.1, f2.2.1.trans f1.2.1, f2.2.2.1.trans f1.2.2.1,
          f2.2.2.2.1.trans f1.2.2.2.1, f2.2.2.2.2.1.trans f1.2.2.2.2.1, fun hno => ?_⟩
        have e1 := f1.2.2.2.2.2 hno
        have hno1 : "noexcept" ∉ st1.stream := fun hm => hno (f1.1.subset hm)
        rw [f2.2.2.2.2.2 hno1, e1]

/-! ## The suffix loops of the destructor and the constructor -/

theorem destructor_suffix_loop_frame (fuel : Nat) :
    ∀ (stream : token_stream) (sp : Bool) (info : cpp_function_info) (v : cpp_virtual)
      (s2 : token_stream) (sp2 : Bool) (info2 : cpp_function_info) (v2 : cpp_virtual),
      cpp_destructor.suffix_loop fuel stream sp info v = .ok (s2, sp2, info2, v2) →
      s2 <:+ stream
      ∧ info2.definition = info.definition
      ∧ info2.is_variadic = info.is_variadic
      ∧ info2.is_constexpr = info.is_constexpr
      ∧ info2.is_explicit = info.is_explicit
      ∧ ("noexcept" ∉ stream → info2 = info) := by
  induction fuel with
  | zero => intro stream sp info v s2 sp2 info2 v2 h; simp [cpp_destructor.suffix_loop] at h
  | succ n ih =>
    intro stream sp info v s2 sp2 info2 v2 h
    rw [cpp_destructor.suffix_loop] at h
    cases hde : is_declaration_end stream sp with
    | error e => rw [hde] at h; cases h
    | ok w =>
      obtain ⟨b1, sp1, s1⟩ := w
      rw [hde] at h
      have hs1 := is_declaration_end_suffix _ _ _ _ _ hde
      cases b1 with
      | true => cases h; exact ⟨hs1, rfl, rfl, rfl, rfl, fun _ => rfl⟩
      | false =>
        dsimp only at h
        by_cases hd : done s1 = true
        · rw [if_pos hd] at h; cases h
        rw [if_neg hd] at h
        cases hsa : skip_attribute s1 with
        | error e => rw [hsa] at h; cases h
        | ok s3 =>
          rw [hsa] at h
          dsimp only at h
          have hs3 : s3 <:+ stream := (skip_attribute_suffix _ _ hsa).trans hs1
          have step : ∀ (s4 : token_stream) (i4 : cpp_function_info) (v4 : cpp_virtual),
              s4 <:+ s3 → i4 = info →
              cpp_destructor.suffix_loop n s4 sp1 i4 v4 = .ok (s2, sp2, info2, v2) →
              s2 <:+ stream
              ∧ info2.definition = info.definition
              ∧ info2.is_variadic = info.is_variadic
              ∧ info2.is_constexpr = info.is_constexpr
              ∧ info2.is_explicit = info.is_explicit
              ∧ ("noexcept" ∉ stream → info2 = info) := by
            intro s4 i4 v4 hs4 hi4 hl
            subst hi4
            have r := ih _ _ _ _ _ _ _ _ hl
            exact ⟨r.1.trans (hs4.trans hs3), r.2.1, r.2.2.1, r.2.2.2.1, r.2.2.2.2.1,
              fun hno => r.2.2.2.2.2 (fun hm => hno ((hs4.trans hs3).subset hm))⟩
          by_cases c1 : (skip_if_token s3 "final").1 = true
          · rw [if_pos c1] at h
            exact step _ _ _ (skip_if_token_suffix _ _) rfl h
          rw [if_neg c1] at h
          by_cases c2 : (skip_if_token s3 "override").1 = true
          · rw [if_pos c2] at h
            exact step _ _ _ (skip_if_token_suffix _ _) rfl h
          rw [if_neg c2] at h
          by_cases c3 : (skip_if_token s3 "noexcept").1 = true
          · rw [if_pos c3] at h
            obtain ⟨rest, hrest, _⟩ := skip_if_token_true _ _ c3
            cases hn : parse_noexcept (skip_if_token s3 "noexcept").2 with
            | error e => rw [hn] at h; cases h
            | ok w =>
              obtain ⟨e, s4⟩ := w
              rw [hn] at h
              dsimp only at h
              have hs4 : s4 <:+ stream :=
                ((parse_noexcept_suffix _ _ _ hn).trans (skip_if_token_suffix _ _)).trans hs3
              have r := ih _ _ _ _ _ _ _ _ h
              refine ⟨r.1.trans hs4, r.2.1, r.2.2.1, r.2.2.2.1, r.2.2.2.2.1, fun hno => ?_⟩
              exact absurd (hs3.subset (by rw [hrest]; exact List.mem_cons_self _ _)) hno
          rw [if_neg c3] at h
          by_cases c4 : (!starts_with_space (peek s3)) = true
          · rw [if_pos c4] at h
            cases hg : get s3 with
            | error e => rw [hg] at h; cases h
            | ok w => rw [hg] at h; cases h
          rw [if_neg c4] at h
          cases hg : get s3 with
          | error e => rw [hg] at h; cases h
          | ok w =>
            obtain ⟨t, s4⟩ := w
            rw [hg] at h
            dsimp only at h
            have e := get_eq _ _ _ hg
            exact step _ _ _ (by rw [e]; exact List.suffix_cons _ _) rfl h

theorem constructor_suffix_loop_frame (fuel : Nat) :
    ∀ (stream : token_stream) (sp : Bool) (info : cpp_function_info)
      (s2 : token_stream) (sp2 : Bool) (info2 : cpp_function_info),
      cpp_constructor.suffix_loop fuel stream sp info = .ok (s2, sp2, info2) →
      s2 <:+ stream
      ∧ info2.definition = info.definition
      ∧ info2.is_variadic = info.is_variadic
      ∧ info2.is_constexpr = info.is_constexpr
      ∧ info2.is_explicit = info.is_explicit
      ∧ ("noexcept" ∉ stream → info2 = info) := by
  induction fuel with
  | zero => intro stream sp info s2 sp2 info2 h; simp [cpp_constructor.suffix_loop] at h
  | succ n ih =>
    intro stream sp info s2 sp2 info2 h
    rw [cpp_constructor.suffix_loop] at h
    cases hde : is_declaration_end stream sp with
    | error e => rw [hde] at h; cases h
    | ok w =>
      obtain ⟨b1, sp1, s1⟩ := w
      rw [hde] at h
      have hs1 := is_declaration_end_suffix _ _ _ _ _ hde
      cases b1 with
      | true => cases h; exact ⟨hs1, rfl, rfl, rfl, rfl, fun _ => rfl⟩
      | false =>
        dsimp only at h
        by_cases hd : done s1 = true
        · rw [if_pos hd] at h; cases h
        rw [if_neg hd] at h
        cases hsa : skip_attribute s1 with
        | error e => rw [hsa] at h; cases h
        | ok s3 =>
          rw [hsa] at h
          dsimp only at h
          have hs3 : s3 <:+ stream := (skip_attribute_suffix _ _ hsa).trans hs1
          by_cases c3 : (skip_if_token s3 "noexcept").1 = true
          · rw [if_pos c3] at h
            obtain ⟨rest, hrest, _⟩ := skip_if_token_true _ _ c3
            cases hn : parse_noexcept (skip_if_token s3 "noexcept").2 with
            | error e => rw [hn] at h; cases h
            | ok w =>
              obtain ⟨e, s4⟩ := w
              rw [hn] at h
              dsimp only at h
              have hs4 : s4 <:+ stream :=
                ((parse_noexcept_suffix _ _ _ hn).trans (skip_if_token_suffix _ _)).trans hs3
              have r := ih _ _ _ _ _ _ h
              refine ⟨r.1.trans hs4, r.2.1, r.2.2.1, r.2.2.2.1, r.2.2.2.2.1, fun hno => ?_⟩
              exact absurd (hs3.subset (by rw [hrest]; exact List.mem_cons_self _ _)) hno
          rw [if_neg c3] at h
          by_cases c4 : (!starts_with_space (peek s3)) = true
          · rw [if_pos c4] at h
            cases hg : get s3 with
            | error e => rw [hg] at h; cases h
            | ok w => rw [hg] at h; cases h
          rw [if_neg c4] at h
          cases hg : get s3 with
          | error e => rw [hg] at h; cases h
          | ok w =>
            obtain ⟨t, s4⟩ := w
            rw [hg] at h
            dsimp only at h
            have e := get_eq _ _ _ hg
            have hs4 : s4 <:+ stream := by
              refine List.IsSuffix.trans ?_ hs3
              rw [e]; exact List.suffix_cons _ _
            have r := ih _ _ _ _ _ _ h
            exact ⟨r.1.trans hs4, r.2.1, r.2.2.1, r.2.2.2.1, r.2.2.2.2.1,
              fun hno => r.2.2.2.2.2 (fun hm => hno (hs4.subset hm))⟩

/-! ## The iteration budget of the suffix resolver is never used up -/

theorem bump_error (s : token_stream) (e : error) (h : bump s = .error e) :
    e ≠ .out_of_fuel := by
  cases s with
  | nil => simp only [bump, Except.error.injEq] at h; rw [← h]; exact fun h => nomatch h
  | cons t rest => simp [bump] at h

theorem get_error (s : token_stream) (e : error) (h : get s = .error e) :
    e ≠ .out_of_fuel := by
  cases s with
  | nil => simp only [get, Except.error.injEq] at h; rw [← h]; exact fun h => nomatch h
  | cons t rest => simp [get] at h

theorem skip_error (s : token_stream) (value : String) (e : error)
    (h : skip s value = .error e) : e ≠ .out_of_fuel := by
  unfold skip at h
  split_ifs at h
  · exact bump_error s e h
  · simp only [Except.error.injEq] at h; rw [← h]; exact fun h => nomatch h

theorem skip_bracket_count_loop_error {σ : Type} (open_ close : String) (f : σ → String → σ) :
    ∀ (s : token_stream) (n : Nat) (acc : σ) (e : error),
      skip_bracket_count_loop open_ close f s n acc = .error e → e ≠ .out_of_fuel := by
  intro s
  induction s with
  | nil =>
    intro n acc e h
    simp only [skip_bracket_count_loop, Except.error.injEq] at h
    rw [← h]; exact fun h => nomatch h
  | cons t rest ih =>
    intro n acc e h
    rw [skip_bracket_count_loop] at h
    split_ifs at h
    all_goals exact ih _ _ _ h

theorem skip_bracket_count_error {σ : Type} (s : token_stream) (open_ close : String)
    (f : σ → String → σ) (init : σ) (e : error)
    (h : skip_bracket_count s open_ close f init = .error e) : e ≠ .out_of_fuel := by
  unfold skip_bracket_count at h
  cases hs : skip s open_ with
  | error e2 => rw [hs] at h; cases h; exact skip_error _ _ _ hs
  | ok s1 => rw [hs] at h; exact skip_bracket_count_loop_error _ _ _ _ _ _ _ h

theorem skip_attribute_error (s : token_stream) (e : error)
    (h : skip_attribute s = .error e) : e ≠ .out_of_fuel := by
  cases s with
  | nil => simp [skip_attribute] at h
  | cons t rest =>
    rw [skip_attribute] at h
    split_ifs at h
    · cases h1 : skip_bracket_count rest "[" "]" (fun (u : Unit) _ => u) () with
      | error e2 => rw [h1] at h; cases h; exact skip_bracket_count_error _ _ _ _ _ _ h1
      | ok v =>
        obtain ⟨u, s3⟩ := v
        rw [h1] at h
        dsimp only at h
        cases h2 : skip s3 "]" with
        | error e2 => rw [h2] at h; cases h; exact skip_error _ _ _ h2
        | ok s4 => rw [h2] at h; cases h
    · cases h0 : skip (skip_whitespace rest) "(" with
      | error e2 => rw [h0] at h; cases h; exact skip_error _ _ _ h0
      | ok s3 =>
        rw [h0] at h
        dsimp only at h
        cases h1 : skip_bracket_count s3 "(" ")" (fun (u : Unit) _ => u) () with
        | error e2 => rw [h1] at h; cases h; exact skip_bracket_count_error _ _ _ _ _ _ h1
        | ok v =>
          obtain ⟨u, s4⟩ := v
          rw [h1] at h
          dsimp only at h
          cases h2 : skip s4 ")" with
          | error e2 => rw [h2] at h; cases h; exact skip_error _ _ _ h2
          | ok s5 => rw [h2] at h; cases h

theorem is_declaration_end_error (s : token_stream) (sp : Bool) (e : error)
    (h : is_declaration_end s sp = .error e) : e ≠ .out_of_fuel := by
  unfold is_declaration_end at h
  cases h1 : skip_attribute s with
  | error e2 => rw [h1] at h; cases h; exact skip_attribute_error _ _ h1
  | ok s1 =>
    rw [h1] at h
    dsimp only at h
    split_ifs at h

theorem parse_noexcept_loop_error :
    ∀ (s : token_stream) (n : Nat) (x : String) (e : error),
      parse_noexcept_loop s n x = .error e → e ≠ .out_of_fuel := by
  intro s
  induction s with
  | nil =>
    intro n x e h
    simp only [parse_noexcept_loop, Except.error.injEq] at h
    rw [← h]; exact fun h => nomatch h
  | cons t rest ih =>
    intro n x e h
    rw [parse_noexcept_loop] at h
    split_ifs at h
    all_goals exact ih _ _ _ h

theorem parse_noexcept_error (s : token_stream) (e : error)
    (h : parse_noexcept s = .error e) : e ≠ .out_of_fuel := by
  unfold parse_noexcept at h
  dsimp only at h
  split_ifs at h
  cases h1 : bump (skip_whitespace s) with
  | error e2 => rw [h1] at h; cases h; exact bump_error _ _ h1
  | ok s1 => rw [h1] at h; exact parse_noexcept_loop_error _ _ _ _ h

theorem parse_special_definition_error (s : token_stream) (e : error)
    (h : parse_special_definition s = .error e) : e ≠ .out_of_fuel := by
  unfold parse_special_definition at h
  cases h1 : get s with
  | error e2 => rw [h1] at h; cases h; exact get_error _ _ h1
  | ok v =>
    obtain ⟨t, s1⟩ := v
    rw [h1] at h
    dsimp only at h
    split_ifs at h
    simp only [Except.error.injEq] at h; rw [← h]; exact fun h => nomatch h

theorem trailing_return_type_loop_error (fuel : Nat) :
    ∀ (st : suffix_state) (e : error), st.stream.length < fuel →
      trailing_return_type_loop fuel st = .error e → e ≠ .out_of_fuel := by
  induction fuel with
  | zero => intro st e hlt _; exact absurd hlt (Nat.not_lt_zero _)
  | succ n ih =>
    intro st e hlt h
    rw [trailing_return_type_loop] at h
    cases hde : is_declaration_end st.stream st.special_definition with
    | error e2 => rw [hde] at h; cases h; exact is_declaration_end_error _ _ _ hde
    | ok v =>
      obtain ⟨b, sp, s1⟩ := v
      rw [hde] at h
      have hs1 := (is_declaration_end_suffix _ _ _ _ _ hde).length_le
      cases b with
      | true => cases h
      | false =>
        dsimp only at h
        cases hg : get s1 with
        | error e2 => rw [hg] at h; cases h; exact get_error _ _ hg
        | ok w =>
          obtain ⟨t, s2⟩ := w
          rw [hg] at h
          have e1 := get_eq _ _ _ hg
          refine ih _ e ?_ h
          rw [e1] at hs1
          simp only [List.length_cons] at hs1 ⊢
          omega

/-- An iteration of the suffix loop that goes on has consumed a lexeme. -/
theorem suffix_step_decreases (st res : suffix_state)
    (h : parse_member_function_suffix_step st = .ok (false, res)) :
    res.stream.length < st.stream.length := by
  rcases suffix_step_cases st res false h with ⟨sp, s1, _, hb, _⟩
    | ⟨sp, s1, t, rest, hde, hsa, hc⟩
  · cases hb
  · have h1 : (t :: rest).length ≤ st.stream.length :=
      ((skip_attribute_suffix _ _ hsa).trans (is_declaration_end_suffix _ _ _ _ _ hde)).length_le
    simp only [List.length_cons] at h1
    have hws : (skip_whitespace rest).length ≤ rest.length :=
      (skip_whitespace_suffix rest).length_le
    rcases hc with ⟨_, _, text, s3, hb, hres⟩ | ⟨_, hb, _⟩ | ⟨_, _, hres⟩ | ⟨_, _, hres⟩
      | ⟨_, _, hres⟩ | ⟨_, _, hres⟩ | ⟨_, _, hres⟩ | ⟨_, _, hres⟩ | ⟨_, _, e, s3, hn, hres⟩
      | ⟨_, _, hres⟩
    · subst hres
      have := (skip_bracket_count_suffix _ _ _ _ _ _ _ hb).length_le
      simp only; omega
    · cases hb
    · subst hres; simp only; omega
    · subst hres; simp only; omega
    · subst hres; simp only; omega
    · subst hres; simp only; omega
    · subst hres; simp only; omega
    · subst hres; simp only; omega
    · subst hres
      have := (parse_noexcept_suffix _ _ _ hn).length_le
      simp only; omega
    · subst hres; simp only; omega

theorem suffix_step_error (st : suffix_state) (e : error)
    (h : parse_member_function_suffix_step st = .error e) : e ≠ .out_of_fuel := by
  unfold parse_member_function_suffix_step at h
  cases hde : is_declaration_end st.stream st.special_definition with
  | error e2 => rw [hde] at h; cases h; exact is_declaration_end_error _ _ _ hde
  | ok v =>
    obtain ⟨b1, sp, s1⟩ := v
    rw [hde] at h
    cases b1 with
    | true => cases h
    | false =>
      dsimp only at h
      by_cases hd : done s1 = true
      · rw [if_pos hd] at h; cases h; exact fun h => nomatch h
      rw [if_neg hd] at h
      cases hsa : skip_attribute s1 with
      | error e2 => rw [hsa] at h; cases h; exact skip_attribute_error _ _ hsa
      | ok s2 =>
        rw [hsa] at h
        dsimp only at h
        by_cases c1 : (skip_if_token s2 ")").1 = true
        · rw [if_pos c1] at h
          cases hb : skip_bracket_count (skip_if_token s2 ")").2 "(" ")"
              (fun (text : String) str => text ++ str) (st.trailing_return_type ++ ")(") with
          | error e2 => rw [hb] at h; cases h; exact skip_bracket_count_error _ _ _ _ _ _ hb
          | ok w => rw [hb] at h; cases h
        rw [if_neg c1] at h
        by_cases c2 : (skip_if_token s2 "->").1 = true
        · rw [if_pos c2] at h
          cases ht : trailing_return_type_loop ((skip_if_token s2 "->").2.length + 1)
              { st with stream := (skip_if_token s2 "->").2, special_definition := sp } with
          | error e2 =>
            rw [ht] at h; cases h
            exact trailing_return_type_loop_error _ _ _ (Nat.lt_succ_self _) ht
          | ok r => rw [ht] at h; cases h
        rw [if_neg c2] at h
        by_cases c3 : (skip_if_token s2 "const").1 = true
        · rw [if_pos c3] at h; cases h
        rw [if_neg c3] at h
        by_cases c4 : (skip_if_token s2 "volatile").1 = true
        · rw [if_pos c4] at h; cases h
        rw [if_neg c4] at h
        by_cases c5 : (skip_if_token s2 "&").1 = true
        · rw [if_pos c5] at h; cases h
        rw [if_neg c5] at h
        by_cases c6 : (skip_if_token s2 "&&").1 = true
        · rw [if_pos c6] at h; cases h
        rw [if_neg c6] at h
        by_cases c7 : (skip_if_token s2 "final").1 = true
        · rw [if_pos c7] at h; cases h
        rw [if_neg c7] at h
        by_cases c8 : (skip_if_token s2 "override").1 = true
        · rw [if_pos c8] at h; cases h
        rw [if_neg c8] at h
        by_cases c9 : (skip_if_token s2 "noexcept").1 = true
        · rw [if_pos c9] at h
          cases hn : parse_noexcept (skip_if_token s2 "noexcept").2 with
          | error e2 => rw [hn] at h; cases h; exact parse_noexcept_error _ _ hn
          | ok w => rw [hn] at h; cases h
        rw [if_neg c9] at h
        by_cases c10 : (!starts_with_space (peek s2)) = true
        · rw [if_pos c10] at h
          cases hg : get s2 with
          | error e2 => rw [hg] at h; cases h; exact get_error _ _ hg
          | ok w => rw [hg] at h; cases h; exact fun h => nomatch h
        rw [if_neg c10] at h
        cases hg : get s2 with
        | error e2 => rw [hg] at h; cases h; exact get_error _ _ hg
        | ok w => rw [hg] at h; cases h

theorem suffix_loop_error (fuel : Nat) :
    ∀ (st : suffix_state) (e : error), st.stream.length < fuel →
      parse_member_function_suffix_loop fuel st = .error e → e ≠ .out_of_fuel := by
  induction fuel with
  | zero => intro st e hlt _; exact absurd hlt (Nat.not_lt_zero _)
  | succ n ih =>
    intro st e hlt h
    rw [parse_member_function_suffix_loop] at h
    cases hs : parse_member_function_suffix_step st with
    | error e2 => rw [hs] at h; cases h; exact suffix_step_error _ _ hs
    | ok v =>
      obtain ⟨b, st1⟩ := v
      rw [hs] at h
      cases b with
      | true => cases h
      | false =>
        have := suffix_step_decreases st st1 hs
        exact ih st1 e (by omega) h

/-- The suffix resolver never stops for lack of iterations: it ends with a result, a
parse error, a failed assertion or at the end of the stream. -/
theorem parse_member_function_suffix_total (stream : token_stream)
    (finfo : cpp_function_info) (minfo : cpp_member_function_info) :
    parse_member_function_suffix stream finfo minfo ≠ .error .out_of_fuel := by
  intro h
  unfold parse_member_function_suffix at h
  cases hl : parse_member_function_suffix_loop (stream.length + 1)
      { stream := stream, trailing_return_type := "", special_definition := false,
        finfo := finfo, minfo := minfo } with
  | error e =>
    rw [hl] at h
    cases h
    exact suffix_loop_error _ _ _ (Nat.lt_succ_self _) hl rfl
  | ok st =>
    rw [hl] at h
    dsimp only at h
    unfold parse_member_function_suffix_end at h
    split_ifs at h
    cases hp : parse_special_definition st.stream with
    | error e => rw [hp] at h; cases h; exact parse_special_definition_error _ _ hp rfl
    | ok w =>
      obtain ⟨d, s2⟩ := w
      rw [hp] at h
      dsimp only at h
      split_ifs at h

/-! ## The iteration budgets of the other loops -/

theorem skip_if_token_length (s : token_stream) (token : String)
    (h : (skip_if_token s token).1 = true) : (skip_if_token s token).2.length < s.length := by
  obtain ⟨rest, hs, hr⟩ := skip_if_token_true s token h
  rw [hr, hs]
  have := (skip_whitespace_suffix rest).length_le
  simp only [List.length_cons]
  omega

theorem get_length (s s2 : token_stream) (t : String) (h : get s = .ok (t, s2)) :
    s2.length < s.length := by
  rw [get_eq s s2 t h]
  simp

theorem skip_all_error (values : List String) :
    ∀ (s : token_stream) (e : error), skip_all s values = .error e → e ≠ .out_of_fuel := by
  induction values with
  | nil => intro s e h; simp [skip_all] at h
  | cons v vs ih =>
    intro s e h
    rw [skip_all] at h
    cases hs : skip s v with
    | error e2 => rw [hs] at h; cases h; exact skip_error _ _ _ hs
    | ok s1 => rw [hs] at h; exact ih _ _ h

theorem skip_template_parameter_declaration_error (s : token_stream) (e : error)
    (h : skip_template_parameter_declaration s = .error e) : e ≠ .out_of_fuel := by
  unfold skip_template_parameter_declaration at h
  split_ifs at h
  cases hb : bump s with
  | error e2 => rw [hb] at h; cases h; exact bump_error _ _ hb
  | ok s1 =>
    rw [hb] at h
    dsimp only at h
    cases ha : skip_all (skip_whitespace s1) ["<", ">"] with
    | error e2 => rw [ha] at h; cases h; exact skip_all_error _ _ _ ha
    | ok s2 => rw [ha] at h; cases h

theorem operator_name_loop_error :
    ∀ (s : token_stream) (ptr : List Char) (e : error),
      operator_name_loop s ptr = .error e → e ≠ .out_of_fuel := by
  intro s
  induction s with
  | nil =>
    intro ptr e h
    simp only [operator_name_loop, Except.error.injEq] at h
    rw [← h]; exact fun h => nomatch h
  | cons t rest ih =>
    intro ptr e h
    rw [operator_name_loop] at h
    split_ifs at h
    all_goals exact ih _ _ h

theorem prefix_step_error (name : String) (st : prefix_state) (e : error)
    (h : parse_member_function_prefix_step name st = .error e) : e ≠ .out_of_fuel := by
  unfold parse_member_function_prefix_step at h
  by_cases c0 : (skip_if_token st.stream name).1 = true
  · rw [if_pos c0] at h; cases h
  rw [if_neg c0] at h
  cases hsa : skip_attribute st.stream with
  | error e2 => rw [hsa] at h; cases h; exact skip_attribute_error _ _ hsa
  | ok s =>
    rw [hsa] at h
    dsimp only at h
    by_cases c1 : (skip_if_token s "extern").1 = true
    · rw [if_pos c1] at h; cases h
    rw [if_neg c1] at h
    by_cases c2 : (skip_if_token s "static").1 = true
    · rw [if_pos c2] at h; cases h
    rw [if_neg c2] at h
    by_cases c3 : (skip_if_token s "constexpr").1 = true
    · rw [if_pos c3] at h; cases h
    rw [if_neg c3] at h
    by_cases c4 : (skip_if_token s "virtual").1 = true
    · rw [if_pos c4] at h; cases h
    rw [if_neg c4] at h
    by_cases c5 : (!st.allow_auto && (skip_if_token s "auto").1) = true
    · rw [if_pos c5] at h; cases h
    rw [if_neg c5] at h
    by_cases c6 : (skip_if_token s "operator").1 = true
    · rw [if_pos c6] at h
      cases ho : operator_name_loop (skip_if_token s "operator").2
          (name.data.drop "operator".length) with
      | error e2 => rw [ho] at h; cases h; exact operator_name_loop_error _ _ _ ho
      | ok s2 => rw [ho] at h; cases h
    rw [if_neg c6] at h
    cases hg : get s with
    | error e2 => rw [hg] at h; cases h; exact get_error _ _ hg
    | ok w => rw [hg] at h; cases h

theorem prefix_step_decreases (name : String) (st res : prefix_state)
    (h : parse_member_function_prefix_step name st = .ok (false, res)) :
    res.stream.length < st.stream.length := by
  unfold parse_member_function_prefix_step at h
  by_cases c0 : (skip_if_token st.stream name).1 = true
  · rw [if_pos c0] at h; cases h
  rw [if_neg c0] at h
  cases hsa : skip_attribute st.stream with
  | error e2 => rw [hsa] at h; cases h
  | ok s =>
    rw [hsa] at h
    dsimp only at h
    have hs := (skip_attribute_suffix _ _ hsa).length_le
    by_cases c1 : (skip_if_token s "extern").1 = true
    · rw [if_pos c1] at h; cases h
      have := skip_if_token_length s _ c1
      simp only; omega
    rw [if_neg c1] at h
    by_cases c2 : (skip_if_token s "static").1 = true
    · rw [if_pos c2] at h; cases h
      have := skip_if_token_length s _ c2
      simp only; omega
    rw [if_neg c2] at h
    by_cases c3 : (skip_if_token s "constexpr").1 = true
    · rw [if_pos c3] at h; cases h
      have := skip_if_token_length s _ c3
      simp only; omega
    rw [if_neg c3] at h
    by_cases c4 : (skip_if_token s "virtual").1 = true
    · rw [if_pos c4] at h; cases h
      have := skip_if_token_length s _ c4
      simp only; omega
    rw [if_neg c4] at h
    by_cases c5 : (!st.allow_auto && (skip_if_token s "auto").1) = true
    · rw [if_pos c5] at h; cases h
      have c5b : (skip_if_token s "auto").1 = true := by
        simp only [Bool.and_eq_true] at c5; exact c5.2
      have := skip_if_token_length s _ c5b
      simp only; omega
    rw [if_neg c5] at h
    by_cases c6 : (skip_if_token s "operator").1 = true
    · rw [if_pos c6] at h
      cases ho : operator_name_loop (skip_if_token s "operator").2
          (name.data.drop "operator".length) with
      | error e2 => rw [ho] at h; cases h
      | ok s2 => rw [ho] at h; cases h
    rw [if_neg c6] at h
    cases hg : get s with
    | error e2 => rw [hg] at h; cases h
    | ok w =>
      obtain ⟨t, s2⟩ := w
      rw [hg] at h
      cases h
      have := get_length _ _ _ hg
      simp only; omega

theorem prefix_loop_error (name : String) (fuel : Nat) :
    ∀ (st : prefix_state) (e : error), st.stream.length < fuel →
      parse_member_function_prefix_loop name fuel st = .error e → e ≠ .out_of_fuel := by
  induction fuel with
  | zero => intro st e hlt _; exact absurd hlt (Nat.not_lt_zero _)
  | succ n ih =>
    intro st e hlt h
    rw [parse_member_function_prefix_loop] at h
    cases hs : parse_member_function_prefix_step name st with
    | error e2 => rw [hs] at h; cases h; exact prefix_step_error _ _ _ hs
    | ok v =>
      obtain ⟨b, st1⟩ := v
      rw [hs] at h
      cases b with
      | true => cases h
      | false =>
        have := prefix_step_decreases name st st1 hs
        exact ih st1 e (by omega) h

theorem skip_template_arguments_scan_error (returns_function : Bool) :
    ∀ (tokens : List (Nat × String)) (n : Nat) (w : Bool) (next : Option Nat) (e : error),
      skip_template_arguments_scan returns_function tokens n w next = .error e →
      e ≠ .out_of_fuel := by
  intro tokens
  induction tokens with
  | nil => intro n w next e h; simp [skip_template_arguments_scan] at h
  | cons p more ih =>
    intro n w next e h
    obtain ⟨pos, str⟩ := p
    rw [skip_template_arguments_scan] at h
    split_ifs at h
    all_goals first
      | exact ih _ _ _ _ h
      | (simp only [Except.error.injEq] at h; rw [← h]; exact fun h => nomatch h)

theorem skip_template_arguments_error (s : token_stream) (args : String) (rf : Bool)
    (e : error) (h : skip_template_arguments s args rf = .error e) : e ≠ .out_of_fuel := by
  unfold skip_template_arguments at h
  dsimp only at h
  split_ifs at h
  · simp only [Except.error.injEq] at h; rw [← h]; exact fun h => nomatch h
  · cases hsc : skip_template_arguments_scan rf
        (List.filter (fun p => !starts_with_space p.2) s.enum).reverse 0 false none with
    | error e2 => rw [hsc] at h; cases h; exact skip_template_arguments_scan_error _ _ _ _ _ _ hsc
    | ok r =>
      rw [hsc] at h
      cases r with
      | none =>
        simp only [Except.error.injEq] at h; rw [← h]; exact fun h => nomatch h
      | some pos =>
        dsimp only at h
        split_ifs at h
        simp only [Except.error.injEq] at h; rw [← h]; exact fun h => nomatch h

theorem skip_parameters_error (s : token_stream) (e : error)
    (h : skip_parameters s = .error e) : e ≠ .out_of_fuel := by
  unfold skip_parameters at h
  cases hb : skip_bracket_count s "(" ")" skip_parameters_callback (false, true) with
  | error e2 => rw [hb] at h; cases h; exact skip_bracket_count_error _ _ _ _ _ _ hb
  | ok w => rw [hb] at h; cases h

/-- The scan of a function or member function never stops for lack of iterations. -/
theorem parse_member_function_total (stream : token_stream) (name args : String)
    (finfo : cpp_function_info) (minfo : cpp_member_function_info) :
    parse_member_function stream name args finfo minfo ≠ .error .out_of_fuel := by
  intro h
  unfold parse_member_function at h
  cases h1 : skip_template_parameter_declaration stream with
  | error e =>
    rw [h1] at h; cases h
    exact skip_template_parameter_declaration_error _ _ h1 rfl
  | ok s1 =>
    rw [h1] at h
    dsimp only at h
    cases h2 : parse_member_function_prefix s1 name finfo minfo with
    | error e =>
      rw [h2] at h; cases h
      exact prefix_loop_error name _ _ _ (Nat.lt_succ_self _) h2 rfl
    | ok pre =>
      rw [h2] at h
      dsimp only at h
      cases h3 : skip_template_arguments pre.stream args (is_function_ptr pre.return_type) with
      | error e =>
        rw [h3] at h; cases h
        exact skip_template_arguments_error _ _ _ _ h3 rfl
      | ok w =>
        obtain ⟨a, s3⟩ := w
        rw [h3] at h
        dsimp only at h
        cases h4 : skip_parameters s3 with
        | error e => rw [h4] at h; cases h; exact skip_parameters_error _ _ h4 rfl
        | ok w =>
          obtain ⟨variadic, s4⟩ := w
          rw [h4] at h
          dsimp only at h
          cases h5 : parse_member_function_suffix s4
              (if variadic = true then pre.finfo.set_flag cpp_variadic_fnc else pre.finfo)
              pre.minfo with
          | error e =>
            rw [h5] at h; cases h
            exact parse_member_function_suffix_total _ _ _ h5
          | ok suf => rw [h5] at h; cases h

theorem conversion_op_loop_error (fuel : Nat) :
    ∀ (stream : token_stream) (finfo : cpp_function_info) (minfo : cpp_member_function_info)
      (e : error), stream.length < fuel →
      cpp_conversion_op.parse_loop fuel stream finfo minfo = .error e → e ≠ .out_of_fuel := by
  induction fuel with
  | zero => intro stream finfo minfo e hlt _; exact absurd hlt (Nat.not_lt_zero _)
  | succ n ih =>
    intro stream finfo minfo e hlt h
    rw [cpp_conversion_op.parse_loop] at h
    by_cases c0 : (skip_if_token stream "operator").1 = true
    · rw [if_pos c0] at h; cases h
    rw [if_neg c0] at h
    cases hsa : skip_attribute stream with
    | error e2 => rw [hsa] at h; cases h; exact skip_attribute_error _ _ hsa
    | ok s =>
      rw [hsa] at h
      dsimp only at h
      have hs := (skip_attribute_suffix _ _ hsa).length_le
      by_cases c1 : (skip_if_token s "explicit").1 = true
      · rw [if_pos c1] at h
        have := skip_if_token_length s _ c1
        exact ih _ _ _ _ (by omega) h
      rw [if_neg c1] at h
      by_cases c2 : (skip_if_token s "constexpr").1 = true
      · rw [if_pos c2] at h
        have := skip_if_token_length s _ c2
        exact ih _ _ _ _ (by omega) h
      rw [if_neg c2] at h
      by_cases c3 : (skip_if_token s "virtual").1 = true
      · rw [if_pos c3] at h
        have := skip_if_token_length s _ c3
        exact ih _ _ _ _ (by omega) h
      rw [if_neg c3] at h
      by_cases c4 : (!starts_with_space (peek s)) = true
      · rw [if_pos c4] at h
        cases hg : get s with
        | error e2 => rw [hg] at h; cases h; exact get_error _ _ hg
        | ok w => rw [hg] at h; cases h; exact fun h => nomatch h
      rw [if_neg c4] at h
      cases hg : get s with
      | error e2 => rw [hg] at h; cases h; exact get_error _ _ hg
      | ok w =>
        obtain ⟨t, s3⟩ := w
        rw [hg] at h
        have := get_length _ _ _ hg
        exact ih _ _ _ _ (by omega) h

theorem constructor_loop_error (name : String) (fuel : Nat) :
    ∀ (stream : token_stream) (info : cpp_function_info) (e : error), stream.length < fuel →
      cpp_constructor.parse_loop name fuel stream info = .error e → e ≠ .out_of_fuel := by
  induction fuel with
  | zero => intro stream info e hlt _; exact absurd hlt (Nat.not_lt_zero _)
  | succ n ih =>
    intro stream info e hlt h
    rw [cpp_constructor.parse_loop] at h
    by_cases c0 : (skip_if_token stream name).1 = true
    · rw [if_pos c0] at h; cases h
    rw [if_neg c0] at h
    cases hsa : skip_attribute stream with
    | error e2 => rw [hsa] at h; cases h; exact skip_attribute_error _ _ hsa
    | ok s =>
      rw [hsa] at h
      dsimp only at h
      have hs := (skip_attribute_suffix _ _ hsa).length_le
      by_cases c1 : (skip_if_token s "explicit").1 = true
      · rw [if_pos c1] at h
        have := skip_if_token_length s _ c1
        exact ih _ _ _ (by omega) h
      rw [if_neg c1] at h
      by_cases c2 : (skip_if_token s "constexpr").1 = true
      · rw [if_pos c2] at h
        have := skip_if_token_length s _ c2
        exact ih _ _ _ (by omega) h
      rw [if_neg c2] at h
      by_cases c4 : (!starts_with_space (peek s)) = true
      · rw [if_pos c4] at h
        cases hg : get s with
        | error e2 => rw [hg] at h; cases h; exact get_error _ _ hg
        | ok w => rw [hg] at h; cases h; exact fun h => nomatch h
      rw [if_neg c4] at h
      cases hg : get s with
      | error e2 => rw [hg] at h; cases h; exact get_error _ _ hg
      | ok w =>
        obtain ⟨t, s3⟩ := w
        rw [hg] at h
        have := get_length _ _ _ hg
        exact ih _ _ _ (by omega) h

theorem constructor_suffix_loop_error (fuel : Nat) :
    ∀ (stream : token_stream) (sp : Bool) (info : cpp_function_info) (e : error),
      stream.length < fuel →
      cpp_constructor.suffix_loop fuel stream sp info = .error e → e ≠ .out_of_fuel := by
  induction fuel with
  | zero => intro stream sp info e hlt _; exact absurd hlt (Nat.not_lt_zero _)
  | succ n ih =>
    intro stream sp info e hlt h
    rw [cpp_constructor.suffix_loop] at h
    cases hde : is_declaration_end stream sp with
    | error e2 => rw [hde] at h; cases h; exact is_declaration_end_error _ _ _ hde
    | ok w =>
      obtain ⟨b1, sp1, s1⟩ := w
      rw [hde] at h
      have hs1 := (is_declaration_end_suffix _ _ _ _ _ hde).length_le
      cases b1 with
      | true => cases h
      | false =>
        dsimp only at h
        by_cases hd : done s1 = true
        · rw [if_pos hd] at h; cases h; exact fun h => nomatch h
        rw [if_neg hd] at h
        cases hsa : skip_attribute s1 with
        | error e2 => rw [hsa] at h; cases h; exact skip_attribute_error _ _ hsa
        | ok s3 =>
          rw [hsa] at h
          dsimp only at h
          have hs3 := (skip_attribute_suffix _ _ hsa).length_le
          by_cases c3 : (skip_if_token s3 "noexcept").1 = true
          · rw [if_pos c3] at h
            have hl := skip_if_token_length s3 _ c3
            cases hn : parse_noexcept (skip_if_token s3 "noexcept").2 with
            | error e2 => rw [hn] at h; cases h; exact parse_noexcept_error _ _ hn
            | ok w =>
              obtain ⟨x, s4⟩ := w
              rw [hn] at h
              dsimp only at h
              have := (parse_noexcept_suffix _ _ _ hn).length_le
              exact ih _ _ _ _ (by omega) h
          rw [if_neg c3] at h
          by_cases c4 : (!starts_with_space (peek s3)) = true
          · rw [if_pos c4] at h
            cases hg : get s3 with
            | error e2 => rw [hg] at h; cases h; exact get_error _ _ hg
            | ok w => rw [hg] at h; cases h; exact fun h => nomatch h
          rw [if_neg c4] at h
          cases hg : get s3 with
          | error e2 => rw [hg] at h; cases h; exact get_error _ _ hg
          | ok w =>
            obtain ⟨t, s4⟩ := w
            rw [hg] at h
            dsimp only at h
            have := get_length _ _ _ hg
            exact ih _ _ _ _ (by omega) h

theorem destructor_suffix_loop_error (fuel : Nat) :
    ∀ (stream : token_stream) (sp : Bool) (info : cpp_function_info) (v : cpp_virtual)
      (e : error), stream.length < fuel →
      cpp_destructor.suffix_loop fuel stream sp info v = .error e → e ≠ .out_of_fuel := by
  induction fuel with
  | zero => intro stream sp info v e hlt _; exact absurd hlt (Nat.not_lt_zero _)
  | succ n ih =>
    intro stream sp info v e hlt h
    rw [cpp_destructor.suffix_loop] at h
    cases hde : is_declaration_end stream sp with
    | error e2 => rw [hde] at h; cases h; exact is_declaration_end_error _ _ _ hde
    | ok w =>
      obtain ⟨b1, sp1, s1⟩ := w
      rw [hde] at h
      have hs1 := (is_declaration_end_suffix _ _ _ _ _ hde).length_le
      cases b1 with
      | true => cases h
      | false =>
        dsimp only at h
        by_cases hd : done s1 = true
        · rw [if_pos hd] at h; cases h; exact fun h => nomatch h
        rw [if_neg hd] at h
        cases hsa : skip_attribute s1 with
        | error e2 => rw [hsa] at h; cases h; exact skip_attribute_error _ _ hsa
        | ok s3 =>
          rw [hsa] at h
          dsimp only at h
          have hs3 := (skip_attribute_suffix _ _ hsa).length_le
          by_cases c1 : (skip_if_token s3 "final").1 = true
          · rw [if_pos c1] at h
            have := skip_if_token_length s3 _ c1
            exact ih _ _ _ _ _ (by omega) h
          rw [if_neg c1] at h
          by_cases c2 : (skip_if_token s3 "override").1 = true
          · rw [if_pos c2] at h
            have := skip_if_token_length s3 _ c2
            exact ih _ _ _ _ _ (by omega) h
          rw [if_neg c2] at h
          by_cases c3 : (skip_if_token s3 "noexcept").1 = true
          · rw [if_pos c3] at h
            have hl := skip_if_token_length s3 _ c3
            cases hn : parse_noexcept (skip_if_token s3 "noexcept").2 with
            | error e2 => rw [hn] at h; cases h; exact parse_noexcept_error _ _ hn
            | ok w =>
              obtain ⟨x, s4⟩ := w
              rw [hn] at h
              dsimp only at h
              have := (parse_noexcept_suffix _ _ _ hn).length_le
              exact ih _ _ _ _ _ (by omega) h
          rw [if_neg c3] at h
          by_cases c4 : (!starts_with_space (peek s3)) = true
          · rw [if_pos c4] at h
            cases hg : get s3 with
            | error e2 => rw [hg] at h; cases h; exact get_error _ _ hg
            | ok w => rw [hg] at h; cases h; exact fun h => nomatch h
          rw [if_neg c4] at h
          cases hg : get s3 with
          | error e2 => rw [hg] at h; cases h; exact get_error _ _ hg
          | ok w =>
            obtain ⟨t, s4⟩ := w
            rw [hg] at h
            dsimp only at h
            have := get_length _ _ _ hg
            exact ih _ _ _ _ _ (by omega) h

theorem parameter_loop_error (name : String) (fuel : Nat) :
    ∀ (stream : token_stream) (vars : Bool × String × String) (e : error),
      stream.length < fuel →
      cpp_function_parameter.parse_loop name fuel stream vars = .error e →
      e ≠ .out_of_fuel := by
  induction fuel with
  | zero => intro stream vars e hlt _; exact absurd hlt (Nat.not_lt_zero _)
  | succ n ih =>
    intro stream vars e hlt h
    obtain ⟨in_type, type_name, default_value⟩ := vars
    rw [cpp_function_parameter.parse_loop] at h
    by_cases c0 : peek stream = ";"
    · rw [if_pos c0] at h; cases h
    rw [if_neg c0] at h
    cases hsa : skip_attribute stream with
    | error e2 => rw [hsa] at h; cases h; exact skip_attribute_error _ _ hsa
    | ok s =>
      rw [hsa] at h
      dsimp only at h
      have hs := (skip_attribute_suffix _ _ hsa).length_le
      by_cases c1 : (skip_if_token s name).1 = true
      · rw [if_pos c1] at h
        have := skip_if_token_length s _ c1
        exact ih _ _ _ (by omega) h
      rw [if_neg c1] at h
      by_cases c2 : (skip_if_token s "=").1 = true
      · rw [if_pos c2] at h
        have := skip_if_token_length s _ c2
        exact ih _ _ _ (by omega) h
      rw [if_neg c2] at h
      cases hg : get s with
      | error e2 => rw [hg] at h; cases h; exact get_error _ _ hg
      | ok w =>
        obtain ⟨t, s3⟩ := w
        rw [hg] at h
        dsimp only at h
        have := get_length _ _ _ hg
        exact ih _ _ _ (by omega) h

theorem parameter_parse_error (cur : child_cursor) (e : error)
    (h : cpp_function_parameter.parse cur = .error e) : e ≠ .out_of_fuel := by
  unfold cpp_function_parameter.parse at h
  split_ifs at h
  · simp only [Except.error.injEq] at h; rw [← h]; exact fun h => nomatch h
  · cases hl : cpp_function_parameter.parse_loop cur.name (cur.tokens.length + 1) cur.tokens
        (true, "", "") with
    | error e2 =>
      rw [hl] at h; cases h
      exact parameter_loop_error _ _ _ _ _ (Nat.lt_succ_self _) hl
    | ok w => rw [hl] at h; cases h

theorem parse_parameters_visit_error (n : Int) :
    ∀ (children : List child_cursor) (i : Int) (ps : List cpp_function_parameter) (e : error),
      parse_parameters_visit n children i ps = .error e → e ≠ .out_of_fuel := by
  intro children
  induction children with
  | nil => intro i ps e h; simp [parse_parameters_visit] at h
  | cons c cs ih =>
    intro i ps e h
    rw [parse_parameters_visit] at h
    split_ifs at h
    · cases hp : cpp_function_parameter.parse c with
      | error e2 => rw [hp] at h; cases h; exact parameter_parse_error _ _ hp
      | ok p => rw [hp] at h; exact ih _ _ _ h
    · exact ih _ _ _ h
    · exact ih _ _ _ h

theorem parse_parameters_error (cur : cpp_cursor) (e : error)
    (h : parse_parameters cur = .error e) : e ≠ .out_of_fuel :=
  parse_parameters_visit_error _ _ _ _ _ h

theorem conversion_op_skip_until_parameters_error :
    ∀ (s : token_stream) (e : error),
      cpp_conversion_op.skip_until_parameters s = .error e → e ≠ .out_of_fuel := by
  intro s
  induction s with
  | nil =>
    intro e h
    simp only [cpp_conversion_op.skip_until_parameters, Except.error.injEq] at h
    rw [← h]; exact fun h => nomatch h
  | cons t rest ih =>
    intro e h
    rw [cpp_conversion_op.skip_until_parameters] at h
    split_ifs at h
    exact ih _ h

theorem destructor_parse_head_error (stream : token_stream) (name : String) (e : error)
    (h : cpp_destructor.parse_head stream name = .error e) : e ≠ .out_of_fuel := by
  unfold cpp_destructor.parse_head at h
  dsimp only at h
  split at h
  · rename_i e2 hsa
    cases h
    exact skip_attribute_error _ _ hsa
  · split at h
    · rename_i e2 ha
      cases h
      exact skip_all_error _ _ _ ha
    · cases h

/-- None of the five parse functions stops for lack of iterations: each ends with a
record, a parse error, a failed assertion or at the end of the stream. -/
theorem parse_total (stream : token_stream) (cur : cpp_cursor) :
    cpp_function.parse stream cur ≠ .error .out_of_fuel
    ∧ cpp_member_function.parse stream cur ≠ .error .out_of_fuel
    ∧ cpp_conversion_op.parse stream cur ≠ .error .out_of_fuel
    ∧ cpp_constructor.parse stream cur ≠ .error .out_of_fuel
    ∧ cpp_destructor.parse stream cur ≠ .error .out_of_fuel := by
  refine ⟨?_, ?_, ?_, ?_, ?_⟩
  · intro h
    unfold cpp_function.parse at h
    cases h1 : parse_member_function stream cur.name "" {} {} with
    | error e => rw [h1] at h; cases h; exact parse_member_function_total _ _ _ _ _ h1
    | ok res =>
      rw [h1] at h
      dsimp only at h
      by_cases c1 : is_virtual res.minfo.virtual_flag = true
      · rw [if_pos c1] at h; cases h
      rw [if_neg c1] at h
      by_cases c2 : res.minfo.cv_qualifier ≠ cpp_cv_none
      · rw [if_pos c2] at h; cases h
      rw [if_neg c2] at h
      by_cases c3 : res.minfo.ref_qualifier ≠ cpp_ref_none
      · rw [if_pos c3] at h; cases h
      rw [if_neg c3] at h
      cases h2 : parse_parameters cur with
      | error e => rw [h2] at h; cases h; exact parse_parameters_error _ _ h2 rfl
      | ok ps => rw [h2] at h; cases h
  · intro h
    unfold cpp_member_function.parse at h
    cases h1 : parse_member_function stream cur.name "" {} {} with
    | error e => rw [h1] at h; cases h; exact parse_member_function_total _ _ _ _ _ h1
    | ok res =>
      rw [h1] at h
      dsimp only at h
      cases h2 : parse_parameters cur with
      | error e => rw [h2] at h; cases h; exact parse_parameters_error _ _ h2 rfl
      | ok ps => rw [h2] at h; cases h
  · intro h
    unfold cpp_conversion_op.parse at h
    cases h0 : parse_conversion_op_type cur with
    | error e =>
      rw [h0] at h; cases h
      unfold parse_conversion_op_type at h0
      dsimp only at h0
      split_ifs at h0
      cases h0
    | ok type =>
      rw [h0] at h
      dsimp only at h
      cases h1 : skip_template_parameter_declaration stream with
      | error e =>
        rw [h1] at h; cases h
        exact skip_template_parameter_declaration_error _ _ h1 rfl
      | ok s1 =>
        rw [h1] at h
        dsimp only at h
        cases h2 : cpp_conversion_op.parse_loop (s1.length + 1) s1 {} {} with
        | error e =>
          rw [h2] at h; cases h
          exact conversion_op_loop_error _ _ _ _ _ (Nat.lt_succ_self _) h2 rfl
        | ok w =>
          obtain ⟨s2, finfo, minfo⟩ := w
          rw [h2] at h
          dsimp only at h
          cases h2b : cpp_conversion_op.skip_until_parameters s2 with
          | error e =>
            rw [h2b] at h; cases h
            exact conversion_op_skip_until_parameters_error _ _ h2b rfl
          | ok s2b =>
            rw [h2b] at h
            dsimp only at h
            cases h3 : skip_template_arguments s2b "" false with
            | error e =>
              rw [h3] at h; cases h
              exact skip_template_arguments_error _ _ _ _ h3 rfl
            | ok w =>
              obtain ⟨args, s3⟩ := w
              rw [h3] at h
              dsimp only at h
              cases h4 : skip_parameters s3 with
              | error e => rw [h4] at h; cases h; exact skip_parameters_error _ _ h4 rfl
              | ok w =>
                obtain ⟨variadic, s4⟩ := w
                rw [h4] at h
                dsimp only at h
                by_cases cv : variadic = true
                · rw [if_pos cv] at h; cases h
                rw [if_neg cv] at h
                cases h5 : parse_member_function_suffix s4 finfo minfo with
                | error e =>
                  rw [h5] at h; cases h
                  exact parse_member_function_suffix_total _ _ _ h5
                | ok suf =>
                  rw [h5] at h
                  dsimp only at h
                  by_cases ct : suf.trailing_return_type ≠ ""
                  · rw [if_pos ct] at h; cases h
                  rw [if_neg ct] at h
                  cases h
  · intro h
    unfold cpp_constructor.parse at h
    cases h1 : skip_template_parameter_declaration stream with
    | error e =>
      rw [h1] at h; cases h
      exact skip_template_parameter_declaration_error _ _ h1 rfl
    | ok s1 =>
      rw [h1] at h
      dsimp only at h
      cases h2 : cpp_constructor.parse_loop (erase_template_args cur.name) (s1.length + 1)
          s1 {} with
      | error e =>
        rw [h2] at h; cases h
        exact constructor_loop_error _ _ _ _ _ (Nat.lt_succ_self _) h2 rfl
      | ok w =>
        obtain ⟨s2, info⟩ := w
        rw [h2] at h
        dsimp only at h
        cases h3 : skip_template_arguments s2 "" false with
        | error e =>
          rw [h3] at h; cases h
          exact skip_template_arguments_error _ _ _ _ h3 rfl
        | ok w =>
          obtain ⟨args, s3⟩ := w
          rw [h3] at h
          dsimp only at h
          cases h4 : skip_parameters s3 with
          | error e => rw [h4] at h; cases h; exact skip_parameters_error _ _ h4 rfl
          | ok w =>
            obtain ⟨variadic, s4⟩ := w
            rw [h4] at h
            dsimp only at h
            cases h5 : cpp_constructor.suffix_loop (s4.length + 1) s4 false
                (if variadic = true then info.set_flag cpp_variadic_fnc else info) with
            | error e =>
              rw [h5] at h; cases h
              exact constructor_suffix_loop_error _ _ _ _ _ (Nat.lt_succ_self _) h5 rfl
            | ok w =>
              obtain ⟨s5, sp, info5⟩ := w
              rw [h5] at h
              dsimp only at h
              by_cases hsp : sp = true
              · rw [if_pos hsp] at h
                cases hp : parse_special_definition s5 with
                | error e =>
                  rw [hp] at h; cases h
                  exact parse_special_definition_error _ _ hp rfl
                | ok w =>
                  obtain ⟨d, s6⟩ := w
                  rw [hp] at h
                  dsimp only at h
                  by_cases hd : d = cpp_function_definition_normal
                  · rw [if_pos hd] at h; cases h
                  · rw [if_neg hd] at h
                    dsimp only at h
                    cases hpp : parse_parameters cur with
                    | error e =>
                      rw [hpp] at h; cases h; exact parse_parameters_error _ _ hpp rfl
                    | ok ps => rw [hpp] at h; cases h
              · rw [if_neg hsp] at h
                dsimp only at h
                cases hpp : parse_parameters cur with
                | error e => rw [hpp] at h; cases h; exact parse_parameters_error _ _ hpp rfl
                | ok ps => rw [hpp] at h; cases h
  · intro h
    unfold cpp_destructor.parse at h
    dsimp only at h
    cases h1 : cpp_destructor.parse_head stream (erase_template_args cur.name) with
    | error e => rw [h1] at h; cases h; exact destructor_parse_head_error _ _ _ h1 rfl
    | ok w =>
      obtain ⟨s1, info, v⟩ := w
      rw [h1] at h
      dsimp only at h
      cases h5 : cpp_destructor.suffix_loop (s1.length + 1) s1 false info v with
      | error e =>
        rw [h5] at h; cases h
        exact destructor_suffix_loop_error _ _ _ _ _ _ (Nat.lt_succ_self _) h5 rfl
      | ok w =>
        obtain ⟨s5, sp, info5, v5⟩ := w
        rw [h5] at h
        dsimp only at h
        by_cases hsp : sp = true
        · rw [if_pos hsp] at h
          cases hp : parse_special_definition s5 with
          | error e =>
            rw [hp] at h; cases h
            exact parse_special_definition_error _ _ hp rfl
          | ok w =>
            obtain ⟨d, s6⟩ := w
            rw [hp] at h
            dsimp only at h
            by_cases hd : d = cpp_function_definition_normal
            · rw [if_pos hd] at h; cases h
            · rw [if_neg hd] at h; cases h
        · rw [if_neg hsp] at h
          cases h

/-! ## Special definitions -/

theorem peek_eq_cons (s : token_stream) (t : String) (h : peek s = t) (ht : t ≠ "") :
    ∃ rest, s = t :: rest ∧ s.tail = rest := by
  cases s with
  | nil => exact absurd h.symm ht
  | cons u rest => simp only [peek, List.headD] at h; rw [h]; exact ⟨rest, rfl, rfl⟩

theorem destructor_parse_head_definition (stream s0 : token_stream) (name : String)
    (info0 : cpp_function_info) (v0 : cpp_virtual)
    (h : cpp_destructor.parse_head stream name = .ok (s0, info0, v0)) :
    info0.definition = cpp_function_definition_normal
    ∧ info0.explicit_noexcept = false ∧ info0.noexcept_expression = "" := by
  unfold cpp_destructor.parse_head at h
  dsimp only at h
  split at h
  · cases h
  · split at h
    · cases h
    · cases h
      split_ifs <;> exact ⟨rfl, rfl, rfl⟩

/-- C2: when the loop of `parse_member_function_suffix`, or the suffix loop of
`cpp_destructor::parse`, ends at the terminator `=` and the lexeme after it and its
whitespace is `0`, the resolver ends with virtual-kind pure and definition kind normal,
whatever virtual-kind the loop had recorded; the other fields stay as the loop left
them. -/
theorem special_definition_zero_is_pure :
    (∀ (stream : token_stream) (finfo : cpp_function_info) (minfo : cpp_member_function_info)
        (st : suffix_state),
        finfo.definition = cpp_function_definition_normal →
        parse_member_function_suffix_loop (stream.length + 1)
          { stream := stream, trailing_return_type := "", special_definition := false,
            finfo := finfo, minfo := minfo } = .ok st →
        st.special_definition = true → peek st.stream = "0" →
        parse_member_function_suffix stream finfo minfo =
            .ok { st with stream := st.stream.tail,
                          minfo := { st.minfo with virtual_flag := cpp_virtual_pure } }
          ∧ st.finfo.definition = cpp_function_definition_normal)
    ∧ (∀ (stream : token_stream) (cur : cpp_cursor) (s0 s1 : token_stream)
        (info0 info1 : cpp_function_info) (v0 v1 : cpp_virtual),
        cpp_destructor.parse_head stream (erase_template_args cur.name) = .ok (s0, info0, v0) →
        cpp_destructor.suffix_loop (s0.length + 1) s0 false info0 v0
          = .ok (s1, true, info1, v1) →
        peek s1 = "0" →
        ∃ d, cpp_destructor.parse stream cur = .ok d
          ∧ d.virtual_flag = cpp_virtual_pure
          ∧ d.info.definition = cpp_function_definition_normal) := by
  constructor
  · intro stream finfo minfo st hdef hloop hsp hzero
    have hf := suffix_loop_frame _ _ _ hloop
    obtain ⟨rest, hs, htl⟩ := peek_eq_cons st.stream "0" hzero (by decide)
    constructor
    · unfold parse_member_function_suffix
      rw [hloop]
      unfold parse_member_function_suffix_end
      simp [hsp, hs, parse_special_definition, get]
    · rw [hf.2.1]; exact hdef
  · intro stream cur s0 s1 info0 info1 v0 v1 hhead hloop hzero
    have hf := destructor_suffix_loop_frame _ _ _ _ _ _ _ _ _ hloop
    have hh := destructor_parse_head_definition _ _ _ _ _ hhead
    obtain ⟨rest, hs, htl⟩ := peek_eq_cons s1 "0" hzero (by decide)
    have hd1 : info1.definition = cpp_function_definition_normal := by rw [hf.2.1]; exact hh.1
    unfold cpp_destructor.parse
    dsimp only
    rw [hhead]
    dsimp only
    rw [hloop]
    dsimp only
    rw [hs]
    by_cases he : info1.explicit_noexcept = true <;>
      simp [parse_special_definition, get, he, hd1]

/-- C2 at the member-function suffix ` const = 0;` after `virtual`, and at the
destructor `virtual ~foo() = 0;`. -/
theorem special_definition_zero_is_pure_witness :
    (parse_member_function_suffix [" ", "const", " ", "=", " ", "0", ";"] {}
        { virtual_flag := cpp_virtual_new } =
      .ok { stream := [";"], trailing_return_type := "", special_definition := true,
            finfo := {},
            minfo := { cv_qualifier := cpp_cv_const, virtual_flag := cpp_virtual_pure } })
    ∧ (∃ d, cpp_destructor.parse ["virtual", " ", "~", "foo", "(", ")", " ", "=", " ", "0", ";"]
          { name := "~foo" } = .ok d
        ∧ d.virtual_flag = cpp_virtual_pure
        ∧ d.info.definition = cpp_function_definition_normal) :=
  ⟨(special_definition_zero_is_pure.1 [" ", "const", " ", "=", " ", "0", ";"] {}
      { virtual_flag := cpp_virtual_new }
      { stream := ["0", ";"], trailing_return_type := "", special_definition := true,
        finfo := {}, minfo := { cv_qualifier := cpp_cv_const, virtual_flag := cpp_virtual_new } }
      rfl (by decide) rfl (by decide)).1,
   special_definition_zero_is_pure.2 ["virtual", " ", "~", "foo", "(", ")", " ", "=", " ", "0", ";"]
      { name := "~foo" } ["=", " ", "0", ";"] ["0", ";"] {} {} cpp_virtual_new cpp_virtual_new
      (by decide) (by decide) (by decide)⟩

/-- C3: when the loop of `parse_member_function_suffix` ends at the terminator `=` and the
lexeme after it and its whitespace is `delete` (or `default`), the resolver sets the
definition kind to deleted (or defaulted) and returns everything else, virtual-kind,
cv-qualifier and ref-qualifier included, as the loop left it. -/
theorem special_definition_delete_default (stream : token_stream) (finfo : cpp_function_info)
    (minfo : cpp_member_function_info) (st : suffix_state)
    (hloop : parse_member_function_suffix_loop (stream.length + 1)
      { stream := stream, trailing_return_type := "", special_definition := false,
        finfo := finfo, minfo := minfo } = .ok st)
    (hsp : st.special_definition = true) :
    (peek st.stream = "delete" →
      parse_member_function_suffix stream finfo minfo =
        .ok { st with stream := st.stream.tail,
                      finfo := { st.finfo with
                                 definition := cpp_function_definition_deleted } })
    ∧ (peek st.stream = "default" →
      parse_member_function_suffix stream finfo minfo =
        .ok { st with stream := st.stream.tail,
                      finfo := { st.finfo with
                                 definition := cpp_function_definition_defaulted } }) := by
  constructor
  · intro hp
    obtain ⟨rest, hs, htl⟩ := peek_eq_cons st.stream "delete" hp (by decide)
    unfold parse_member_function_suffix
    rw [hloop]
    unfold parse_member_function_suffix_end
    simp [hsp, hs, parse_special_definition, get]
  · intro hp
    obtain ⟨rest, hs, htl⟩ := peek_eq_cons st.stream "default" hp (by decide)
    unfold parse_member_function_suffix
    rw [hloop]
    unfold parse_member_function_suffix_end
    simp [hsp, hs, parse_special_definition, get]

/-- C3 at the suffix ` const && final = delete;`. -/
theorem special_definition_delete_default_witness :
    parse_member_function_suffix_loop
        ([" ", "const", " ", "&&", " ", "final", " ", "=", " ", "delete", ";"].length + 1)
        { stream := [" ", "const", " ", "&&", " ", "final", " ", "=", " ", "delete", ";"],
          trailing_return_type := "", special_definition := false, finfo := {},
          minfo := { virtual_flag := cpp_virtual_new } }
      = .ok { stream := ["delete", ";"], trailing_return_type := "", special_definition := true,
              finfo := {},
              minfo := { cv_qualifier := cpp_cv_const, ref_qualifier := cpp_ref_rvalue,
                         virtual_flag := cpp_virtual_final } }
    ∧ parse_member_function_suffix
        [" ", "const", " ", "&&", " ", "final", " ", "=", " ", "delete", ";"] {}
        { virtual_flag := cpp_virtual_new }
      = .ok { stream := [";"], trailing_return_type := "", special_definition := true,
              finfo := { definition := cpp_function_definition_deleted },
              minfo := { cv_qualifier := cpp_cv_const, ref_qualifier := cpp_ref_rvalue,
                         virtual_flag := cpp_virtual_final } } :=
  have hloop : parse_member_function_suffix_loop
        ([" ", "const", " ", "&&", " ", "final", " ", "=", " ", "delete", ";"].length + 1)
        { stream := [" ", "const", " ", "&&", " ", "final", " ", "=", " ", "delete", ";"],
          trailing_return_type := "", special_definition := false, finfo := {},
          minfo := { virtual_flag := cpp_virtual_new } }
      = .ok { stream := ["delete", ";"], trailing_return_type := "", special_definition := true,
              finfo := {},
              minfo := { cv_qualifier := cpp_cv_const, ref_qualifier := cpp_ref_rvalue,
                         virtual_flag := cpp_virtual_final } } := by decide
  ⟨hloop, (special_definition_delete_default _ {} { virtual_flag := cpp_virtual_new } _ hloop
    rfl).1 (by decide)⟩

/-! ## The variadic flag -/

theorem skip_bracket_count_loop_flat {σ : Type} (f : σ → String → σ) (rest : token_stream) :
    ∀ (ps : List String) (n : Nat) (acc : σ), "(" ∉ ps → ")" ∉ ps →
      skip_bracket_count_loop "(" ")" f (ps ++ ")" :: rest) (n + 1) acc =
        skip_bracket_count_loop "(" ")" f (")" :: rest) (n + 1) (ps.foldl f acc) := by
  intro ps
  induction ps with
  | nil => intro n acc _ _; rfl
  | cons t ps ih =>
    intro n acc h1 h2
    have t1 : t ≠ "(" := fun e => h1 (by rw [e]; exact List.mem_cons_self _ _)
    have t2 : t ≠ ")" := fun e => h2 (by rw [e]; exact List.mem_cons_self _ _)
    have r := ih n (f acc t) (fun h => h1 (List.mem_cons_of_mem _ h))
      (fun h => h2 (List.mem_cons_of_mem _ h))
    simp only [List.cons_append, List.foldl_cons]
    rw [skip_bracket_count_loop]
    simp only [t1, t2, if_false, Nat.add_one_ne_zero]
    exact r

theorem skip_parameters_callback_variadic (vars : Bool × Bool) (t : String)
    (h : vars.1 = true) : (skip_parameters_callback vars t).1 = true := by
  unfold skip_parameters_callback
  split_ifs <;> simp [h]

theorem foldl_callback_variadic (ps : List String) :
    ∀ vars : Bool × Bool, vars.1 = true → (ps.foldl skip_parameters_callback vars).1 = true := by
  induction ps with
  | nil => intro vars h; exact h
  | cons t ps ih =>
    intro vars h
    exact ih _ (skip_parameters_callback_variadic vars t h)

theorem parameter_slots_ne_nil (ps : List String) : parameter_slots ps ≠ [] := by
  cases ps with
  | nil => simp [parameter_slots]
  | cons t rest => unfold parameter_slots; split_ifs <;> simp

theorem parameter_slots_eq (ps : List String) :
    parameter_slots ps = (parameter_slots ps).headD [] :: (parameter_slots ps).tail := by
  have h := parameter_slots_ne_nil ps
  cases hp : parameter_slots ps with
  | nil => exact absurd hp h
  | cons s ss => rfl

/-- Whether a slot that starts with `...` is ahead: the slot being read counts only while
it is `fresh`, that is while nothing but whitespace was read in it. -/
theorem callback_fold_spec (ps : List String) :
    ∀ (v vp fresh : Bool), (v = true ∨ vp = fresh) →
      (∀ t ∈ ps, first_char t = ',' → t = ",") →
      ((parameter_slots ps).tail ≠ [] → fresh = true →
        slot_not_blank ((parameter_slots ps).headD []) = true) →
      (∀ slot ∈ ((parameter_slots ps).tail).dropLast, slot_not_blank slot = true) →
      (ps.foldl skip_parameters_callback (v, vp)).1 =
        (v || (fresh && slot_starts_with_ellipsis ((parameter_slots ps).headD []))
          || ((parameter_slots ps).tail).any slot_starts_with_ellipsis) := by
  induction ps with
  | nil =>
    intro v vp fresh _ _ _ _
    simp [parameter_slots, slot_starts_with_ellipsis]
  | cons t rest ih =>
    intro v vp fresh hinv hlex hnb1 hnb2
    have hlex2 : ∀ u ∈ rest, first_char u = ',' → u = "," :=
      fun u hu => hlex u (List.mem_cons_of_mem _ hu)
    cases v with
    | true =>
      simp only [List.foldl_cons, Bool.true_or]
      exact foldl_callback_variadic rest _ (skip_parameters_callback_variadic _ t rfl)
    | false =>
      have hvp : vp = fresh := by
        rcases hinv with h | h
        · cases h
        · exact h
      subst hvp
      by_cases hcomma : t = ","
      · subst hcomma
        have hslots : parameter_slots ("," :: rest) = [] :: parameter_slots rest := by
          simp [parameter_slots]
        rw [hslots] at hnb1 hnb2 ⊢
        have hfresh : vp = false := by
          cases vp with
          | false => rfl
          | true =>
            have := hnb1 (by simpa using parameter_slots_ne_nil rest) rfl
            simp [slot_not_blank] at this
        subst hfresh
        have hcb : skip_parameters_callback (false, false) "," = (false, true) := by decide
        simp only [List.foldl_cons, hcb]
        have hd : ((parameter_slots rest).tail).dropLast ⊆ (parameter_slots rest).dropLast := by
          intro x hx
          rw [parameter_slots_eq rest]
          cases ht : (parameter_slots rest).tail with
          | nil => rw [ht] at hx; simp at hx
          | cons a as =>
            rw [ht] at hx
            rw [List.dropLast_cons₂]
            exact List.mem_cons_of_mem _ hx
        have r := ih false true true (Or.inr rfl) hlex2
          (fun hne _ => by
            apply hnb2
            simp only [List.tail_cons]
            rw [parameter_slots_eq rest]
            cases ht : (parameter_slots rest).tail with
            | nil => exact absurd ht hne
            | cons a as => rw [List.dropLast_cons₂]; exact List.mem_cons_self _ _)
          (fun slot hs => hnb2 slot (by simp only [List.tail_cons]; exact hd hs))
        rw [r]
        simp only [List.tail_cons, List.headD_cons, Bool.false_or, Bool.true_and,
          Bool.false_and]
        conv_rhs => rw [parameter_slots_eq rest]
        simp [List.any_cons]
      · have hslots : parameter_slots (t :: rest) =
            (t :: (parameter_slots rest).headD []) :: (parameter_slots rest).tail := by
          simp [parameter_slots, hcomma]
        rw [hslots] at hnb1 hnb2 ⊢
        simp only [List.tail_cons, List.headD_cons] at hnb1 hnb2 ⊢
        have hfc : first_char t ≠ ',' := fun h =>
          hcomma (hlex t (List.mem_cons_self _ _) h)
        by_cases hsp : starts_with_space t = true
        · have hne : t ≠ "..." := space_ne t _ hsp (by decide)
          have hcb : skip_parameters_callback (false, vp) t = (false, vp) := by
            simp [skip_parameters_callback, hne, hfc, hsp]
          simp only [List.foldl_cons, hcb]
          have r := ih false vp vp (Or.inr rfl) hlex2
            (fun hne2 hf => by
              have := hnb1 hne2 hf
              simpa [slot_not_blank, hsp] using this)
            hnb2
          rw [r]
          simp [slot_starts_with_ellipsis, List.dropWhile_cons, hsp]
        · have hsp2 : starts_with_space t = false := by simpa using hsp
          by_cases hell : t = "..."
          · subst hell
            cases vp with
            | true =>
              have hcb : skip_parameters_callback (false, true) "..." = (true, true) := by
                decide
              simp only [List.foldl_cons, hcb]
              rw [foldl_callback_variadic rest _ rfl]
              simp [slot_starts_with_ellipsis, List.dropWhile_cons, hsp2]
            | false =>
              have hcb : skip_parameters_callback (false, false) "..." = (false, false) := by
                decide
              simp only [List.foldl_cons, hcb]
              have r := ih false false false (Or.inr rfl) hlex2
                (fun _ hf => by cases hf) hnb2
              rw [r]
              simp
          · have hcb : skip_parameters_callback (false, vp) t = (false, false) := by
              simp [skip_parameters_callback, hell, hfc, hsp2]
            simp only [List.foldl_cons, hcb]
            have r := ih false false false (Or.inr rfl) hlex2
              (fun _ hf => by cases hf) hnb2
            rw [r]
            have hh : ¬ (t = "...") := hell
            simp [slot_starts_with_ellipsis, List.dropWhile_cons, hsp2, hh]

/-- C4: on a parameter list without inner parentheses, in which no slot before a comma
is blank and the comma is the only lexeme that starts with a comma, `skip_parameters`
consumes the list through its closing bracket and reports variadic exactly when some
slot has `...` as its first lexeme that is no whitespace.  So `(int)` is not variadic,
`(...)` and `(int, ...)` are, and `(int...)` is not. -/
theorem skip_parameters_variadic (ps rest : List String)
    (hopen : "(" ∉ ps) (hclose : ")" ∉ ps)
    (hlex : ∀ t ∈ ps, first_char t = ',' → t = ",")
    (hnb : ∀ slot ∈ (parameter_slots ps).dropLast, slot_not_blank slot = true) :
    skip_parameters ("(" :: ps ++ ")" :: rest) =
        .ok ((parameter_slots ps).any slot_starts_with_ellipsis, rest)
    ∧ skip_parameters ["(", "int", ")"] = .ok (false, [])
    ∧ skip_parameters ["(", "...", ")"] = .ok (true, [])
    ∧ skip_parameters ["(", "int", ",", " ", "...", ")"] = .ok (true, [])
    ∧ skip_parameters ["(", "int", "...", ")"] = .ok (false, []) := by
  refine ⟨?_, by decide, by decide, by decide, by decide⟩
  have hfold := callback_fold_spec ps false true true (Or.inr rfl) hlex
    (fun hne _ => by
      apply hnb
      rw [parameter_slots_eq ps]
      cases ht : (parameter_slots ps).tail with
      | nil => exact absurd ht hne
      | cons a as => rw [List.dropLast_cons₂]; exact List.mem_cons_self _ _)
    (fun slot hs => by
      apply hnb
      rw [parameter_slots_eq ps]
      cases ht : (parameter_slots ps).tail with
      | nil => rw [ht] at hs; simp at hs
      | cons a as =>
        rw [ht] at hs
        rw [List.dropLast_cons₂]
        exact List.mem_cons_of_mem _ hs)
  have hany : (parameter_slots ps).any slot_starts_with_ellipsis =
      (slot_starts_with_ellipsis ((parameter_slots ps).headD [])
        || ((parameter_slots ps).tail).any slot_starts_with_ellipsis) := by
    conv_lhs => rw [parameter_slots_eq ps]
    simp [List.any_cons]
  have hclose2 : ∀ vars : Bool × Bool, (skip_parameters_callback vars ")").1 = vars.1 := by
    intro vars
    obtain ⟨a, b⟩ := vars
    cases a <;> cases b <;> decide
  have hskip : skip ("(" :: (ps ++ ")" :: rest)) "(" = .ok (ps ++ ")" :: rest) := by
    simp [skip, peek, bump]
  have hloop := skip_bracket_count_loop_flat skip_parameters_callback rest ps 0 (false, true)
    hopen hclose
  simp only [Nat.zero_add] at hloop
  unfold skip_parameters skip_bracket_count
  simp only [List.cons_append, hskip, hloop]
  simp [skip_bracket_count_loop, hclose2, hfold, hany]

/-- C4 at the parameter list `(int a, ...)`. -/
theorem skip_parameters_variadic_witness :
    "(" ∉ ["int", " ", "a", ",", " ", "..."] ∧ ")" ∉ ["int", " ", "a", ",", " ", "..."]
    ∧ (∀ t ∈ ["int", " ", "a", ",", " ", "..."], first_char t = ',' → t = ",")
    ∧ (∀ slot ∈ (parameter_slots ["int", " ", "a", ",", " ", "..."]).dropLast,
        slot_not_blank slot = true)
    ∧ skip_parameters ("(" :: ["int", " ", "a", ",", " ", "..."] ++ ")" :: [";"]) =
        .ok ((parameter_slots ["int", " ", "a", ",", " ", "..."]).any
          slot_starts_with_ellipsis, [";"]) :=
  ⟨by decide, by decide, by decide, by decide,
    (skip_parameters_variadic ["int", " ", "a", ",", " ", "..."] [";"] (by decide) (by decide)
      (by decide) (by decide)).1⟩

/-- C5: for `void f(void (*cb)(int, ...));` the single parameter is a pointer to a
variadic function and `f` itself is not variadic: no slot at the top level of the
parameter list starts with `...`.  `skip_parameters` reports variadic all the same,
because its callback opens a slot at the comma inside the inner brackets. -/
theorem skip_parameters_nested_ellipsis :
    skip_parameters
        ["(", "void", " ", "(", "*", "cb", ")", "(", "int", ",", " ", "...", ")", ")", ";"]
      = .ok (true, [";"])
    ∧ (top_level_slots 0
        ["void", " ", "(", "*", "cb", ")", "(", "int", ",", " ", "...", ")"]).any
          slot_starts_with_ellipsis = false := by
  constructor <;> decide

/-! ## The signature -/

theorem intercalate_go_data (sep : String) (ts : List String) :
    ∀ acc : String, (String.intercalate.go acc sep ts).data =
      acc.data ++ (ts.map (fun t => sep.data ++ t.data)).flatten := by
  induction ts with
  | nil => intro acc; simp [String.intercalate.go]
  | cons t ts ih =>
    intro acc
    simp [String.intercalate.go, ih, String.data_append, List.append_assoc]

theorem intercalate_data (sep : String) (ts : List String) :
    (sep.intercalate ts).data =
      match ts with
      | [] => []
      | t :: rest => t.data ++ (rest.map (fun u => sep.data ++ u.data)).flatten := by
  cases ts with
  | nil => rfl
  | cons t rest => simp [String.intercalate, intercalate_go_data]

theorem calc_signature_fold_data (ps : List cpp_function_parameter) :
    ∀ acc : String,
      (ps.foldl (fun result param => result ++ param.type.get_full_name ++ ",") acc).data =
        acc.data ++ ((type_texts ps).map (fun t => t.data ++ [','])).flatten := by
  induction ps with
  | nil => intro acc; simp [type_texts]
  | cons p ps ih =>
    intro acc
    simp only [List.foldl_cons, ih]
    have hc : (",").data = [','] := rfl
    simp [type_texts, String.data_append, hc, List.append_assoc]

theorem flatten_comma_after (ts : List String) (t : String) :
    ((t :: ts).map (fun u => u.data ++ [','])).flatten =
      (t.data ++ (ts.map (fun u => [','] ++ u.data)).flatten) ++ [','] := by
  induction ts generalizing t with
  | nil => simp
  | cons u us ih =>
    have := ih u
    simp only [List.map_cons, List.flatten_cons] at this ⊢
    rw [this]
    simp [List.append_assoc]

/-- The text that `calc_signature` builds, as a list of characters. -/
theorem calc_signature_data (ps : List cpp_function_parameter) (variadic : Bool) :
    (calc_signature ps variadic).data =
      ['('] ++ (",".intercalate (type_texts ps)).data
        ++ (if variadic then [',', '.', '.', '.'] else []) ++ [')'] := by
  have hfold := calc_signature_fold_data ps "("
  have hv : (",...").data = [',', '.', '.', '.'] := rfl
  have hcl : (")").data = [')'] := rfl
  have hop : ("(").data = ['('] := rfl
  have hc : (",").data = [','] := rfl
  unfold calc_signature
  cases hps : type_texts ps with
  | nil =>
    rw [hps] at hfold
    simp only [List.map_nil, List.flatten_nil, List.append_nil] at hfold
    have hb : back (ps.foldl (fun result param => result ++ param.type.get_full_name ++ ",") "(")
        ≠ some ',' := by
      unfold back; rw [hfold]; decide
    simp only [hb, if_false]
    rw [intercalate_data]
    cases variadic <;> simp [String.data_append, hfold, hv, hcl, hop]
  | cons t ts =>
    rw [hps, flatten_comma_after] at hfold
    have hb : back (ps.foldl (fun result param => result ++ param.type.get_full_name ++ ",") "(")
        = some ',' := by
      unfold back; rw [hfold, ← List.append_assoc, List.getLast?_concat]
    have hp : (pop_back (ps.foldl (fun result param =>
        result ++ param.type.get_full_name ++ ",") "(")).data =
          ['('] ++ (t.data ++ (ts.map (fun u => [','] ++ u.data)).flatten) := by
      unfold pop_back
      simp only [hfold, hop]
      rw [← List.append_assoc, List.dropLast_concat]
    simp only [hb, if_true]
    rw [intercalate_data]
    cases variadic <;> simp [String.data_append, hp, hv, hcl, hc]

/-- C6: `calc_signature` returns `(`, the type texts of the parameters in declaration
order joined with `,`, then `,...` when variadic, then `)`; so `()` without parameters
and `(,...)` without parameters when variadic. -/
theorem calc_signature_text (parameters : List cpp_function_parameter) (variadic : Bool) :
    calc_signature parameters variadic =
        "(" ++ ",".intercalate (type_texts parameters)
          ++ (if variadic then ",..." else "") ++ ")"
    ∧ calc_signature [] false = "()"
    ∧ calc_signature [] true = "(,...)" := by
  refine ⟨?_, by decide, by decide⟩
  apply String.ext
  rw [calc_signature_data]
  cases variadic <;> simp [String.data_append]

theorem member_signature_eq (signature : String) (info : cpp_member_function_info) :
    member_signature signature info =
      signature ++ qualifier_text info.cv_qualifier info.ref_qualifier := by
  obtain ⟨cv, ref, virt⟩ := info
  apply String.ext
  cases cv <;> cases ref <;>
    simp [member_signature, qualifier_text, is_const, is_volatile, String.data_append]

theorem qualifier_text_injective (cv1 cv2 : cpp_cv) (ref1 ref2 : cpp_ref_qualifier)
    (h : qualifier_text cv1 ref1 = qualifier_text cv2 ref2) : cv1 = cv2 ∧ ref1 = ref2 := by
  cases cv1 <;> cases cv2 <;> cases ref1 <;> cases ref2 <;>
    first
      | exact ⟨rfl, rfl⟩
      | exact absurd h (by decide)

/-- C7: `member_signature` appends ` const` iff the const bit is set, then ` volatile` iff
the volatile bit is set, then ` &` for an lvalue and ` &&` for an rvalue ref-qualifier;
so two member infos that differ in cv-qualifier or ref-qualifier give different
signatures for the same base signature. -/
theorem member_signature_qualifiers (signature : String) (info : cpp_member_function_info) :
    member_signature signature info =
        signature ++ (if is_const info.cv_qualifier then " const" else "")
          ++ (if is_volatile info.cv_qualifier then " volatile" else "")
          ++ (match info.ref_qualifier with
              | cpp_ref_none => ""
              | cpp_ref_lvalue => " &"
              | cpp_ref_rvalue => " &&")
    ∧ ∀ other : cpp_member_function_info,
        (info.cv_qualifier ≠ other.cv_qualifier ∨ info.ref_qualifier ≠ other.ref_qualifier) →
        member_signature signature info ≠ member_signature signature other := by
  constructor
  · rw [member_signature_eq]
    unfold qualifier_text
    simp only [String.append_assoc]
  · intro other hne heq
    rw [member_signature_eq, member_signature_eq] at heq
    have hd := congrArg String.data heq
    simp only [String.data_append, List.append_cancel_left_eq] at hd
    have := qualifier_text_injective _ _ _ _ (String.ext hd)
    rcases hne with h | h
    · exact h this.1
    · exact h this.2

/-- C7 at the signatures of `f() const` and `f()`. -/
theorem member_signature_qualifiers_witness :
    (({ cv_qualifier := cpp_cv_const } : cpp_member_function_info).cv_qualifier
        ≠ ({} : cpp_member_function_info).cv_qualifier
      ∨ ({ cv_qualifier := cpp_cv_const } : cpp_member_function_info).ref_qualifier
        ≠ ({} : cpp_member_function_info).ref_qualifier)
    ∧ member_signature "()" { cv_qualifier := cpp_cv_const } ≠ member_signature "()" {} :=
  ⟨Or.inl (by decide),
    (member_signature_qualifiers "()" { cv_qualifier := cpp_cv_const }).2 {}
      (Or.inl (by decide))⟩

theorem comma_free_split (a : List Char) :
    ∀ (b x y : List Char), ',' ∉ a → ',' ∉ b →
      (x = [] ∨ x.head? = some ',') → (y = [] ∨ y.head? = some ',') →
      a ++ x = b ++ y → a = b ∧ x = y := by
  induction a with
  | nil =>
    intro b x y _ hb hx hy h
    cases b with
    | nil => exact ⟨rfl, by simpa using h⟩
    | cons c cs =>
      simp only [List.nil_append, List.cons_append] at h
      rcases hx with hx | hx
      · rw [hx] at h; cases h
      · rw [h] at hx
        simp only [List.head?_cons, Option.some.injEq] at hx
        exact absurd (by rw [hx]; exact List.mem_cons_self _ _) hb
  | cons c cs ih =>
    intro b x y ha hb hx hy h
    cases b with
    | nil =>
      simp only [List.nil_append, List.cons_append] at h
      rcases hy with hy | hy
      · rw [hy] at h; cases h
      · rw [← h] at hy
        simp only [List.head?_cons, Option.some.injEq] at hy
        exact absurd (by rw [hy]; exact List.mem_cons_self _ _) ha
    | cons d ds =>
      simp only [List.cons_append, List.cons.injEq] at h
      have r := ih ds x y (fun hm => ha (List.mem_cons_of_mem _ hm))
        (fun hm => hb (List.mem_cons_of_mem _ hm)) hx hy h.2
      exact ⟨by rw [h.1, r.1], r.2⟩

theorem comma_tail_shape (ts : List String) :
    (ts.map (fun u => [','] ++ u.data)).flatten = []
      ∨ ((ts.map (fun u => [','] ++ u.data)).flatten).head? = some ',' := by
  cases ts with
  | nil => exact Or.inl rfl
  | cons t rest => exact Or.inr (by simp)

theorem comma_tail_injective (ts : List String) :
    ∀ us : List String, (∀ t ∈ ts, ',' ∉ t.data) → (∀ u ∈ us, ',' ∉ u.data) →
      (ts.map (fun u => [','] ++ u.data)).flatten = (us.map (fun u => [','] ++ u.data)).flatten →
      ts = us := by
  induction ts with
  | nil =>
    intro us _ _ h
    cases us with
    | nil => rfl
    | cons u us => simp at h
  | cons t ts ih =>
    intro us ht hu h
    cases us with
    | nil => simp at h
    | cons u us =>
      simp only [List.map_cons, List.flatten_cons, List.singleton_append, List.cons_append,
        List.cons.injEq, true_and] at h
      have r := comma_free_split t.data u.data _ _ (ht t (List.mem_cons_self _ _))
        (hu u (List.mem_cons_self _ _)) (comma_tail_shape ts) (comma_tail_shape us)
        (by simpa using h)
      have e1 : t = u := String.ext r.1
      have e2 := ih us (fun x hx => ht x (List.mem_cons_of_mem _ hx))
        (fun x hx => hu x (List.mem_cons_of_mem _ hx)) r.2
      rw [e1, e2]

theorem intercalate_comma_injective (ts us : List String)
    (ht : ∀ t ∈ ts, t ≠ "" ∧ ',' ∉ t.data) (hu : ∀ u ∈ us, u ≠ "" ∧ ',' ∉ u.data)
    (h : (",".intercalate ts).data = (",".intercalate us).data) : ts = us := by
  have hc : (",").data = [','] := rfl
  rw [intercalate_data, intercalate_data] at h
  have nonempty : ∀ (t : String), t ≠ "" → t.data ≠ [] := by
    intro t hne hd
    exact hne (String.ext hd)
  cases ts with
  | nil =>
    cases us with
    | nil => rfl
    | cons u us =>
      simp only at h
      have := nonempty u (hu u (List.mem_cons_self _ _)).1
      cases hd : u.data with
      | nil => exact absurd hd this
      | cons c cs => rw [hd] at h; simp at h
  | cons t ts =>
    cases us with
    | nil =>
      simp only at h
      have := nonempty t (ht t (List.mem_cons_self _ _)).1
      cases hd : t.data with
      | nil => exact absurd hd this
      | cons c cs => rw [hd] at h; simp at h
    | cons u us =>
      simp only [hc] at h
      have r := comma_free_split t.data u.data _ _ (ht t (List.mem_cons_self _ _)).2
        (hu u (List.mem_cons_self _ _)).2 (comma_tail_shape ts) (comma_tail_shape us) h
      have e1 : t = u := String.ext r.1
      have e2 := comma_tail_injective ts us
        (fun x hx => (ht x (List.mem_cons_of_mem _ hx)).2)
        (fun x hx => (hu x (List.mem_cons_of_mem _ hx)).2) r.2
      rw [e1, e2]

/-- C8: for the same variadic flag, two parameter lists whose type texts are not empty,
hold no comma and differ (in length, in a text, or in the order of the texts) get
different signatures from `calc_signature`. -/
theorem calc_signature_injective (ps1 ps2 : List cpp_function_parameter) (variadic : Bool)
    (h1 : ∀ t ∈ type_texts ps1, t ≠ "" ∧ ',' ∉ t.data)
    (h2 : ∀ t ∈ type_texts ps2, t ≠ "" ∧ ',' ∉ t.data)
    (hne : type_texts ps1 ≠ type_texts ps2) :
    calc_signature ps1 variadic ≠ calc_signature ps2 variadic := by
  intro heq
  have hd := congrArg String.data heq
  rw [calc_signature_data, calc_signature_data] at hd
  simp only [List.append_assoc, List.append_cancel_left_eq] at hd
  have hd2 : (",".intercalate (type_texts ps1)).data = (",".intercalate (type_texts ps2)).data :=
    List.append_cancel_right hd
  exact hne (intercalate_comma_injective _ _ h1 h2 hd2)

/-- C8 at the parameter lists of `f(int, float)` and `f(float, int)`. -/
theorem calc_signature_injective_witness :
    (∀ t ∈ type_texts [{ name := "a", type := { name := "int" }, default_value := "" },
        { name := "b", type := { name := "float" }, default_value := "" }],
      t ≠ "" ∧ ',' ∉ t.data)
    ∧ (∀ t ∈ type_texts [{ name := "a", type := { name := "float" }, default_value := "" },
        { name := "b", type := { name := "int" }, default_value := "" }],
      t ≠ "" ∧ ',' ∉ t.data)
    ∧ type_texts [{ name := "a", type := { name := "int" }, default_value := "" },
        { name := "b", type := { name := "float" }, default_value := "" }]
      ≠ type_texts [{ name := "a", type := { name := "float" }, default_value := "" },
        { name := "b", type := { name := "int" }, default_value := "" }]
    ∧ calc_signature [{ name := "a", type := { name := "int" }, default_value := "" },
        { name := "b", type := { name := "float" }, default_value := "" }] false
      ≠ calc_signature [{ name := "a", type := { name := "float" }, default_value := "" },
        { name := "b", type := { name := "int" }, default_value := "" }] false :=
  ⟨by decide, by decide, by decide,
    calc_signature_injective _ _ false (by decide) (by decide) (by decide)⟩

/-! ## The noexcept expression -/

theorem string_join_foldl (ts : List String) :
    ∀ acc : String, ts.foldl (fun r s => r ++ s) acc = acc ++ String.join ts := by
  induction ts with
  | nil => intro acc; simp [String.join]
  | cons t ts ih =>
    intro acc
    have h1 := ih (acc ++ t)
    have h2 := ih ("" ++ t)
    simp only [String.join, List.foldl_cons] at h1 h2 ⊢
    rw [h1, h2]
    simp [String.append_assoc]

theorem string_join_cons (t : String) (ts : List String) :
    String.join (t :: ts) = t ++ String.join ts := by
  have := string_join_foldl ts ("" ++ t)
  simp only [String.join, List.foldl_cons] at this ⊢
  rw [this]
  simp

theorem dropWhile_all_space (ws : List String)
    (h : ∀ w ∈ ws, starts_with_space w = true) : ws.dropWhile starts_with_space = [] := by
  induction ws with
  | nil => rfl
  | cons w ws ih =>
    rw [List.dropWhile_cons_of_pos (h w (List.mem_cons_self _ _))]
    exact ih (fun x hx => h x (List.mem_cons_of_mem _ hx))

theorem skip_whitespace_all_space (ws rest : List String)
    (h : ∀ w ∈ ws, starts_with_space w = true) (hr : starts_with_space (peek rest) = false) :
    skip_whitespace (ws ++ rest) = rest := by
  cases rest with
  | nil =>
    simp only [List.append_nil]
    induction ws with
    | nil => rfl
    | cons w ws ih =>
      simp only [skip_whitespace, h w (List.mem_cons_self _ _), if_true]
      exact ih (fun x hx => h x (List.mem_cons_of_mem _ hx))
  | cons t rest =>
    rw [skip_whitespace_append ws t rest (by simpa [peek] using hr), dropWhile_all_space ws h]
    rfl

theorem parse_noexcept_loop_balanced (rest : token_stream) :
    ∀ (inner : List String) (depth : Nat) (expression : String),
      balanced_from depth inner = true →
      parse_noexcept_loop (inner ++ ")" :: rest) (depth + 1) expression =
        .ok (expression ++ String.join inner, rest) := by
  intro inner
  induction inner with
  | nil =>
    intro depth expression hb
    simp only [balanced_from, decide_eq_true_eq] at hb
    subst hb
    simp [parse_noexcept_loop, String.join]
  | cons t inner ih =>
    intro depth expression hb
    rw [balanced_from] at hb
    simp only [List.cons_append]
    rw [parse_noexcept_loop, string_join_cons, ← String.append_assoc]
    by_cases h1 : t = "("
    · simp only [h1, if_true] at hb ⊢
      simp only [ne_eq, Nat.add_one_ne_zero, not_false_eq_true, if_true]
      exact ih (depth + 1) _ hb
    · by_cases h2 : t = ")"
      · have hne : ¬ (")" = "(") := by decide
        subst h2
        simp only [hne, if_false, if_true, Bool.and_eq_true, decide_eq_true_eq] at hb ⊢
        obtain ⟨d, rfl⟩ : ∃ d, depth = d + 1 := ⟨depth - 1, by omega⟩
        simp only [Nat.add_sub_cancel, ne_eq, Nat.add_one_ne_zero, not_false_eq_true, if_true]
        exact ih d _ (by simpa using hb.2)
      · simp only [h1, h2, if_false] at hb ⊢
        simp only [ne_eq, Nat.add_one_ne_zero, not_false_eq_true, if_true]
        exact ih depth _ hb

/-- C10: when the next lexeme that is no whitespace is `(` and its matching `)` follows
a balanced run of lexemes, `parse_noexcept` returns the concatenation of that run,
inner brackets and whitespace included, and leaves the stream right after the matching
`)`; when the next lexeme that is no whitespace is not `(`, it returns `true` and
consumes only the whitespace. -/
theorem parse_noexcept_expression (ws rest : List String)
    (hws : ∀ w ∈ ws, starts_with_space w = true) :
    (∀ inner : List String, balanced_from 0 inner = true →
      parse_noexcept (ws ++ "(" :: inner ++ ")" :: rest) = .ok (String.join inner, rest))
    ∧ (starts_with_space (peek rest) = false → peek rest ≠ "(" →
        parse_noexcept (ws ++ rest) = .ok ("true", rest))
    ∧ parse_noexcept ["(", "noexcept", "(", "g", "(", ")", ")", ")", ";"]
        = .ok ("noexcept(g())", [";"])
    ∧ parse_noexcept [" ", "(", "false", ")", " ", ";"] = .ok ("false", [" ", ";"]) := by
  refine ⟨?_, ?_, by decide, by decide⟩
  · intro inner hb
    have hsk : skip_whitespace (ws ++ "(" :: inner ++ ")" :: rest) =
        "(" :: (inner ++ ")" :: rest) := by
      have hp : starts_with_space (peek ("(" :: (inner ++ ")" :: rest))) = false := by
        simp only [peek, List.headD_cons]; decide
      have := skip_whitespace_all_space ws ("(" :: (inner ++ ")" :: rest)) hws hp
      simpa using this
    unfold parse_noexcept
    simp only [hsk, peek, List.headD_cons, if_true, bump]
    have := parse_noexcept_loop_balanced rest inner 0 "" hb
    simpa using this
  · intro hsp hne
    unfold parse_noexcept
    simp only [skip_whitespace_all_space ws rest hws hsp, hne, if_false]

/-- C10 at ` (noexcept(g())) = default` and at ` override;`. -/
theorem parse_noexcept_expression_witness :
    (∀ w ∈ [" "], starts_with_space w = true)
    ∧ balanced_from 0 ["noexcept", "(", "g", "(", ")", ")"] = true
    ∧ parse_noexcept ([" "] ++ "(" :: ["noexcept", "(", "g", "(", ")", ")"] ++ ")" :: [";"])
        = .ok (String.join ["noexcept", "(", "g", "(", ")", ")"], [";"])
    ∧ parse_noexcept ([" "] ++ ["override", ";"]) = .ok ("true", ["override", ";"]) :=
  ⟨by decide, by decide,
    (parse_noexcept_expression [" "] [";"] (by decide)).1
      ["noexcept", "(", "g", "(", ")", ")"] (by decide),
    (parse_noexcept_expression [" "] ["override", ";"] (by decide)).2.1 (by decide)
      (by decide)⟩

/-! ## The noexcept fields -/

/-- The noexcept fields of a Declaration Info. -/
theorem set_flag_noexcept (info : cpp_function_info) (flag : cpp_function_flags) :
    (info.set_flag flag).explicit_noexcept = info.explicit_noexcept
    ∧ (info.set_flag flag).noexcept_expression = info.noexcept_expression
    ∧ (info.set_flag flag).definition = info.definition := by
  cases flag <;> exact ⟨rfl, rfl, rfl⟩

theorem prefix_step_noexcept (name : String) (st res : prefix_state) (b : Bool)
    (h : parse_member_function_prefix_step name st = .ok (b, res)) :
    res.finfo.explicit_noexcept = st.finfo.explicit_noexcept
    ∧ res.finfo.noexcept_expression = st.finfo.noexcept_expression
    ∧ res.finfo.definition = st.finfo.definition := by
  unfold parse_member_function_prefix_step at h
  by_cases c0 : (skip_if_token st.stream name).1 = true
  · rw [if_pos c0] at h; cases h; exact ⟨rfl, rfl, rfl⟩
  rw [if_neg c0] at h
  cases hsa : skip_attribute st.stream with
  | error e => rw [hsa] at h; cases h
  | ok s =>
    rw [hsa] at h
    dsimp only at h
    by_cases c1 : (skip_if_token s "extern").1 = true
    · rw [if_pos c1] at h; cases h; exact ⟨rfl, rfl, rfl⟩
    rw [if_neg c1] at h
    by_cases c2 : (skip_if_token s "static").1 = true
    · rw [if_pos c2] at h; cases h; exact ⟨rfl, rfl, rfl⟩
    rw [if_neg c2] at h
    by_cases c3 : (skip_if_token s "constexpr").1 = true
    · rw [if_pos c3] at h; cases h; exact set_flag_noexcept _ _
    rw [if_neg c3] at h
    by_cases c4 : (skip_if_token s "virtual").1 = true
    · rw [if_pos c4] at h; cases h; exact ⟨rfl, rfl, rfl⟩
    rw [if_neg c4] at h
    by_cases c5 : (!st.allow_auto && (skip_if_token s "auto").1) = true
    · rw [if_pos c5] at h; cases h; exact ⟨rfl, rfl, rfl⟩
    rw [if_neg c5] at h
    by_cases c6 : (skip_if_token s "operator").1 = true
    · rw [if_pos c6] at h
      cases ho : operator_name_loop (skip_if_token s "operator").2
          (name.data.drop "operator".length) with
      | error e => rw [ho] at h; cases h
      | ok s2 => rw [ho] at h; cases h; exact ⟨rfl, rfl, rfl⟩
    rw [if_neg c6] at h
    cases hg : get s with
    | error e => rw [hg] at h; cases h
    | ok w =>
      obtain ⟨t, s2⟩ := w
      rw [hg] at h
      cases h
      exact ⟨rfl, rfl, rfl⟩

theorem prefix_loop_noexcept (name : String) (fuel : Nat) :
    ∀ (st res : prefix_state), parse_member_function_prefix_loop name fuel st = .ok res →
      res.finfo.explicit_noexcept = st.finfo.explicit_noexcept
      ∧ res.finfo.noexcept_expression = st.finfo.noexcept_expression
      ∧ res.finfo.definition = st.finfo.definition := by
  induction fuel with
  | zero => intro st res h; simp [parse_member_function_prefix_loop] at h
  | succ n ih =>
    intro st res h
    rw [parse_member_function_prefix_loop] at h
    cases hs : parse_member_function_prefix_step name st with
    | error e => rw [hs] at h; cases h
    | ok v =>
      obtain ⟨b, st1⟩ := v
      rw [hs] at h
      have f1 := prefix_step_noexcept name st st1 b hs
      cases b with
      | true => cases h; exact f1
      | false =>
        have f2 := ih st1 res h
        exact ⟨f2.1.trans f1.1, f2.2.1.trans f1.2.1, f2.2.2.trans f1.2.2⟩

theorem conversion_op_loop_noexcept (fuel : Nat) :
    ∀ (stream s2 : token_stream) (finfo f2 : cpp_function_info)
      (minfo m2 : cpp_member_function_info),
      cpp_conversion_op.parse_loop fuel stream finfo minfo = .ok (s2, f2, m2) →
      f2.explicit_noexcept = finfo.explicit_noexcept
      ∧ f2.noexcept_expression = finfo.noexcept_expression
      ∧ f2.definition = finfo.definition := by
  induction fuel with
  | zero => intro stream s2 finfo f2 minfo m2 h; simp [cpp_conversion_op.parse_loop] at h
  | succ n ih =>
    intro stream s2 finfo f2 minfo m2 h
    rw [cpp_conversion_op.parse_loop] at h
    by_cases c0 : (skip_if_token stream "operator").1 = true
    · rw [if_pos c0] at h; cases h; exact ⟨rfl, rfl, rfl⟩
    rw [if_neg c0] at h
    cases hsa : skip_attribute stream with
    | error e => rw [hsa] at h; cases h
    | ok s =>
      rw [hsa] at h
      dsimp only at h
      by_cases c1 : (skip_if_token s "explicit").1 = true
      · rw [if_pos c1] at h
        have r := ih _ _ _ _ _ _ h
        have f := set_flag_noexcept finfo cpp_explicit_conversion
        exact ⟨r.1.trans f.1, r.2.1.trans f.2.1, r.2.2.trans f.2.2⟩
      rw [if_neg c1] at h
      by_cases c2 : (skip_if_token s "constexpr").1 = true
      · rw [if_pos c2] at h
        have r := ih _ _ _ _ _ _ h
        have f := set_flag_noexcept finfo cpp_constexpr_fnc
        exact ⟨r.1.trans f.1, r.2.1.trans f.2.1, r.2.2.trans f.2.2⟩
      rw [if_neg c2] at h
      by_cases c3 : (skip_if_token s "virtual").1 = true
      · rw [if_pos c3] at h
        exact ih _ _ _ _ _ _ h
      rw [if_neg c3] at h
      by_cases c4 : (!starts_with_space (peek s)) = true
      · rw [if_pos c4] at h
        cases hg : get s with
        | error e => rw [hg] at h; cases h
        | ok w => rw [hg] at h; cases h
      rw [if_neg c4] at h
      cases hg : get s with
      | error e => rw [hg] at h; cases h
      | ok w =>
        obtain ⟨t, s3⟩ := w
        rw [hg] at h
        exact ih _ _ _ _ _ _ h

theorem constructor_loop_noexcept (name : String) (fuel : Nat) :
    ∀ (stream s2 : token_stream) (info i2 : cpp_function_info),
      cpp_constructor.parse_loop name fuel stream info = .ok (s2, i2) →
      i2.explicit_noexcept = info.explicit_noexcept
      ∧ i2.noexcept_expression = info.noexcept_expression
      ∧ i2.definition = info.definition := by
  induction fuel with
  | zero => intro stream s2 info i2 h; simp [cpp_constructor.parse_loop] at h
  | succ n ih =>
    intro stream s2 info i2 h
    rw [cpp_constructor.parse_loop] at h
    by_cases c0 : (skip_if_token stream name).1 = true
    · rw [if_pos c0] at h; cases h; exact ⟨rfl, rfl, rfl⟩
    rw [if_neg c0] at h
    cases hsa : skip_attribute stream with
    | error e => rw [hsa] at h; cases h
    | ok s =>
      rw [hsa] at h
      dsimp only at h
      by_cases c1 : (skip_if_token s "explicit").1 = true
      · rw [if_pos c1] at h
        have r := ih _ _ _ _ h
        have f := set_flag_noexcept info cpp_explicit_conversion
        exact ⟨r.1.trans f.1, r.2.1.trans f.2.1, r.2.2.trans f.2.2⟩
      rw [if_neg c1] at h
      by_cases c2 : (skip_if_token s "constexpr").1 = true
      · rw [if_pos c2] at h
        have r := ih _ _ _ _ h
        have f := set_flag_noexcept info cpp_constexpr_fnc
        exact ⟨r.1.trans f.1, r.2.1.trans f.2.1, r.2.2.trans f.2.2⟩
      rw [if_neg c2] at h
      by_cases c4 : (!starts_with_space (peek s)) = true
      · rw [if_pos c4] at h
        cases hg : get s with
        | error e => rw [hg] at h; cases h
        | ok w => rw [hg] at h; cases h
      rw [if_neg c4] at h
      cases hg : get s with
      | error e => rw [hg] at h; cases h
      | ok w =>
        obtain ⟨t, s3⟩ := w
        rw [hg] at h
        exact ih _ _ _ _ h

/-- Without a lexeme `noexcept` in the stream the suffix resolver leaves the noexcept
fields as they are. -/
theorem suffix_noexcept_absent (stream : token_stream) (finfo : cpp_function_info)
    (minfo : cpp_member_function_info) (suf : suffix_state)
    (hno : "noexcept" ∉ stream)
    (h : parse_member_function_suffix stream finfo minfo = .ok suf) :
    suf.finfo.explicit_noexcept = finfo.explicit_noexcept
    ∧ suf.finfo.noexcept_expression = finfo.noexcept_expression := by
  unfold parse_member_function_suffix at h
  cases hl : parse_member_function_suffix_loop (stream.length + 1)
      { stream := stream, trailing_return_type := "", special_definition := false,
        finfo := finfo, minfo := minfo } with
  | error e => rw [hl] at h; cases h
  | ok st =>
    rw [hl] at h
    dsimp only at h
    have hf := (suffix_loop_frame _ _ _ hl).2.2.2.2.2 hno
    dsimp only at hf
    unfold parse_member_function_suffix_end at h
    by_cases hsp : st.special_definition = true
    · rw [if_pos hsp] at h
      cases hp : parse_special_definition st.stream with
      | error e => rw [hp] at h; cases h
      | ok w =>
        obtain ⟨d, s2⟩ := w
        rw [hp] at h
        dsimp only at h
        split_ifs at h <;> cases h <;> simp [hf]
    · rw [if_neg hsp] at h
      cases h
      rw [hf]
      exact ⟨rfl, rfl⟩

theorem parse_member_function_noexcept (stream : token_stream) (name : String)
    (suffix : token_stream) (res : member_function_result)
    (hs : member_function_suffix_stream stream name = .ok suffix)
    (hno : "noexcept" ∉ suffix)
    (h : parse_member_function stream name "" {} {} = .ok res) :
    res.finfo.explicit_noexcept = false ∧ res.finfo.noexcept_expression = "false" := by
  unfold member_function_suffix_stream at hs
  unfold parse_member_function at h
  cases h1 : skip_template_parameter_declaration stream with
  | error e => rw [h1] at h; cases h
  | ok s1 =>
    rw [h1] at h hs
    dsimp only at h hs
    cases h2 : parse_member_function_prefix s1 name {} {} with
    | error e => rw [h2] at h; cases h
    | ok pre =>
      rw [h2] at h hs
      dsimp only at h hs
      have hpre := prefix_loop_noexcept name _ _ _ h2
      cases h3 : skip_template_arguments pre.stream "" (is_function_ptr pre.return_type) with
      | error e => rw [h3] at h; cases h
      | ok w =>
        obtain ⟨args, s3⟩ := w
        rw [h3] at h hs
        dsimp only at h hs
        cases h4 : skip_parameters s3 with
        | error e => rw [h4] at h; cases h
        | ok w =>
          obtain ⟨variadic, s4⟩ := w
          rw [h4] at h hs
          dsimp only at h hs
          have hs4 : s4 = suffix := by injection hs
          rw [← hs4] at hno
          cases h5 : parse_member_function_suffix s4
              (if variadic = true then pre.finfo.set_flag cpp_variadic_fnc else pre.finfo)
              pre.minfo with
          | error e => rw [h5] at h; cases h
          | ok suf =>
            rw [h5] at h
            dsimp only at h
            have hsuf := suffix_noexcept_absent _ _ _ _ hno h5
            have hfi : (if variadic = true then pre.finfo.set_flag cpp_variadic_fnc
                else pre.finfo).explicit_noexcept = false
                ∧ (if variadic = true then pre.finfo.set_flag cpp_variadic_fnc
                else pre.finfo).noexcept_expression = "" := by
              split_ifs
              · exact ⟨(set_flag_noexcept _ _).1.trans hpre.1,
                  (set_flag_noexcept _ _).2.1.trans hpre.2.1⟩
              · exact ⟨hpre.1, hpre.2.1⟩
            have e1 : suf.finfo.explicit_noexcept = false := hsuf.1.trans hfi.1
            have e2 : suf.finfo.noexcept_expression = "" := hsuf.2.trans hfi.2
            cases h
            simp [e1, e2]

theorem cpp_function_noexcept (stream : token_stream) (cur : cpp_cursor)
    (suffix : token_stream) (r : cpp_function)
    (hs : member_function_suffix_stream stream cur.name = .ok suffix)
    (hno : "noexcept" ∉ suffix) (h : cpp_function.parse stream cur = .ok r) :
    r.info.explicit_noexcept = false ∧ r.info.noexcept_expression = "false" := by
  unfold cpp_function.parse at h
  cases h1 : parse_member_function stream cur.name "" {} {} with
  | error e => rw [h1] at h; cases h
  | ok res =>
    rw [h1] at h
    dsimp only at h
    have key := parse_member_function_noexcept stream cur.name suffix res hs hno h1
    by_cases c1 : is_virtual res.minfo.virtual_flag = true
    · rw [if_pos c1] at h; cases h
    rw [if_neg c1] at h
    by_cases c2 : res.minfo.cv_qualifier ≠ cpp_cv_none
    · rw [if_pos c2] at h; cases h
    rw [if_neg c2] at h
    by_cases c3 : res.minfo.ref_qualifier ≠ cpp_ref_none
    · rw [if_pos c3] at h; cases h
    rw [if_neg c3] at h
    cases h2 : parse_parameters cur with
    | error e => rw [h2] at h; cases h
    | ok ps => rw [h2] at h; cases h; exact key

theorem cpp_member_function_noexcept (stream : token_stream) (cur : cpp_cursor)
    (suffix : token_stream) (r : cpp_member_function)
    (hs : member_function_suffix_stream stream cur.name = .ok suffix)
    (hno : "noexcept" ∉ suffix) (h : cpp_member_function.parse stream cur = .ok r) :
    r.finfo.explicit_noexcept = false ∧ r.finfo.noexcept_expression = "false" := by
  unfold cpp_member_function.parse at h
  cases h1 : parse_member_function stream cur.name "" {} {} with
  | error e => rw [h1] at h; cases h
  | ok res =>
    rw [h1] at h
    dsimp only at h
    have key := parse_member_function_noexcept stream cur.name suffix res hs hno h1
    cases h2 : parse_parameters cur with
    | error e => rw [h2] at h; cases h
    | ok ps => rw [h2] at h; cases h; exact key

theorem cpp_conversion_op_noexcept (stream : token_stream) (cur : cpp_cursor)
    (suffix : token_stream) (r : cpp_conversion_op)
    (hs : conversion_op_suffix_stream stream = .ok suffix)
    (hno : "noexcept" ∉ suffix) (h : cpp_conversion_op.parse stream cur = .ok r) :
    r.finfo.explicit_noexcept = false ∧ r.finfo.noexcept_expression = "false" := by
  unfold conversion_op_suffix_stream at hs
  unfold cpp_conversion_op.parse at h
  cases h0 : parse_conversion_op_type cur with
  | error e => rw [h0] at h; cases h
  | ok type =>
    rw [h0] at h
    dsimp only at h
    cases h1 : skip_template_parameter_declaration stream with
    | error e => rw [h1] at h; cases h
    | ok s1 =>
      rw [h1] at h hs
      dsimp only at h hs
      cases h2 : cpp_conversion_op.parse_loop (s1.length + 1) s1 {} {} with
      | error e => rw [h2] at h; cases h
      | ok w =>
        obtain ⟨s2, finfo, minfo⟩ := w
        rw [h2] at h hs
        dsimp only at h hs
        have hpre := conversion_op_loop_noexcept _ _ _ _ _ _ _ h2
        cases h2b : cpp_conversion_op.skip_until_parameters s2 with
        | error e => rw [h2b] at h; cases h
        | ok s2b =>
          rw [h2b] at h hs
          dsimp only at h hs
          cases h3 : skip_template_arguments s2b "" false with
          | error e => rw [h3] at h; cases h
          | ok w =>
            obtain ⟨args, s3⟩ := w
            rw [h3] at h hs
            dsimp only at h hs
            cases h4 : skip_parameters s3 with
            | error e => rw [h4] at h; cases h
            | ok w =>
              obtain ⟨variadic, s4⟩ := w
              rw [h4] at h hs
              dsimp only at h hs
              have hs4 : s4 = suffix := by injection hs
              rw [← hs4] at hno
              by_cases cv : variadic = true
              · rw [if_pos cv] at h; cases h
              rw [if_neg cv] at h
              cases h5 : parse_member_function_suffix s4 finfo minfo with
              | error e => rw [h5] at h; cases h
              | ok suf =>
                rw [h5] at h
                dsimp only at h
                have hsuf := suffix_noexcept_absent _ _ _ _ hno h5
                have e1 : suf.finfo.explicit_noexcept = false := hsuf.1.trans hpre.1
                have e2 : suf.finfo.noexcept_expression = "" := hsuf.2.trans hpre.2.1
                by_cases ct : suf.trailing_return_type ≠ ""
                · rw [if_pos ct] at h; cases h
                rw [if_neg ct] at h
                cases h
                simp [e1, e2]

theorem cpp_constructor_noexcept (stream : token_stream) (cur : cpp_cursor)
    (suffix : token_stream) (r : cpp_constructor)
    (hs : constructor_suffix_stream stream cur = .ok suffix)
    (hno : "noexcept" ∉ suffix) (h : cpp_constructor.parse stream cur = .ok r) :
    r.info.explicit_noexcept = false ∧ r.info.noexcept_expression = "false" := by
  unfold constructor_suffix_stream at hs
  unfold cpp_constructor.parse at h
  cases h1 : skip_template_parameter_declaration stream with
  | error e => rw [h1] at h; cases h
  | ok s1 =>
    rw [h1] at h hs
    dsimp only at h hs
    cases h2 : cpp_constructor.parse_loop (erase_template_args cur.name) (s1.length + 1)
        s1 {} with
    | error e => rw [h2] at h; cases h
    | ok w =>
      obtain ⟨s2, info⟩ := w
      rw [h2] at h hs
      dsimp only at h hs
      have hpre := constructor_loop_noexcept _ _ _ _ _ _ h2
      cases h3 : skip_template_arguments s2 "" false with
      | error e => rw [h3] at h; cases h
      | ok w =>
        obtain ⟨args, s3⟩ := w
        rw [h3] at h hs
        dsimp only at h hs
        cases h4 : skip_parameters s3 with
        | error e => rw [h4] at h; cases h
        | ok w =>
          obtain ⟨variadic, s4⟩ := w
          rw [h4] at h hs
          dsimp only at h hs
          have hs4 : s4 = suffix := by injection hs
          rw [← hs4] at hno
          cases h5 : cpp_constructor.suffix_loop (s4.length + 1) s4 false
              (if variadic = true then info.set_flag cpp_variadic_fnc else info) with
          | error e => rw [h5] at h; cases h
          | ok w =>
            obtain ⟨s5, sp, info5⟩ := w
            rw [h5] at h
            dsimp only at h
            have hl := (constructor_suffix_loop_frame _ _ _ _ _ _ _ h5).2.2.2.2.2 hno
            have hfi : (if variadic = true then info.set_flag cpp_variadic_fnc
                else info).explicit_noexcept = false := by
              split_ifs
              · exact (set_flag_noexcept _ _).1.trans hpre.1
              · exact hpre.1
            have e1 : info5.explicit_noexcept = false := by rw [hl]; exact hfi
            by_cases hsp : sp = true
            · rw [if_pos hsp] at h
              cases hp : parse_special_definition s5 with
              | error e => rw [hp] at h; cases h
              | ok w =>
                obtain ⟨d, s6⟩ := w
                rw [hp] at h
                dsimp only at h
                by_cases hd : d = cpp_function_definition_normal
                · rw [if_pos hd] at h; cases h
                · rw [if_neg hd] at h
                  dsimp only at h
                  cases hpp : parse_parameters cur with
                  | error e => rw [hpp] at h; cases h
                  | ok ps => rw [hpp] at h; cases h; simp [e1]
            · rw [if_neg hsp] at h
              dsimp only at h
              cases hpp : parse_parameters cur with
              | error e => rw [hpp] at h; cases h
              | ok ps => rw [hpp] at h; cases h; simp [e1]

theorem cpp_destructor_noexcept (stream : token_stream) (cur : cpp_cursor)
    (suffix : token_stream) (r : cpp_destructor)
    (hs : destructor_suffix_stream stream cur = .ok suffix)
    (hno : "noexcept" ∉ suffix) (h : cpp_destructor.parse stream cur = .ok r) :
    r.info.explicit_noexcept = false ∧ r.info.noexcept_expression = "true" := by
  unfold destructor_suffix_stream at hs
  unfold cpp_destructor.parse at h
  dsimp only at h
  cases h1 : cpp_destructor.parse_head stream (erase_template_args cur.name) with
  | error e => rw [h1] at h; cases h
  | ok w =>
    obtain ⟨s1, info, v⟩ := w
    rw [h1] at h hs
    dsimp only at h hs
    have hs4 : s1 = suffix := by injection hs
    rw [← hs4] at hno
    have hh := destructor_parse_head_definition _ _ _ _ _ h1
    cases h5 : cpp_destructor.suffix_loop (s1.length + 1) s1 false info v with
    | error e => rw [h5] at h; cases h
    | ok w =>
      obtain ⟨s5, sp, info5, v5⟩ := w
      rw [h5] at h
      dsimp only at h
      have hl := (destructor_suffix_loop_frame _ _ _ _ _ _ _ _ _ h5).2.2.2.2.2 hno
      have e1 : info5.explicit_noexcept = false := by rw [hl]; exact hh.2.1
      by_cases hsp : sp = true
      · rw [if_pos hsp] at h
        cases hp : parse_special_definition s5 with
        | error e => rw [hp] at h; cases h
        | ok w =>
          obtain ⟨d, s6⟩ := w
          rw [hp] at h
          dsimp only at h
          by_cases hd : d = cpp_function_definition_normal
          · rw [if_pos hd] at h; cases h; simp [e1]
          · rw [if_neg hd] at h; cases h; simp [e1]
      · rw [if_neg hsp] at h
        cases h
        simp [e1]

/-- C9: for each of the five kinds of declaration, when the suffix of the declaration
holds no lexeme `noexcept`, the record that the parse builds has has-explicit-noexcept
false and the noexcept-expression `false` (function, member function, conversion
operator, constructor) or `true` (destructor); so has-explicit-noexcept is true only
if the suffix holds a lexeme `noexcept`. -/
theorem noexcept_absent_defaults (stream : token_stream) (cur : cpp_cursor)
    (suffix : token_stream) :
    (member_function_suffix_stream stream cur.name = .ok suffix →
      (∀ r, cpp_function.parse stream cur = .ok r →
        ("noexcept" ∉ suffix →
          r.info.explicit_noexcept = false ∧ r.info.noexcept_expression = "false")
        ∧ (r.info.explicit_noexcept = true → "noexcept" ∈ suffix))
      ∧ (∀ r, cpp_member_function.parse stream cur = .ok r →
        ("noexcept" ∉ suffix →
          r.finfo.explicit_noexcept = false ∧ r.finfo.noexcept_expression = "false")
        ∧ (r.finfo.explicit_noexcept = true → "noexcept" ∈ suffix)))
    ∧ (conversion_op_suffix_stream stream = .ok suffix →
      ∀ r, cpp_conversion_op.parse stream cur = .ok r →
        ("noexcept" ∉ suffix →
          r.finfo.explicit_noexcept = false ∧ r.finfo.noexcept_expression = "false")
        ∧ (r.finfo.explicit_noexcept = true → "noexcept" ∈ suffix))
    ∧ (constructor_suffix_stream stream cur = .ok suffix →
      ∀ r, cpp_constructor.parse stream cur = .ok r →
        ("noexcept" ∉ suffix →
          r.info.explicit_noexcept = false ∧ r.info.noexcept_expression = "false")
        ∧ (r.info.explicit_noexcept = true → "noexcept" ∈ suffix))
    ∧ (destructor_suffix_stream stream cur = .ok suffix →
      ∀ r, cpp_destructor.parse stream cur = .ok r →
        ("noexcept" ∉ suffix →
          r.info.explicit_noexcept = false ∧ r.info.noexcept_expression = "true")
        ∧ (r.info.explicit_noexcept = true → "noexcept" ∈ suffix)) := by
  refine ⟨fun hs => ⟨fun r h => ⟨fun hno => ?_, fun he => ?_⟩,
      fun r h => ⟨fun hno => ?_, fun he => ?_⟩⟩,
    fun hs r h => ⟨fun hno => ?_, fun he => ?_⟩,
    fun hs r h => ⟨fun hno => ?_, fun he => ?_⟩,
    fun hs r h => ⟨fun hno => ?_, fun he => ?_⟩⟩
  · exact cpp_function_noexcept stream cur suffix r hs hno h
  · by_contra hno
    have := (cpp_function_noexcept stream cur suffix r hs hno h).1
    rw [he] at this; cases this
  · exact cpp_member_function_noexcept stream cur suffix r hs hno h
  · by_contra hno
    have := (cpp_member_function_noexcept stream cur suffix r hs hno h).1
    rw [he] at this; cases this
  · exact cpp_conversion_op_noexcept stream cur suffix r hs hno h
  · by_contra hno
    have := (cpp_conversion_op_noexcept stream cur suffix r hs hno h).1
    rw [he] at this; cases this
  · exact cpp_constructor_noexcept stream cur suffix r hs hno h
  · by_contra hno
    have := (cpp_constructor_noexcept stream cur suffix r hs hno h).1
    rw [he] at this; cases this
  · exact cpp_destructor_noexcept stream cur suffix r hs hno h
  · by_contra hno
    have := (cpp_destructor_noexcept stream cur suffix r hs hno h).1
    rw [he] at this; cases this

/-- C9 at `void f() ;` as a function and a member function, `operator bool() const;`,
`foo(int a);` and `~foo() override;`. -/
theorem noexcept_absent_defaults_witness :
    (member_function_suffix_stream ["void", " ", "f", "(", ")", " ", ";"] "f" = .ok [" ", ";"]
      ∧ "noexcept" ∉ [" ", ";"]
      ∧ (∀ r, cpp_function.parse ["void", " ", "f", "(", ")", " ", ";"] { name := "f" } = .ok r →
          r.info.explicit_noexcept = false ∧ r.info.noexcept_expression = "false")
      ∧ (∃ r, cpp_function.parse ["void", " ", "f", "(", ")", " ", ";"] { name := "f" } = .ok r)
      ∧ (∀ r, cpp_member_function.parse ["void", " ", "f", "(", ")", " ", ";"] { name := "f" }
            = .ok r →
          r.finfo.explicit_noexcept = false ∧ r.finfo.noexcept_expression = "false")
      ∧ (∃ r, cpp_member_function.parse ["void", " ", "f", "(", ")", " ", ";"] { name := "f" }
            = .ok r))
    ∧ (conversion_op_suffix_stream ["operator", " ", "bool", "(", ")", " ", "const", ";"]
          = .ok [" ", "const", ";"]
      ∧ "noexcept" ∉ [" ", "const", ";"]
      ∧ (∀ r, cpp_conversion_op.parse ["operator", " ", "bool", "(", ")", " ", "const", ";"]
            { name := "operator bool" } = .ok r →
          r.finfo.explicit_noexcept = false ∧ r.finfo.noexcept_expression = "false")
      ∧ (∃ r, cpp_conversion_op.parse ["operator", " ", "bool", "(", ")", " ", "const", ";"]
            { name := "operator bool" } = .ok r))
    ∧ (constructor_suffix_stream ["foo", "(", "int", " ", "a", ")", ";"]
          { name := "foo", children := [⟨true, "a", ["int", " ", "a", ";"]⟩] } = .ok [";"]
      ∧ "noexcept" ∉ [";"]
      ∧ (∀ r, cpp_constructor.parse ["foo", "(", "int", " ", "a", ")", ";"]
            { name := "foo", children := [⟨true, "a", ["int", " ", "a", ";"]⟩] } = .ok r →
          r.info.explicit_noexcept = false ∧ r.info.noexcept_expression = "false")
      ∧ (∃ r, cpp_constructor.parse ["foo", "(", "int", " ", "a", ")", ";"]
            { name := "foo", children := [⟨true, "a", ["int", " ", "a", ";"]⟩] } = .ok r))
    ∧ (destructor_suffix_stream ["~", "foo", "(", ")", " ", "override", ";"] { name := "~foo" }
          = .ok ["override", ";"]
      ∧ "noexcept" ∉ ["override", ";"]
      ∧ (∀ r, cpp_destructor.parse ["~", "foo", "(", ")", " ", "override", ";"]
            { name := "~foo" } = .ok r →
          r.info.explicit_noexcept = false ∧ r.info.noexcept_expression = "true")
      ∧ (∃ r, cpp_destructor.parse ["~", "foo", "(", ")", " ", "override", ";"]
            { name := "~foo" } = .ok r)) :=
  ⟨⟨by decide, by decide,
      fun r h => (((noexcept_absent_defaults ["void", " ", "f", "(", ")", " ", ";"]
        { name := "f" } [" ", ";"]).1 (by decide)).1 r h).1 (by decide),
      ⟨_, rfl⟩,
      fun r h => (((noexcept_absent_defaults ["void", " ", "f", "(", ")", " ", ";"]
        { name := "f" } [" ", ";"]).1 (by decide)).2 r h).1 (by decide),
      ⟨_, rfl⟩⟩,
    ⟨by decide, by decide,
      fun r h => ((noexcept_absent_defaults ["operator", " ", "bool", "(", ")", " ", "const", ";"]
        { name := "operator bool" } [" ", "const", ";"]).2.1 (by decide) r h).1 (by decide),
      ⟨_, rfl⟩⟩,
    ⟨by decide, by decide,
      fun r h => ((noexcept_absent_defaults ["foo", "(", "int", " ", "a", ")", ";"]
        { name := "foo", children := [⟨true, "a", ["int", " ", "a", ";"]⟩] }
        [";"]).2.2.1 (by decide) r h).1 (by decide),
      ⟨_, rfl⟩⟩,
    ⟨by decide, by decide,
      fun r h => ((noexcept_absent_defaults ["~", "foo", "(", ")", " ", "override", ";"]
        { name := "~foo" } ["override", ";"]).2.2.2 (by decide) r h).1 (by decide),
      ⟨_, rfl⟩⟩⟩

/-! ## Special definitions, lexeme by lexeme -/

theorem parse_special_definition_cons (t : String) (rest : token_stream) :
    parse_special_definition (t :: rest) =
      (if t = "default" then .ok (cpp_function_definition_defaulted, rest)
       else if t = "delete" then .ok (cpp_function_definition_deleted, rest)
       else if t = "0" then .ok (cpp_function_definition_normal, rest)
       else .error (.parse_error ("unknown function definition \'= " ++ t ++ "\'"))) := by
  simp [parse_special_definition, get]

/-- C16: on the lexeme after `=`, `parse_special_definition` gives defaulted for `default`,
deleted for `delete` and normal for `0`, with the lexeme consumed; for every other
lexeme it raises the parse error `unknown function definition '= <lexeme>'`.  So it
succeeds iff the lexeme is one of the three. -/
theorem parse_special_definition_lexeme (t : String) (rest : token_stream) :
    parse_special_definition (t :: rest) =
        (if t = "default" then .ok (cpp_function_definition_defaulted, rest)
         else if t = "delete" then .ok (cpp_function_definition_deleted, rest)
         else if t = "0" then .ok (cpp_function_definition_normal, rest)
         else .error (.parse_error ("unknown function definition \'= " ++ t ++ "\'")))
    ∧ ((∃ r, parse_special_definition (t :: rest) = .ok r)
        ↔ (t = "default" ∨ t = "delete" ∨ t = "0")) := by
  have h : parse_special_definition (t :: rest) =
      (if t = "default" then .ok (cpp_function_definition_defaulted, rest)
       else if t = "delete" then .ok (cpp_function_definition_deleted, rest)
       else if t = "0" then .ok (cpp_function_definition_normal, rest)
       else .error (.parse_error ("unknown function definition \'= " ++ t ++ "\'"))) := by
    simp [parse_special_definition, get]
  refine ⟨h, ?_⟩
  rw [h]
  constructor
  · rintro ⟨r, hr⟩
    by_cases h1 : t = "default"
    · exact Or.inl h1
    by_cases h2 : t = "delete"
    · exact Or.inr (Or.inl h2)
    by_cases h3 : t = "0"
    · exact Or.inr (Or.inr h3)
    simp [h1, h2, h3] at hr
  · rintro (h1 | h1 | h1) <;> subst h1 <;> simp

/-! ## The parameter records -/

theorem parse_parameters_visit_eq (n : Int) :
    ∀ (children : List child_cursor) (i : Int) (acc : List cpp_function_parameter),
      parse_parameters_visit n children i acc =
        (((children.filter (fun c => c.is_parm_decl)).drop (n - i).toNat).mapM
            cpp_function_parameter.parse).map (fun ps => acc ++ ps) := by
  intro children
  induction children with
  | nil =>
    intro i acc
    simp only [parse_parameters_visit, List.filter_nil, List.drop_nil, List.mapM_nil]
    simp [Except.map, pure, Except.pure]
  | cons c cs ih =>
    intro i acc
    rw [parse_parameters_visit]
    by_cases hp : c.is_parm_decl = true
    · simp only [hp, if_true, List.filter_cons_of_pos]
      by_cases hi : i ≥ n
      · have h0 : (n - i).toNat = 0 := by omega
        have h1 : (n - (i + 1)).toNat = 0 := by omega
        simp only [hi, if_true, h0, List.drop_zero, List.mapM_cons]
        cases hc : cpp_function_parameter.parse c with
        | error e => simp [bind, Except.bind, Except.map]
        | ok p =>
          simp only [ih, h1, List.drop_zero]
          cases hm : List.mapM cpp_function_parameter.parse
              (List.filter (fun c => c.is_parm_decl) cs) with
          | error e => simp [bind, Except.bind, Except.map]
          | ok ps => simp [bind, Except.bind, Except.map, pure, Except.pure]
      · have h0 : (n - i).toNat = (n - (i + 1)).toNat + 1 := by omega
        simp only [hi, if_false, ih, h0, List.drop_succ_cons]
    · have hp2 : c.is_parm_decl = false := by simpa using hp
      simp only [hp2, Bool.false_eq_true, if_false, ih]
      rw [List.filter_cons_of_neg (by simp [hp2])]

/-- C13: `parse_parameters` attaches, in child order, the record of every child that is a
parameter declaration except the first n of them, n being the number of argument types
reported for the pointee of the result type (0 when that is -1); other children are
skipped and do not count.  For `int (*f(int))(double)`, with two parameter children and
n = 1, one record is attached. -/
theorem parse_parameters_records (cur : cpp_cursor) :
    parse_parameters cur =
        ((cur.children.filter (fun c => c.is_parm_decl)).drop
            (if cur.result_pointee_num_arg_types = -1 then 0
             else cur.result_pointee_num_arg_types).toNat).mapM cpp_function_parameter.parse
    ∧ parse_parameters
        { name := "f", result_pointee_num_arg_types := 1,
          children := [⟨true, "", ["double", ";"]⟩, ⟨false, "x", []⟩,
                       ⟨true, "", ["int", ";"]⟩] }
      = .ok [{ name := "", type := { name := "int" }, default_value := "" }] := by
  refine ⟨?_, by decide⟩
  unfold parse_parameters
  rw [parse_parameters_visit_eq]
  simp only [Int.sub_zero, List.nil_append]
  cases List.mapM cpp_function_parameter.parse
      (List.drop (if cur.result_pointee_num_arg_types = -1 then 0
        else cur.result_pointee_num_arg_types).toNat
        (List.filter (fun c => c.is_parm_decl) cur.children)) <;> rfl

/-! ## Free functions carry no member qualifier -/

/-- C14: when the scanners recover for a free function a cv-qualifier, a ref-qualifier or
a virtual-kind other than none, `cpp_function.parse` ends in a parse error and gives no
record; a record is given only when all three are none. -/
theorem cpp_function_parse_rejects_qualifiers (stream : token_stream) (cur : cpp_cursor)
    (res : member_function_result)
    (h : parse_member_function stream cur.name "" {} {} = .ok res) :
    ((res.minfo.cv_qualifier ≠ cpp_cv_none ∨ res.minfo.ref_qualifier ≠ cpp_ref_none
        ∨ res.minfo.virtual_flag ≠ cpp_virtual_none) →
      (∃ msg, cpp_function.parse stream cur = .error (.parse_error msg))
      ∧ ∀ r, cpp_function.parse stream cur ≠ .ok r)
    ∧ ∀ r, cpp_function.parse stream cur = .ok r →
        res.minfo.cv_qualifier = cpp_cv_none ∧ res.minfo.ref_qualifier = cpp_ref_none
          ∧ res.minfo.virtual_flag = cpp_virtual_none := by
  have key : (res.minfo.cv_qualifier ≠ cpp_cv_none ∨ res.minfo.ref_qualifier ≠ cpp_ref_none
        ∨ res.minfo.virtual_flag ≠ cpp_virtual_none) →
      ∃ msg, cpp_function.parse stream cur = .error (.parse_error msg) := by
    intro hq
    unfold cpp_function.parse
    rw [h]
    dsimp only
    by_cases hv : is_virtual res.minfo.virtual_flag = true
    · rw [if_pos hv]; exact ⟨_, rfl⟩
    rw [if_neg hv]
    by_cases hc : res.minfo.cv_qualifier ≠ cpp_cv_none
    · rw [if_pos hc]; exact ⟨_, rfl⟩
    rw [if_neg hc]
    by_cases hr : res.minfo.ref_qualifier ≠ cpp_ref_none
    · rw [if_pos hr]; exact ⟨_, rfl⟩
    exfalso
    rcases hq with hq | hq | hq
    · exact hc hq
    · exact hr hq
    · apply hv
      simpa [is_virtual] using hq
  refine ⟨fun hq => ⟨key hq, ?_⟩, ?_⟩
  · intro r hr
    obtain ⟨msg, hm⟩ := key hq
    rw [hm] at hr
    cases hr
  · intro r hr
    by_contra hn
    have hq : res.minfo.cv_qualifier ≠ cpp_cv_none ∨ res.minfo.ref_qualifier ≠ cpp_ref_none
        ∨ res.minfo.virtual_flag ≠ cpp_virtual_none := by
      by_contra hq
      push_neg at hq
      exact hn hq
    obtain ⟨msg, hm⟩ := key hq
    rw [hm] at hr
    cases hr

theorem cpp_function_parse_rejects_qualifiers_witness :
    (∃ msg, cpp_function.parse ["void", " ", "f", "(", ")", " ", "const", ";"] { name := "f" }
        = .error (.parse_error msg))
    ∧ ∀ r, cpp_function.parse ["void", " ", "f", "(", ")", " ", "const", ";"] { name := "f" }
        ≠ .ok r :=
  (cpp_function_parse_rejects_qualifiers ["void", " ", "f", "(", ")", " ", "const", ";"]
    { name := "f" }
    { return_type := { name := "void" }, template_args := "",
      finfo := { noexcept_expression := "false" },
      minfo := { cv_qualifier := cpp_cv_const, ref_qualifier := cpp_ref_none,
                 virtual_flag := cpp_virtual_none } }
    (by decide)).1 (Or.inl (by decide))

/-! ## The promotion to `overridden` -/

theorem conversion_op_parse_eq (stream : token_stream) (cur : cpp_cursor) :
    cpp_conversion_op.parse stream cur =
      match parse_conversion_op_type cur with
      | .error e => .error e
      | .ok type =>
        match conversion_op_parameters stream with
        | .error e => .error e
        | .ok (template_args, variadic, s, finfo, minfo) =>
          if variadic then .error (.parse_error "conversion op is variadic")
          else
            match parse_member_function_suffix s finfo minfo with
            | .error e => .error e
            | .ok suf =>
              if suf.trailing_return_type ≠ "" then
                .error (.parse_error "conversion op has trailing return type")
              else
                .ok { target_type := type,
                      finfo :=
                        if suf.finfo.noexcept_expression = "" then
                          { suf.finfo with noexcept_expression := "false" }
                        else suf.finfo,
                      info := { suf.minfo with
                                virtual_flag := promoted_virtual suf.minfo.virtual_flag cur },
                      specialization_name :=
                        if template_args ≠ "" then
                          some (set_template_specialization_name cur template_args)
                        else none } := by
  unfold cpp_conversion_op.parse conversion_op_parameters
  cases parse_conversion_op_type cur with
  | error e => rfl
  | ok type =>
    dsimp only
    cases skip_template_parameter_declaration stream with
    | error e => rfl
    | ok s1 =>
      dsimp only
      cases cpp_conversion_op.parse_loop (s1.length + 1) s1 {} {} with
      | error e => rfl
      | ok r2 =>
        obtain ⟨s2, finfo, minfo⟩ := r2
        dsimp only
        cases cpp_conversion_op.skip_until_parameters s2 with
        | error e => rfl
        | ok s3 =>
          dsimp only
          cases skip_template_arguments s3 "" false with
          | error e => rfl
          | ok r4 =>
            obtain ⟨targs, s4⟩ := r4
            dsimp only
            cases skip_parameters s4 with
            | error e => rfl
            | ok r5 =>
              obtain ⟨variadic, s5⟩ := r5
              dsimp only
              cases variadic with
              | true => rfl
              | false =>
                simp only [Bool.false_eq_true, if_false]
                cases parse_member_function_suffix s5 finfo minfo with
                | error e => rfl
                | ok suf =>
                  dsimp only
                  by_cases ht : suf.trailing_return_type ≠ ""
                  · rw [if_pos ht, if_pos ht]
                  · rw [if_neg ht, if_neg ht]
                    unfold promoted_virtual is_implicit_virtual
                    by_cases hv : (suf.minfo.virtual_flag = cpp_virtual_none
                        ∨ suf.minfo.virtual_flag = cpp_virtual_new) ∧ cur.has_overridden = true
                    · rw [if_pos hv, if_pos hv]
                    · rw [if_neg hv, if_neg hv]

theorem member_function_parse_virtual (stream : token_stream) (cur : cpp_cursor)
    (r : cpp_member_function) (h : cpp_member_function.parse stream cur = .ok r) :
    ∃ res, parse_member_function stream cur.name "" {} {} = .ok res
      ∧ r.info.virtual_flag = promoted_virtual res.minfo.virtual_flag cur := by
  unfold cpp_member_function.parse at h
  cases hm : parse_member_function stream cur.name "" {} {} with
  | error e => rw [hm] at h; cases h
  | ok res =>
    rw [hm] at h
    dsimp only at h
    cases hp : parse_parameters cur with
    | error e => rw [hp] at h; cases h
    | ok parameters =>
      rw [hp] at h
      dsimp only at h
      refine ⟨res, rfl, ?_⟩
      have e := Except.ok.inj h
      rw [← e]
      unfold promoted_virtual is_implicit_virtual
      by_cases hv : (res.minfo.virtual_flag = cpp_virtual_none
          ∨ res.minfo.virtual_flag = cpp_virtual_new) ∧ cur.has_overridden = true
      · simp only [if_pos hv]
      · simp only [if_neg hv]

theorem destructor_parse_virtual (stream : token_stream) (cur : cpp_cursor)
    (r : cpp_destructor) (h : cpp_destructor.parse stream cur = .ok r) :
    ∃ v, destructor_scanned_virtual stream cur = .ok v
      ∧ r.virtual_flag = promoted_virtual v cur := by
  unfold cpp_destructor.parse at h
  unfold destructor_scanned_virtual
  dsimp only at h
  cases hh : cpp_destructor.parse_head stream (erase_template_args cur.name) with
  | error e => rw [hh] at h; cases h
  | ok r1 =>
    obtain ⟨s1, info, v0⟩ := r1
    rw [hh] at h
    dsimp only at h ⊢
    cases hl : cpp_destructor.suffix_loop (s1.length + 1) s1 false info v0 with
    | error e => rw [hl] at h; cases h
    | ok r2 =>
      obtain ⟨s2, special, info2, v1⟩ := r2
      rw [hl] at h
      dsimp only at h ⊢
      cases special with
      | false =>
        simp only [Bool.false_eq_true, if_false] at h ⊢
        refine ⟨v1, rfl, ?_⟩
        have e := Except.ok.inj h
        rw [← e]
        rfl
      | true =>
        simp only [if_true] at h ⊢
        cases hs : parse_special_definition s2 with
        | error e => rw [hs] at h; cases h
        | ok r3 =>
          obtain ⟨res, s3⟩ := r3
          rw [hs] at h
          dsimp only at h ⊢
          by_cases hn : res = cpp_function_definition_normal
          · rw [if_pos hn] at h
            rw [if_pos hn]
            refine ⟨cpp_virtual_pure, rfl, ?_⟩
            have e := Except.ok.inj h
            rw [← e]
            rfl
          · rw [if_neg hn] at h
            rw [if_neg hn]
            refine ⟨v1, rfl, ?_⟩
            have e := Except.ok.inj h
            rw [← e]
            rfl

theorem conversion_op_parse_virtual (stream : token_stream) (cur : cpp_cursor)
    (r : cpp_conversion_op) (h : cpp_conversion_op.parse stream cur = .ok r) :
    ∃ template_args s finfo minfo suf,
      conversion_op_parameters stream = .ok (template_args, false, s, finfo, minfo)
      ∧ parse_member_function_suffix s finfo minfo = .ok suf
      ∧ suf.trailing_return_type = ""
      ∧ r.info.virtual_flag = promoted_virtual suf.minfo.virtual_flag cur := by
  rw [conversion_op_parse_eq] at h
  cases ht : parse_conversion_op_type cur with
  | error e => rw [ht] at h; cases h
  | ok type =>
    rw [ht] at h
    dsimp only at h
    cases hp : conversion_op_parameters stream with
    | error e => rw [hp] at h; cases h
    | ok r1 =>
      obtain ⟨targs, variadic, s, finfo, minfo⟩ := r1
      rw [hp] at h
      dsimp only at h
      cases variadic with
      | true => simp only [if_true] at h; cases h
      | false =>
        simp only [Bool.false_eq_true, if_false] at h
        cases hs : parse_member_function_suffix s finfo minfo with
        | error e => rw [hs] at h; cases h
        | ok suf =>
          rw [hs] at h
          dsimp only at h
          by_cases hne : suf.trailing_return_type ≠ ""
          · rw [if_pos hne] at h; cases h
          · rw [if_neg hne] at h
            refine ⟨targs, s, finfo, minfo, suf, rfl, hs, by simpa using hne, ?_⟩
            have e := Except.ok.inj h
            rw [← e]

/-- C17: in the records of member functions, conversion operators and destructors the
virtual-kind is the promotion of the scanned one: `overridden` when the scanned kind is
`none` or `introduced` and the front end reports an overridden declaration, the scanned
kind in every other case. -/
theorem virtual_kind_promotion (stream : token_stream) (cur : cpp_cursor) :
    (∀ r, cpp_member_function.parse stream cur = .ok r →
      ∃ res, parse_member_function stream cur.name "" {} {} = .ok res
        ∧ r.info.virtual_flag = promoted_virtual res.minfo.virtual_flag cur)
    ∧ (∀ r, cpp_conversion_op.parse stream cur = .ok r →
      ∃ template_args s finfo minfo suf,
        conversion_op_parameters stream = .ok (template_args, false, s, finfo, minfo)
        ∧ parse_member_function_suffix s finfo minfo = .ok suf
        ∧ r.info.virtual_flag = promoted_virtual suf.minfo.virtual_flag cur)
    ∧ (∀ r, cpp_destructor.parse stream cur = .ok r →
      ∃ v, destructor_scanned_virtual stream cur = .ok v
        ∧ r.virtual_flag = promoted_virtual v cur)
    ∧ (∀ v, (v = cpp_virtual_none ∨ v = cpp_virtual_new) → cur.has_overridden = true →
        promoted_virtual v cur = cpp_virtual_overriden)
    ∧ (∀ v, (v = cpp_virtual_static ∨ v = cpp_virtual_pure ∨ v = cpp_virtual_final
          ∨ v = cpp_virtual_overriden ∨ cur.has_overridden = false) →
        promoted_virtual v cur = v) := by
  refine ⟨member_function_parse_virtual stream cur, ?_, destructor_parse_virtual stream cur,
    ?_, ?_⟩
  · intro r h
    obtain ⟨ta, s, fi, mi, suf, h1, h2, _, h4⟩ := conversion_op_parse_virtual stream cur r h
    exact ⟨ta, s, fi, mi, suf, h1, h2, h4⟩
  · intro v hv ho
    unfold promoted_virtual
    rw [if_pos ⟨hv, ho⟩]
  · intro v hv
    unfold promoted_virtual
    rcases hv with hv | hv | hv | hv | hv
    · subst hv; simp
    · subst hv; simp
    · subst hv; simp
    · subst hv; simp
    · simp [hv]

theorem virtual_kind_promotion_witness :
    ∃ res, parse_member_function ["virtual", " ", "void", " ", "f", "(", ")", ";"] "f" "" {} {}
        = .ok res
      ∧ ({ name := "f", return_type := { name := "void" },
           finfo := { noexcept_expression := "false" },
           info := { virtual_flag := cpp_virtual_overriden },
           parameters := [], signature := "()", specialization_name := none }
          : cpp_member_function).info.virtual_flag
        = promoted_virtual res.minfo.virtual_flag { name := "f", has_overridden := true } :=
  (virtual_kind_promotion ["virtual", " ", "void", " ", "f", "(", ")", ";"]
    { name := "f", has_overridden := true }).1
    { name := "f", return_type := { name := "void" },
      finfo := { noexcept_expression := "false" },
      info := { virtual_flag := cpp_virtual_overriden },
      parameters := [], signature := "()", specialization_name := none }
    (by decide)

/-! ## Conversion operators: variadic lists and trailing return types -/

/-- C19: when the parameter scanner reports variadic, `cpp_conversion_op.parse` raises the
parse error `conversion op is variadic`; when the suffix resolver returns a trailing
return type text that is not empty it raises a parse error, `conversion op has trailing
return type` for a list that is not variadic; a record is produced only for a list that is
not variadic and an empty text.  The text after the `)` of a function-pointer return type
and a list `(...)` are the two closed examples. -/
theorem conversion_op_variadic_trailing (stream : token_stream) (cur : cpp_cursor)
    (type : cpp_type_ref) (template_args : String) (variadic : Bool) (s : token_stream)
    (finfo : cpp_function_info) (minfo : cpp_member_function_info)
    (ht : parse_conversion_op_type cur = .ok type)
    (hp : conversion_op_parameters stream = .ok (template_args, variadic, s, finfo, minfo)) :
    (variadic = true →
      cpp_conversion_op.parse stream cur = .error (.parse_error "conversion op is variadic"))
    ∧ (∀ suf, parse_member_function_suffix s finfo minfo = .ok suf →
        suf.trailing_return_type ≠ "" →
        cpp_conversion_op.parse stream cur =
          .error (.parse_error (if variadic then "conversion op is variadic"
                                else "conversion op has trailing return type")))
    ∧ (∀ r, cpp_conversion_op.parse stream cur = .ok r →
        variadic = false
        ∧ ∃ suf, parse_member_function_suffix s finfo minfo = .ok suf
            ∧ suf.trailing_return_type = "")
    ∧ cpp_conversion_op.parse
          ["operator", " ", "int", "(", ")", ")", "(", "double", ")", ";"]
          { name := "operator int" }
        = .error (.parse_error "conversion op has trailing return type")
    ∧ cpp_conversion_op.parse ["operator", " ", "int", "(", "...", ")", ";"]
          { name := "operator int" }
        = .error (.parse_error "conversion op is variadic") := by
  have hv : variadic = true →
      cpp_conversion_op.parse stream cur = .error (.parse_error "conversion op is variadic") := by
    intro hv
    rw [conversion_op_parse_eq, ht, hp]
    dsimp only
    rw [if_pos hv]
  refine ⟨hv, ?_, ?_, by decide, by decide⟩
  · intro suf hs hne
    cases variadic with
    | true => rw [hv rfl]; rfl
    | false =>
      rw [conversion_op_parse_eq, ht, hp]
      dsimp only
      simp only [Bool.false_eq_true, if_false]
      rw [hs]
      dsimp only
      rw [if_pos hne]
  · intro r hr
    obtain ⟨ta, s2, fi, mi, suf, h1, h2, h3, _⟩ := conversion_op_parse_virtual stream cur r hr
    rw [hp] at h1
    simp only [Except.ok.injEq, Prod.mk.injEq] at h1
    obtain ⟨_, hvar, hs, hfi, hmi⟩ := h1
    subst hs hfi hmi
    exact ⟨hvar, suf, h2, h3⟩

theorem conversion_op_variadic_trailing_witness :
    cpp_conversion_op.parse ["operator", " ", "int", "(", ")", " ", "->", " ", "long", ";"]
        { name := "operator int" }
      = .error (.parse_error (if false then "conversion op is variadic"
                              else "conversion op has trailing return type")) :=
  (conversion_op_variadic_trailing
    ["operator", " ", "int", "(", ")", " ", "->", " ", "long", ";"] { name := "operator int" }
    { name := "int" } "" false [" ", "->", " ", "long", ";"] {} {} (by decide) (by decide)).2.1
    { stream := [], trailing_return_type := "long", special_definition := false,
      finfo := {}, minfo := {} }
    (by decide) (by decide)

/-! ## Updates of the virtual-kind -/

theorem suffix_step_final (st : suffix_state) (rest : token_stream)
    (hst : st.stream = "final" :: rest) :
    parse_member_function_suffix_step st =
      .ok (false, { st with stream := skip_whitespace rest,
                            minfo := { st.minfo with virtual_flag := cpp_virtual_final } }) := by
  have e := is_declaration_end_other "final" rest st.special_definition (by decide) (by decide)
    (not_terminator_of_length _ (by decide))
  simp [parse_member_function_suffix_step, hst, e, done, skip_attribute, peek, skip_if_token]

theorem suffix_step_override (st : suffix_state) (rest : token_stream)
    (hst : st.stream = "override" :: rest) :
    parse_member_function_suffix_step st =
      .ok (false, { st with stream := skip_whitespace rest,
                            minfo := { st.minfo with
                                       virtual_flag := cpp_virtual_overriden } }) := by
  have e := is_declaration_end_other "override" rest st.special_definition (by decide)
    (by decide) (not_terminator_of_length _ (by decide))
  simp [parse_member_function_suffix_step, hst, e, done, skip_attribute, peek, skip_if_token]

theorem prefix_step_static (name : String) (st : prefix_state) (rest : token_stream)
    (hname : name ≠ "static") (hst : st.stream = "static" :: rest) :
    parse_member_function_prefix_step name st =
      .ok (false, { st with stream := skip_whitespace rest,
                            minfo := { st.minfo with virtual_flag := cpp_virtual_static } }) := by
  have hn : ¬ "static" = name := fun h => hname h.symm
  simp [parse_member_function_prefix_step, hst, skip_attribute, peek, skip_if_token, hn]

theorem prefix_step_virtual (name : String) (st : prefix_state) (rest : token_stream)
    (hname : name ≠ "virtual") (hst : st.stream = "virtual" :: rest) :
    parse_member_function_prefix_step name st =
      .ok (false, { st with stream := skip_whitespace rest,
                            minfo := { st.minfo with virtual_flag := cpp_virtual_new } }) := by
  have hn : ¬ "virtual" = name := fun h => hname h.symm
  simp [parse_member_function_prefix_step, hst, skip_attribute, peek, skip_if_token, hn]

theorem suffix_end_zero (st : suffix_state) (rest : token_stream)
    (hsp : st.special_definition = true) (hst : st.stream = "0" :: rest) :
    parse_member_function_suffix_end st =
      .ok { st with stream := rest,
                    minfo := { st.minfo with virtual_flag := cpp_virtual_pure } } := by
  simp [parse_member_function_suffix_end, hsp, hst, parse_special_definition, get]

theorem suffix_step_virtual_kind (st res : suffix_state) (b : Bool)
    (h : parse_member_function_suffix_step st = .ok (b, res)) :
    res.minfo.virtual_flag = st.minfo.virtual_flag
      ∨ (res.minfo.virtual_flag = cpp_virtual_final ∧ "final" ∈ st.stream)
      ∨ (res.minfo.virtual_flag = cpp_virtual_overriden ∧ "override" ∈ st.stream) := by
  rcases suffix_step_cases st res b h with ⟨sp, s1, hde, _, hres⟩ | ⟨sp, s1, t, rest, hde, hsa, hc⟩
  · subst hres; exact Or.inl rfl
  · have h1 : (t :: rest) <:+ st.stream :=
      (skip_attribute_suffix _ _ hsa).trans (is_declaration_end_suffix _ _ _ _ _ hde)
    have hmem : t ∈ st.stream := h1.subset (List.mem_cons_self _ _)
    rcases hc with ⟨_, _, text, s3, _, hres⟩ | ⟨_, _, hl⟩ | ⟨_, _, hres⟩ | ⟨_, _, hres⟩
        | ⟨_, _, hres⟩ | ⟨_, _, hres⟩ | ⟨ht, _, hres⟩ | ⟨ht, _, hres⟩ | ⟨_, _, e, s3, _, hres⟩
        | ⟨_, _, hres⟩
    · subst hres; exact Or.inl rfl
    · have := (trailing_return_type_loop_frame _ _ _ hl).2.1
      rw [this]; exact Or.inl rfl
    · subst hres; exact Or.inl rfl
    · subst hres; exact Or.inl rfl
    · subst hres; exact Or.inl rfl
    · subst hres; exact Or.inl rfl
    · subst hres; subst ht; exact Or.inr (Or.inl ⟨rfl, hmem⟩)
    · subst hres; subst ht; exact Or.inr (Or.inr ⟨rfl, hmem⟩)
    · subst hres; exact Or.inl rfl
    · subst hres; exact Or.inl rfl

theorem prefix_step_virtual_kind (name : String) (st res : prefix_state) (b : Bool)
    (h : parse_member_function_prefix_step name st = .ok (b, res)) :
    res.minfo.virtual_flag = st.minfo.virtual_flag
      ∨ (res.minfo.virtual_flag = cpp_virtual_static ∧ "static" ∈ st.stream)
      ∨ (res.minfo.virtual_flag = cpp_virtual_new ∧ "virtual" ∈ st.stream) := by
  unfold parse_member_function_prefix_step at h
  by_cases c0 : (skip_if_token st.stream name).1 = true
  · rw [if_pos c0] at h; cases h; exact Or.inl rfl
  rw [if_neg c0] at h
  cases hsa : skip_attribute st.stream with
  | error e => rw [hsa] at h; cases h
  | ok s =>
    rw [hsa] at h
    dsimp only at h
    have hsub := skip_attribute_suffix _ _ hsa
    by_cases c1 : (skip_if_token s "extern").1 = true
    · rw [if_pos c1] at h; cases h; exact Or.inl rfl
    rw [if_neg c1] at h
    by_cases c2 : (skip_if_token s "static").1 = true
    · rw [if_pos c2] at h; cases h
      obtain ⟨rest, hs, _⟩ := skip_if_token_true s "static" c2
      rw [hs] at hsub
      exact Or.inr (Or.inl ⟨rfl, hsub.subset (List.mem_cons_self _ _)⟩)
    rw [if_neg c2] at h
    by_cases c3 : (skip_if_token s "constexpr").1 = true
    · rw [if_pos c3] at h; cases h; exact Or.inl rfl
    rw [if_neg c3] at h
    by_cases c4 : (skip_if_token s "virtual").1 = true
    · rw [if_pos c4] at h; cases h
      obtain ⟨rest, hs, _⟩ := skip_if_token_true s "virtual" c4
      rw [hs] at hsub
      exact Or.inr (Or.inr ⟨rfl, hsub.subset (List.mem_cons_self _ _)⟩)
    rw [if_neg c4] at h
    by_cases c5 : (!st.allow_auto && (skip_if_token s "auto").1) = true
    · rw [if_pos c5] at h; cases h; exact Or.inl rfl
    rw [if_neg c5] at h
    by_cases c6 : (skip_if_token s "operator").1 = true
    · rw [if_pos c6] at h
      cases ho : operator_name_loop (skip_if_token s "operator").2
          (name.data.drop "operator".length) with
      | error e => rw [ho] at h; cases h
      | ok s2 => rw [ho] at h; cases h; exact Or.inl rfl
    rw [if_neg c6] at h
    cases hg : get s with
    | error e => rw [hg] at h; cases h
    | ok w =>
      obtain ⟨t, s2⟩ := w
      rw [hg] at h
      cases h
      exact Or.inl rfl

theorem suffix_end_virtual_kind (st res : suffix_state)
    (h : parse_member_function_suffix_end st = .ok res) :
    res.minfo.virtual_flag = st.minfo.virtual_flag
      ∨ (res.minfo.virtual_flag = cpp_virtual_pure ∧ st.special_definition = true
          ∧ peek st.stream = "0") := by
  unfold parse_member_function_suffix_end at h
  by_cases hsp : st.special_definition = true
  · rw [if_pos hsp] at h
    cases hs : st.stream with
    | nil => rw [hs] at h; simp [parse_special_definition, get] at h
    | cons t rest =>
      rw [hs] at h
      rw [(parse_special_definition_cons t rest)] at h
      by_cases h1 : t = "default"
      · rw [if_pos h1] at h; dsimp only at h
        rw [if_neg (by decide)] at h
        cases h; exact Or.inl rfl
      rw [if_neg h1] at h
      by_cases h2 : t = "delete"
      · rw [if_pos h2] at h; dsimp only at h
        rw [if_neg (by decide)] at h
        cases h; exact Or.inl rfl
      rw [if_neg h2] at h
      by_cases h3 : t = "0"
      · rw [if_pos h3] at h; dsimp only at h
        rw [if_pos rfl] at h
        cases h
        exact Or.inr ⟨rfl, hsp, by simp [peek, h3]⟩
      rw [if_neg h3] at h
      cases h
  · rw [if_neg hsp] at h
    cases h; exact Or.inl rfl

/-- C20 (as the code has it): every update of the virtual-kind records the kind of the
lexeme just read, whatever kind was recorded before: in the prefix `static` records static
and `virtual` records introduced, in the suffix `final` records final and `override`
records overridden, and `= 0` at the end records pure; no other step of the two scanners
changes the recorded kind. -/
theorem virtual_kind_updates (name : String) (pst : prefix_state) (st : suffix_state)
    (rest : token_stream) :
    (name ≠ "static" → pst.stream = "static" :: rest →
      parse_member_function_prefix_step name pst =
        .ok (false, { pst with stream := skip_whitespace rest,
                               minfo := { pst.minfo with virtual_flag := cpp_virtual_static } }))
    ∧ (name ≠ "virtual" → pst.stream = "virtual" :: rest →
      parse_member_function_prefix_step name pst =
        .ok (false, { pst with stream := skip_whitespace rest,
                               minfo := { pst.minfo with virtual_flag := cpp_virtual_new } }))
    ∧ (st.stream = "final" :: rest →
      parse_member_function_suffix_step st =
        .ok (false, { st with stream := skip_whitespace rest,
                              minfo := { st.minfo with virtual_flag := cpp_virtual_final } }))
    ∧ (st.stream = "override" :: rest →
      parse_member_function_suffix_step st =
        .ok (false, { st with stream := skip_whitespace rest,
                              minfo := { st.minfo with
                                         virtual_flag := cpp_virtual_overriden } }))
    ∧ (st.special_definition = true → st.stream = "0" :: rest →
      parse_member_function_suffix_end st =
        .ok { st with stream := rest,
                      minfo := { st.minfo with virtual_flag := cpp_virtual_pure } })
    ∧ (∀ b res, parse_member_function_prefix_step name pst = .ok (b, res) →
        res.minfo.virtual_flag = pst.minfo.virtual_flag
        ∨ (res.minfo.virtual_flag = cpp_virtual_static ∧ "static" ∈ pst.stream)
        ∨ (res.minfo.virtual_flag = cpp_virtual_new ∧ "virtual" ∈ pst.stream))
    ∧ (∀ b res, parse_member_function_suffix_step st = .ok (b, res) →
        res.minfo.virtual_flag = st.minfo.virtual_flag
        ∨ (res.minfo.virtual_flag = cpp_virtual_final ∧ "final" ∈ st.stream)
        ∨ (res.minfo.virtual_flag = cpp_virtual_overriden ∧ "override" ∈ st.stream))
    ∧ (∀ res, parse_member_function_suffix_end st = .ok res →
        res.minfo.virtual_flag = st.minfo.virtual_flag
        ∨ (res.minfo.virtual_flag = cpp_virtual_pure ∧ st.special_definition = true
            ∧ peek st.stream = "0")) :=
  ⟨prefix_step_static name pst rest, prefix_step_virtual name pst rest,
   suffix_step_final st rest, suffix_step_override st rest, suffix_end_zero st rest,
   fun b res => prefix_step_virtual_kind name pst res b,
   fun b res => suffix_step_virtual_kind st res b,
   suffix_end_virtual_kind st⟩

theorem virtual_kind_updates_witness :
    parse_member_function_suffix_step
        { stream := ["override", ";"], trailing_return_type := "", special_definition := false,
          finfo := {}, minfo := { virtual_flag := cpp_virtual_final } }
      = .ok (false,
          { stream := skip_whitespace [";"], trailing_return_type := "",
            special_definition := false, finfo := {},
            minfo := { virtual_flag := cpp_virtual_overriden } }) :=
  (virtual_kind_updates "f"
    { stream := [], return_type := "", allow_auto := false, finfo := {}, minfo := {} }
    { stream := ["override", ";"], trailing_return_type := "", special_definition := false,
      finfo := {}, minfo := { virtual_flag := cpp_virtual_final } } [";"]).2.2.2.1 rfl

/-- C20 fails as stated: reading `final override` the suffix first records `final` and
then replaces it by `overridden`, and reading `static virtual` the prefix replaces the
recorded `static` by `introduced`; neither replacement is an allowed transition. -/
theorem virtual_kind_transition_counterexample :
    parse_member_function_suffix_step
        { stream := ["final", " ", "override", ";"], trailing_return_type := "",
          special_definition := false, finfo := {}, minfo := {} }
      = .ok (false,
          { stream := ["override", ";"], trailing_return_type := "",
            special_definition := false, finfo := {},
            minfo := { virtual_flag := cpp_virtual_final } })
    ∧ parse_member_function_suffix_step
        { stream := ["override", ";"], trailing_return_type := "",
          special_definition := false, finfo := {},
          minfo := { virtual_flag := cpp_virtual_final } }
      = .ok (false,
          { stream := [";"], trailing_return_type := "",
            special_definition := false, finfo := {},
            minfo := { virtual_flag := cpp_virtual_overriden } })
    ∧ allowed_transition cpp_virtual_final cpp_virtual_overriden = false
    ∧ (parse_member_function_suffix ["final", " ", "override", ";"] {} {}).map
        (fun res => res.minfo.virtual_flag) = .ok cpp_virtual_overriden
    ∧ ( parse_member_function_prefix ["static", " ", "virtual", " ", "void", " ", "f", "("]
          "f" {} {}).map (fun res => res.minfo.virtual_flag) = .ok cpp_virtual_new
    ∧ allowed_transition cpp_virtual_static cpp_virtual_new = false := by
  decide

/-! ## Function-pointer return types -/

theorem prefix_step_plain (name : String) (st : prefix_state) (t : String)
    (rest : token_stream) (hst : st.stream = t :: rest)
    (ht : return_type_lexeme name t = true) :
    parse_member_function_prefix_step name st =
      .ok (false, { st with stream := rest,
                            allow_auto := if t = "decltype" then true else st.allow_auto,
                            return_type := st.return_type ++ t }) := by
  simp only [return_type_lexeme, Bool.and_eq_true, bne_iff_ne, ne_eq] at ht
  obtain ⟨⟨⟨⟨⟨⟨⟨⟨h1, h2⟩, h3⟩, h4⟩, h5⟩, h6⟩, h7⟩, h8⟩, h9⟩ := ht
  simp [parse_member_function_prefix_step, hst, skip_if_token, skip_attribute, get,
    h1, h2, h3, h4, h5, h6, h7, h8, h9]

theorem prefix_step_name (name : String) (st : prefix_state) (rest : token_stream)
    (hst : st.stream = name :: rest) :
    parse_member_function_prefix_step name st =
      .ok (true, { st with stream := skip_whitespace rest }) := by
  simp [parse_member_function_prefix_step, hst, skip_if_token]

theorem prefix_loop_plain (name : String) (rest : token_stream) :
    ∀ (pre : List String) (fuel : Nat) (st : prefix_state),
      (∀ t ∈ pre, return_type_lexeme name t = true) → pre.length < fuel →
      st.stream = pre ++ name :: rest →
      ∃ res, parse_member_function_prefix_loop name fuel st = .ok res
        ∧ res.stream = skip_whitespace rest
        ∧ res.return_type = st.return_type ++ String.join pre
        ∧ res.finfo = st.finfo ∧ res.minfo = st.minfo := by
  intro pre
  induction pre with
  | nil =>
    intro fuel st _ hfuel hst
    obtain ⟨fuel, rfl⟩ : ∃ k, fuel = k + 1 := ⟨fuel - 1, by simp at hfuel; omega⟩
    rw [parse_member_function_prefix_loop, prefix_step_name name st rest hst]
    exact ⟨_, rfl, rfl, by simp [String.join], rfl, rfl⟩
  | cons t pre ih =>
    intro fuel st hpre hfuel hst
    obtain ⟨fuel, rfl⟩ : ∃ k, fuel = k + 1 := ⟨fuel - 1, by simp at hfuel; omega⟩
    rw [parse_member_function_prefix_loop,
      prefix_step_plain name st t (pre ++ name :: rest) hst (hpre t (List.mem_cons_self _ _))]
    dsimp only
    obtain ⟨res, h1, h2, h3, h4, h5⟩ := ih fuel
      { st with stream := pre ++ name :: rest,
                allow_auto := if t = "decltype" then true else st.allow_auto,
                return_type := st.return_type ++ t }
      (fun x hx => hpre x (List.mem_cons_of_mem _ hx))
      (by simp at hfuel; omega) rfl
    refine ⟨res, h1, h2, ?_, h4, h5⟩
    rw [h3, string_join_cons, String.append_assoc]

theorem skip_bracket_count_loop_balanced {σ : Type} (f : σ → String → σ)
    (rest : token_stream) :
    ∀ (inner : List String) (depth : Nat) (acc : σ), balanced_from depth inner = true →
      skip_bracket_count_loop "(" ")" f (inner ++ ")" :: rest) (depth + 1) acc =
        .ok (f (inner.foldl f acc) ")", rest) := by
  intro inner
  induction inner with
  | nil =>
    intro depth acc hb
    simp only [balanced_from, decide_eq_true_eq] at hb
    subst hb
    simp [skip_bracket_count_loop]
  | cons t inner ih =>
    intro depth acc hb
    rw [balanced_from] at hb
    simp only [List.cons_append, List.foldl_cons]
    rw [skip_bracket_count_loop]
    by_cases h1 : t = "("
    · rw [if_pos h1] at hb
      simp only [h1, if_true, Nat.add_one_ne_zero, if_false]
      have := ih (depth + 1) (f acc "(") hb
      exact this
    · rw [if_neg h1] at hb
      by_cases h2 : t = ")"
      · rw [if_pos h2] at hb
        simp only [Bool.and_eq_true, decide_eq_true_eq, ne_eq] at hb
        obtain ⟨hd, hb⟩ := hb
        obtain ⟨d, rfl⟩ : ∃ d, depth = d + 1 := ⟨depth - 1, by omega⟩
        have hne : ¬ ((")" : String) = "(") := by decide
        simp only [h2, hne, if_false, if_true, Nat.add_sub_cancel, Nat.add_one_ne_zero]
        have := ih d (f acc ")") (by simpa using hb)
        exact this
      · rw [if_neg h2] at hb
        simp only [h1, h2, if_false, Nat.add_one_ne_zero]
        have := ih depth (f acc t) hb
        exact this

theorem skip_bracket_count_balanced {σ : Type} (f : σ → String → σ) (inner : List String)
    (rest : token_stream) (init : σ) (hb : balanced_from 0 inner = true) :
    skip_bracket_count ("(" :: (inner ++ ")" :: rest)) "(" ")" f init =
      .ok (f (inner.foldl f init) ")", rest) := by
  have h := skip_bracket_count_loop_balanced f rest inner 0 init hb
  simp only [Nat.zero_add] at h
  simp [skip_bracket_count, skip, peek, bump, h]

theorem suffix_step_function_ptr (st : suffix_state) (ws inner : List String)
    (rest : token_stream) (hst : st.stream = ")" :: (ws ++ "(" :: (inner ++ ")" :: rest)))
    (hws : ∀ w ∈ ws, starts_with_space w = true) (hb : balanced_from 0 inner = true) :
    parse_member_function_suffix_step st =
      .ok (false, { st with stream := rest,
                            trailing_return_type :=
                              st.trailing_return_type ++ ")(" ++ String.join inner ++ ")" }) := by
  have e := is_declaration_end_other ")" (ws ++ "(" :: (inner ++ ")" :: rest))
    st.special_definition (by decide) (by decide) (by unfold terminator; decide)
  have hp : starts_with_space (peek ("(" :: (inner ++ ")" :: rest))) = false := by
    simp only [peek, List.headD_cons]; decide
  have hsw : skip_whitespace (ws ++ "(" :: (inner ++ ")" :: rest))
      = "(" :: (inner ++ ")" :: rest) :=
    skip_whitespace_all_space ws ("(" :: (inner ++ ")" :: rest)) hws hp
  have hsb := skip_bracket_count_balanced (fun (text : String) str => text ++ str) inner rest
    (st.trailing_return_type ++ ")(") hb
  rw [string_join_foldl] at hsb
  unfold parse_member_function_suffix_step
  rw [hst, e]
  simp only [done, List.isEmpty_cons, Bool.false_eq_true, if_false,
    skip_attribute_other ")" _ (by decide) (by decide), skip_if_token, if_true, hsw, hsb]

theorem suffix_end_trailing (st res : suffix_state)
    (h : parse_member_function_suffix_end st = .ok res) :
    res.trailing_return_type = st.trailing_return_type := by
  unfold parse_member_function_suffix_end at h
  by_cases hsp : st.special_definition = true
  · rw [if_pos hsp] at h
    cases hs : parse_special_definition st.stream with
    | error e => rw [hs] at h; cases h
    | ok v =>
      obtain ⟨d, s⟩ := v
      rw [hs] at h
      dsimp only at h
      by_cases hd : d = cpp_function_definition_normal
      · rw [if_pos hd] at h; cases h; rfl
      · rw [if_neg hd] at h; cases h; rfl
  · rw [if_neg hsp] at h
    cases h; rfl

theorem suffix_function_ptr (ws qs quals : List String) (term : String) (rest : token_stream)
    (finfo : cpp_function_info) (minfo : cpp_member_function_info)
    (hws : ∀ w ∈ ws, starts_with_space w = true) (hqs : balanced_from 0 qs = true)
    (hquals : ∀ t ∈ quals, qualifier_or_space t) (hterm : terminator term)
    (hend : term = "=" →
      peek (skip_whitespace rest) = "default" ∨ peek (skip_whitespace rest) = "delete"
        ∨ peek (skip_whitespace rest) = "0") :
    ∃ suf, parse_member_function_suffix
          (")" :: (ws ++ "(" :: (qs ++ ")" :: (quals ++ term :: rest)))) finfo minfo = .ok suf
      ∧ suf.trailing_return_type = ")(" ++ String.join qs ++ ")" := by
  unfold parse_member_function_suffix
  rw [parse_member_function_suffix_loop,
    suffix_step_function_ptr _ ws qs (quals ++ term :: rest) rfl hws hqs]
  dsimp only
  rw [suffix_loop_qualifiers term rest hterm quals.length quals (Nat.le_refl _) hquals _ _
    (by simp; omega) rfl]
  dsimp only
  by_cases ht : term = "="
  · obtain ⟨res, h1, _, _⟩ := suffix_end_special
      { stream := skip_whitespace rest,
        trailing_return_type := "" ++ ")(" ++ String.join qs ++ ")",
        special_definition := decide (term = "="), finfo := finfo,
        minfo := apply_qualifiers quals minfo } (by simp [ht]) (hend ht)
    refine ⟨res, h1, ?_⟩
    rw [suffix_end_trailing _ _ h1]
    simp
  · rw [suffix_end_ordinary _ (by simp [ht])]
    exact ⟨_, rfl, by simp⟩

theorem erase_trailing_ws_paren (s : String) : erase_trailing_ws (s ++ ")") = s ++ ")" := by
  apply String.ext
  have h : (s ++ ")").data = s.data ++ [')'] := by rw [String.data_append]
  have hsp : isspace ')' = false := by decide
  simp [erase_trailing_ws, h, hsp]

theorem append_paren_ne_empty (s : String) : s ++ ")" ≠ "" := by
  intro h
  have h2 := congrArg String.data h
  have h3 : (s ++ ")").data = s.data ++ [')'] := by rw [String.data_append]
  rw [h3] at h2
  simp at h2

theorem peek_append_singleton (pre : List String) (name : String) (rest : token_stream) :
    peek (pre ++ name :: rest) = peek (pre ++ [name]) := by
  cases pre <;> rfl

theorem skip_whitespace_of_peek (s : token_stream) (h : starts_with_space (peek s) = false) :
    skip_whitespace s = s := by
  cases s with
  | nil => rfl
  | cons t rest =>
    simp only [peek, List.headD_cons] at h
    simp [skip_whitespace, h]

theorem skip_parameters_balanced (ps : List String) (rest : token_stream)
    (hb : balanced_from 0 ps = true) :
    ∃ variadic, skip_parameters ("(" :: (ps ++ ")" :: rest)) = .ok (variadic, rest) := by
  unfold skip_parameters
  rw [skip_bracket_count_balanced skip_parameters_callback ps rest (false, true) hb]
  exact ⟨_, rfl⟩

/-- C12: for a declaration with a function pointer as return type, that is return-type
lexemes `pre`, the name, a parameter list, `)` and a second bracketed list `qs`, then
qualifiers and the terminator, `parse_member_function` returns as return-type text the
lexemes before the name, then `)(`, then the lexemes of the second list through its
closing `)`.  For `int (*f(int))(double);` the text is `int (*)(double)`. -/
theorem function_pointer_return_type (name : String)
    (pre ws0 ps ws1 qs quals : List String) (term : String) (rest : token_stream)
    (finfo : cpp_function_info) (minfo : cpp_member_function_info)
    (hpre : ∀ t ∈ pre, return_type_lexeme name t = true)
    (hfirst : starts_with_space (peek (pre ++ [name])) = false)
    (htemplate : peek (pre ++ [name]) ≠ "template")
    (hws0 : ∀ w ∈ ws0, starts_with_space w = true) (hps : balanced_from 0 ps = true)
    (hws1 : ∀ w ∈ ws1, starts_with_space w = true) (hqs : balanced_from 0 qs = true)
    (hquals : ∀ t ∈ quals, qualifier_or_space t) (hterm : terminator term)
    (hend : term = "=" →
      peek (skip_whitespace rest) = "default" ∨ peek (skip_whitespace rest) = "delete"
        ∨ peek (skip_whitespace rest) = "0") :
    (∃ res, parse_member_function
          (pre ++ name :: (ws0 ++ "(" :: (ps ++ ")" ::
            ")" :: (ws1 ++ "(" :: (qs ++ ")" :: (quals ++ term :: rest))))))
          name "" finfo minfo = .ok res
      ∧ res.return_type.name = String.join pre ++ ")(" ++ String.join qs ++ ")")
    ∧ (parse_member_function
          ["int", " ", "(", "*", "f", "(", "int", ")", ")", "(", "double", ")", ";"]
          "f" "" {} {}).map (fun res => res.return_type.name) = .ok "int (*)(double)" := by
  refine ⟨?_, by decide⟩
  unfold parse_member_function
  have h1 : skip_template_parameter_declaration
      (pre ++ name :: (ws0 ++ "(" :: (ps ++ ")" ::
        ")" :: (ws1 ++ "(" :: (qs ++ ")" :: (quals ++ term :: rest))))))
      = .ok (pre ++ name :: (ws0 ++ "(" :: (ps ++ ")" ::
        ")" :: (ws1 ++ "(" :: (qs ++ ")" :: (quals ++ term :: rest)))))) := by
    unfold skip_template_parameter_declaration
    rw [peek_append_singleton, if_neg htemplate,
      skip_whitespace_of_peek _ (by rw [peek_append_singleton]; exact hfirst)]
  rw [h1]
  dsimp only
  obtain ⟨pst, hp1, hp2, hp3, hp4, hp5⟩ := prefix_loop_plain name
    (ws0 ++ "(" :: (ps ++ ")" :: ")" :: (ws1 ++ "(" :: (qs ++ ")" :: (quals ++ term :: rest)))))
    pre ((pre ++ name :: (ws0 ++ "(" :: (ps ++ ")" ::
        ")" :: (ws1 ++ "(" :: (qs ++ ")" :: (quals ++ term :: rest)))))).length + 1)
    { stream := _, return_type := "", allow_auto := false, finfo := finfo, minfo := minfo }
    hpre (by simp only [List.length_append, List.length_cons]; omega) rfl
  have hpp : starts_with_space (peek ("(" :: (ps ++ ")" ::
      ")" :: (ws1 ++ "(" :: (qs ++ ")" :: (quals ++ term :: rest)))))) = false := by
    simp only [peek, List.headD_cons]; decide
  rw [skip_whitespace_all_space ws0 _ hws0 hpp] at hp2
  dsimp only at hp3
  unfold parse_member_function_prefix
  rw [hp1]
  dsimp only
  have h3 : skip_template_arguments pst.stream "" (is_function_ptr pst.return_type)
      = .ok ("", pst.stream) := by
    unfold skip_template_arguments
    rw [hp2]
    have hne : ¬ ((peek ("(" :: (ps ++ ")" ::
      ")" :: (ws1 ++ "(" :: (qs ++ ")" :: (quals ++ term :: rest)))))) = "<") := by
      simp only [peek, List.headD_cons]; decide
    rw [if_neg hne]
  rw [h3]
  dsimp only
  rw [hp2]
  obtain ⟨variadic, h4⟩ := skip_parameters_balanced ps
    (")" :: (ws1 ++ "(" :: (qs ++ ")" :: (quals ++ term :: rest)))) hps
  rw [h4]
  dsimp only
  obtain ⟨suf, h5, h6⟩ := suffix_function_ptr ws1 qs quals term rest
    (if variadic = true then pst.finfo.set_flag cpp_variadic_fnc else pst.finfo) pst.minfo
    hws1 hqs hquals hterm hend
  rw [h5]
  dsimp only
  refine ⟨_, rfl, ?_⟩
  dsimp only
  rw [hp3, h6]
  have e : "" ++ String.join pre ++ (")(" ++ String.join qs ++ ")")
      = (String.join pre ++ ")(" ++ String.join qs) ++ ")" := by
    simp [String.append_assoc]
  rw [e, if_neg (append_paren_ne_empty _), erase_trailing_ws_paren]

theorem function_pointer_return_type_witness :
    ∃ res, parse_member_function
          (["int", " ", "(", "*"] ++ "f" :: ([] ++ "(" :: (["int"] ++ ")" ::
            ")" :: ([] ++ "(" :: (["double"] ++ ")" :: ([" ", "const"] ++ ";" :: []))))))
          "f" "" {} {} = .ok res
      ∧ res.return_type.name
          = String.join ["int", " ", "(", "*"] ++ ")(" ++ String.join ["double"] ++ ")" :=
  (function_pointer_return_type "f" ["int", " ", "(", "*"] [] ["int"] [] ["double"]
    [" ", "const"] ";" [] {} {} (by decide) (by decide) (by decide)
    (fun _ h => nomatch h) (by decide) (fun _ h => nomatch h) (by decide)
    (by
      intro t ht
      simp only [List.mem_cons, List.mem_singleton, List.not_mem_nil, or_false] at ht
      rcases ht with e | e
      · subst e; exact Or.inl (by decide)
      · subst e; exact Or.inr (Or.inl rfl))
    (Or.inl rfl) (fun h => absurd h (by decide))).1

/-! ## The text of the template arguments -/

theorem scan_paren_free_run (returns_function : Bool) (more : List (Nat × String)) :
    ∀ (l : List (Nat × String)) (paren_count : Nat) (next : Option Nat),
      (∀ p ∈ l, p.2 ≠ "(" ∧ p.2 ≠ ")") →
      ∃ next2, skip_template_arguments_scan returns_function (l ++ more) paren_count false next
        = skip_template_arguments_scan returns_function more paren_count false next2 := by
  intro l
  induction l with
  | nil => intro c nx _; exact ⟨nx, rfl⟩
  | cons p l ih =>
    intro c nx hl
    obtain ⟨pos, str⟩ := p
    have hp := hl (pos, str) (List.mem_cons_self _ _)
    obtain ⟨nx2, h2⟩ := ih c (some pos) (fun q hq => hl q (List.mem_cons_of_mem _ hq))
    refine ⟨nx2, ?_⟩
    rw [← h2]
    simp only [List.cons_append]
    rw [skip_template_arguments_scan]
    simp [hp.1, hp.2]

theorem filter_enumFrom_mem (l : List String) :
    ∀ (n : Nat) (p : Nat × String),
      p ∈ (l.enumFrom n).filter (fun p => !starts_with_space p.2) → p.2 ∈ l := by
  induction l with
  | nil => intro n p hp; simp at hp
  | cons t l ih =>
    intro n p hp
    simp only [List.enumFrom_cons] at hp
    rw [List.filter_cons] at hp
    by_cases ht : (!starts_with_space t) = true
    · simp only [ht, if_true, List.mem_cons] at hp
      rcases hp with e | hp
      · rw [e]; exact List.mem_cons_self _ _
      · exact List.mem_cons_of_mem _ (ih _ _ hp)
    · simp only [ht, if_false] at hp
      exact List.mem_cons_of_mem _ (ih _ _ hp)

theorem filter_enumFrom_snd (l : List String) :
    ∀ (n : Nat), ((l.enumFrom n).filter (fun p => !starts_with_space p.2)).map Prod.snd
      = l.filter (fun t => !starts_with_space t) := by
  induction l with
  | nil => intro n; rfl
  | cons t l ih =>
    intro n
    simp only [List.enumFrom_cons]
    rw [List.filter_cons, List.filter_cons]
    by_cases ht : (!starts_with_space t) = true
    · simp only [ht, if_true, List.map_cons, ih]
    · simp only [ht, Bool.false_eq_true, if_false, ih]

theorem filter_enumFrom_space (ws : List String) (h : ∀ w ∈ ws, starts_with_space w = true) :
    ∀ (n : Nat), (ws.enumFrom n).filter (fun p => !starts_with_space p.2) = [] := by
  induction ws with
  | nil => intro n; rfl
  | cons t l ih =>
    intro n
    simp only [List.enumFrom_cons]
    rw [List.filter_cons]
    simp only [h t (List.mem_cons_self _ _), Bool.not_true, Bool.false_eq_true, if_false]
    exact ih (fun w hw => h w (List.mem_cons_of_mem _ hw)) _

theorem scan_boundary (suffix_tokens ps_tokens before : List (Nat × String)) (q k m : Nat)
    (hs : ∀ p ∈ suffix_tokens, p.2 ≠ "(" ∧ p.2 ≠ ")")
    (hp : ∀ p ∈ ps_tokens, p.2 ≠ "(" ∧ p.2 ≠ ")") :
    skip_template_arguments_scan false
        (suffix_tokens ++ (q, ")") :: (ps_tokens ++ (k, "(") :: (m, ">") :: before))
        0 false none
      = .ok (some k) := by
  obtain ⟨n1, h1⟩ := scan_paren_free_run false
    ((q, ")") :: (ps_tokens ++ (k, "(") :: (m, ">") :: before)) suffix_tokens 0 none hs
  rw [h1, skip_template_arguments_scan]
  have c1 : ¬ ((")" : String) = "(") := by decide
  simp only [Bool.false_eq_true, if_false, false_and, and_false, c1, if_true]
  obtain ⟨n2, h2⟩ := scan_paren_free_run false ((k, "(") :: (m, ">") :: before) ps_tokens
    ((0 + 1) % 2 ^ 32) (some q) hp
  rw [h2, skip_template_arguments_scan]
  simp only [Bool.false_eq_true, if_false, false_and, and_false, if_true, List.isEmpty_cons]
  rw [skip_template_arguments_scan]
  have c2 : ((0 + 1) % 2 ^ 32 + (2 ^ 32 - 1)) % 2 ^ 32 = 0 := by decide
  simp [c2]

theorem template_tokens_shape (targs ws ps suffix : List String)
    (hws : ∀ w ∈ ws, starts_with_space w = true) :
    (("<" :: (targs ++ ">" :: (ws ++ "(" :: (ps ++ ")" :: suffix)))).enum.filter
        (fun p => !starts_with_space p.2))
      = (("<" :: targs).enumFrom 0).filter (fun p => !starts_with_space p.2)
        ++ (targs.length + 1, ">")
        :: (targs.length + 1 + 1 + ws.length, "(")
        :: ((ps.enumFrom (targs.length + 1 + 1 + ws.length + 1)).filter
              (fun p => !starts_with_space p.2)
            ++ (targs.length + 1 + 1 + ws.length + 1 + ps.length, ")")
            :: (suffix.enumFrom (targs.length + 1 + 1 + ws.length + 1 + ps.length + 1)).filter
                  (fun p => !starts_with_space p.2)) := by
  have e : "<" :: (targs ++ ">" :: (ws ++ "(" :: (ps ++ ")" :: suffix)))
      = ("<" :: targs) ++ ([">"] ++ (ws ++ (["("] ++ (ps ++ ([")"] ++ suffix))))) := by simp
  have g1 : (!starts_with_space ">") = true := by decide
  have g2 : (!starts_with_space "(") = true := by decide
  have g3 : (!starts_with_space ")") = true := by decide
  rw [e, List.enum]
  simp only [List.enumFrom_append, List.filter_append, filter_enumFrom_space ws hws,
    List.enumFrom_singleton, List.filter_cons, List.filter_nil, g1, g2, g3, if_true,
    List.length_cons, List.length_singleton, List.length_nil, List.nil_append, Nat.zero_add]
  simp only [List.singleton_append, List.cons_append, List.append_assoc, List.nil_append]

theorem string_join_append (a b : List String) :
    String.join (a ++ b) = String.join a ++ String.join b := by
  induction a with
  | nil => simp [String.join]
  | cons t a ih =>
    rw [List.cons_append, string_join_cons, string_join_cons, ih, String.append_assoc]

theorem getLast?_append_some {α : Type} (l l2 : List α) (z : α)
    (h : l2.getLast? = some z) : (l ++ l2).getLast? = some z := by
  rw [List.getLast?_append, h]; rfl

theorem getLast?_cons_some {α : Type} (a : α) (l : List α) (z : α)
    (h : l.getLast? = some z) : (a :: l).getLast? = some z := by
  cases l with
  | nil => cases h
  | cons b l => rw [List.getLast?_cons_cons]; exact h

/-- C11 (as the code has it): on the lexemes `<` args `>`, optional whitespace, a parameter
list and a rest whose last lexeme that is no whitespace is `;`, the return type being no
function pointer, `skip_template_arguments` appends to the text all lexemes from the `<`
up to the `(`, the angle brackets included, and leaves the stream at the `(` that opens
the parameter list.  For `f<int>();` the text is `<int>`. -/
theorem skip_template_arguments_text (targs ws ps suffix : List String) (text : String)
    (hws : ∀ w ∈ ws, starts_with_space w = true)
    (hps : "(" ∉ ps ∧ ")" ∉ ps) (hsuffix : "(" ∉ suffix ∧ ")" ∉ suffix)
    (hlast : (suffix.filter (fun t => !starts_with_space t)).getLast? = some ";") :
    skip_template_arguments
        ("<" :: (targs ++ ">" :: (ws ++ "(" :: (ps ++ ")" :: suffix)))) text false
      = .ok (text ++ "<" ++ String.join targs ++ ">" ++ String.join ws,
             "(" :: (ps ++ ")" :: suffix))
    ∧ skip_template_arguments ["<", "int", ">", "(", ")", ";"] "" false
      = .ok ("<int>", ["(", ")", ";"]) := by
  refine ⟨?_, by decide⟩
  unfold skip_template_arguments
  have hpeek : peek ("<" :: (targs ++ ">" :: (ws ++ "(" :: (ps ++ ")" :: suffix)))) = "<" := rfl
  rw [if_pos hpeek]
  dsimp only
  rw [template_tokens_shape targs ws ps suffix hws]
  have hZ : ∀ n, (((suffix.enumFrom n).filter (fun p => !starts_with_space p.2)).getLast?).map
      Prod.snd = some ";" := by
    intro n
    rw [← List.getLast?_map, filter_enumFrom_snd, hlast]
  have hlast2 : ((("<" :: targs).enumFrom 0).filter (fun p => !starts_with_space p.2)
        ++ (targs.length + 1, ">")
        :: (targs.length + 1 + 1 + ws.length, "(")
        :: ((ps.enumFrom (targs.length + 1 + 1 + ws.length + 1)).filter
              (fun p => !starts_with_space p.2)
            ++ (targs.length + 1 + 1 + ws.length + 1 + ps.length, ")")
            :: (suffix.enumFrom (targs.length + 1 + 1 + ws.length + 1 + ps.length + 1)).filter
                  (fun p => !starts_with_space p.2))).getLast?.map Prod.snd = some ";" := by
    have hz := hZ (targs.length + 1 + 1 + ws.length + 1 + ps.length + 1)
    cases hg : ((suffix.enumFrom (targs.length + 1 + 1 + ws.length + 1 + ps.length + 1)).filter
        (fun p => !starts_with_space p.2)).getLast? with
    | none => rw [hg] at hz; cases hz
    | some z =>
      rw [hg] at hz
      rw [getLast?_append_some _ _ z (getLast?_cons_some _ _ z (getLast?_cons_some _ _ z
        (getLast?_append_some _ _ z (getLast?_cons_some _ _ z hg))))]
      exact hz
  rw [if_neg (by rw [hlast2]; exact fun h => h rfl)]
  have hrev : ((("<" :: targs).enumFrom 0).filter (fun p => !starts_with_space p.2)
        ++ (targs.length + 1, ">")
        :: (targs.length + 1 + 1 + ws.length, "(")
        :: ((ps.enumFrom (targs.length + 1 + 1 + ws.length + 1)).filter
              (fun p => !starts_with_space p.2)
            ++ (targs.length + 1 + 1 + ws.length + 1 + ps.length, ")")
            :: (suffix.enumFrom (targs.length + 1 + 1 + ws.length + 1 + ps.length + 1)).filter
                  (fun p => !starts_with_space p.2))).reverse
      = ((suffix.enumFrom (targs.length + 1 + 1 + ws.length + 1 + ps.length + 1)).filter
            (fun p => !starts_with_space p.2)).reverse
        ++ (targs.length + 1 + 1 + ws.length + 1 + ps.length, ")")
        :: (((ps.enumFrom (targs.length + 1 + 1 + ws.length + 1)).filter
              (fun p => !starts_with_space p.2)).reverse
            ++ (targs.length + 1 + 1 + ws.length, "(") :: (targs.length + 1, ">")
            :: ((("<" :: targs).enumFrom 0).filter (fun p => !starts_with_space p.2)).reverse) := by
    simp
  rw [hrev, scan_boundary _ _ _ _ _ _
    (fun p hp => by
      have hm := filter_enumFrom_mem suffix _ p (List.mem_reverse.mp hp)
      exact ⟨fun e => hsuffix.1 (e ▸ hm), fun e => hsuffix.2 (e ▸ hm)⟩)
    (fun p hp => by
      have hm := filter_enumFrom_mem ps _ p (List.mem_reverse.mp hp)
      exact ⟨fun e => hps.1 (e ▸ hm), fun e => hps.2 (e ▸ hm)⟩)]
  dsimp only
  have e : "<" :: (targs ++ ">" :: (ws ++ "(" :: (ps ++ ")" :: suffix)))
      = ("<" :: (targs ++ ">" :: ws)) ++ ("(" :: (ps ++ ")" :: suffix)) := by simp
  have hlen : ("<" :: (targs ++ ">" :: ws)).length = targs.length + 1 + 1 + ws.length := by
    simp only [List.length_cons, List.length_append]; omega
  rw [e, List.drop_left' hlen, List.take_left' hlen]
  have hp2 : peek ("(" :: (ps ++ ")" :: suffix)) = "(" := rfl
  rw [if_pos hp2]
  have hj : String.join ("<" :: (targs ++ ">" :: ws))
      = "<" ++ String.join targs ++ ">" ++ String.join ws := by
    rw [string_join_cons, string_join_append, string_join_cons]
    simp [String.append_assoc]
  rw [hj]
  simp [String.append_assoc]

theorem skip_template_arguments_text_witness :
    skip_template_arguments
        ("<" :: (["int"] ++ ">" :: ([" "] ++ "(" :: (["int", " ", "x"] ++ ")"
          :: [" ", "noexcept", ";"])))) "" false
      = .ok ("" ++ "<" ++ String.join ["int"] ++ ">" ++ String.join [" "],
             "(" :: (["int", " ", "x"] ++ ")" :: [" ", "noexcept", ";"])) :=
  (skip_template_arguments_text ["int"] [" "] ["int", " ", "x"] [" ", "noexcept", ";"] ""
    (by decide) (by decide) (by decide) (by decide)).1

/-- C11 fails as stated: on the lexemes `<int>();` after the name of
`template<> void f<int>();` the text is `<int>`, not `int`; and when the last lexeme is the
closing brace of a body instead of `;`, the assertion on the last buffered lexeme fails. -/
theorem skip_template_arguments_counterexample :
    skip_template_arguments ["<", "int", ">", "(", ")", ";"] "" false
      = .ok ("<int>", ["(", ")", ";"])
    ∧ skip_template_arguments ["<", "int", ">", "(", ")", ";"] "" false
      ≠ .ok ("int", ["(", ")", ";"])
    ∧ skip_template_arguments ["<", "int", ">", "(", ")", " ", "\x7b", "\x7d"] "" false
      = .error .assertion_failed := by
  decide

/-! ## Unexpected lexemes in the suffix -/

theorem skip_whitespace_idem (s : token_stream) :
    skip_whitespace (skip_whitespace s) = skip_whitespace s := by
  induction s with
  | nil => rfl
  | cons t rest ih =>
    by_cases h : starts_with_space t = true
    · simp only [skip_whitespace, h, if_true, ih]
    · simp only [skip_whitespace, h, if_false, Bool.false_eq_true]

theorem parse_noexcept_bare (s : token_stream) (h : peek (skip_whitespace s) ≠ "(") :
    parse_noexcept s = .ok ("true", skip_whitespace s) := by
  unfold parse_noexcept
  simp only [h, if_false]

theorem parse_noexcept_balanced (ws inner : List String) (rest : token_stream)
    (hws : ∀ w ∈ ws, starts_with_space w = true) (hb : balanced_from 0 inner = true) :
    parse_noexcept (ws ++ "(" :: (inner ++ ")" :: rest)) = .ok (String.join inner, rest) := by
  have hp : starts_with_space (peek ("(" :: (inner ++ ")" :: rest))) = false := by
    simp only [peek, List.headD_cons]; decide
  have hsk := skip_whitespace_all_space ws ("(" :: (inner ++ ")" :: rest)) hws hp
  unfold parse_noexcept
  simp only [hsk, peek, List.headD_cons, if_true, bump]
  have := parse_noexcept_loop_balanced rest inner 0 "" hb
  simpa using this

theorem suffix_step_noexcept (st : suffix_state) (rest : token_stream)
    (hst : st.stream = "noexcept" :: rest) :
    parse_member_function_suffix_step st =
      match parse_noexcept (skip_whitespace rest) with
      | .error e => .error e
      | .ok (expression, stream) =>
        .ok (false, { st with stream := stream,
                              finfo := { st.finfo with explicit_noexcept := true,
                                                       noexcept_expression := expression } }) := by
  have e := is_declaration_end_other "noexcept" rest st.special_definition (by decide)
    (by decide) (not_terminator_of_length _ (by decide))
  simp [parse_member_function_suffix_step, hst, e, done, skip_attribute, peek, skip_if_token]

theorem suffix_step_keyword (st : suffix_state) (t : String) (rest : token_stream)
    (hst : st.stream = t :: rest) (ht : suffix_keyword t) :
    ∃ res, parse_member_function_suffix_step st = .ok (false, res)
      ∧ res.stream = skip_whitespace rest := by
  rcases ht with h | h | h | h | h | h <;> subst h
  · exact ⟨_, suffix_step_const st rest hst, rfl⟩
  · exact ⟨_, suffix_step_volatile st rest hst, rfl⟩
  · exact ⟨_, suffix_step_lvalue st rest hst, rfl⟩
  · exact ⟨_, suffix_step_rvalue st rest hst, rfl⟩
  · exact ⟨_, suffix_step_final st rest hst, rfl⟩
  · exact ⟨_, suffix_step_override st rest hst, rfl⟩

theorem is_declaration_end_plain (t : String) (rest : token_stream) (sp : Bool)
    (hsa : skip_attribute (t :: rest) = .ok (t :: rest)) (ht : ¬ terminator t) :
    is_declaration_end (t :: rest) sp = .ok (false, sp, t :: rest) := by
  by_cases hlen : t.length > 1
  · simp [is_declaration_end, hsa, peek, hlen]
  · have c1 : first_char t ≠ ':' := fun h =>
      ht (Or.inr (Or.inr (Or.inl (eq_singleton_of_first_char t _ hlen h (by decide)))))
    have c2 : first_char t ≠ ';' := fun h =>
      ht (Or.inl (eq_singleton_of_first_char t _ hlen h (by decide)))
    have c3 : first_char t ≠ '\x7b' := fun h =>
      ht (Or.inr (Or.inl (eq_singleton_of_first_char t _ hlen h (by decide))))
    have c4 : first_char t ≠ '=' := fun h =>
      ht (Or.inr (Or.inr (Or.inr (eq_singleton_of_first_char t _ hlen h (by decide)))))
    simp [is_declaration_end, hsa, peek, hlen, c1, c2, c3, c4]

theorem suffix_step_unexpected (st : suffix_state) (x : String) (rest : token_stream)
    (hst : st.stream = x :: rest) (hx : unexpected_lexeme x)
    (hsa : skip_attribute (x :: rest) = .ok (x :: rest)) :
    parse_member_function_suffix_step st =
      .error (.parse_error ("unexpected token \'" ++ x ++ "\'")) := by
  obtain ⟨h1, h2, h3⟩ := hx
  simp only [List.mem_cons, List.mem_singleton, List.not_mem_nil, or_false, not_or] at h3
  obtain ⟨n1, n2, n3, n4, n5, n6, n7, n8, n9⟩ := h3
  have e := is_declaration_end_plain x rest st.special_definition hsa h2
  simp [parse_member_function_suffix_step, hst, e, done, hsa, peek, skip_if_token, get,
    n1, n2, n3, n4, n5, n6, n7, n8, n9, h1]

theorem suffix_loop_skip_whitespace :
    ∀ (rest : token_stream) (fuel : Nat) (st : suffix_state),
      st.stream = skip_whitespace rest →
      parse_member_function_suffix_loop fuel st =
        parse_member_function_suffix_loop (fuel + (rest.length - (skip_whitespace rest).length))
          { st with stream := rest } := by
  intro rest
  induction rest with
  | nil =>
    intro fuel st hst
    have e : st = { st with stream := [] } := by
      cases st; simp only [skip_whitespace] at hst; simp [hst]
    simp only [skip_whitespace, List.length_nil, Nat.sub_self, Nat.add_zero]
    rw [← e]
  | cons t rest ih =>
    intro fuel st hst
    by_cases ht : starts_with_space t = true
    · have hsw : skip_whitespace (t :: rest) = skip_whitespace rest := by
        simp only [skip_whitespace, ht, if_true]
      rw [hsw] at hst ⊢
      have hle : (skip_whitespace rest).length ≤ rest.length :=
        (skip_whitespace_suffix rest).length_le
      have hk : fuel + ((t :: rest).length - (skip_whitespace rest).length)
          = (fuel + (rest.length - (skip_whitespace rest).length)) + 1 := by
        simp only [List.length_cons]; omega
      rw [hk, parse_member_function_suffix_loop,
        suffix_step_space { st with stream := t :: rest } t rest rfl ht]
      exact ih fuel st hst
    · have hsw : skip_whitespace (t :: rest) = t :: rest := by
        simp only [skip_whitespace, ht, if_false, Bool.false_eq_true]
      rw [hsw] at hst ⊢
      have e : st = { st with stream := t :: rest } := by
        cases st; simp only at hst; simp [hst]
      simp only [Nat.sub_self, Nat.add_zero]
      rw [← e]

theorem suffix_loop_unexpected (x : String) (r : token_stream) (hx : unexpected_lexeme x)
    (hsa : skip_attribute (x :: r) = .ok (x :: r)) :
    ∀ (s s2 : token_stream), suffix_items s s2 → s2 = x :: r →
    ∀ (fuel : Nat) (st : suffix_state), st.stream = s → s.length < fuel →
      parse_member_function_suffix_loop fuel st =
        .error (.parse_error ("unexpected token \'" ++ x ++ "\'")) := by
  intro s s2 h
  induction h with
  | done s =>
    intro hs fuel st hst hfuel
    obtain ⟨fuel, rfl⟩ : ∃ k, fuel = k + 1 := ⟨fuel - 1, by omega⟩
    rw [parse_member_function_suffix_loop,
      suffix_step_unexpected st x r (by rw [hst, hs]) hx hsa]
  | space t rest s2 ht _ ih =>
    intro hs fuel st hst hfuel
    obtain ⟨fuel, rfl⟩ : ∃ k, fuel = k + 1 := ⟨fuel - 1, by omega⟩
    rw [parse_member_function_suffix_loop, suffix_step_space st t rest hst ht]
    exact ih hs fuel _ rfl (by simp only [List.length_cons] at hfuel; omega)
  | keyword t rest s2 ht _ ih =>
    intro hs fuel st hst hfuel
    obtain ⟨fuel, rfl⟩ : ∃ k, fuel = k + 1 := ⟨fuel - 1, by omega⟩
    obtain ⟨res, h1, h2⟩ := suffix_step_keyword st t rest hst ht
    rw [parse_member_function_suffix_loop, h1]
    dsimp only
    rw [suffix_loop_skip_whitespace rest fuel res h2]
    exact ih hs _ _ rfl (by simp only [List.length_cons] at hfuel; omega)
  | noexcept_bare rest s2 hp _ ih =>
    intro hs fuel st hst hfuel
    obtain ⟨fuel, rfl⟩ : ∃ k, fuel = k + 1 := ⟨fuel - 1, by omega⟩
    rw [parse_member_function_suffix_loop, suffix_step_noexcept st rest hst,
      parse_noexcept_bare (skip_whitespace rest) (by rw [skip_whitespace_idem]; exact hp),
      skip_whitespace_idem]
    dsimp only
    rw [suffix_loop_skip_whitespace rest fuel _ rfl]
    exact ih hs _ _ rfl (by simp only [List.length_cons] at hfuel; omega)
  | noexcept_expression ws inner rest s2 hws hb _ ih =>
    intro hs fuel st hst hfuel
    obtain ⟨fuel, rfl⟩ : ∃ k, fuel = k + 1 := ⟨fuel - 1, by omega⟩
    have hp : starts_with_space (peek ("(" :: (inner ++ ")" :: rest))) = false := by
      simp only [peek, List.headD_cons]; decide
    have h0 := parse_noexcept_balanced [] inner rest (fun _ h => nomatch h) hb
    rw [List.nil_append] at h0
    rw [parse_member_function_suffix_loop, suffix_step_noexcept st _ hst,
      skip_whitespace_all_space ws ("(" :: (inner ++ ")" :: rest)) hws hp, h0]
    dsimp only
    exact ih hs _ _ rfl (by
      simp only [List.length_cons, List.length_append] at hfuel; omega)
  | function_pointer ws inner rest s2 hws hb _ ih =>
    intro hs fuel st hst hfuel
    obtain ⟨fuel, rfl⟩ : ∃ k, fuel = k + 1 := ⟨fuel - 1, by omega⟩
    rw [parse_member_function_suffix_loop, suffix_step_function_ptr st ws inner rest hst hws hb]
    dsimp only
    exact ih hs _ _ rfl (by
      simp only [List.length_cons, List.length_append] at hfuel; omega)

theorem unexpected_message_injective (a b : String)
    (h : "unexpected token \'" ++ a ++ "\'" = "unexpected token \'" ++ b ++ "\'") : a = b := by
  have h2 := congrArg String.data h
  simp only [String.data_append] at h2
  have h3 := List.append_cancel_right h2
  have h4 := List.append_cancel_left h3
  exact String.ext h4

theorem message_take (a b c : String) (n : Nat) (h : n ≤ a.data.length) :
    (a ++ b ++ c).data.take n = a.data.take n := by
  simp only [String.data_append, List.append_assoc]
  exact List.take_append_of_le_length h

theorem expected_ne_unexpected (a b x : String) :
    "expected \'" ++ a ++ "\' got \'" ++ b ++ "\'" ≠ "unexpected token \'" ++ x ++ "\'" := by
  intro h
  have h2 := congrArg (fun s => s.data.take 1) h
  simp only at h2
  have e1 : ("expected \'" ++ a ++ "\' got \'" ++ b ++ "\'").data.take 1 = ['e'] := by
    simp only [String.data_append, List.append_assoc]
    rfl
  have e2 := message_take "unexpected token \'" x "\'" 1 (by decide)
  rw [e1, e2] at h2
  revert h2
  decide

theorem unknown_ne_unexpected (t x : String) :
    "unknown function definition \'= " ++ t ++ "\'" ≠ "unexpected token \'" ++ x ++ "\'" := by
  intro h
  have h2 := congrArg (fun s => s.data.take 3) h
  simp only at h2
  rw [message_take "unknown function definition \'= " t "\'" 3 (by decide),
    message_take "unexpected token \'" x "\'" 3 (by decide)] at h2
  revert h2
  decide

theorem bump_not_unexpected (s : token_stream) (e : error) (h : bump s = .error e)
    (x : String) : e ≠ unexpected_token x := by
  cases s with
  | nil => simp only [bump, Except.error.injEq] at h; rw [← h]; exact fun h => nomatch h
  | cons t rest => simp [bump] at h

theorem get_not_unexpected (s : token_stream) (e : error) (h : get s = .error e)
    (x : String) : e ≠ unexpected_token x := by
  cases s with
  | nil => simp only [get, Except.error.injEq] at h; rw [← h]; exact fun h => nomatch h
  | cons t rest => simp [get] at h

theorem skip_not_unexpected (s : token_stream) (value : String) (e : error)
    (h : skip s value = .error e) (x : String) : e ≠ unexpected_token x := by
  unfold skip at h
  split_ifs at h
  · exact bump_not_unexpected s e h x
  · simp only [Except.error.injEq] at h
    rw [← h]
    intro hc
    unfold unexpected_token at hc
    exact expected_ne_unexpected _ _ _ (error.parse_error.inj hc)

theorem skip_bracket_count_loop_not_unexpected {σ : Type} (open_ close : String)
    (f : σ → String → σ) (x : String) :
    ∀ (s : token_stream) (n : Nat) (acc : σ) (e : error),
      skip_bracket_count_loop open_ close f s n acc = .error e → e ≠ unexpected_token x := by
  intro s
  induction s with
  | nil =>
    intro n acc e h
    simp only [skip_bracket_count_loop, Except.error.injEq] at h
    rw [← h]; exact fun h => nomatch h
  | cons t rest ih =>
    intro n acc e h
    rw [skip_bracket_count_loop] at h
    split_ifs at h
    all_goals exact ih _ _ _ h

theorem skip_bracket_count_not_unexpected {σ : Type} (s : token_stream) (open_ close : String)
    (f : σ → String → σ) (init : σ) (e : error)
    (h : skip_bracket_count s open_ close f init = .error e) (x : String) :
    e ≠ unexpected_token x := by
  unfold skip_bracket_count at h
  cases hs : skip s open_ with
  | error e2 => rw [hs] at h; cases h; exact skip_not_unexpected _ _ _ hs x
  | ok s1 => rw [hs] at h; exact skip_bracket_count_loop_not_unexpected _ _ _ x _ _ _ _ h

theorem skip_attribute_not_unexpected (s : token_stream) (e : error)
    (h : skip_attribute s = .error e) (x : String) : e ≠ unexpected_token x := by
  cases s with
  | nil => simp [skip_attribute] at h
  | cons t rest =>
    rw [skip_attribute] at h
    split_ifs at h
    · cases h1 : skip_bracket_count rest "[" "]" (fun (u : Unit) _ => u) () with
      | error e2 => rw [h1] at h; cases h; exact skip_bracket_count_not_unexpected _ _ _ _ _ _ h1 x
      | ok v =>
        obtain ⟨u, s3⟩ := v
        rw [h1] at h
        dsimp only at h
        cases h2 : skip s3 "]" with
        | error e2 => rw [h2] at h; cases h; exact skip_not_unexpected _ _ _ h2 x
        | ok s4 => rw [h2] at h; cases h
    · cases h0 : skip (skip_whitespace rest) "(" with
      | error e2 => rw [h0] at h; cases h; exact skip_not_unexpected _ _ _ h0 x
      | ok s2 =>
        rw [h0] at h
        dsimp only at h
        cases h1 : skip_bracket_count s2 "(" ")" (fun (u : Unit) _ => u) () with
        | error e2 =>
          rw [h1] at h; cases h; exact skip_bracket_count_not_unexpected _ _ _ _ _ _ h1 x
        | ok v =>
          obtain ⟨u, s3⟩ := v
          rw [h1] at h
          dsimp only at h
          cases h2 : skip s3 ")" with
          | error e2 => rw [h2] at h; cases h; exact skip_not_unexpected _ _ _ h2 x
          | ok s4 => rw [h2] at h; cases h

theorem is_declaration_end_not_unexpected (s : token_stream) (sp : Bool) (e : error)
    (h : is_declaration_end s sp = .error e) (x : String) : e ≠ unexpected_token x := by
  unfold is_declaration_end at h
  cases h1 : skip_attribute s with
  | error e2 => rw [h1] at h; cases h; exact skip_attribute_not_unexpected _ _ h1 x
  | ok s1 =>
    rw [h1] at h
    dsimp only at h
    split_ifs at h

theorem parse_noexcept_loop_not_unexpected (x : String) :
    ∀ (s : token_stream) (n : Nat) (expression : String) (e : error),
      parse_noexcept_loop s n expression = .error e → e ≠ unexpected_token x := by
  intro s
  induction s with
  | nil =>
    intro n y e h
    simp only [parse_noexcept_loop, Except.error.injEq] at h
    rw [← h]; exact fun h => nomatch h
  | cons t rest ih =>
    intro n y e h
    rw [parse_noexcept_loop] at h
    split_ifs at h
    all_goals exact ih _ _ _ h

theorem parse_noexcept_not_unexpected (s : token_stream) (e : error)
    (h : parse_noexcept s = .error e) (x : String) : e ≠ unexpected_token x := by
  unfold parse_noexcept at h
  dsimp only at h
  split_ifs at h
  cases h1 : bump (skip_whitespace s) with
  | error e2 => rw [h1] at h; cases h; exact bump_not_unexpected _ _ h1 x
  | ok s1 => rw [h1] at h; exact parse_noexcept_loop_not_unexpected x _ _ _ _ h

theorem parse_special_definition_not_unexpected (s : token_stream) (e : error)
    (h : parse_special_definition s = .error e) (x : String) : e ≠ unexpected_token x := by
  cases s with
  | nil =>
    simp only [parse_special_definition, get, Except.error.injEq] at h
    rw [← h]; exact fun h => nomatch h
  | cons t rest =>
    rw [parse_special_definition_cons] at h
    split_ifs at h
    simp only [Except.error.injEq] at h
    rw [← h]
    intro hc
    unfold unexpected_token at hc
    exact unknown_ne_unexpected _ _ (error.parse_error.inj hc)

theorem trailing_return_type_loop_not_unexpected (x : String) (fuel : Nat) :
    ∀ (st : suffix_state) (e : error),
      trailing_return_type_loop fuel st = .error e → e ≠ unexpected_token x := by
  induction fuel with
  | zero =>
    intro st e h
    simp only [trailing_return_type_loop, Except.error.injEq] at h
    rw [← h]; exact fun h => nomatch h
  | succ n ih =>
    intro st e h
    rw [trailing_return_type_loop] at h
    cases hde : is_declaration_end st.stream st.special_definition with
    | error e2 => rw [hde] at h; cases h; exact is_declaration_end_not_unexpected _ _ _ hde x
    | ok v =>
      obtain ⟨b, sp, s1⟩ := v
      rw [hde] at h
      cases b with
      | true => cases h
      | false =>
        dsimp only at h
        cases hg : get s1 with
        | error e2 => rw [hg] at h; cases h; exact get_not_unexpected _ _ hg x
        | ok w =>
          obtain ⟨t, s2⟩ := w
          rw [hg] at h
          exact ih _ _ h

theorem no_attribute_skip (s : token_stream) (h : no_attribute s = true) :
    skip_attribute s = .ok s := by
  unfold no_attribute at h
  rw [List.all_eq_true] at h
  have := h s ((List.mem_tails s s).mpr (List.suffix_refl s))
  simpa using this

theorem no_attribute_tail (s s2 : token_stream) (h : no_attribute s = true) (hs : s2 <:+ s) :
    no_attribute s2 = true := by
  unfold no_attribute at h ⊢
  rw [List.all_eq_true] at h ⊢
  intro t ht
  exact h t ((List.mem_tails t s).mpr (((List.mem_tails t s2).mp ht).trans hs))

theorem whitespace_split (rest : token_stream) :
    ∃ ws, rest = ws ++ skip_whitespace rest ∧ ∀ w ∈ ws, starts_with_space w = true := by
  induction rest with
  | nil => exact ⟨[], rfl, fun _ h => nomatch h⟩
  | cons t rest ih =>
    by_cases ht : starts_with_space t = true
    · obtain ⟨ws, h1, h2⟩ := ih
      refine ⟨t :: ws, ?_, ?_⟩
      · simp only [skip_whitespace, ht, if_true, List.cons_append]
        rw [← h1]
      · intro w hw
        rcases List.mem_cons.mp hw with e | e
        · rw [e]; exact ht
        · exact h2 w e
    · refine ⟨[], ?_, fun _ h => nomatch h⟩
      simp only [skip_whitespace, ht, if_false, Bool.false_eq_true, List.nil_append]

theorem suffix_items_of_skip_whitespace (rest s : token_stream)
    (h : suffix_items (skip_whitespace rest) s) : suffix_items rest s := by
  induction rest with
  | nil => exact h
  | cons t rest ih =>
    by_cases ht : starts_with_space t = true
    · simp only [skip_whitespace, ht, if_true] at h
      exact suffix_items.space t rest s ht (ih h)
    · simp only [skip_whitespace, ht, if_false, Bool.false_eq_true] at h
      exact h

theorem skip_bracket_count_loop_inv {σ : Type} (f : σ → String → σ) :
    ∀ (s : token_stream) (depth : Nat) (acc v : σ) (s3 : token_stream),
      skip_bracket_count_loop "(" ")" f s (depth + 1) acc = .ok (v, s3) →
      ∃ inner, s = inner ++ ")" :: s3 ∧ balanced_from depth inner = true := by
  intro s
  induction s with
  | nil => intro depth acc v s3 h; simp [skip_bracket_count_loop] at h
  | cons t rest ih =>
    intro depth acc v s3 h
    rw [skip_bracket_count_loop] at h
    by_cases h1 : t = "("
    · simp only [h1, if_true, Nat.add_one_ne_zero, if_false] at h
      obtain ⟨inner, e1, e2⟩ := ih (depth + 1) _ _ _ h
      refine ⟨"(" :: inner, by rw [h1, e1]; rfl, ?_⟩
      rw [balanced_from, if_pos rfl]
      exact e2
    · by_cases h2 : t = ")"
      · have hne : ¬ ((")" : String) = "(") := by decide
        simp only [h2, hne, if_false, if_true, Nat.add_sub_cancel] at h
        cases depth with
        | zero =>
          simp only [if_true, Except.ok.injEq, Prod.mk.injEq] at h
          refine ⟨[], by rw [h2, h.2]; rfl, rfl⟩
        | succ d =>
          simp only [Nat.add_one_ne_zero, if_false] at h
          obtain ⟨inner, e1, e2⟩ := ih d _ _ _ h
          refine ⟨")" :: inner, by rw [h2, e1]; rfl, ?_⟩
          rw [balanced_from, if_neg hne, if_pos rfl]
          simpa using e2
      · simp only [h1, h2, if_false, Nat.add_one_ne_zero] at h
        obtain ⟨inner, e1, e2⟩ := ih depth _ _ _ h
        refine ⟨t :: inner, by rw [e1]; rfl, ?_⟩
        rw [balanced_from, if_neg h1, if_neg h2]
        exact e2

theorem skip_bracket_count_inv {σ : Type} (f : σ → String → σ) (s : token_stream) (init v : σ)
    (s3 : token_stream) (h : skip_bracket_count s "(" ")" f init = .ok (v, s3)) :
    ∃ inner, s = "(" :: (inner ++ ")" :: s3) ∧ balanced_from 0 inner = true := by
  unfold skip_bracket_count at h
  cases hs : skip s "(" with
  | error e => rw [hs] at h; cases h
  | ok s1 =>
    rw [hs] at h
    dsimp only at h
    unfold skip at hs
    by_cases hp : peek s = "("
    · rw [if_pos hp] at hs
      obtain ⟨rest, e1, _⟩ := peek_eq_cons s "(" hp (by decide)
      rw [e1] at hs
      simp only [bump, Except.ok.injEq] at hs
      have h0 : skip_bracket_count_loop "(" ")" f s1 (0 + 1) init = .ok (v, s3) := by
        simpa using h
      obtain ⟨inner, e2, e3⟩ := skip_bracket_count_loop_inv f s1 0 init v s3 h0
      exact ⟨inner, by rw [e1, hs, e2], e3⟩
    · rw [if_neg hp] at hs; cases hs

theorem parse_noexcept_loop_inv :
    ∀ (s : token_stream) (depth : Nat) (expression v : String) (s3 : token_stream),
      parse_noexcept_loop s (depth + 1) expression = .ok (v, s3) →
      ∃ inner, s = inner ++ ")" :: s3 ∧ balanced_from depth inner = true := by
  intro s
  induction s with
  | nil => intro depth acc v s3 h; simp [parse_noexcept_loop] at h
  | cons t rest ih =>
    intro depth acc v s3 h
    rw [parse_noexcept_loop] at h
    by_cases h1 : t = "("
    · simp only [h1, if_true, ne_eq, Nat.add_one_ne_zero, not_false_eq_true] at h
      obtain ⟨inner, e1, e2⟩ := ih (depth + 1) _ _ _ h
      refine ⟨"(" :: inner, by rw [h1, e1]; rfl, ?_⟩
      rw [balanced_from, if_pos rfl]
      exact e2
    · by_cases h2 : t = ")"
      · have hne : ¬ ((")" : String) = "(") := by decide
        simp only [h2, hne, if_false, if_true, Nat.add_sub_cancel] at h
        cases depth with
        | zero =>
          simp only [ne_eq, not_true_eq_false, if_false, Except.ok.injEq, Prod.mk.injEq] at h
          refine ⟨[], by rw [h2, h.2]; rfl, rfl⟩
        | succ d =>
          simp only [ne_eq, Nat.add_one_ne_zero, not_false_eq_true, if_true] at h
          obtain ⟨inner, e1, e2⟩ := ih d _ _ _ h
          refine ⟨")" :: inner, by rw [h2, e1]; rfl, ?_⟩
          rw [balanced_from, if_neg hne, if_pos rfl]
          simpa using e2
      · simp only [h1, h2, if_false, ne_eq, Nat.add_one_ne_zero, not_false_eq_true,
          if_true] at h
        obtain ⟨inner, e1, e2⟩ := ih depth _ _ _ h
        refine ⟨t :: inner, by rw [e1]; rfl, ?_⟩
        rw [balanced_from, if_neg h1, if_neg h2]
        exact e2

theorem parse_noexcept_inv (s : token_stream) (v : String) (s3 : token_stream)
    (h : parse_noexcept s = .ok (v, s3)) :
    (peek (skip_whitespace s) ≠ "(" ∧ s3 = skip_whitespace s)
    ∨ ∃ inner, skip_whitespace s = "(" :: (inner ++ ")" :: s3)
        ∧ balanced_from 0 inner = true := by
  unfold parse_noexcept at h
  dsimp only at h
  by_cases hp : peek (skip_whitespace s) = "("
  · rw [if_pos hp] at h
    obtain ⟨rest, e1, _⟩ := peek_eq_cons _ "(" hp (by decide)
    rw [e1] at h
    simp only [bump] at h
    have h0 : parse_noexcept_loop rest (0 + 1) "" = .ok (v, s3) := by simpa using h
    obtain ⟨inner, e2, e3⟩ := parse_noexcept_loop_inv rest 0 "" v s3 h0
    exact Or.inr ⟨inner, by rw [e1, e2], e3⟩
  · rw [if_neg hp] at h
    simp only [Except.ok.injEq, Prod.mk.injEq] at h
    exact Or.inl ⟨hp, h.2.symm⟩

theorem terminator_first_char (t : String) (ht : terminator t) :
    ¬ t.length > 1
    ∧ (first_char t = ':' ∨ first_char t = ';' ∨ first_char t = '\x7b' ∨ first_char t = '=') := by
  rcases ht with h | h | h | h <;> subst h <;> decide

theorem is_declaration_end_false (s s1 : token_stream) (sp sp2 : Bool)
    (h : is_declaration_end s sp = .ok (false, sp2, s1)) :
    skip_attribute s = .ok s1 ∧ ¬ terminator (peek s1) := by
  unfold is_declaration_end at h
  cases hsa : skip_attribute s with
  | error e => rw [hsa] at h; cases h
  | ok s2 =>
    rw [hsa] at h
    dsimp only at h
    by_cases hlen : (peek s2).length > 1
    · rw [if_pos hlen] at h
      simp only [Except.ok.injEq, Prod.mk.injEq, true_and] at h
      rw [← h.2]
      exact ⟨rfl, fun ht => (terminator_first_char _ ht).1 hlen⟩
    · rw [if_neg hlen] at h
      by_cases c1 : first_char (peek s2) = ':' ∨ first_char (peek s2) = ';'
          ∨ first_char (peek s2) = '\x7b'
      · rw [if_pos c1] at h
        simp at h
      · rw [if_neg c1] at h
        by_cases c2 : first_char (peek s2) = '='
        · rw [if_pos c2] at h
          simp at h
        · rw [if_neg c2] at h
          simp only [Except.ok.injEq, Prod.mk.injEq, true_and] at h
          rw [← h.2]
          refine ⟨rfl, fun ht => ?_⟩
          rcases (terminator_first_char _ ht).2 with e | e | e | e
          · exact c1 (Or.inl e)
          · exact c1 (Or.inr (Or.inl e))
          · exact c1 (Or.inr (Or.inr e))
          · exact c2 e

theorem suffix_step_unexpected_inv (st : suffix_state) (x : String)
    (h : parse_member_function_suffix_step st = .error (unexpected_token x))
    (hna : no_attribute st.stream = true) :
    ∃ r, st.stream = x :: r ∧ unexpected_lexeme x := by
  unfold parse_member_function_suffix_step at h
  cases hde : is_declaration_end st.stream st.special_definition with
  | error e =>
    rw [hde] at h
    exact absurd (Except.error.inj h) (is_declaration_end_not_unexpected _ _ _ hde x)
  | ok v =>
    obtain ⟨b1, sp, s1⟩ := v
    rw [hde] at h
    cases b1 with
    | true => cases h
    | false =>
      dsimp only at h
      obtain ⟨hsa0, hterm⟩ := is_declaration_end_false _ _ _ _ hde
      rw [no_attribute_skip _ hna] at hsa0
      have hs1 : st.stream = s1 := Except.ok.inj hsa0
      rw [← hs1] at h hterm
      by_cases hd : done st.stream = true
      · rw [if_pos hd] at h; cases h
      rw [if_neg hd, no_attribute_skip _ hna] at h
      dsimp only at h
      by_cases c1 : (skip_if_token st.stream ")").1 = true
      · rw [if_pos c1] at h
        cases hb : skip_bracket_count (skip_if_token st.stream ")").2 "(" ")"
            (fun (text : String) str => text ++ str) (st.trailing_return_type ++ ")(") with
        | error e =>
          rw [hb] at h
          exact absurd (Except.error.inj h) (skip_bracket_count_not_unexpected _ _ _ _ _ _ hb x)
        | ok w => rw [hb] at h; cases h
      rw [if_neg c1] at h
      by_cases c2 : (skip_if_token st.stream "->").1 = true
      · rw [if_pos c2] at h
        cases hl : trailing_return_type_loop ((skip_if_token st.stream "->").2.length + 1)
            { st with stream := (skip_if_token st.stream "->").2,
                      special_definition := sp } with
        | error e =>
          rw [hl] at h
          exact absurd (Except.error.inj h)
            (trailing_return_type_loop_not_unexpected x _ _ _ hl)
        | ok w => rw [hl] at h; cases h
      rw [if_neg c2] at h
      by_cases c3 : (skip_if_token st.stream "const").1 = true
      · rw [if_pos c3] at h; cases h
      rw [if_neg c3] at h
      by_cases c4 : (skip_if_token st.stream "volatile").1 = true
      · rw [if_pos c4] at h; cases h
      rw [if_neg c4] at h
      by_cases c5 : (skip_if_token st.stream "&").1 = true
      · rw [if_pos c5] at h; cases h
      rw [if_neg c5] at h
      by_cases c6 : (skip_if_token st.stream "&&").1 = true
      · rw [if_pos c6] at h; cases h
      rw [if_neg c6] at h
      by_cases c7 : (skip_if_token st.stream "final").1 = true
      · rw [if_pos c7] at h; cases h
      rw [if_neg c7] at h
      by_cases c8 : (skip_if_token st.stream "override").1 = true
      · rw [if_pos c8] at h; cases h
      rw [if_neg c8] at h
      by_cases c9 : (skip_if_token st.stream "noexcept").1 = true
      · rw [if_pos c9] at h
        cases hn : parse_noexcept (skip_if_token st.stream "noexcept").2 with
        | error e =>
          rw [hn] at h
          exact absurd (Except.error.inj h) (parse_noexcept_not_unexpected _ _ hn x)
        | ok w => rw [hn] at h; cases h
      rw [if_neg c9] at h
      by_cases c10 : (!starts_with_space (peek st.stream)) = true
      · rw [if_pos c10] at h
        cases hg : get st.stream with
        | error e =>
          rw [hg] at h
          exact absurd (Except.error.inj h) (get_not_unexpected _ _ hg x)
        | ok w =>
          obtain ⟨str, s2⟩ := w
          rw [hg] at h
          dsimp only at h
          have hx : str = x :=
            unexpected_message_injective _ _ (error.parse_error.inj (Except.error.inj h))
          have hst := get_eq _ _ _ hg
          rw [hx] at hst
          refine ⟨s2, hst, ?_⟩
          rw [hst] at hterm c10
          simp only [peek, List.headD_cons, Bool.not_eq_true', ] at hterm c10
          refine ⟨c10, hterm, ?_⟩
          simp only [List.mem_cons, List.mem_singleton, List.not_mem_nil, or_false, not_or]
          exact ⟨fun e => skip_if_token_false _ _ c1 s2 (e ▸ hst),
            fun e => skip_if_token_false _ _ c2 s2 (e ▸ hst),
            fun e => skip_if_token_false _ _ c3 s2 (e ▸ hst),
            fun e => skip_if_token_false _ _ c4 s2 (e ▸ hst),
            fun e => skip_if_token_false _ _ c5 s2 (e ▸ hst),
            fun e => skip_if_token_false _ _ c6 s2 (e ▸ hst),
            fun e => skip_if_token_false _ _ c7 s2 (e ▸ hst),
            fun e => skip_if_token_false _ _ c8 s2 (e ▸ hst),
            fun e => skip_if_token_false _ _ c9 s2 (e ▸ hst)⟩
      · rw [if_neg c10] at h
        cases hg : get st.stream with
        | error e =>
          rw [hg] at h
          exact absurd (Except.error.inj h) (get_not_unexpected _ _ hg x)
        | ok w => rw [hg] at h; cases h

theorem suffix_loop_unexpected_inv (x : String) (fuel : Nat) :
    ∀ (st : suffix_state), no_attribute st.stream = true →
      parse_member_function_suffix_loop fuel st = .error (unexpected_token x) →
      ∃ r, suffix_items st.stream (x :: r) ∧ unexpected_lexeme x := by
  induction fuel with
  | zero =>
    intro st _ h
    simp only [parse_member_function_suffix_loop, Except.error.injEq] at h
    cases h
  | succ n ih =>
    intro st hna h
    rw [parse_member_function_suffix_loop] at h
    cases hs : parse_member_function_suffix_step st with
    | error e =>
      rw [hs] at h
      have he : e = unexpected_token x := Except.error.inj h
      rw [he] at hs
      obtain ⟨r, h1, h2⟩ := suffix_step_unexpected_inv st x hs hna
      exact ⟨r, by rw [h1]; exact suffix_items.done _, h2⟩
    | ok v =>
      obtain ⟨b, res⟩ := v
      rw [hs] at h
      cases b with
      | true => cases h
      | false =>
        dsimp only at h
        have hsub := (suffix_step_frame st res false hs).1
        obtain ⟨r, hitems, hx⟩ := ih res (no_attribute_tail _ _ hna hsub) h
        refine ⟨r, ?_, hx⟩
        rcases suffix_step_cases st res false hs with
          ⟨sp, s1, hde, hb, hres⟩ | ⟨sp, s1, t, rest, hde, hsa, hc⟩
        · cases hb
        · obtain ⟨hsa0, _⟩ := is_declaration_end_false _ _ _ _ hde
          rw [no_attribute_skip _ hna] at hsa0
          have hs1 : st.stream = s1 := Except.ok.inj hsa0
          rw [← hs1, no_attribute_skip _ hna] at hsa
          have hst : st.stream = t :: rest := Except.ok.inj hsa
          rw [hst]
          rcases hc with ⟨ht, _, text, s3, hb, hres⟩ | ⟨_, hb, _⟩ | ⟨ht, _, hres⟩
              | ⟨ht, _, hres⟩ | ⟨ht, _, hres⟩ | ⟨ht, _, hres⟩ | ⟨ht, _, hres⟩ | ⟨ht, _, hres⟩
              | ⟨ht, _, e, s3, hn, hres⟩ | ⟨ht, _, hres⟩
          · obtain ⟨inner, e1, e2⟩ := skip_bracket_count_inv _ _ _ _ _ hb
            obtain ⟨ws, e3, e4⟩ := whitespace_split rest
            rw [hres] at hitems
            rw [ht, e3, e1]
            exact suffix_items.function_pointer ws inner s3 _ e4 e2 hitems
          · cases hb
          · rw [hres] at hitems
            exact suffix_items.keyword t rest _ (Or.inl ht)
              (suffix_items_of_skip_whitespace _ _ hitems)
          · rw [hres] at hitems
            exact suffix_items.keyword t rest _ (Or.inr (Or.inl ht))
              (suffix_items_of_skip_whitespace _ _ hitems)
          · rw [hres] at hitems
            exact suffix_items.keyword t rest _ (Or.inr (Or.inr (Or.inl ht)))
              (suffix_items_of_skip_whitespace _ _ hitems)
          · rw [hres] at hitems
            exact suffix_items.keyword t rest _ (Or.inr (Or.inr (Or.inr (Or.inl ht))))
              (suffix_items_of_skip_whitespace _ _ hitems)
          · rw [hres] at hitems
            exact suffix_items.keyword t rest _ (Or.inr (Or.inr (Or.inr (Or.inr (Or.inl ht)))))
              (suffix_items_of_skip_whitespace _ _ hitems)
          · rw [hres] at hitems
            exact suffix_items.keyword t rest _ (Or.inr (Or.inr (Or.inr (Or.inr (Or.inr ht)))))
              (suffix_items_of_skip_whitespace _ _ hitems)
          · rw [hres] at hitems
            rw [ht]
            rcases parse_noexcept_inv _ _ _ hn with ⟨hp, e1⟩ | ⟨inner, e1, e2⟩
            · rw [skip_whitespace_idem] at hp e1
              rw [e1] at hitems
              exact suffix_items.noexcept_bare rest _ hp
                (suffix_items_of_skip_whitespace _ _ hitems)
            · rw [skip_whitespace_idem] at e1
              obtain ⟨ws, e3, e4⟩ := whitespace_split rest
              rw [e3, e1]
              exact suffix_items.noexcept_expression ws inner s3 _ e4 e2 hitems
          · rw [hres] at hitems
            exact suffix_items.space t rest _ ht hitems

theorem suffix_end_not_unexpected (st : suffix_state) (e : error)
    (h : parse_member_function_suffix_end st = .error e) (x : String) :
    e ≠ unexpected_token x := by
  unfold parse_member_function_suffix_end at h
  by_cases hsp : st.special_definition = true
  · rw [if_pos hsp] at h
    cases hs : parse_special_definition st.stream with
    | error e2 =>
      rw [hs] at h
      cases h
      exact parse_special_definition_not_unexpected _ _ hs x
    | ok v =>
      obtain ⟨d, s⟩ := v
      rw [hs] at h
      dsimp only at h
      split_ifs at h
  · rw [if_neg hsp] at h; cases h

/-- C15: when the suffix stream is a sequence of accepted items (whitespace, `const`,
`volatile`, `&`, `&&`, `final`, `override`, `noexcept` with or without its expression,
the `)` of a function-pointer return type with its parameter list) followed by a lexeme
`x` that is no whitespace, no terminator, none of `)`, `->`, `const`, `volatile`, `&`,
`&&`, `final`, `override`, `noexcept` and does not start an attribute,
`parse_member_function_suffix` raises the parse error `unexpected token 'x'`.  Conversely,
on a stream without attributes it raises that error only if such a lexeme `x` follows a
sequence of accepted items. -/
theorem suffix_unexpected_token (stream : token_stream) (finfo : cpp_function_info)
    (minfo : cpp_member_function_info) (x : String) :
    (∀ rest, suffix_items stream (x :: rest) → unexpected_lexeme x →
        skip_attribute (x :: rest) = .ok (x :: rest) →
        parse_member_function_suffix stream finfo minfo
          = .error (.parse_error ("unexpected token \'" ++ x ++ "\'")))
    ∧ (no_attribute stream = true →
        parse_member_function_suffix stream finfo minfo
          = .error (.parse_error ("unexpected token \'" ++ x ++ "\'")) →
        ∃ rest, suffix_items stream (x :: rest) ∧ unexpected_lexeme x) := by
  constructor
  · intro rest hitems hx hsa
    unfold parse_member_function_suffix
    rw [suffix_loop_unexpected x rest hx hsa stream (x :: rest) hitems rfl _ _ rfl
      (Nat.lt_succ_self _)]
  · intro hna h
    unfold parse_member_function_suffix at h
    cases hl : parse_member_function_suffix_loop (stream.length + 1)
        { stream := stream, trailing_return_type := "", special_definition := false,
          finfo := finfo, minfo := minfo } with
    | error e =>
      rw [hl] at h
      have he : e = unexpected_token x := Except.error.inj h
      rw [he] at hl
      exact suffix_loop_unexpected_inv x _ _ hna hl
    | ok st =>
      rw [hl] at h
      exact absurd rfl (suffix_end_not_unexpected st _ h x)

theorem suffix_unexpected_token_witness :
    parse_member_function_suffix
        [" ", "const", " ", "noexcept", "(", "true", ")", " ", "foo", ";"] {} {}
      = .error (.parse_error ("unexpected token \'" ++ "foo" ++ "\'")) :=
  (suffix_unexpected_token [" ", "const", " ", "noexcept", "(", "true", ")", " ", "foo", ";"]
    {} {} "foo").1 [";"]
    (suffix_items.space " " _ _ (by decide)
      (suffix_items.keyword "const" _ _ (Or.inl rfl)
        (suffix_items.space " " _ _ (by decide)
          (suffix_items.noexcept_expression [] ["true"] [" ", "foo", ";"] _
            (fun _ h => nomatch h) (by decide)
            (suffix_items.space " " _ _ (by decide) (suffix_items.done _))))))
    ⟨by decide, by unfold terminator; decide, by decide⟩
    (by decide)

/-! ## The suffix of a constructor -/

theorem constructor_suffix_space (fuel : Nat) (t : String) (rest : token_stream) (sp : Bool)
    (info : cpp_function_info) (ht : starts_with_space t = true) :
    cpp_constructor.suffix_loop (fuel + 1) (t :: rest) sp info =
      cpp_constructor.suffix_loop fuel rest sp info := by
  have e1 := is_declaration_end_space t rest sp ht
  have a1 : t ≠ "[" := space_ne t _ ht (by decide)
  have a2 : t ≠ "__attribute__" := space_ne t _ ht (by decide)
  have n1 : t ≠ "noexcept" := space_ne t _ ht (by decide)
  rw [cpp_constructor.suffix_loop, e1]
  simp [done, skip_attribute_other t rest a1 a2, skip_if_token, n1, peek, ht, get]

theorem constructor_suffix_noexcept (fuel : Nat) (rest : token_stream) (sp : Bool)
    (info : cpp_function_info) :
    cpp_constructor.suffix_loop (fuel + 1) ("noexcept" :: rest) sp info =
      match parse_noexcept (skip_whitespace rest) with
      | .error e => .error e
      | .ok (expression, stream) =>
        cpp_constructor.suffix_loop fuel stream sp
          { info with explicit_noexcept := true, noexcept_expression := expression } := by
  have e := is_declaration_end_other "noexcept" rest sp (by decide)
    (by decide) (not_terminator_of_length _ (by decide))
  rw [cpp_constructor.suffix_loop, e]
  simp [done, skip_attribute, peek, skip_if_token]

theorem constructor_suffix_terminator (fuel : Nat) (t : String) (rest : token_stream) (sp : Bool)
    (info : cpp_function_info) (ht : terminator t) :
    cpp_constructor.suffix_loop (fuel + 1) (t :: rest) sp info =
      .ok (skip_whitespace rest, decide (t = "="), info) := by
  rw [cpp_constructor.suffix_loop, is_declaration_end_terminator t rest sp ht]

theorem constructor_suffix_unexpected_lexeme (fuel : Nat) (x : String) (rest : token_stream)
    (sp : Bool) (info : cpp_function_info) (hx : constructor_unexpected_lexeme x)
    (hsa : skip_attribute (x :: rest) = .ok (x :: rest)) :
    cpp_constructor.suffix_loop (fuel + 1) (x :: rest) sp info =
      .error (.parse_error ("unexpected token \'" ++ x ++ "\'")) := by
  obtain ⟨h1, h2, h3⟩ := hx
  have e := is_declaration_end_plain x rest sp hsa h2
  rw [cpp_constructor.suffix_loop, e]
  simp [done, hsa, peek, skip_if_token, get, h1, h3]

theorem constructor_suffix_skip_whitespace (sp : Bool) (info : cpp_function_info) :
    ∀ (rest : token_stream) (fuel : Nat),
      cpp_constructor.suffix_loop fuel (skip_whitespace rest) sp info =
        cpp_constructor.suffix_loop (fuel + (rest.length - (skip_whitespace rest).length))
          rest sp info := by
  intro rest
  induction rest with
  | nil => intro fuel; rfl
  | cons t rest ih =>
    intro fuel
    by_cases ht : starts_with_space t = true
    · have hsw : skip_whitespace (t :: rest) = skip_whitespace rest := by
        simp only [skip_whitespace, ht, if_true]
      have hle : (skip_whitespace rest).length ≤ rest.length :=
        (skip_whitespace_suffix rest).length_le
      have hk : fuel + ((t :: rest).length - (skip_whitespace rest).length)
          = (fuel + (rest.length - (skip_whitespace rest).length)) + 1 := by
        simp only [List.length_cons]; omega
      rw [hsw, hk, constructor_suffix_space _ t rest sp info ht]
      exact ih fuel
    · have hsw : skip_whitespace (t :: rest) = t :: rest := by
        simp only [skip_whitespace, ht, if_false, Bool.false_eq_true]
      rw [hsw]
      simp only [Nat.sub_self, Nat.add_zero]

theorem constructor_suffix_items (sp : Bool) :
    ∀ (s s2 : token_stream), noexcept_items s s2 →
    ∀ (fuel : Nat) (info : cpp_function_info), s.length < fuel →
      ∃ fuel2 info2, s2.length < fuel2
        ∧ cpp_constructor.suffix_loop fuel s sp info
            = cpp_constructor.suffix_loop fuel2 s2 sp info2
        ∧ info2.definition = info.definition ∧ info2.is_variadic = info.is_variadic := by
  intro s s2 h
  induction h with
  | done s => intro fuel info hfuel; exact ⟨fuel, info, hfuel, rfl, rfl, rfl⟩
  | space t rest s2 ht _ ih =>
    intro fuel info hfuel
    obtain ⟨fuel, rfl⟩ : ∃ k, fuel = k + 1 := ⟨fuel - 1, by omega⟩
    rw [constructor_suffix_space fuel t rest sp info ht]
    exact ih fuel info (by simp only [List.length_cons] at hfuel; omega)
  | noexcept_bare rest s2 hp _ ih =>
    intro fuel info hfuel
    obtain ⟨fuel, rfl⟩ : ∃ k, fuel = k + 1 := ⟨fuel - 1, by omega⟩
    rw [constructor_suffix_noexcept,
      parse_noexcept_bare (skip_whitespace rest) (by rw [skip_whitespace_idem]; exact hp),
      skip_whitespace_idem]
    dsimp only
    rw [constructor_suffix_skip_whitespace]
    obtain ⟨f2, i2, h1, h2, h3, h4⟩ := ih (fuel + (rest.length - (skip_whitespace rest).length))
      { info with explicit_noexcept := true, noexcept_expression := "true" }
      (by simp only [List.length_cons] at hfuel; omega)
    exact ⟨f2, i2, h1, h2, h3, h4⟩
  | noexcept_expression ws inner rest s2 hws hb _ ih =>
    intro fuel info hfuel
    obtain ⟨fuel, rfl⟩ : ∃ k, fuel = k + 1 := ⟨fuel - 1, by omega⟩
    have hp : starts_with_space (peek ("(" :: (inner ++ ")" :: rest))) = false := by
      simp only [peek, List.headD_cons]; decide
    have h0 := parse_noexcept_balanced [] inner rest (fun _ h => nomatch h) hb
    rw [List.nil_append] at h0
    rw [constructor_suffix_noexcept,
      skip_whitespace_all_space ws ("(" :: (inner ++ ")" :: rest)) hws hp, h0]
    dsimp only
    obtain ⟨f2, i2, h1, h2, h3, h4⟩ := ih fuel
      { info with explicit_noexcept := true, noexcept_expression := String.join inner }
      (by simp only [List.length_cons, List.length_append] at hfuel; omega)
    exact ⟨f2, i2, h1, h2, h3, h4⟩

theorem constructor_parse_eq (stream : token_stream) (cur : cpp_cursor) (s : token_stream)
    (h : constructor_suffix_stream stream cur = .ok s) :
    ∃ template_args info0,
      cpp_constructor.parse stream cur =
        match cpp_constructor.suffix_loop (s.length + 1) s false info0 with
        | .error e => .error e
        | .ok (stream, special_definition, info) =>
          let special : Except error cpp_function_info :=
            if special_definition then
              match parse_special_definition stream with
              | .error e => .error e
              | .ok (res, _) =>
                if res = cpp_function_definition_normal then
                  .error (.parse_error "constructor is pure virtual")
                else .ok { info with definition := res }
            else .ok info
          match special with
          | .error e => .error e
          | .ok info =>
            let info :=
              if !info.explicit_noexcept then { info with noexcept_expression := "false" }
              else info
            match parse_parameters cur with
            | .error e => .error e
            | .ok parameters =>
              .ok { name := erase_template_args cur.name, info := info,
                    parameters := parameters,
                    signature := calc_signature parameters info.is_variadic,
                    specialization_name :=
                      if template_args ≠ "" then
                        some (set_template_specialization_name cur template_args)
                      else none } := by
  unfold constructor_suffix_stream at h
  unfold cpp_constructor.parse
  cases h1 : skip_template_parameter_declaration stream with
  | error e => rw [h1] at h; cases h
  | ok s1 =>
    rw [h1] at h
    dsimp only at h ⊢
    cases h2 : cpp_constructor.parse_loop (erase_template_args cur.name) (s1.length + 1) s1 {} with
    | error e => rw [h2] at h; cases h
    | ok v2 =>
      obtain ⟨s2, info⟩ := v2
      rw [h2] at h
      dsimp only at h ⊢
      cases h3 : skip_template_arguments s2 "" false with
      | error e => rw [h3] at h; cases h
      | ok v3 =>
        obtain ⟨targs, s3⟩ := v3
        rw [h3] at h
        dsimp only at h ⊢
        cases h4 : skip_parameters s3 with
        | error e => rw [h4] at h; cases h
        | ok v4 =>
          obtain ⟨variadic, s4⟩ := v4
          rw [h4] at h
          dsimp only at h ⊢
          have hs : s4 = s := Except.ok.inj h
          rw [hs]
          exact ⟨targs, _, rfl⟩

theorem constructor_special (stream : token_stream) (cur : cpp_cursor) (s rest : token_stream)
    (h : constructor_suffix_stream stream cur = .ok s)
    (hitems : noexcept_items s ("=" :: rest)) (t : String) (rest2 : token_stream)
    (hrest : skip_whitespace rest = t :: rest2) :
    ∃ (template_args : String) (info : cpp_function_info),
      cpp_constructor.parse stream cur =
        match parse_special_definition (t :: rest2) with
        | .error e => .error e
        | .ok (res, _) =>
          if res = cpp_function_definition_normal then
            .error (.parse_error "constructor is pure virtual")
          else
            match parse_parameters cur with
            | .error e => .error e
            | .ok parameters =>
              .ok { name := erase_template_args cur.name,
                    info :=
                      if !info.explicit_noexcept then
                        { info with definition := res, noexcept_expression := "false" }
                      else { info with definition := res },
                    parameters := parameters,
                    signature := calc_signature parameters info.is_variadic,
                    specialization_name :=
                      if template_args ≠ "" then
                        some (set_template_specialization_name cur template_args)
                      else none } := by
  obtain ⟨targs, info0, heq⟩ := constructor_parse_eq stream cur s h
  obtain ⟨f2, i2, hlt, hloop, _, _⟩ :=
    constructor_suffix_items false s ("=" :: rest) hitems (s.length + 1) info0
      (Nat.lt_succ_self _)
  obtain ⟨f2, rfl⟩ : ∃ k, f2 = k + 1 := ⟨f2 - 1, by omega⟩
  rw [constructor_suffix_terminator f2 "=" rest false i2 (Or.inr (Or.inr (Or.inr rfl)))] at hloop
  refine ⟨targs, i2, ?_⟩
  rw [heq, hloop, hrest]
  simp only [decide_True, if_true]
  cases parse_special_definition (t :: rest2) with
  | error e => rfl
  | ok v =>
    obtain ⟨res, s3⟩ := v
    dsimp only
    by_cases hn : res = cpp_function_definition_normal
    · rw [if_pos hn, if_pos hn]
    · rw [if_neg hn, if_neg hn]
      dsimp only
      cases parse_parameters cur with
      | error e => rfl
      | ok ps =>
        dsimp only
        cases hx : i2.explicit_noexcept <;> simp [hx]

/-- C18: let the stream at the suffix loop of `cpp_constructor.parse` be a sequence of
whitespace and `noexcept` specifications followed by a lexeme.  When that lexeme is no
whitespace, no terminator, not `noexcept` and does not start an attribute, the parse error
`unexpected token '<lexeme>'` is raised; `const`, `volatile`, `&`, `&&`, `final`,
`override` and `->` are such lexemes.  When it is `=` followed by `0`, the parse error
`constructor is pure virtual` is raised; when it is `=` followed by `default` or `delete`
and the parameters parse, the record has definition kind defaulted or deleted. -/
theorem constructor_suffix_rejects (stream : token_stream) (cur : cpp_cursor)
    (s : token_stream) (h : constructor_suffix_stream stream cur = .ok s) :
    (∀ x rest, noexcept_items s (x :: rest) → constructor_unexpected_lexeme x →
        skip_attribute (x :: rest) = .ok (x :: rest) →
        cpp_constructor.parse stream cur
          = .error (.parse_error ("unexpected token \'" ++ x ++ "\'")))
    ∧ (∀ x ∈ ["const", "volatile", "&", "&&", "final", "override", "->"],
        constructor_unexpected_lexeme x
        ∧ ∀ rest, skip_attribute (x :: rest) = .ok (x :: rest))
    ∧ (∀ rest, noexcept_items s ("=" :: rest) → peek (skip_whitespace rest) = "0" →
        cpp_constructor.parse stream cur
          = .error (.parse_error "constructor is pure virtual"))
    ∧ (∀ rest parameters, noexcept_items s ("=" :: rest) →
        parse_parameters cur = .ok parameters →
        (peek (skip_whitespace rest) = "default" →
          ∃ r, cpp_constructor.parse stream cur = .ok r
            ∧ r.info.definition = cpp_function_definition_defaulted)
        ∧ (peek (skip_whitespace rest) = "delete" →
          ∃ r, cpp_constructor.parse stream cur = .ok r
            ∧ r.info.definition = cpp_function_definition_deleted)) := by
  refine ⟨?_, ?_, ?_, ?_⟩
  · intro x rest hitems hx hsa
    obtain ⟨targs, info0, heq⟩ := constructor_parse_eq stream cur s h
    obtain ⟨f2, i2, hlt, hloop, _, _⟩ :=
      constructor_suffix_items false s (x :: rest) hitems (s.length + 1) info0
        (Nat.lt_succ_self _)
    obtain ⟨f2, rfl⟩ : ∃ k, f2 = k + 1 := ⟨f2 - 1, by omega⟩
    rw [constructor_suffix_unexpected_lexeme f2 x rest false i2 hx hsa] at hloop
    rw [heq, hloop]
  · intro x hx
    simp only [List.mem_cons, List.mem_singleton, List.not_mem_nil, or_false] at hx
    rcases hx with e | e | e | e | e | e | e <;> subst e <;>
      exact ⟨⟨by decide, by unfold terminator; decide, by decide⟩,
        fun rest => skip_attribute_other _ rest (by decide) (by decide)⟩
  · intro rest hitems hp
    obtain ⟨rest2, e1, _⟩ := peek_eq_cons _ "0" hp (by decide)
    obtain ⟨targs, info, heq⟩ := constructor_special stream cur s rest h hitems "0" rest2 e1
    rw [heq, parse_special_definition_cons]
    simp
  · intro rest parameters hitems hps
    constructor
    · intro hp
      obtain ⟨rest2, e1, _⟩ := peek_eq_cons _ "default" hp (by decide)
      obtain ⟨targs, info, heq⟩ :=
        constructor_special stream cur s rest h hitems "default" rest2 e1
      rw [heq, parse_special_definition_cons, hps]
      simp only [if_true]
      refine ⟨_, rfl, ?_⟩
      cases hx : info.explicit_noexcept <;> simp [hx]
    · intro hp
      obtain ⟨rest2, e1, _⟩ := peek_eq_cons _ "delete" hp (by decide)
      obtain ⟨targs, info, heq⟩ :=
        constructor_special stream cur s rest h hitems "delete" rest2 e1
      rw [heq, parse_special_definition_cons, hps]
      have hne : ¬ (("delete" : String) = "default") := by decide
      simp only [hne, if_false, if_true]
      refine ⟨_, rfl, ?_⟩
      cases hx : info.explicit_noexcept <;> simp [hx]

theorem constructor_suffix_rejects_witness :
    cpp_constructor.parse ["A", "(", ")", " ", "noexcept", " ", "const", ";"] { name := "A" }
      = .error (.parse_error ("unexpected token \'" ++ "const" ++ "\'")) :=
  (constructor_suffix_rejects ["A", "(", ")", " ", "noexcept", " ", "const", ";"]
    { name := "A" } [" ", "noexcept", " ", "const", ";"] (by decide)).1 "const" [";"]
    (noexcept_items.space " " _ _ (by decide)
      (noexcept_items.noexcept_bare [" ", "const", ";"] _ (by decide)
        (noexcept_items.space " " _ _ (by decide) (noexcept_items.done _))))
    ⟨by decide, by unfold terminator; decide, by decide⟩
    (by decide)

/-! ## The end of a declaration -/

theorem terminator_iff (t : String) :
    terminator t ↔ t.length = 1
      ∧ (first_char t = ':' ∨ first_char t = ';' ∨ first_char t = '\x7b' ∨ first_char t = '=') := by
  constructor
  · intro ht
    rcases ht with h | h | h | h <;> subst h <;> decide
  · rintro ⟨hlen, hc⟩
    have hl : ¬ t.length > 1 := by omega
    rcases hc with h | h | h | h
    · exact Or.inr (Or.inr (Or.inl (eq_singleton_of_first_char t _ hl h (by decide))))
    · exact Or.inl (eq_singleton_of_first_char t _ hl h (by decide))
    · exact Or.inr (Or.inl (eq_singleton_of_first_char t _ hl h (by decide)))
    · exact Or.inr (Or.inr (Or.inr (eq_singleton_of_first_char t _ hl h (by decide))))

theorem is_declaration_end_true (s s1 : token_stream) (sp : Bool)
    (hsa : skip_attribute s = .ok s1) (ht : terminator (peek s1)) :
    is_declaration_end s sp = .ok (true, decide (peek s1 = "="), skip_whitespace s1.tail) := by
  unfold is_declaration_end
  rw [hsa]
  dsimp only
  rcases ht with h | h | h | h <;> rw [h] <;> simp [first_char] <;> decide

theorem is_declaration_end_not (s s1 : token_stream) (sp : Bool)
    (hsa : skip_attribute s = .ok s1) (ht : ¬ terminator (peek s1)) :
    is_declaration_end s sp = .ok (false, sp, s1) := by
  unfold is_declaration_end
  rw [hsa]
  dsimp only
  by_cases hlen : (peek s1).length > 1
  · rw [if_pos hlen]
  · rw [if_neg hlen]
    have c1 : first_char (peek s1) ≠ ':' := fun h =>
      ht (Or.inr (Or.inr (Or.inl (eq_singleton_of_first_char _ _ hlen h (by decide)))))
    have c2 : first_char (peek s1) ≠ ';' := fun h =>
      ht (Or.inl (eq_singleton_of_first_char _ _ hlen h (by decide)))
    have c3 : first_char (peek s1) ≠ '\x7b' := fun h =>
      ht (Or.inr (Or.inl (eq_singleton_of_first_char _ _ hlen h (by decide))))
    have c4 : first_char (peek s1) ≠ '=' := fun h =>
      ht (Or.inr (Or.inr (Or.inr (eq_singleton_of_first_char _ _ hlen h (by decide)))))
    simp [c1, c2, c3, c4]

/-- C27: let `s1` be the stream after the attributes.  `is_declaration_end` answers true
iff the next lexeme of `s1` is one character long and is one of `:`, `;`, the opening
brace, `=`; it then consumes that lexeme with the whitespace after it and sets the flag
to true iff the lexeme is `=`.  Otherwise, also for `::` and `==`, it answers false,
leaves the stream at `s1` and the flag as it was. -/
theorem is_declaration_end_single_character (s s1 : token_stream) (sp : Bool)
    (hsa : skip_attribute s = .ok s1) :
    (terminator (peek s1) →
      is_declaration_end s sp
        = .ok (true, decide (peek s1 = "="), skip_whitespace s1.tail))
    ∧ (¬ terminator (peek s1) → is_declaration_end s sp = .ok (false, sp, s1))
    ∧ (∀ b sp2 s2, is_declaration_end s sp = .ok (b, sp2, s2) →
        (b = true ↔ (peek s1).length = 1
          ∧ (first_char (peek s1) = ':' ∨ first_char (peek s1) = ';'
              ∨ first_char (peek s1) = '\x7b' ∨ first_char (peek s1) = '=')))
    ∧ (∀ rest, is_declaration_end ("::" :: rest) sp = .ok (false, sp, "::" :: rest))
    ∧ (∀ rest, is_declaration_end ("==" :: rest) sp = .ok (false, sp, "==" :: rest)) := by
  refine ⟨is_declaration_end_true s s1 sp hsa, is_declaration_end_not s s1 sp hsa, ?_, ?_, ?_⟩
  · intro b sp2 s2 h
    rw [← terminator_iff]
    by_cases ht : terminator (peek s1)
    · rw [is_declaration_end_true s s1 sp hsa ht] at h
      simp only [Except.ok.injEq, Prod.mk.injEq] at h
      rw [← h.1]
      exact ⟨fun _ => ht, fun _ => rfl⟩
    · rw [is_declaration_end_not s s1 sp hsa ht] at h
      simp only [Except.ok.injEq, Prod.mk.injEq] at h
      rw [← h.1]
      exact ⟨fun hb => (by cases hb), fun h2 => absurd h2 ht⟩
  · intro rest
    exact is_declaration_end_other "::" rest sp (by decide) (by decide)
      (not_terminator_of_length _ (by decide))
  · intro rest
    exact is_declaration_end_other "==" rest sp (by decide) (by decide)
      (not_terminator_of_length _ (by decide))

theorem is_declaration_end_single_character_witness :
    is_declaration_end ["=", " ", "0", ";"] false
      = .ok (true, decide (peek ["=", " ", "0", ";"] = "="),
             skip_whitespace (["=", " ", "0", ";"] : token_stream).tail) :=
  (is_declaration_end_single_character ["=", " ", "0", ";"] ["=", " ", "0", ";"] false
    (by decide)).1 (Or.inr (Or.inr (Or.inr rfl)))

/-! ## The template arguments partition the lexemes -/

/-- C29: when `skip_template_arguments` is entered at a `<` and finds a boundary, the
captured text is the old text followed by the concatenation, in order and with the
whitespace lexemes, of the lexemes `taken` from that `<` up to the new cursor position;
`taken` followed by the remaining stream is the original stream, so no lexeme is lost or
duplicated, and the lexeme at the cursor is `(`. -/
theorem skip_template_arguments_partition (stream : token_stream) (args : String)
    (returns_function : Bool) (text : String) (s2 : token_stream)
    (hp : peek stream = "<")
    (h : skip_template_arguments stream args returns_function = .ok (text, s2)) :
    ∃ taken, stream = taken ++ s2 ∧ text = args ++ String.join taken
      ∧ taken.head? = some "<" ∧ peek s2 = "("
      ∧ String.join stream = String.join taken ++ String.join s2 := by
  unfold skip_template_arguments at h
  rw [if_pos hp] at h
  dsimp only at h
  split_ifs at h with h1
  cases hs : skip_template_arguments_scan returns_function
      ((stream.enum.filter (fun p => !starts_with_space p.2)).reverse) 0 false none with
  | error e => rw [hs] at h; cases h
  | ok r =>
    rw [hs] at h
    cases r with
    | none => cases h
    | some pos =>
      dsimp only at h
      by_cases h2 : peek (stream.drop pos) = "("
      · rw [if_pos h2] at h
        simp only [Except.ok.injEq, Prod.mk.injEq] at h
        obtain ⟨e1, e2⟩ := h
        have hsplit : stream = stream.take pos ++ s2 := by
          rw [← e2]; exact (List.take_append_drop pos stream).symm
        refine ⟨stream.take pos, hsplit, e1.symm, ?_, by rw [← e2]; exact h2, ?_⟩
        · obtain ⟨rest, hst, _⟩ := peek_eq_cons stream "<" hp (by decide)
          cases pos with
          | zero =>
            rw [List.drop_zero, hp] at h2
            exact absurd h2 (by decide)
          | succ n => rw [hst]; rfl
        · conv_lhs => rw [hsplit]
          exact string_join_append _ _
      · rw [if_neg h2] at h; cases h

theorem skip_template_arguments_partition_witness :
    ∃ taken, ["<", "int", ">", " ", "(", "int", " ", "x", ")", ";"] = taken ++ ["(", "int", " ", "x", ")", ";"]
      ∧ "<int> " = "" ++ String.join taken
      ∧ taken.head? = some "<" ∧ peek ["(", "int", " ", "x", ")", ";"] = "("
      ∧ String.join ["<", "int", ">", " ", "(", "int", " ", "x", ")", ";"]
          = String.join taken ++ String.join ["(", "int", " ", "x", ")", ";"] :=
  skip_template_arguments_partition ["<", "int", ">", " ", "(", "int", " ", "x", ")", ";"] ""
    false "<int> " ["(", "int", " ", "x", ")", ";"] (by decide) (by decide)

/-! ## The rename of the owning specialization -/

theorem function_parse_rename (stream : token_stream) (cur : cpp_cursor) (r : cpp_function)
    (h : cpp_function.parse stream cur = .ok r) :
    ∃ res parameters, parse_member_function stream cur.name "" {} {} = .ok res
      ∧ parse_parameters cur = .ok parameters
      ∧ r.specialization_name = specialization_rename cur res.template_args
      ∧ r.name = cur.name ∧ r.parameters = parameters
      ∧ r.signature = calc_signature parameters res.finfo.is_variadic := by
  unfold cpp_function.parse at h
  cases hm : parse_member_function stream cur.name "" {} {} with
  | error e => rw [hm] at h; cases h
  | ok res =>
    rw [hm] at h
    dsimp only at h
    by_cases hv : is_virtual res.minfo.virtual_flag = true
    · rw [if_pos hv] at h; cases h
    rw [if_neg hv] at h
    by_cases hc : res.minfo.cv_qualifier ≠ cpp_cv_none
    · rw [if_pos hc] at h; cases h
    rw [if_neg hc] at h
    by_cases hr : res.minfo.ref_qualifier ≠ cpp_ref_none
    · rw [if_pos hr] at h; cases h
    rw [if_neg hr] at h
    cases hp : parse_parameters cur with
    | error e => rw [hp] at h; cases h
    | ok parameters =>
      rw [hp] at h
      dsimp only at h
      have e := Except.ok.inj h
      rw [← e]
      exact ⟨res, parameters, rfl, rfl, rfl, rfl, rfl, rfl⟩

theorem member_function_parse_rename (stream : token_stream) (cur : cpp_cursor)
    (r : cpp_member_function) (h : cpp_member_function.parse stream cur = .ok r) :
    ∃ res parameters, parse_member_function stream cur.name "" {} {} = .ok res
      ∧ parse_parameters cur = .ok parameters
      ∧ r.specialization_name = specialization_rename cur res.template_args
      ∧ r.name = cur.name ∧ r.parameters = parameters
      ∧ r.signature
          = member_signature (calc_signature parameters res.finfo.is_variadic) res.minfo := by
  unfold cpp_member_function.parse at h
  cases hm : parse_member_function stream cur.name "" {} {} with
  | error e => rw [hm] at h; cases h
  | ok res =>
    rw [hm] at h
    dsimp only at h
    cases hp : parse_parameters cur with
    | error e => rw [hp] at h; cases h
    | ok parameters =>
      rw [hp] at h
      dsimp only at h
      have e := Except.ok.inj h
      rw [← e]
      exact ⟨res, parameters, rfl, rfl, rfl, rfl, rfl, rfl⟩

theorem conversion_op_parse_rename (stream : token_stream) (cur : cpp_cursor)
    (r : cpp_conversion_op) (h : cpp_conversion_op.parse stream cur = .ok r) :
    ∃ text s finfo minfo type,
      conversion_op_parameters stream = .ok (text, false, s, finfo, minfo)
      ∧ parse_conversion_op_type cur = .ok type
      ∧ r.specialization_name = specialization_rename cur text
      ∧ r.target_type = type := by
  rw [conversion_op_parse_eq] at h
  cases ht : parse_conversion_op_type cur with
  | error e => rw [ht] at h; cases h
  | ok type =>
    rw [ht] at h
    dsimp only at h
    cases hp : conversion_op_parameters stream with
    | error e => rw [hp] at h; cases h
    | ok r1 =>
      obtain ⟨targs, variadic, s, finfo, minfo⟩ := r1
      rw [hp] at h
      dsimp only at h
      cases variadic with
      | true => simp only [if_true] at h; cases h
      | false =>
        simp only [Bool.false_eq_true, if_false] at h
        cases hs : parse_member_function_suffix s finfo minfo with
        | error e => rw [hs] at h; cases h
        | ok suf =>
          rw [hs] at h
          dsimp only at h
          by_cases hne : suf.trailing_return_type ≠ ""
          · rw [if_pos hne] at h; cases h
          · rw [if_neg hne] at h
            have e := Except.ok.inj h
            rw [← e]
            exact ⟨targs, s, finfo, minfo, type, rfl, rfl, rfl, rfl⟩

theorem constructor_parse_rename (stream : token_stream) (cur : cpp_cursor)
    (r : cpp_constructor) (h : cpp_constructor.parse stream cur = .ok r) :
    ∃ text variadic s info parameters,
      constructor_parameters stream cur = .ok (text, variadic, s, info)
      ∧ parse_parameters cur = .ok parameters
      ∧ r.specialization_name = specialization_rename cur text
      ∧ r.name = erase_template_args cur.name ∧ r.parameters = parameters
      ∧ r.signature = calc_signature parameters r.info.is_variadic := by
  unfold cpp_constructor.parse at h
  unfold constructor_parameters
  cases h1 : skip_template_parameter_declaration stream with
  | error e => rw [h1] at h; cases h
  | ok s1 =>
    rw [h1] at h
    dsimp only at h ⊢
    cases h2 : cpp_constructor.parse_loop (erase_template_args cur.name) (s1.length + 1) s1 {} with
    | error e => rw [h2] at h; cases h
    | ok v2 =>
      obtain ⟨s2, info⟩ := v2
      rw [h2] at h
      dsimp only at h ⊢
      cases h3 : skip_template_arguments s2 "" false with
      | error e => rw [h3] at h; cases h
      | ok v3 =>
        obtain ⟨targs, s3⟩ := v3
        rw [h3] at h
        dsimp only at h ⊢
        cases h4 : skip_parameters s3 with
        | error e => rw [h4] at h; cases h
        | ok v4 =>
          obtain ⟨variadic, s4⟩ := v4
          rw [h4] at h
          dsimp only at h ⊢
          cases h5 : cpp_constructor.suffix_loop (s4.length + 1) s4 false
              (if variadic = true then info.set_flag cpp_variadic_fnc else info) with
          | error e => rw [h5] at h; cases h
          | ok v5 =>
            obtain ⟨s5, special, info5⟩ := v5
            rw [h5] at h
            dsimp only at h
            split at h
            · cases h
            · rename_i info6 hsp
              cases hp : parse_parameters cur with
              | error e => rw [hp] at h; cases h
              | ok parameters =>
                rw [hp] at h
                dsimp only at h
                have e := Except.ok.inj h
                rw [← e]
                exact ⟨targs, variadic, s4, info, parameters, rfl, rfl, rfl, rfl, rfl, rfl⟩

/-- C21: for functions, member functions, conversion operators and constructors the
record carries a rename of the owning specialization iff the captured text of the
template arguments is not empty; the new name is the name of the declaration followed by
the captured text.  The name, the parameters and the signature of the record itself are
those built without the text. -/
theorem specialization_rename_applied (stream : token_stream) (cur : cpp_cursor) :
    (∀ r, cpp_function.parse stream cur = .ok r →
      ∃ res parameters, parse_member_function stream cur.name "" {} {} = .ok res
        ∧ parse_parameters cur = .ok parameters
        ∧ r.specialization_name = specialization_rename cur res.template_args
        ∧ r.name = cur.name ∧ r.parameters = parameters
        ∧ r.signature = calc_signature parameters res.finfo.is_variadic)
    ∧ (∀ r, cpp_member_function.parse stream cur = .ok r →
      ∃ res parameters, parse_member_function stream cur.name "" {} {} = .ok res
        ∧ parse_parameters cur = .ok parameters
        ∧ r.specialization_name = specialization_rename cur res.template_args
        ∧ r.name = cur.name ∧ r.parameters = parameters
        ∧ r.signature
            = member_signature (calc_signature parameters res.finfo.is_variadic) res.minfo)
    ∧ (∀ r, cpp_conversion_op.parse stream cur = .ok r →
      ∃ text s finfo minfo type,
        conversion_op_parameters stream = .ok (text, false, s, finfo, minfo)
        ∧ parse_conversion_op_type cur = .ok type
        ∧ r.specialization_name = specialization_rename cur text
        ∧ r.target_type = type)
    ∧ (∀ r, cpp_constructor.parse stream cur = .ok r →
      ∃ text variadic s info parameters,
        constructor_parameters stream cur = .ok (text, variadic, s, info)
        ∧ parse_parameters cur = .ok parameters
        ∧ r.specialization_name = specialization_rename cur text
        ∧ r.name = erase_template_args cur.name ∧ r.parameters = parameters
        ∧ r.signature = calc_signature parameters r.info.is_variadic)
    ∧ (∀ text, (specialization_rename cur text = none ↔ text = "")
        ∧ (text ≠ "" → specialization_rename cur text = some (cur.name ++ text))
        ∧ specialization_rename cur text
            = if text ≠ "" then some (set_template_specialization_name cur text) else none) := by
  refine ⟨function_parse_rename stream cur, member_function_parse_rename stream cur,
    conversion_op_parse_rename stream cur, constructor_parse_rename stream cur, ?_⟩
  intro text
  unfold specialization_rename
  by_cases h : text = ""
  · simp [h]
  · simp [h, set_template_specialization_name]

theorem specialization_rename_applied_witness :
    ∃ res parameters,
      parse_member_function
          ["template", "<", ">", " ", "void", " ", "f", "<", "int", ">", "(", ")", ";"]
          "f" "" {} {} = .ok res
      ∧ parse_parameters { name := "f" } = .ok parameters
      ∧ ({ name := "f", return_type := { name := "void" },
           info := { noexcept_expression := "false" }, parameters := [],
           signature := "()", specialization_name := some "f<int>" }
          : cpp_function).specialization_name
        = specialization_rename { name := "f" } res.template_args
      ∧ ({ name := "f", return_type := { name := "void" },
           info := { noexcept_expression := "false" }, parameters := [],
           signature := "()", specialization_name := some "f<int>" }
          : cpp_function).name = "f"
      ∧ ({ name := "f", return_type := { name := "void" },
           info := { noexcept_expression := "false" }, parameters := [],
           signature := "()", specialization_name := some "f<int>" }
          : cpp_function).parameters = parameters
      ∧ ({ name := "f", return_type := { name := "void" },
           info := { noexcept_expression := "false" }, parameters := [],
           signature := "()", specialization_name := some "f<int>" }
          : cpp_function).signature = calc_signature parameters res.finfo.is_variadic :=
  (specialization_rename_applied
    ["template", "<", ">", " ", "void", " ", "f", "<", "int", ">", "(", ")", ";"]
    { name := "f" }).1
    { name := "f", return_type := { name := "void" },
      info := { noexcept_expression := "false" }, parameters := [],
      signature := "()", specialization_name := some "f<int>" }
    (by decide)

/-! ## The prefix loop on the lexemes before the name -/

theorem prefix_step_extern (name : String) (st : prefix_state) (rest : token_stream)
    (hname : name ≠ "extern") (hst : st.stream = "extern" :: rest) :
    parse_member_function_prefix_step name st =
      .ok (false, { st with stream := skip_whitespace rest }) := by
  have hn : ¬ "extern" = name := fun h => hname h.symm
  simp [parse_member_function_prefix_step, hst, skip_attribute, peek, skip_if_token, hn]

theorem prefix_step_constexpr (name : String) (st : prefix_state) (rest : token_stream)
    (hname : name ≠ "constexpr") (hst : st.stream = "constexpr" :: rest) :
    parse_member_function_prefix_step name st =
      .ok (false, { st with stream := skip_whitespace rest,
                            finfo := st.finfo.set_flag cpp_constexpr_fnc }) := by
  have hn : ¬ "constexpr" = name := fun h => hname h.symm
  simp [parse_member_function_prefix_step, hst, skip_attribute, peek, skip_if_token, hn]

theorem prefix_step_auto_dropped (name : String) (st : prefix_state) (rest : token_stream)
    (hname : name ≠ "auto") (hst : st.stream = "auto" :: rest)
    (hallow : st.allow_auto = false) :
    parse_member_function_prefix_step name st =
      .ok (false, { st with stream := skip_whitespace rest }) := by
  have hn : ¬ "auto" = name := fun h => hname h.symm
  simp [parse_member_function_prefix_step, hst, skip_attribute, peek, skip_if_token, hn,
    hallow]

theorem prefix_step_auto_kept (name : String) (st : prefix_state) (rest : token_stream)
    (hname : name ≠ "auto") (hst : st.stream = "auto" :: rest)
    (hallow : st.allow_auto = true) :
    parse_member_function_prefix_step name st =
      .ok (false, { st with stream := rest, return_type := st.return_type ++ "auto" }) := by
  have hn : ¬ "auto" = name := fun h => hname h.symm
  simp [parse_member_function_prefix_step, hst, skip_attribute, peek, skip_if_token, hn,
    hallow, get]

theorem prefix_step_decltype (name : String) (st : prefix_state) (rest : token_stream)
    (hname : name ≠ "decltype") (hst : st.stream = "decltype" :: rest) :
    parse_member_function_prefix_step name st =
      .ok (false, { st with stream := rest, allow_auto := true,
                            return_type := st.return_type ++ "decltype" }) := by
  have hn : ¬ "decltype" = name := fun h => hname h.symm
  simp [parse_member_function_prefix_step, hst, skip_attribute, peek, skip_if_token, hn, get]

theorem prefix_virtual_cons (v : cpp_virtual) (t : String) (pre : List String) :
    prefix_virtual v (t :: pre) =
      prefix_virtual (if t = "static" then cpp_virtual_static
                      else if t = "virtual" then cpp_virtual_new else v) pre := by
  unfold prefix_virtual
  by_cases h1 : t = "static"
  · subst h1
    have hf : (("static" : String) == "static" || ("static" : String) == "virtual") = true := by
      decide
    simp only [List.filter_cons, hf, if_true]
    cases hl : (pre.filter (fun t => t == "static" || t == "virtual")) with
    | nil => rfl
    | cons u l =>
      rw [List.getLast?_cons_cons]
      cases hg : (u :: l).getLast? with
      | none => simp at hg
      | some w => rfl
  · by_cases h2 : t = "virtual"
    · subst h2
      have hf : (("virtual" : String) == "static" || ("virtual" : String) == "virtual") = true := by
        decide
      simp only [List.filter_cons, hf, h1, if_false, if_true]
      cases hl : (pre.filter (fun t => t == "static" || t == "virtual")) with
      | nil => rfl
      | cons u l =>
        rw [List.getLast?_cons_cons]
        cases hg : (u :: l).getLast? with
        | none => simp at hg
        | some w => rfl
    · have hf : ¬ ((t == "static" || t == "virtual") = true) := by simp [h1, h2]
      simp only [List.filter_cons, hf, h1, h2, if_false, Bool.false_eq_true]

theorem prefix_step_scanned (name : String) (st : prefix_state) (t : String)
    (rest : token_stream) (hst : st.stream = t :: rest) (ht : scanned_lexeme name t = true) :
    ∃ res, parse_member_function_prefix_step name st = .ok (false, res)
      ∧ res.stream = (if prefix_keyword t || (t == "auto" && !st.allow_auto)
                      then skip_whitespace rest else rest)
      ∧ res.return_type = (if prefix_keyword t || (t == "auto" && !st.allow_auto)
                           then st.return_type else st.return_type ++ t)
      ∧ res.allow_auto = (if prefix_keyword t || (t == "auto" && !st.allow_auto)
                          then st.allow_auto else (st.allow_auto || t == "decltype"))
      ∧ res.minfo = { st.minfo with
                      virtual_flag := if t = "static" then cpp_virtual_static
                                      else if t = "virtual" then cpp_virtual_new
                                      else st.minfo.virtual_flag }
      ∧ res.finfo = (if t = "constexpr" then st.finfo.set_flag cpp_constexpr_fnc
                     else st.finfo) := by
  simp only [scanned_lexeme, Bool.and_eq_true, bne_iff_ne, ne_eq] at ht
  obtain ⟨⟨⟨h1, h2⟩, h3⟩, h4⟩ := ht
  by_cases k1 : t = "extern"
  · subst k1
    exact ⟨_, prefix_step_extern name st rest (fun h => h1 h.symm) hst, by simp [prefix_keyword],
      by simp [prefix_keyword], by simp [prefix_keyword], by simp, by simp⟩
  by_cases k2 : t = "static"
  · subst k2
    exact ⟨_, prefix_step_static name st rest (fun h => h1 h.symm) hst, by simp [prefix_keyword],
      by simp [prefix_keyword], by simp [prefix_keyword], by simp, by simp⟩
  by_cases k3 : t = "constexpr"
  · subst k3
    exact ⟨_, prefix_step_constexpr name st rest (fun h => h1 h.symm) hst,
      by simp [prefix_keyword], by simp [prefix_keyword], by simp [prefix_keyword], by simp,
      by simp⟩
  by_cases k4 : t = "virtual"
  · subst k4
    exact ⟨_, prefix_step_virtual name st rest (fun h => h1 h.symm) hst, by simp [prefix_keyword],
      by simp [prefix_keyword], by simp [prefix_keyword], by simp, by simp⟩
  have hk : prefix_keyword t = false := by simp [prefix_keyword, k1, k2, k3, k4]
  by_cases k5 : t = "auto"
  · subst k5
    cases ha : st.allow_auto with
    | false =>
      exact ⟨_, prefix_step_auto_dropped name st rest (fun h => h1 h.symm) hst ha,
        by simp [ha], by simp [ha], by simp [ha], by simp, by simp⟩
    | true =>
      exact ⟨_, prefix_step_auto_kept name st rest (fun h => h1 h.symm) hst ha,
        by simp [ha, hk], by simp [ha, hk], by simp [ha, hk], by simp, by simp⟩
  · have hr : return_type_lexeme name t = true := by
      simp [return_type_lexeme, h1, h2, h3, h4, k1, k2, k3, k4, k5]
    refine ⟨_, prefix_step_plain name st t rest hst hr, by simp [hk, k5], by simp [hk, k5],
      ?_, by simp [k2, k4], by simp [k3]⟩
    by_cases kd : t = "decltype"
    · subst kd; simp [prefix_keyword]
    · simp [hk, k5, kd]

theorem skip_whitespace_cons_space (t : String) (s : token_stream)
    (h : starts_with_space t = true) : skip_whitespace (t :: s) = skip_whitespace s := by
  rw [skip_whitespace, if_pos h]

theorem skip_whitespace_cons_other (t : String) (s : token_stream)
    (h : starts_with_space t = false) : skip_whitespace (t :: s) = t :: s := by
  rw [skip_whitespace, if_neg (by simp [h])]

theorem set_flag_constexpr_idem (info : cpp_function_info) :
    (info.set_flag cpp_constexpr_fnc).set_flag cpp_constexpr_fnc
      = info.set_flag cpp_constexpr_fnc := rfl

theorem prefix_loop_kept (name : String) (rest : token_stream)
    (hname : starts_with_space name = false) :
    ∀ (pre : List String) (dropped : Bool) (fuel : Nat) (st : prefix_state),
      (∀ t ∈ pre, scanned_lexeme name t = true) → pre.length < fuel →
      st.stream = (if dropped then skip_whitespace (pre ++ name :: rest)
                   else pre ++ name :: rest) →
      ∃ res, parse_member_function_prefix_loop name fuel st = .ok res
        ∧ res.stream = skip_whitespace rest
        ∧ res.return_type
            = st.return_type ++ String.join (kept_lexemes st.allow_auto dropped pre)
        ∧ res.minfo = { st.minfo with
                        virtual_flag := prefix_virtual st.minfo.virtual_flag pre }
        ∧ res.finfo = (if "constexpr" ∈ pre then st.finfo.set_flag cpp_constexpr_fnc
                       else st.finfo) := by
  intro pre
  induction pre with
  | nil =>
    intro dropped fuel st _ hfuel hst
    have hs : st.stream = name :: rest := by
      cases dropped
      · simpa using hst
      · rw [hst]
        simp only [if_true, List.nil_append]
        exact skip_whitespace_cons_other name _ hname
    obtain ⟨fuel, rfl⟩ : ∃ k, fuel = k + 1 := ⟨fuel - 1, by simp at hfuel; omega⟩
    rw [parse_member_function_prefix_loop, prefix_step_name name st rest hs]
    refine ⟨_, rfl, rfl, ?_, ?_, ?_⟩
    · simp [kept_lexemes, String.join]
    · simp [prefix_virtual]
    · simp
  | cons t pre ih =>
    intro dropped fuel st hpre hfuel hst
    have ht := hpre t (List.mem_cons_self _ _)
    have hpre2 : ∀ u ∈ pre, scanned_lexeme name u = true :=
      fun u hu => hpre u (List.mem_cons_of_mem _ hu)
    by_cases hd : (dropped && starts_with_space t) = true
    · simp only [Bool.and_eq_true] at hd
      obtain ⟨hd1, hd2⟩ := hd
      have hs : st.stream = (if true = true then skip_whitespace (pre ++ name :: rest)
          else pre ++ name :: rest) := by
        rw [hst, hd1]
        simp only [if_true, List.cons_append]
        exact skip_whitespace_cons_space t _ hd2
      obtain ⟨res, h1, h2, h3, h4, h5⟩ := ih true fuel st hpre2
        (by simp only [List.length_cons] at hfuel; omega) hs
      refine ⟨res, h1, h2, ?_, ?_, ?_⟩
      · rw [h3, hd1]
        conv_rhs => rw [kept_lexemes]
        simp only [hd2, Bool.and_self, if_true]
      · rw [h4, prefix_virtual_cons]
        have n1 : t ≠ "static" := space_ne t _ hd2 (by decide)
        have n2 : t ≠ "virtual" := space_ne t _ hd2 (by decide)
        simp only [n1, n2, if_false]
      · rw [h5]
        have n3 : ("constexpr" : String) ≠ t := fun e => space_ne t _ hd2 (by decide) e.symm
        simp only [List.mem_cons, n3, false_or]
    · have hs : st.stream = t :: (pre ++ name :: rest) := by
        rw [hst]
        cases dropped
        · simp
        · have hsp : starts_with_space t = false := by simpa using hd
          simp only [if_true, List.cons_append]
          exact skip_whitespace_cons_other t _ hsp
      obtain ⟨fuel, rfl⟩ : ∃ k, fuel = k + 1 := ⟨fuel - 1, by simp at hfuel; omega⟩
      obtain ⟨st1, k1, k2, k3, k4, k5, k6⟩ :=
        prefix_step_scanned name st t (pre ++ name :: rest) hs ht
      rw [parse_member_function_prefix_loop, k1]
      dsimp only
      have hs1 : st1.stream
          = (if (prefix_keyword t || (t == "auto" && !st.allow_auto)) = true
              then skip_whitespace (pre ++ name :: rest) else pre ++ name :: rest) := k2
      obtain ⟨res, h1, h2, h3, h4, h5⟩ :=
        ih (prefix_keyword t || (t == "auto" && !st.allow_auto)) fuel st1 hpre2
          (by simp only [List.length_cons] at hfuel; omega) hs1
      refine ⟨res, h1, h2, ?_, ?_, ?_⟩
      · rw [h3, k3, k4]
        conv_rhs => rw [kept_lexemes]
        rw [if_neg hd]
        by_cases hk : (prefix_keyword t || (t == "auto" && !st.allow_auto)) = true
        · simp only [hk, if_true]
        · have hk2 : (prefix_keyword t || (t == "auto" && !st.allow_auto)) = false := by
            simpa using hk
          simp only [hk2, Bool.false_eq_true, if_false, string_join_cons, String.append_assoc]
      · rw [h4, k5, prefix_virtual_cons]
      · rw [h5, k6]
        by_cases hc : t = "constexpr"
        · subst hc
          simp [set_flag_constexpr_idem]
        · have hc2 : ¬ ("constexpr" : String) = t := fun e => hc e.symm
          simp only [hc, if_false, List.mem_cons, hc2, false_or]

/-! ## `auto` before the name -/

theorem prefix_step_allow_auto (name : String) (st res : prefix_state) (b : Bool)
    (h : parse_member_function_prefix_step name st = .ok (b, res)) :
    (st.allow_auto = true → res.allow_auto = true)
    ∧ (res.allow_auto = true →
        st.allow_auto = true ∨ res.return_type = st.return_type ++ "decltype") := by
  unfold parse_member_function_prefix_step at h
  by_cases c0 : (skip_if_token st.stream name).1 = true
  · rw [if_pos c0] at h; cases h; exact ⟨fun h => h, fun h => Or.inl h⟩
  rw [if_neg c0] at h
  cases hsa : skip_attribute st.stream with
  | error e => rw [hsa] at h; cases h
  | ok s =>
    rw [hsa] at h
    dsimp only at h
    by_cases c1 : (skip_if_token s "extern").1 = true
    · rw [if_pos c1] at h; cases h; exact ⟨fun h => h, fun h => Or.inl h⟩
    rw [if_neg c1] at h
    by_cases c2 : (skip_if_token s "static").1 = true
    · rw [if_pos c2] at h; cases h; exact ⟨fun h => h, fun h => Or.inl h⟩
    rw [if_neg c2] at h
    by_cases c3 : (skip_if_token s "constexpr").1 = true
    · rw [if_pos c3] at h; cases h; exact ⟨fun h => h, fun h => Or.inl h⟩
    rw [if_neg c3] at h
    by_cases c4 : (skip_if_token s "virtual").1 = true
    · rw [if_pos c4] at h; cases h; exact ⟨fun h => h, fun h => Or.inl h⟩
    rw [if_neg c4] at h
    by_cases c5 : (!st.allow_auto && (skip_if_token s "auto").1) = true
    · rw [if_pos c5] at h; cases h; exact ⟨fun h => h, fun h => Or.inl h⟩
    rw [if_neg c5] at h
    by_cases c6 : (skip_if_token s "operator").1 = true
    · rw [if_pos c6] at h
      cases ho : operator_name_loop (skip_if_token s "operator").2
          (name.data.drop "operator".length) with
      | error e => rw [ho] at h; cases h
      | ok s2 => rw [ho] at h; cases h; exact ⟨fun h => h, fun h => Or.inl h⟩
    rw [if_neg c6] at h
    cases hg : get s with
    | error e => rw [hg] at h; cases h
    | ok w =>
      obtain ⟨t, s2⟩ := w
      rw [hg] at h
      cases h
      dsimp only
      by_cases hd : t = "decltype"
      · subst hd
        exact ⟨fun _ => by simp, fun _ => Or.inr rfl⟩
      · simp only [hd, if_false]
        exact ⟨fun h => h, fun h => Or.inl h⟩

/-- C23: in the prefix loop an `auto` lexeme is dropped, with the whitespace after it,
while `allow_auto` is false, and appended to the return-type text once it is true;
`allow_auto` is false at the start, is set by the step that appends a `decltype` lexeme
and by no other step, and is never reset.  For `decltype(auto) f();` the text is
`decltype(auto) `, for `auto f();` it is empty. -/
theorem auto_before_name (name : String) (st : prefix_state) (rest : token_stream)
    (hname : name ≠ "auto") (hst : st.stream = "auto" :: rest) :
    (st.allow_auto = false →
      parse_member_function_prefix_step name st =
        .ok (false, { st with stream := skip_whitespace rest }))
    ∧ (st.allow_auto = true →
      parse_member_function_prefix_step name st =
        .ok (false, { st with stream := rest, return_type := st.return_type ++ "auto" }))
    ∧ (∀ (st2 : prefix_state) (rest2 : token_stream), name ≠ "decltype" →
        st2.stream = "decltype" :: rest2 →
        parse_member_function_prefix_step name st2 =
          .ok (false, { st2 with stream := rest2, allow_auto := true,
                                 return_type := st2.return_type ++ "decltype" }))
    ∧ (∀ (st2 res : prefix_state) (b : Bool),
        parse_member_function_prefix_step name st2 = .ok (b, res) →
        (st2.allow_auto = true → res.allow_auto = true)
        ∧ (res.allow_auto = true →
            st2.allow_auto = true ∨ res.return_type = st2.return_type ++ "decltype"))
    ∧ (∀ (pre tail : List String) (finfo : cpp_function_info)
        (minfo : cpp_member_function_info), starts_with_space name = false →
        (∀ t ∈ pre, scanned_lexeme name t = true) →
        ∃ res, parse_member_function_prefix (pre ++ name :: tail) name finfo minfo = .ok res
          ∧ res.return_type = String.join (kept_lexemes false false pre))
    ∧ ( parse_member_function_prefix ["decltype", "(", "auto", ")", " ", "f", "(", ")", ";"]
          "f" {} {}).map (fun res => res.return_type) = .ok "decltype(auto) "
    ∧ ( parse_member_function_prefix ["auto", " ", "f", "(", ")", ";"] "f" {} {}).map
          (fun res => res.return_type) = .ok "" := by
  refine ⟨prefix_step_auto_dropped name st rest hname hst,
    prefix_step_auto_kept name st rest hname hst,
    fun st2 rest2 hn h2 => prefix_step_decltype name st2 rest2 hn h2,
    fun st2 res b => prefix_step_allow_auto name st2 res b, ?_, by decide, by decide⟩
  intro pre tail finfo minfo hsp hpre
  obtain ⟨res, h1, _, h3, _, _⟩ := prefix_loop_kept name tail hsp pre false
    ((pre ++ name :: tail).length + 1)
    { stream := pre ++ name :: tail, return_type := "", allow_auto := false,
      finfo := finfo, minfo := minfo }
    hpre (by simp only [List.length_append, List.length_cons]; omega) rfl
  refine ⟨res, h1, ?_⟩
  rw [h3]
  simp

theorem auto_before_name_witness :
    parse_member_function_prefix_step "f"
        { stream := ["auto", " ", "f", "("], return_type := "", allow_auto := false,
          finfo := {}, minfo := {} }
      = .ok (false,
          { stream := skip_whitespace [" ", "f", "("], return_type := "", allow_auto := false,
            finfo := {}, minfo := {} }) :=
  (auto_before_name "f"
    { stream := ["auto", " ", "f", "("], return_type := "", allow_auto := false,
      finfo := {}, minfo := {} } [" ", "f", "("] (by decide) rfl).1 rfl

/-! ## The return-type text of the prefix -/

/-- C22: on a stream whose lexemes `pre` before the name start no attribute (and are not
`operator`), `parse_member_function_prefix` returns the concatenation of the lexemes of
`pre` that are kept: all but `extern`, `static`, `constexpr`, `virtual`, a discarded
`auto` and the whitespace consumed with them.  The virtual-kind is that of the last
`static` or `virtual` in `pre`, the constexpr flag is set iff `constexpr` occurs, the rest
of the records is untouched.  With an attribute directly before the name the claim fails:
for `void [[noreturn]]f();` the name is taken as return-type text and the scan runs off
the end of the stream. -/
theorem prefix_return_type_text (name : String) (pre rest : List String)
    (finfo : cpp_function_info) (minfo : cpp_member_function_info)
    (hname : starts_with_space name = false)
    (hpre : ∀ t ∈ pre, scanned_lexeme name t = true) :
    (∃ res, parse_member_function_prefix (pre ++ name :: rest) name finfo minfo = .ok res
      ∧ res.stream = skip_whitespace rest
      ∧ res.return_type = String.join (kept_lexemes false false pre)
      ∧ res.minfo = { minfo with virtual_flag := prefix_virtual minfo.virtual_flag pre }
      ∧ res.finfo = (if "constexpr" ∈ pre then finfo.set_flag cpp_constexpr_fnc else finfo))
    ∧ kept_lexemes false false
        ["extern", " ", "static", " ", "constexpr", " ", "virtual", " ", "int", " "]
      = ["int", " "]
    ∧ ( parse_member_function_prefix
          ["void", " ", "[", "[", "noreturn", "]", "]", "f", "(", ")", ";"] "f" {} {}
        = .error .end_of_stream)
    ∧ ( parse_member_function_prefix
          ["void", " ", "__attribute__", "(", "(", "noreturn", ")", ")", " ", "f", "(", ")", ";"]
          "f" {} {}
        = .error .end_of_stream) := by
  refine ⟨?_, by decide, by decide, by decide⟩
  obtain ⟨res, h1, h2, h3, h4, h5⟩ := prefix_loop_kept name rest hname pre false
    ((pre ++ name :: rest).length + 1)
    { stream := pre ++ name :: rest, return_type := "", allow_auto := false,
      finfo := finfo, minfo := minfo }
    hpre (by simp only [List.length_append, List.length_cons]; omega) rfl
  refine ⟨res, h1, h2, ?_, h4, h5⟩
  rw [h3]
  simp

theorem prefix_return_type_text_witness :
    ∃ res, parse_member_function_prefix
          (["static", " ", "constexpr", " ", "int", " "] ++ "f" :: ["(", ")", ";"]) "f" {} {}
        = .ok res
      ∧ res.stream = skip_whitespace ["(", ")", ";"]
      ∧ res.return_type
          = String.join (kept_lexemes false false ["static", " ", "constexpr", " ", "int", " "])
      ∧ res.minfo
          = { ({} : cpp_member_function_info) with
              virtual_flag := prefix_virtual ({} : cpp_member_function_info).virtual_flag
                ["static", " ", "constexpr", " ", "int", " "] }
      ∧ res.finfo
          = (if "constexpr" ∈ ["static", " ", "constexpr", " ", "int", " "]
             then ({} : cpp_function_info).set_flag cpp_constexpr_fnc else {}) :=
  (prefix_return_type_text "f" ["static", " ", "constexpr", " ", "int", " "] ["(", ")", ";"]
    {} {} (by decide) (by decide)).1

/-! ## Trailing return types -/

theorem trailing_loop_body (term : String) (rest : token_stream) (hterm : terminator term) :
    ∀ (body : List String) (fuel : Nat) (st : suffix_state),
      (∀ t ∈ body, trailing_lexeme t) → body.length < fuel →
      st.stream = body ++ term :: rest →
      trailing_return_type_loop fuel st =
        .ok { st with stream := skip_whitespace rest,
                      special_definition := decide (term = "="),
                      trailing_return_type := st.trailing_return_type ++ String.join body } := by
  intro body
  induction body with
  | nil =>
    intro fuel st _ hfuel hst
    obtain ⟨fuel, rfl⟩ : ∃ k, fuel = k + 1 := ⟨fuel - 1, by simp at hfuel; omega⟩
    simp only [List.nil_append] at hst
    rw [trailing_return_type_loop, hst, is_declaration_end_terminator term rest _ hterm]
    simp [String.join]
  | cons t body ih =>
    intro fuel st hbody hfuel hst
    obtain ⟨fuel, rfl⟩ : ∃ k, fuel = k + 1 := ⟨fuel - 1, by simp at hfuel; omega⟩
    obtain ⟨h1, h2, h3⟩ := hbody t (List.mem_cons_self _ _)
    simp only [List.cons_append] at hst
    rw [trailing_return_type_loop, hst,
      is_declaration_end_other t (body ++ term :: rest) _ h2 h3 h1]
    simp only [get]
    rw [ih fuel _ (fun u hu => hbody u (List.mem_cons_of_mem _ hu))
      (by simp only [List.length_cons] at hfuel; omega) rfl]
    simp [string_join_cons, String.append_assoc]

theorem suffix_step_arrow (st : suffix_state) (rest : token_stream)
    (hst : st.stream = "->" :: rest) :
    parse_member_function_suffix_step st =
      match trailing_return_type_loop ((skip_whitespace rest).length + 1)
          { st with stream := skip_whitespace rest } with
      | .error e => .error e
      | .ok res => .ok (true, res) := by
  have e := is_declaration_end_other "->" rest st.special_definition (by decide)
    (by decide) (not_terminator_of_length _ (by decide))
  simp [parse_member_function_suffix_step, hst, e, done, skip_attribute, peek, skip_if_token]

theorem suffix_step_trailing (st : suffix_state) (body rest : List String) (term : String)
    (hst : st.stream = "->" :: (body ++ term :: rest))
    (hbody : ∀ t ∈ body, trailing_lexeme t) (hterm : terminator term) :
    parse_member_function_suffix_step st =
      .ok (true, { st with stream := skip_whitespace rest,
                           special_definition := decide (term = "="),
                           trailing_return_type :=
                             st.trailing_return_type
                               ++ String.join (body.dropWhile starts_with_space) }) := by
  have hsw : skip_whitespace (body ++ term :: rest)
      = body.dropWhile starts_with_space ++ term :: rest :=
    skip_whitespace_append body term rest (terminator_not_space term hterm)
  rw [suffix_step_arrow st _ hst, hsw,
    trailing_loop_body term rest hterm (body.dropWhile starts_with_space) _ _
      (fun t ht => hbody t ((List.dropWhile_sublist _).subset ht))
      (Nat.lt_succ_of_le (by simp)) rfl]

/-- C26: after `->` the suffix resolver appends every lexeme up to the terminator to the
returned text (the whitespace right after `->` is skipped) and interprets none of them:
the loop is left with the records as they were, whatever lexemes the trailing return type
holds, and the terminator selects the special definition.  `auto f() -> const int&;`
gives the text `const int&` with cv-qualifier and ref-qualifier none, and
`auto f() -> int = 0;` gives virtual-kind pure. -/
theorem trailing_return_type_verbatim (st : suffix_state) (body rest : List String)
    (term : String) (finfo : cpp_function_info) (minfo : cpp_member_function_info)
    (hbody : ∀ t ∈ body, trailing_lexeme t) (hterm : terminator term) :
    (st.stream = "->" :: (body ++ term :: rest) →
      parse_member_function_suffix_step st =
        .ok (true, { st with stream := skip_whitespace rest,
                             special_definition := decide (term = "="),
                             trailing_return_type :=
                               st.trailing_return_type
                                 ++ String.join (body.dropWhile starts_with_space) }))
    ∧ parse_member_function_suffix ("->" :: (body ++ term :: rest)) finfo minfo =
        parse_member_function_suffix_end
          { stream := skip_whitespace rest,
            trailing_return_type := String.join (body.dropWhile starts_with_space),
            special_definition := decide (term = "="), finfo := finfo, minfo := minfo }
    ∧ (term ≠ "=" →
        parse_member_function_suffix ("->" :: (body ++ term :: rest)) finfo minfo =
          .ok { stream := skip_whitespace rest,
                trailing_return_type := String.join (body.dropWhile starts_with_space),
                special_definition := false, finfo := finfo, minfo := minfo })
    ∧ (term = "=" → peek (skip_whitespace rest) = "0" →
        ∃ res, parse_member_function_suffix ("->" :: (body ++ term :: rest)) finfo minfo
            = .ok res
          ∧ res.trailing_return_type = String.join (body.dropWhile starts_with_space)
          ∧ res.minfo = { minfo with virtual_flag := cpp_virtual_pure }
          ∧ res.finfo = finfo)
    ∧ (parse_member_function
          ["auto", " ", "f", "(", ")", " ", "->", " ", "const", " ", "int", "&", ";"]
          "f" "" {} {}).map
        (fun res => (res.return_type.name, res.minfo.cv_qualifier, res.minfo.ref_qualifier))
        = .ok ("const int&", cpp_cv_none, cpp_ref_none)
    ∧ (parse_member_function
          ["auto", " ", "f", "(", ")", " ", "->", " ", "int", " ", "=", " ", "0", ";"]
          "f" "" {} {}).map
        (fun res => (res.return_type.name, res.minfo.virtual_flag))
        = .ok ("int", cpp_virtual_pure) := by
  have hfun : parse_member_function_suffix ("->" :: (body ++ term :: rest)) finfo minfo =
      parse_member_function_suffix_end
        { stream := skip_whitespace rest,
          trailing_return_type := String.join (body.dropWhile starts_with_space),
          special_definition := decide (term = "="), finfo := finfo, minfo := minfo } := by
    unfold parse_member_function_suffix
    rw [parse_member_function_suffix_loop,
      suffix_step_trailing _ body rest term rfl hbody hterm]
    simp
  refine ⟨fun hst => suffix_step_trailing st body rest term hst hbody hterm, hfun, ?_, ?_,
    by decide, by decide⟩
  · intro hne
    rw [hfun, suffix_end_ordinary _ (by simp [hne])]
    simp [hne]
  · intro he hp
    obtain ⟨r, e1, _⟩ := peek_eq_cons _ "0" hp (by decide)
    rw [hfun, suffix_end_zero _ r (by simp [he]) e1]
    exact ⟨_, rfl, rfl, rfl, rfl⟩

theorem trailing_return_type_verbatim_witness :
    parse_member_function_suffix
        ("->" :: ([" ", "const", " ", "int", "&", " ", "final"] ++ ";" :: [])) {} {}
      = .ok { stream := skip_whitespace [],
              trailing_return_type :=
                String.join (([" ", "const", " ", "int", "&", " ", "final"] : List String).dropWhile
                  starts_with_space),
              special_definition := false, finfo := {}, minfo := {} } :=
  (trailing_return_type_verbatim
    { stream := [], trailing_return_type := "", special_definition := false, finfo := {},
      minfo := {} }
    [" ", "const", " ", "int", "&", " ", "final"] [] ";" {} {}
    (by
      intro t ht
      simp only [List.mem_cons, List.mem_singleton, List.not_mem_nil, or_false] at ht
      rcases ht with e | e | e | e | e | e | e <;> subst e <;>
        exact ⟨by unfold terminator; decide, by decide, by decide⟩)
    (Or.inl rfl)).2.2.1 (by decide)

/-! ## Operator names -/

theorem dropWhile_blanks_append (blanks tail : List Char) (h : blanks.all isspace = true) :
    (blanks ++ tail).dropWhile isspace = tail.dropWhile isspace := by
  induction blanks with
  | nil => rfl
  | cons c cs ih =>
    simp only [List.all_cons, Bool.and_eq_true] at h
    rw [List.cons_append, List.dropWhile_cons_of_pos h.1]
    exact ih h.2

theorem solid_not_space (t : String) (h : solid_lexeme t = true) :
    starts_with_space t = false := by
  unfold solid_lexeme at h
  unfold starts_with_space
  cases hd : t.data with
  | nil => rfl
  | cons c cs => rw [hd] at h; simpa using h

theorem solid_dropWhile (t : String) (tail : List Char) (h : solid_lexeme t = true) :
    (t.data ++ tail).dropWhile isspace = t.data ++ tail := by
  unfold solid_lexeme at h
  cases hd : t.data with
  | nil => rw [hd] at h; cases h
  | cons c cs =>
    rw [hd] at h
    have hc : ¬ (isspace c = true) := by simpa using h
    rw [List.cons_append, List.dropWhile_cons_of_neg hc]

theorem operator_name_loop_normal (s : token_stream) (ptr : List Char) :
    operator_name_loop s (ptr.dropWhile isspace) = operator_name_loop s ptr := by
  cases s with
  | nil => rfl
  | cons t rest =>
    rw [operator_name_loop, operator_name_loop]
    have e : (ptr.dropWhile isspace).dropWhile isspace = ptr.dropWhile isspace := by
      induction ptr with
      | nil => rfl
      | cons c cs ih =>
        by_cases hc : isspace c = true
        · rw [List.dropWhile_cons_of_pos hc]; exact ih
        · rw [List.dropWhile_cons_of_neg hc, List.dropWhile_cons_of_neg hc]
    simp only [e]

theorem operator_name_loop_whitespace (s : token_stream) :
    ∀ (ws : List String) (ptr : List Char), ws.all starts_with_space = true →
      operator_name_loop (ws ++ s) ptr = operator_name_loop s ptr := by
  intro ws
  induction ws with
  | nil => intro ptr _; rfl
  | cons w ws ih =>
    intro ptr h
    simp only [List.all_cons, Bool.and_eq_true] at h
    rw [List.cons_append, operator_name_loop]
    simp only [h.1, Bool.not_true, Bool.false_eq_true, if_false]
    rw [ih _ h.2, operator_name_loop_normal]

theorem operator_name_loop_symbol (sym : String) (s : token_stream) (tail : List Char)
    (h : solid_lexeme sym = true) :
    operator_name_loop (sym :: s) (sym.data ++ tail) = operator_name_loop s tail := by
  rw [operator_name_loop]
  have hl : sym.length = sym.data.length := rfl
  simp only [solid_dropWhile sym tail h, solid_not_space sym h, Bool.not_false, if_true,
    List.prefix_append, List.isPrefixOf_iff_prefix, decide_True, hl, List.drop_left]

theorem operator_name_loop_stop (t : String) (rest : token_stream) (blanks : List Char)
    (h : solid_lexeme t = true) (hb : blanks.all isspace = true) :
    operator_name_loop (t :: rest) blanks = .ok (t :: rest) := by
  rw [operator_name_loop]
  have e : blanks.dropWhile isspace = [] := by
    have := dropWhile_blanks_append blanks [] hb
    simpa using this
  have hne : t.data ≠ [] := by
    unfold solid_lexeme at h
    intro h0; rw [h0] at h; cases h
  have hp : t.data.isPrefixOf ([] : List Char) = false := by
    cases hd : t.data with
    | nil => exact absurd hd hne
    | cons c cs => rfl
  simp only [e, solid_not_space t h, Bool.not_false, if_true, hp, Bool.false_eq_true, if_false]

theorem operator_name_loop_symbols (t : String) (rest : token_stream)
    (end_blanks : List Char) (end_ws : List String)
    (ht : solid_lexeme t = true) (hb : end_blanks.all isspace = true)
    (hw : end_ws.all starts_with_space = true) :
    ∀ (symbols : List operator_symbol), operator_symbols_ok symbols = true →
      operator_name_loop (operator_name_lexemes symbols ++ (end_ws ++ t :: rest))
          (operator_name_chars symbols end_blanks)
        = .ok (t :: rest) := by
  intro symbols
  induction symbols with
  | nil =>
    intro _
    simp only [operator_name_lexemes, operator_name_chars, List.map_nil, List.flatten_nil,
      List.nil_append]
    rw [operator_name_loop_whitespace _ end_ws _ hw]
    exact operator_name_loop_stop t rest end_blanks ht hb
  | cons p ps ih =>
    intro hok
    simp only [operator_symbols_ok, List.all_cons, Bool.and_eq_true] at hok
    obtain ⟨⟨⟨h1, h2⟩, h3⟩, h4⟩ := hok
    have e1 : operator_name_lexemes (p :: ps) ++ (end_ws ++ t :: rest)
        = p.whitespace ++ (p.symbol :: (operator_name_lexemes ps ++ (end_ws ++ t :: rest))) := by
      simp [operator_name_lexemes]
    have e2 : operator_name_chars (p :: ps) end_blanks
        = p.name_blanks ++ (p.symbol.data ++ operator_name_chars ps end_blanks) := by
      simp [operator_name_chars]
    rw [e1, e2, operator_name_loop_whitespace _ _ _ h2, ← operator_name_loop_normal,
      dropWhile_blanks_append _ _ h1, operator_name_loop_normal,
      operator_name_loop_symbol _ _ _ h3]
    exact ih h4

theorem operator_name_loop_skip_whitespace (s : token_stream) (ptr : List Char) :
    operator_name_loop (skip_whitespace s) ptr = operator_name_loop s ptr := by
  obtain ⟨ws, h1, h2⟩ := whitespace_split s
  conv_rhs => rw [h1]
  rw [operator_name_loop_whitespace _ ws ptr (List.all_eq_true.mpr h2)]

theorem prefix_step_operator (body : String) (st : prefix_state) (s : token_stream)
    (hbody : body ≠ "") (hst : st.stream = "operator" :: s) :
    parse_member_function_prefix_step ("operator" ++ body) st =
      match operator_name_loop s body.data with
      | .error e => .error e
      | .ok s2 => .ok (true, { st with stream := s2 }) := by
  have hn : ¬ ("operator" = "operator" ++ body) := by
    intro h
    have h2 := congrArg String.data h
    rw [String.data_append] at h2
    have h3 : body.data = [] := by
      have h4 : "operator".data ++ [] = "operator".data ++ body.data := by
        rw [List.append_nil]; exact h2
      exact (List.append_cancel_left h4).symm
    exact hbody (String.ext h3)
  have hd : ("operator" ++ body).data.drop "operator".length = body.data := by
    rw [String.data_append]
    exact List.drop_left' rfl
  simp only [parse_member_function_prefix_step, hst, skip_if_token, hn, if_false,
    skip_attribute_other "operator" s (by decide) (by decide), Bool.false_eq_true]
  have k1 : ¬ ("operator" = "extern") := by decide
  have k2 : ¬ ("operator" = "static") := by decide
  have k3 : ¬ ("operator" = "constexpr") := by decide
  have k4 : ¬ ("operator" = "virtual") := by decide
  have k5 : ¬ ("operator" = "auto") := by decide
  simp only [k1, k2, k3, k4, k5, if_false, Bool.false_eq_true, Bool.and_false, if_true, hd,
    operator_name_loop_skip_whitespace]

/-- C25: after the keyword `operator` the scanner consumes a lexeme that is no whitespace
when it is an initial segment of the part of the name not matched yet (blanks of the name
skipped), consumes whitespace lexemes, and stops without consuming at the first lexeme
that is no whitespace and no such segment.  So when the name after `operator` is the
symbols s1…sk, with blanks between them at will, and the stream holds these symbols as
lexemes, with whitespace lexemes between them at will, the scan ends at the first lexeme
after sk that is no whitespace, and the return-type text is as before. -/
theorem operator_name_scan (symbols : List operator_symbol) (end_blanks : List Char)
    (end_ws : List String) (t : String) (rest : token_stream)
    (hok : operator_symbols_ok symbols = true) (ht : solid_lexeme t = true)
    (hb : end_blanks.all isspace = true) (hw : end_ws.all starts_with_space = true) :
    operator_name_loop (operator_name_lexemes symbols ++ (end_ws ++ t :: rest))
        (operator_name_chars symbols end_blanks)
      = .ok (t :: rest)
    ∧ (∀ (st : prefix_state) (body : String), body ≠ "" →
        body.data = operator_name_chars symbols end_blanks →
        st.stream = "operator" :: (operator_name_lexemes symbols ++ (end_ws ++ t :: rest)) →
        parse_member_function_prefix_step ("operator" ++ body) st
          = .ok (true, { st with stream := t :: rest }))
    ∧ (∀ (s : String) (more : token_stream) (ptr : List Char),
        starts_with_space s = false →
        (s.data.isPrefixOf (ptr.dropWhile isspace) = true →
          operator_name_loop (s :: more) ptr
            = operator_name_loop more ((ptr.dropWhile isspace).drop s.length))
        ∧ (s.data.isPrefixOf (ptr.dropWhile isspace) = false →
          operator_name_loop (s :: more) ptr = .ok (s :: more)))
    ∧ (∀ (s : String) (more : token_stream) (ptr : List Char),
        starts_with_space s = true →
        operator_name_loop (s :: more) ptr = operator_name_loop more (ptr.dropWhile isspace))
    ∧ ( parse_member_function_prefix ["bool", " ", "operator", "==", "(", "int", ")", ";"]
          "operator==" {} {}).map (fun res => (res.stream, res.return_type))
        = .ok (["(", "int", ")", ";"], "bool ")
    ∧ ( parse_member_function_prefix ["void", " ", "operator", "(", ")", "(", "int", ")", ";"]
          "operator()" {} {}).map (fun res => (res.stream, res.return_type))
        = .ok (["(", "int", ")", ";"], "void ")
    ∧ ( parse_member_function_prefix
          ["void", "*", " ", "operator", " ", "new", "[", "]", " ", "(", "int", ")", ";"]
          "operator new[]" {} {}).map (fun res => (res.stream, res.return_type))
        = .ok (["(", "int", ")", ";"], "void* ") := by
  have hloop := operator_name_loop_symbols t rest end_blanks end_ws ht hb hw symbols hok
  refine ⟨hloop, ?_, ?_, ?_, by decide, by decide, by decide⟩
  · intro st body hbody hdata hst
    rw [prefix_step_operator body st _ hbody hst, hdata, hloop]
  · intro s more ptr hs
    constructor
    · intro hp
      rw [operator_name_loop]
      simp only [hs, Bool.not_false, if_true, hp]
    · intro hp
      rw [operator_name_loop]
      simp only [hs, Bool.not_false, if_true, hp, Bool.false_eq_true, if_false]
  · intro s more ptr hs
    rw [operator_name_loop]
    simp only [hs, Bool.not_true, Bool.false_eq_true, if_false]

theorem operator_name_scan_witness :
    operator_name_loop
        (operator_name_lexemes
            [⟨[' '], [" "], "new"⟩, ⟨[], [], "["⟩, ⟨[], [], "]"⟩]
          ++ ([" "] ++ "(" :: ["int", ")", ";"]))
        (operator_name_chars [⟨[' '], [" "], "new"⟩, ⟨[], [], "["⟩, ⟨[], [], "]"⟩] [])
      = .ok ("(" :: ["int", ")", ";"]) :=
  (operator_name_scan [⟨[' '], [" "], "new"⟩, ⟨[], [], "["⟩, ⟨[], [], "]"⟩] [] [" "] "("
    ["int", ")", ";"] (by decide) (by decide) (by decide) (by decide)).1

/-! ## Object pointers as return type of a specialization -/

theorem scan_paren_free_end (returns_function : Bool) :
    ∀ (l : List (Nat × String)) (paren_count : Nat) (next : Option Nat),
      (∀ p ∈ l, p.2 ≠ "(" ∧ p.2 ≠ ")") →
      skip_template_arguments_scan returns_function l paren_count false next = .ok none := by
  intro l c nx hl
  obtain ⟨n2, h⟩ := scan_paren_free_run returns_function [] l c nx hl
  rw [List.append_nil] at h
  rw [h, skip_template_arguments_scan]

theorem scan_no_boundary (suffix_tokens ps_tokens before : List (Nat × String)) (q k m : Nat)
    (hs : ∀ p ∈ suffix_tokens, p.2 ≠ "(" ∧ p.2 ≠ ")")
    (hp : ∀ p ∈ ps_tokens, p.2 ≠ "(" ∧ p.2 ≠ ")")
    (hb : ∀ p ∈ before, p.2 ≠ "(" ∧ p.2 ≠ ")") :
    skip_template_arguments_scan true
        (suffix_tokens ++ (q, ")") :: (ps_tokens ++ (k, "(") :: (m, ">") :: before))
        0 false none
      = .ok none := by
  obtain ⟨n1, h1⟩ := scan_paren_free_run true
    ((q, ")") :: (ps_tokens ++ (k, "(") :: (m, ">") :: before)) suffix_tokens 0 none hs
  rw [h1, skip_template_arguments_scan]
  have c1 : ¬ ((")" : String) = "(") := by decide
  simp only [Bool.false_eq_true, if_false, false_and, and_false, c1, if_true]
  obtain ⟨n2, h2⟩ := scan_paren_free_run true ((k, "(") :: (m, ">") :: before) ps_tokens
    ((0 + 1) % 2 ^ 32) (some q) hp
  rw [h2, skip_template_arguments_scan]
  simp only [Bool.false_eq_true, if_false, false_and, and_false, if_true, List.isEmpty_cons]
  rw [skip_template_arguments_scan]
  have c2 : ((0 + 1) % 2 ^ 32 + (2 ^ 32 - 1)) % 2 ^ 32 = 0 := by decide
  have c3 : ¬ ((">" : String) = "(") := by decide
  have c4 : ¬ ((">" : String) = ")") := by decide
  simp only [c2, if_true, Nat.zero_ne_one, false_and, if_false, c3, c4]
  exact scan_paren_free_end true before 0 (some m) hb

theorem is_function_ptr_star (s : String) (blanks : List Char)
    (hb : blanks.all isspace = true) :
    is_function_ptr (s ++ "*" ++ ⟨blanks⟩) = true := by
  unfold is_function_ptr
  have hd : (s ++ "*" ++ ⟨blanks⟩).data = s.data ++ '*' :: blanks := by
    simp only [String.data_append, List.append_assoc]
    rfl
  rw [hd]
  have hne : (s.data ++ '*' :: blanks).isEmpty = false := by
    cases s.data <;> rfl
  have hrev : (s.data ++ '*' :: blanks).reverse = blanks.reverse ++ '*' :: s.data.reverse := by
    simp
  have hall : blanks.reverse.all isspace = true := by
    rw [List.all_eq_true] at hb ⊢
    intro c hc
    exact hb c (List.mem_reverse.mp hc)
  rw [hne, hrev, dropWhile_blanks_append _ _ hall]
  have hstar : ¬ (isspace '*' = true) := by decide
  rw [List.dropWhile_cons_of_neg hstar]
  simp

theorem template_tokens_last (targs ws ps suffix : List String)
    (hlast : (suffix.filter (fun t => !starts_with_space t)).getLast? = some ";") :
    ((("<" :: targs).enumFrom 0).filter (fun p => !starts_with_space p.2)
        ++ (targs.length + 1, ">")
        :: (targs.length + 1 + 1 + ws.length, "(")
        :: ((ps.enumFrom (targs.length + 1 + 1 + ws.length + 1)).filter
              (fun p => !starts_with_space p.2)
            ++ (targs.length + 1 + 1 + ws.length + 1 + ps.length, ")")
            :: (suffix.enumFrom (targs.length + 1 + 1 + ws.length + 1 + ps.length + 1)).filter
                  (fun p => !starts_with_space p.2))).getLast?.map Prod.snd = some ";" := by
  have hz : (((suffix.enumFrom (targs.length + 1 + 1 + ws.length + 1 + ps.length + 1)).filter
      (fun p => !starts_with_space p.2)).getLast?).map Prod.snd = some ";" := by
    rw [← List.getLast?_map, filter_enumFrom_snd, hlast]
  cases hg : ((suffix.enumFrom (targs.length + 1 + 1 + ws.length + 1 + ps.length + 1)).filter
      (fun p => !starts_with_space p.2)).getLast? with
  | none => rw [hg] at hz; cases hz
  | some z =>
    rw [hg] at hz
    rw [getLast?_append_some _ _ z (getLast?_cons_some _ _ z (getLast?_cons_some _ _ z
      (getLast?_append_some _ _ z (getLast?_cons_some _ _ z hg))))]
    exact hz

theorem template_tokens_reverse (targs ws ps suffix : List String) :
    ((("<" :: targs).enumFrom 0).filter (fun p => !starts_with_space p.2)
        ++ (targs.length + 1, ">")
        :: (targs.length + 1 + 1 + ws.length, "(")
        :: ((ps.enumFrom (targs.length + 1 + 1 + ws.length + 1)).filter
              (fun p => !starts_with_space p.2)
            ++ (targs.length + 1 + 1 + ws.length + 1 + ps.length, ")")
            :: (suffix.enumFrom (targs.length + 1 + 1 + ws.length + 1 + ps.length + 1)).filter
                  (fun p => !starts_with_space p.2))).reverse
      = ((suffix.enumFrom (targs.length + 1 + 1 + ws.length + 1 + ps.length + 1)).filter
            (fun p => !starts_with_space p.2)).reverse
        ++ (targs.length + 1 + 1 + ws.length + 1 + ps.length, ")")
        :: (((ps.enumFrom (targs.length + 1 + 1 + ws.length + 1)).filter
              (fun p => !starts_with_space p.2)).reverse
            ++ (targs.length + 1 + 1 + ws.length, "(") :: (targs.length + 1, ">")
            :: ((("<" :: targs).enumFrom 0).filter (fun p => !starts_with_space p.2)).reverse) := by
  simp

/-- C30: the claim fails for object pointers.  `is_function_ptr` is true for every text
whose last character that is no whitespace is `*`, so also for `int* `; with that answer
the backward scan of `skip_template_arguments` waits for the counter 1 when it meets the
`>` right before the parameter list, finds no boundary, and the closing assertion fails.
`template<> int* f<int>();` ends in the failed assertion, `template<> int f<int>();`
captures `<int>`. -/
theorem object_pointer_return_no_boundary (targs ws ps suffix : List String) (text : String)
    (hws : ∀ w ∈ ws, starts_with_space w = true)
    (htargs : "(" ∉ targs ∧ ")" ∉ targs)
    (hps : "(" ∉ ps ∧ ")" ∉ ps) (hsuffix : "(" ∉ suffix ∧ ")" ∉ suffix)
    (hlast : (suffix.filter (fun t => !starts_with_space t)).getLast? = some ";") :
    skip_template_arguments
        ("<" :: (targs ++ ">" :: (ws ++ "(" :: (ps ++ ")" :: suffix)))) text true
      = .error .assertion_failed
    ∧ (∀ (s : String) (blanks : List Char), blanks.all isspace = true →
        is_function_ptr (s ++ "*" ++ ⟨blanks⟩) = true)
    ∧ parse_member_function
        ["template", "<", ">", " ", "int", "*", " ", "f", "<", "int", ">", "(", ")", ";"]
        "f" "" {} {} = .error .assertion_failed
    ∧ (parse_member_function
        ["template", "<", ">", " ", "int", " ", "f", "<", "int", ">", "(", ")", ";"]
        "f" "" {} {}).map (fun res => res.template_args) = .ok "<int>" := by
  refine ⟨?_, is_function_ptr_star, by decide, by decide⟩
  unfold skip_template_arguments
  have hpeek : peek ("<" :: (targs ++ ">" :: (ws ++ "(" :: (ps ++ ")" :: suffix)))) = "<" := rfl
  rw [if_pos hpeek]
  dsimp only
  rw [template_tokens_shape targs ws ps suffix hws,
    if_neg (by rw [template_tokens_last targs ws ps suffix hlast]; exact fun h => h rfl),
    template_tokens_reverse, scan_no_boundary _ _ _ _ _ _
      (fun p hp => by
        have hm := filter_enumFrom_mem suffix _ p (List.mem_reverse.mp hp)
        exact ⟨fun e => hsuffix.1 (e ▸ hm), fun e => hsuffix.2 (e ▸ hm)⟩)
      (fun p hp => by
        have hm := filter_enumFrom_mem ps _ p (List.mem_reverse.mp hp)
        exact ⟨fun e => hps.1 (e ▸ hm), fun e => hps.2 (e ▸ hm)⟩)
      (fun p hp => by
        have hm := filter_enumFrom_mem ("<" :: targs) _ p (List.mem_reverse.mp hp)
        rcases List.mem_cons.mp hm with e | e
        · rw [e]; exact ⟨by decide, by decide⟩
        · exact ⟨fun e2 => htargs.1 (e2 ▸ e), fun e2 => htargs.2 (e2 ▸ e)⟩)]

theorem object_pointer_return_no_boundary_witness :
    skip_template_arguments
        ("<" :: (["int"] ++ ">" :: ([] ++ "(" :: ([] ++ ")" :: [";"])))) "" true
      = .error .assertion_failed :=
  (object_pointer_return_no_boundary ["int"] [] [] [";"] "" (by decide) (by decide)
    (by decide) (by decide) (by decide)).1

/-! ## The backward scan and its description -/

theorem scan_refines_described (returns_function : Bool) :
    ∀ (tokens : List (Nat × String)) (paren_count : Nat) (count : Int)
      (was_opening_paren : Bool) (next : Option Nat),
      (paren_count : Int) = count % 4294967296 →
      -4294967294 + (tokens.length : Int) ≤ count →
      count + (tokens.length : Int) ≤ 4294967294 →
      (∀ r, skip_template_arguments_scan returns_function tokens paren_count
            was_opening_paren next = .ok r →
          described_scan (scan_baseline returns_function) tokens count was_opening_paren next
            = r)
      ∧ (∀ e, skip_template_arguments_scan returns_function tokens paren_count
            was_opening_paren next = .error e →
          e = .assertion_failed
          ∧ described_scan (scan_baseline returns_function) tokens count was_opening_paren
              next = none) := by
  intro tokens
  induction tokens with
  | nil =>
    intro c z w nx _ _ _
    constructor
    · intro r h
      simp only [skip_template_arguments_scan, Except.ok.injEq] at h
      rw [← h]; rfl
    · intro e h
      simp [skip_template_arguments_scan] at h
  | cons p more ih =>
    intro c z w nx hc hlo hhi
    obtain ⟨pos, str⟩ := p
    simp only [List.length_cons, Nat.cast_add, Nat.cast_one] at hlo hhi
    have hb : (c = (if returns_function = true then 1 else 0))
        ↔ z = scan_baseline returns_function := by
      unfold scan_baseline
      cases returns_function
      · simp only [Bool.false_eq_true, if_false]; omega
      · simp only [if_true]; omega
    rw [skip_template_arguments_scan, described_scan]
    by_cases hbd : c = (if returns_function = true then 1 else 0) ∧ w = true ∧ str = ">"
    · have hbd2 : z = scan_baseline returns_function ∧ w = true ∧ str = ">" :=
        ⟨hb.mp hbd.1, hbd.2⟩
      rw [if_pos hbd, if_pos hbd2]
      exact ⟨fun r h => (by rw [← Except.ok.inj h]), fun e h => (by cases h)⟩
    · have hbd2 : ¬ (z = scan_baseline returns_function ∧ w = true ∧ str = ">") :=
        fun h => hbd ⟨hb.mpr h.1, h.2⟩
      rw [if_neg hbd, if_neg hbd2]
      by_cases h1 : str = "("
      · rw [if_pos h1, if_pos h1]
        cases hm : more with
        | nil =>
          simp only [List.isEmpty_nil, if_true]
          exact ⟨fun r h => (by cases h),
            fun e h => ⟨(Except.error.inj h).symm, (by simp [described_scan])⟩⟩
        | cons q qs =>
          simp only [List.isEmpty_cons, Bool.false_eq_true, if_false]
          rw [← hm]
          have hc2 : (((c + (2 ^ 32 - 1)) % 2 ^ 32 : Nat) : Int) = (z - 1) % 4294967296 := by
            norm_num
            omega
          exact ih _ (z - 1) true (some pos) hc2 (by omega) (by omega)
      · rw [if_neg h1, if_neg h1]
        by_cases h2 : str = ")"
        · rw [if_pos h2, if_pos h2]
          have hc2 : (((c + 1) % 2 ^ 32 : Nat) : Int) = (z + 1) % 4294967296 := by
            norm_num
            omega
          exact ih _ (z + 1) false (some pos) hc2 (by omega) (by omega)
        · rw [if_neg h2, if_neg h2]
          exact ih c z false (some pos) hc (by omega) (by omega)

theorem scan_replicate_open (returns_function : Bool) (rest : List (Nat × String))
    (hrest : rest ≠ []) :
    ∀ (k : Nat) (paren_count : Nat) (was_opening_paren : Bool) (next : Option Nat),
      skip_template_arguments_scan returns_function
          (List.replicate (k + 1) (0, "(") ++ rest) paren_count was_opening_paren next
        = skip_template_arguments_scan returns_function rest
            ((paren_count + (k + 1) * (2 ^ 32 - 1)) % 2 ^ 32) true (some 0) := by
  intro k
  have c1 : ¬ (("(" : String) = ">") := by decide
  induction k with
  | zero =>
    intro c w nx
    have hne : rest.isEmpty = false := by
      cases rest with
      | nil => exact absurd rfl hrest
      | cons a l => rfl
    simp only [List.replicate, List.cons_append, List.nil_append, Nat.zero_add, Nat.one_mul]
    rw [skip_template_arguments_scan]
    simp only [c1, and_false, if_false, if_true, hne, Bool.false_eq_true]
  | succ n ih =>
    intro c w nx
    rw [List.replicate_succ, List.cons_append, skip_template_arguments_scan]
    simp only [c1, and_false, if_false, if_true, List.replicate_succ, List.cons_append,
      List.isEmpty_cons, Bool.false_eq_true]
    have := ih ((c + (2 ^ 32 - 1)) % 2 ^ 32) true (some 0)
    rw [List.replicate_succ, List.cons_append] at this
    rw [this]
    have e32 : (2 : Nat) ^ 32 = 4294967296 := by norm_num
    have harith : ((c + (2 ^ 32 - 1)) % 2 ^ 32 + (n + 1) * (2 ^ 32 - 1)) % 2 ^ 32
        = (c + (n + 1 + 1) * (2 ^ 32 - 1)) % 2 ^ 32 := by
      rw [e32]
      omega
    rw [harith]

theorem described_replicate_open (target : Int) (rest : List (Nat × String)) :
    ∀ (k : Nat) (count : Int) (was_opening_paren : Bool) (next : Option Nat),
      described_scan target (List.replicate (k + 1) (0, "(") ++ rest) count
          was_opening_paren next
        = described_scan target rest (count - (k + 1 : Nat)) true (some 0) := by
  intro k
  have c1 : ¬ (("(" : String) = ">") := by decide
  induction k with
  | zero =>
    intro z w nx
    simp only [List.replicate, List.cons_append, List.nil_append, Nat.zero_add]
    rw [described_scan]
    simp only [c1, and_false, if_false, if_true, Nat.cast_one]
  | succ n ih =>
    intro z w nx
    rw [List.replicate_succ, List.cons_append, described_scan]
    simp only [c1, and_false, if_false, if_true]
    rw [ih]
    congr 1
    push_cast
    omega

/-- C28 (as the code has it): for fewer than 2^32 - 1 buffered lexemes and both values of
the function-pointer flag, the backward scan of `skip_template_arguments` selects the
boundary of the described scan whose counter starts at 0, is decremented on `(` and
incremented on `)`, the boundary being the first `>` met while the counter equals 1 for a
function-pointer return type and 0 otherwise and the lexeme visited before was `(`.  When
the assertion of the code fails, the described scan finds no boundary. -/
theorem backward_scan_boundary (returns_function : Bool) (tokens : List (Nat × String))
    (hlen : tokens.length < 4294967295) :
    (∀ r, skip_template_arguments_scan returns_function tokens 0 false none = .ok r →
      described_scan (scan_baseline returns_function) tokens 0 false none = r)
    ∧ (∀ e, skip_template_arguments_scan returns_function tokens 0 false none = .error e →
      e = .assertion_failed
      ∧ described_scan (scan_baseline returns_function) tokens 0 false none = none) :=
  scan_refines_described returns_function tokens 0 0 false none (by norm_num)
    (by omega) (by omega)

theorem backward_scan_boundary_witness :
    described_scan (scan_baseline true)
        [(10, ";"), (9, ")"), (8, "double"), (7, "("), (6, ")"), (5, ")"), (4, "int"),
         (3, "("), (2, ">"), (1, "int"), (0, "<")] 0 false none
      = some 3 :=
  (backward_scan_boundary true
    [(10, ";"), (9, ")"), (8, "double"), (7, "("), (6, ")"), (5, ")"), (4, "int"),
     (3, "("), (2, ">"), (1, "int"), (0, "<")] (by norm_num)).1 (some 3) (by decide)

/-- C28 fails as stated: on the buffered lexemes of `<int>(int))(double);`, the rest of
`int (*f<int>(int))(double);` after the name, the scan of the code finds the boundary `>`
and moves the stream to the `(` at position 3, while the scan with the counter started at
1 and the boundary at counter 1 finds none.  And the counter of the code is an `unsigned`:
after 2^32 lexemes `(` it is 0 again and the `>` before them is taken as boundary, while
an integer counter is at -2^32. -/
theorem backward_scan_counterexample :
    skip_template_arguments_scan true
        [(10, ";"), (9, ")"), (8, "double"), (7, "("), (6, ")"), (5, ")"), (4, "int"),
         (3, "("), (2, ">"), (1, "int"), (0, "<")] 0 false none
      = .ok (some 3)
    ∧ described_scan (scan_baseline true)
        [(10, ";"), (9, ")"), (8, "double"), (7, "("), (6, ")"), (5, ")"), (4, "int"),
         (3, "("), (2, ">"), (1, "int"), (0, "<")] (scan_baseline true) false none
      = none
    ∧ skip_template_arguments_scan false
        (List.replicate (4294967295 + 1) (0, "(") ++ [(0, ">"), (0, "<")]) 0 false none
      = .ok (some 0)
    ∧ described_scan (scan_baseline false)
        (List.replicate (4294967295 + 1) (0, "(") ++ [(0, ">"), (0, "<")])
        (scan_baseline false) false none
      = none := by
  refine ⟨by decide, by decide, ?_, ?_⟩
  · rw [scan_replicate_open false [(0, ">"), (0, "<")] (by simp) 4294967295 0 false none]
    have e : (0 + (4294967295 + 1) * (2 ^ 32 - 1)) % 2 ^ 32 = 0 := by norm_num
    rw [e]
    decide
  · rw [described_replicate_open (scan_baseline false) [(0, ">"), (0, "<")] 4294967295
      (scan_baseline false) false none]
    have e : scan_baseline false - ((4294967295 + 1 : Nat) : Int) = -4294967296 := by
      unfold scan_baseline
      norm_num
    rw [e]
    decide


/-! ## The return-type text is never empty -/

theorem has_text_append_left (a b : String) (h : has_text a = true) :
    has_text (a ++ b) = true := by
  unfold has_text at *
  rw [String.data_append, List.any_append, h]
  rfl

theorem has_text_append_right (a b : String) (h : has_text b = true) :
    has_text (a ++ b) = true := by
  unfold has_text at *
  rw [String.data_append, List.any_append, h]
  simp

theorem has_text_lexeme (t : String) (hne : t ≠ "") (hs : starts_with_space t = false) :
    has_text t = true := by
  unfold has_text
  unfold starts_with_space at hs
  cases hd : t.data with
  | nil => exact absurd (String.ext hd) hne
  | cons c cs =>
    rw [hd] at hs
    simp only [List.any_cons, Bool.or_eq_true, Bool.not_eq_true']
    exact Or.inl hs

theorem erase_trailing_ws_has_text (s : String) (h : has_text s = true) :
    erase_trailing_ws s ≠ "" := by
  intro he
  have hd : (s.data.reverse.dropWhile isspace).reverse = [] := congrArg String.data he
  rw [List.reverse_eq_nil_iff, List.dropWhile_eq_nil_iff] at hd
  unfold has_text at h
  rw [List.any_eq_true] at h
  obtain ⟨c, hc, hcs⟩ := h
  have := hd c (List.mem_reverse.mpr hc)
  rw [this] at hcs
  cases hcs

theorem peek_skip_whitespace (s : token_stream) :
    starts_with_space (peek (skip_whitespace s)) = false := by
  induction s with
  | nil => rfl
  | cons t rest ih =>
    rw [skip_whitespace]
    by_cases c : starts_with_space t = true
    · rw [if_pos c]; exact ih
    · rw [if_neg c]
      simp only [peek, List.headD_cons]
      exact Bool.eq_false_iff.mpr c

theorem skip_if_token_peek (s : token_stream) (token : String)
    (h : (skip_if_token s token).1 = true) :
    starts_with_space (peek (skip_if_token s token).2) = false := by
  obtain ⟨rest, _, e⟩ := skip_if_token_true s token h
  rw [e]
  exact peek_skip_whitespace rest

theorem skip_attribute_peek (s s1 : token_stream) (h : skip_attribute s = .ok s1)
    (hp : starts_with_space (peek s) = false) : starts_with_space (peek s1) = false := by
  cases s with
  | nil => simp only [skip_attribute] at h; cases h; exact hp
  | cons t rest =>
    simp only [skip_attribute] at h
    by_cases c1 : t = "[" ∧ peek rest = "["
    · rw [if_pos c1] at h
      cases hb : skip_bracket_count rest "[" "]" (fun (u : Unit) _ => u) () with
      | error e => rw [hb] at h; cases h
      | ok v =>
        obtain ⟨u, s2⟩ := v
        rw [hb] at h
        dsimp only at h
        cases hs : skip s2 "]" with
        | error e => rw [hs] at h; cases h
        | ok s3 => rw [hs] at h; cases h; exact peek_skip_whitespace s3
    · rw [if_neg c1] at h
      by_cases c2 : t = "__attribute__"
      · rw [if_pos c2] at h
        cases hs0 : skip (skip_whitespace rest) "(" with
        | error e => rw [hs0] at h; cases h
        | ok s0 =>
          rw [hs0] at h
          dsimp only at h
          cases hb : skip_bracket_count s0 "(" ")" (fun (u : Unit) _ => u) () with
          | error e => rw [hb] at h; cases h
          | ok v =>
            obtain ⟨u, s2⟩ := v
            rw [hb] at h
            dsimp only at h
            cases hs : skip s2 ")" with
            | error e => rw [hs] at h; cases h
            | ok s3 => rw [hs] at h; cases h; exact peek_skip_whitespace s3
      · rw [if_neg c2] at h; cases h; exact hp

theorem operator_name_loop_suffix :
    ∀ (s : token_stream) (ptr : List Char) (s2 : token_stream),
      operator_name_loop s ptr = .ok s2 → s2 <:+ s := by
  intro s
  induction s with
  | nil => intro ptr s2 h; simp [operator_name_loop] at h
  | cons t rest ih =>
    intro ptr s2 h
    rw [operator_name_loop] at h
    by_cases c1 : (!starts_with_space t) = true
    · rw [if_pos c1] at h
      by_cases c2 : t.data.isPrefixOf (List.dropWhile isspace ptr) = true
      · rw [if_pos c2] at h
        exact (ih _ _ h).trans (List.suffix_cons _ _)
      · rw [if_neg c2] at h; cases h; exact List.suffix_refl _
    · rw [if_neg c1] at h
      exact (ih _ _ h).trans (List.suffix_cons _ _)

/-- One iteration of the prefix loop keeps the text free of leading whitespace: either
the text already holds a solid character, or it is empty and the next lexeme is no
whitespace. -/
theorem prefix_step_text (name : String) (st res : prefix_state) (b : Bool)
    (h : parse_member_function_prefix_step name st = .ok (b, res))
    (hne : "" ∉ st.stream)
    (hP : has_text st.return_type = true
      ∨ (st.return_type = "" ∧ starts_with_space (peek st.stream) = false)) :
    res.stream <:+ st.stream
    ∧ (has_text res.return_type = true
      ∨ (res.return_type = "" ∧ (b = false → starts_with_space (peek res.stream) = false))) := by
  have hkeep : ∀ s2 : token_stream, starts_with_space (peek s2) = false →
      (has_text st.return_type = true
        ∨ (st.return_type = "" ∧ (b = false → starts_with_space (peek s2) = false))) := by
    intro s2 h2
    rcases hP with hp | ⟨hp, _⟩
    · exact Or.inl hp
    · exact Or.inr ⟨hp, fun _ => h2⟩
  unfold parse_member_function_prefix_step at h
  by_cases c0 : (skip_if_token st.stream name).1 = true
  · rw [if_pos c0] at h; cases h
    exact ⟨skip_if_token_suffix _ _, hkeep _ (skip_if_token_peek _ _ c0)⟩
  rw [if_neg c0] at h
  cases hsa : skip_attribute st.stream with
  | error e2 => rw [hsa] at h; cases h
  | ok s =>
    rw [hsa] at h
    dsimp only at h
    have hs := skip_attribute_suffix _ _ hsa
    by_cases c1 : (skip_if_token s "extern").1 = true
    · rw [if_pos c1] at h; cases h
      exact ⟨(skip_if_token_suffix _ _).trans hs, hkeep _ (skip_if_token_peek _ _ c1)⟩
    rw [if_neg c1] at h
    by_cases c2 : (skip_if_token s "static").1 = true
    · rw [if_pos c2] at h; cases h
      exact ⟨(skip_if_token_suffix _ _).trans hs, hkeep _ (skip_if_token_peek _ _ c2)⟩
    rw [if_neg c2] at h
    by_cases c3 : (skip_if_token s "constexpr").1 = true
    · rw [if_pos c3] at h; cases h
      exact ⟨(skip_if_token_suffix _ _).trans hs, hkeep _ (skip_if_token_peek _ _ c3)⟩
    rw [if_neg c3] at h
    by_cases c4 : (skip_if_token s "virtual").1 = true
    · rw [if_pos c4] at h; cases h
      exact ⟨(skip_if_token_suffix _ _).trans hs, hkeep _ (skip_if_token_peek _ _ c4)⟩
    rw [if_neg c4] at h
    by_cases c5 : (!st.allow_auto && (skip_if_token s "auto").1) = true
    · rw [if_pos c5] at h; cases h
      have c5b : (skip_if_token s "auto").1 = true := by
        simp only [Bool.and_eq_true] at c5; exact c5.2
      exact ⟨(skip_if_token_suffix _ _).trans hs, hkeep _ (skip_if_token_peek _ _ c5b)⟩
    rw [if_neg c5] at h
    by_cases c6 : (skip_if_token s "operator").1 = true
    · rw [if_pos c6] at h
      cases ho : operator_name_loop (skip_if_token s "operator").2
          (name.data.drop "operator".length) with
      | error e2 => rw [ho] at h; cases h
      | ok s2 =>
        rw [ho] at h; cases h
        refine ⟨((operator_name_loop_suffix _ _ _ ho).trans (skip_if_token_suffix _ _)).trans hs,
          ?_⟩
        rcases hP with hp | ⟨hp, _⟩
        · exact Or.inl hp
        · exact Or.inr ⟨hp, fun hb => by cases hb⟩
    rw [if_neg c6] at h
    cases hg : get s with
    | error e2 => rw [hg] at h; cases h
    | ok w =>
      obtain ⟨t, s2⟩ := w
      rw [hg] at h
      cases h
      have e := get_eq _ _ _ hg
      refine ⟨(by rw [e]; exact List.suffix_cons _ _ : s2 <:+ s).trans hs, Or.inl ?_⟩
      rcases hP with hp | ⟨hp, hpk⟩
      · exact has_text_append_left _ _ hp
      · apply has_text_append_right
        have hk := skip_attribute_peek _ _ hsa hpk
        rw [e] at hk
        simp only [peek, List.headD_cons] at hk
        have hmem : t ∈ st.stream := hs.subset (by rw [e]; exact List.mem_cons_self _ _)
        exact has_text_lexeme t (fun h0 => hne (h0 ▸ hmem)) hk

theorem not_mem_of_suffix (s s2 : token_stream) (hs : s2 <:+ s) (hne : "" ∉ s) : "" ∉ s2 :=
  fun h => hne (hs.subset h)

/-- The prefix loop returns a text that is empty or holds a solid character. -/
theorem prefix_loop_text (name : String) (fuel : Nat) :
    ∀ (st res : prefix_state), parse_member_function_prefix_loop name fuel st = .ok res →
      "" ∉ st.stream →
      (has_text st.return_type = true
        ∨ (st.return_type = "" ∧ starts_with_space (peek st.stream) = false)) →
      res.stream <:+ st.stream
      ∧ (has_text res.return_type = true ∨ res.return_type = "") := by
  induction fuel with
  | zero => intro st res h; simp [parse_member_function_prefix_loop] at h
  | succ n ih =>
    intro st res h hne hP
    rw [parse_member_function_prefix_loop] at h
    cases hs : parse_member_function_prefix_step name st with
    | error e => rw [hs] at h; cases h
    | ok v =>
      obtain ⟨b, st1⟩ := v
      rw [hs] at h
      have f1 := prefix_step_text name st st1 b hs hne hP
      cases b with
      | true =>
        cases h
        refine ⟨f1.1, ?_⟩
        rcases f1.2 with hp | ⟨hp, _⟩
        · exact Or.inl hp
        · exact Or.inr hp
      | false =>
        dsimp only at h
        have hP1 : has_text st1.return_type = true
            ∨ (st1.return_type = "" ∧ starts_with_space (peek st1.stream) = false) := by
          rcases f1.2 with hp | ⟨hp, hk⟩
          · exact Or.inl hp
          · exact Or.inr ⟨hp, hk rfl⟩
        have f2 := ih st1 res h (not_mem_of_suffix _ _ f1.1 hne) hP1
        exact ⟨f2.1.trans f1.1, f2.2⟩

theorem skip_bracket_count_loop_text (open_ close : String) :
    ∀ (s : token_stream) (n : Nat) (acc res : String) (s2 : token_stream),
      skip_bracket_count_loop open_ close (fun (text : String) str => text ++ str) s n acc
        = .ok (res, s2) →
      has_text acc = true → has_text res = true := by
  intro s
  induction s with
  | nil => intro n acc res s2 h; simp [skip_bracket_count_loop] at h
  | cons t rest ih =>
    intro n acc res s2 h hacc
    rw [skip_bracket_count_loop] at h
    split_ifs at h
    all_goals first
      | (cases h; exact has_text_append_left _ _ hacc)
      | exact ih _ _ _ _ h (has_text_append_left _ _ hacc)

theorem skip_bracket_count_text (s : token_stream) (open_ close : String)
    (init res : String) (s2 : token_stream)
    (h : skip_bracket_count s open_ close (fun (text : String) str => text ++ str) init
      = .ok (res, s2))
    (hinit : has_text init = true) : has_text res = true := by
  unfold skip_bracket_count at h
  cases hs : skip s open_ with
  | error e => rw [hs] at h; cases h
  | ok s1 =>
    rw [hs] at h
    exact skip_bracket_count_loop_text open_ close s1 1 init res s2 h hinit

/-- The loop over a trailing return type returns a text that is empty or holds a solid
character. -/
theorem trailing_loop_text (fuel : Nat) :
    ∀ (st res : suffix_state), trailing_return_type_loop fuel st = .ok res →
      "" ∉ st.stream →
      (has_text st.trailing_return_type = true
        ∨ (st.trailing_return_type = "" ∧ starts_with_space (peek st.stream) = false)) →
      (has_text res.trailing_return_type = true ∨ res.trailing_return_type = "") := by
  induction fuel with
  | zero => intro st res h; simp [trailing_return_type_loop] at h
  | succ n ih =>
    intro st res h hne hP
    rw [trailing_return_type_loop] at h
    cases hde : is_declaration_end st.stream st.special_definition with
    | error e => rw [hde] at h; cases h
    | ok v =>
      obtain ⟨b, sp, s1⟩ := v
      have hs1 := is_declaration_end_suffix _ _ _ _ _ hde
      rw [hde] at h
      cases b with
      | true =>
        cases h
        rcases hP with hp | ⟨hp, _⟩
        · exact Or.inl hp
        · exact Or.inr hp
      | false =>
        dsimp only at h
        cases hg : get s1 with
        | error e => rw [hg] at h; cases h
        | ok w =>
          obtain ⟨t, s2⟩ := w
          rw [hg] at h
          have e := get_eq _ _ _ hg
          have hs2 : s2 <:+ st.stream :=
            (by rw [e]; exact List.suffix_cons _ _ : s2 <:+ s1).trans hs1
          refine ih _ res h (not_mem_of_suffix _ _ hs2 hne) (Or.inl ?_)
          rcases hP with hp | ⟨hp, hpk⟩
          · exact has_text_append_left _ _ hp
          · apply has_text_append_right
            have hk := skip_attribute_peek _ _ (is_declaration_end_false _ _ _ _ hde).1 hpk
            rw [e] at hk
            simp only [peek, List.headD_cons] at hk
            have hmem : t ∈ st.stream := hs1.subset (by rw [e]; exact List.mem_cons_self _ _)
            exact has_text_lexeme t (fun h0 => hne (h0 ▸ hmem)) hk

/-- One iteration of the suffix loop keeps the text empty or with a solid character. -/
theorem suffix_step_text (st res : suffix_state) (b : Bool)
    (h : parse_member_function_suffix_step st = .ok (b, res))
    (hne : "" ∉ st.stream)
    (hQ : has_text st.trailing_return_type = true ∨ st.trailing_return_type = "") :
    has_text res.trailing_return_type = true ∨ res.trailing_return_type = "" := by
  rcases suffix_step_cases st res b h with ⟨sp, s1, hde, _, hres⟩ | ⟨sp, s1, t, rest, hde, hsa, hc⟩
  · subst hres; exact hQ
  · have h1 : (t :: rest) <:+ st.stream :=
      (skip_attribute_suffix _ _ hsa).trans (is_declaration_end_suffix _ _ _ _ _ hde)
    have hrest : rest <:+ st.stream := (List.suffix_cons _ _).trans h1
    have hws : skip_whitespace rest <:+ st.stream := (skip_whitespace_suffix rest).trans hrest
    rcases hc with ⟨_, _, text, s3, hb, hres⟩ | ⟨_, _, ht⟩ | ⟨_, _, hres⟩ | ⟨_, _, hres⟩
      | ⟨_, _, hres⟩ | ⟨_, _, hres⟩ | ⟨_, _, hres⟩ | ⟨_, _, hres⟩ | ⟨htok, _, e, s3, hn, hres⟩
      | ⟨_, _, hres⟩
    · subst hres
      exact Or.inl (skip_bracket_count_text _ _ _ _ _ _ hb
        (has_text_append_right _ _ (by decide)))
    · refine trailing_loop_text _ _ res ht (not_mem_of_suffix _ _ hws hne) ?_
      rcases hQ with hq | hq
      · exact Or.inl hq
      · exact Or.inr ⟨hq, peek_skip_whitespace rest⟩
    · subst hres; exact hQ
    · subst hres; exact hQ
    · subst hres; exact hQ
    · subst hres; exact hQ
    · subst hres; exact hQ
    · subst hres; exact hQ
    · subst hres; exact hQ
    · subst hres; exact hQ

theorem suffix_loop_text (fuel : Nat) :
    ∀ (st res : suffix_state), parse_member_function_suffix_loop fuel st = .ok res →
      "" ∉ st.stream →
      (has_text st.trailing_return_type = true ∨ st.trailing_return_type = "") →
      (has_text res.trailing_return_type = true ∨ res.trailing_return_type = "") := by
  induction fuel with
  | zero => intro st res h; simp [parse_member_function_suffix_loop] at h
  | succ n ih =>
    intro st res h hne hQ
    rw [parse_member_function_suffix_loop] at h
    cases hs : parse_member_function_suffix_step st with
    | error e => rw [hs] at h; cases h
    | ok v =>
      obtain ⟨b, st1⟩ := v
      rw [hs] at h
      have f1 := suffix_step_text st st1 b hs hne hQ
      cases b with
      | true => cases h; exact f1
      | false =>
        exact ih st1 res h (not_mem_of_suffix _ _ (suffix_step_frame st st1 false hs).1 hne) f1

/-- The text `parse_member_function_suffix` returns is empty or holds a solid
character. -/
theorem suffix_text (stream : token_stream) (finfo : cpp_function_info)
    (minfo : cpp_member_function_info) (res : suffix_state)
    (h : parse_member_function_suffix stream finfo minfo = .ok res) (hne : "" ∉ stream) :
    has_text res.trailing_return_type = true ∨ res.trailing_return_type = "" := by
  unfold parse_member_function_suffix at h
  cases hl : parse_member_function_suffix_loop (stream.length + 1)
      { stream := stream, trailing_return_type := "", special_definition := false,
        finfo := finfo, minfo := minfo } with
  | error e => rw [hl] at h; cases h
  | ok st =>
    rw [hl] at h
    rw [suffix_end_trailing st res h]
    exact suffix_loop_text _ _ st hl hne (Or.inr rfl)

theorem skip_template_parameter_declaration_peek (s s0 : token_stream)
    (h : skip_template_parameter_declaration s = .ok s0) :
    s0 <:+ s ∧ starts_with_space (peek s0) = false := by
  unfold skip_template_parameter_declaration at h
  by_cases c : peek s = "template"
  · rw [if_pos c] at h
    cases hb : bump s with
    | error e => rw [hb] at h; cases h
    | ok s1 =>
      rw [hb] at h
      dsimp only at h
      cases hs : skip_all (skip_whitespace s1) ["<", ">"] with
      | error e => rw [hs] at h; cases h
      | ok s2 =>
        rw [hs] at h
        cases h
        exact ⟨(((skip_whitespace_suffix s2).trans (skip_all_suffix _ _ _ hs)).trans
          (skip_whitespace_suffix s1)).trans (bump_suffix _ _ hb), peek_skip_whitespace s2⟩
  · rw [if_neg c] at h
    cases h
    exact ⟨skip_whitespace_suffix s, peek_skip_whitespace s⟩

theorem skip_template_arguments_suffix (s : token_stream) (args : String) (rf : Bool)
    (res : String) (s2 : token_stream)
    (h : skip_template_arguments s args rf = .ok (res, s2)) : s2 <:+ s := by
  unfold skip_template_arguments at h
  by_cases c : peek s = "<"
  · rw [if_pos c] at h
    dsimp only at h
    split_ifs at h
    cases hsc : skip_template_arguments_scan rf
        (List.filter (fun p => !starts_with_space p.2) s.enum).reverse 0 false none with
    | error e => rw [hsc] at h; cases h
    | ok v =>
      rw [hsc] at h
      cases v with
      | none => cases h
      | some pos =>
        dsimp only at h
        split_ifs at h
        cases h
        exact List.drop_suffix _ _
  · rw [if_neg c] at h; cases h; exact List.suffix_refl _

theorem text_concat (a b : String)
    (ha : has_text a = true ∨ a = "") (hb : has_text b = true ∨ b = "")
    (hab : a ++ b ≠ "") : has_text (a ++ b) = true := by
  rcases ha with ha | ha
  · exact has_text_append_left _ _ ha
  · rcases hb with hb | hb
    · exact has_text_append_right _ _ hb
    · exact absurd (by rw [ha, hb]; rfl) hab

/-- C24: `parse_member_function` gives the text `auto` when the text of the prefix plus
the trailing text of the suffix is empty, and that concatenation without the whitespace
at its end otherwise; on a stream without an empty lexeme the returned text is never
empty; for `auto f() -> int;` it is `int`. -/
theorem return_type_text_never_empty (stream : token_stream) (name template_args : String)
    (finfo : cpp_function_info) (minfo : cpp_member_function_info)
    (res : member_function_result)
    (h : parse_member_function stream name template_args finfo minfo = .ok res) :
    (∃ (s0 : token_stream) (pre : prefix_state) (args : String) (s1 : token_stream)
        (variadic : Bool) (s2 : token_stream) (suf : suffix_state),
        skip_template_parameter_declaration stream = .ok s0
        ∧ parse_member_function_prefix s0 name finfo minfo = .ok pre
        ∧ skip_template_arguments pre.stream template_args (is_function_ptr pre.return_type)
            = .ok (args, s1)
        ∧ skip_parameters s1 = .ok (variadic, s2)
        ∧ parse_member_function_suffix s2
            (if variadic then pre.finfo.set_flag cpp_variadic_fnc else pre.finfo) pre.minfo
            = .ok suf
        ∧ res.return_type.name =
            if pre.return_type ++ suf.trailing_return_type = "" then "auto"
            else erase_trailing_ws (pre.return_type ++ suf.trailing_return_type))
    ∧ ("" ∉ stream → res.return_type.name ≠ "")
    ∧ (parse_member_function ["auto", " ", "f", "(", ")", " ", "->", " ", "int", ";"]
          "f" "" {} {}).map (fun r => r.return_type.name) = .ok "int" := by
  unfold parse_member_function at h
  cases h0 : skip_template_parameter_declaration stream with
  | error e => rw [h0] at h; cases h
  | ok s0 =>
    rw [h0] at h
    dsimp only at h
    cases h1 : parse_member_function_prefix s0 name finfo minfo with
    | error e => rw [h1] at h; cases h
    | ok pre =>
      rw [h1] at h
      dsimp only at h
      cases h2 : skip_template_arguments pre.stream template_args
          (is_function_ptr pre.return_type) with
      | error e => rw [h2] at h; cases h
      | ok v2 =>
        obtain ⟨args, s1⟩ := v2
        rw [h2] at h
        dsimp only at h
        cases h3 : skip_parameters s1 with
        | error e => rw [h3] at h; cases h
        | ok v3 =>
          obtain ⟨variadic, s2⟩ := v3
          rw [h3] at h
          dsimp only at h
          cases h4 : parse_member_function_suffix s2
              (if variadic then pre.finfo.set_flag cpp_variadic_fnc else pre.finfo)
              pre.minfo with
          | error e => rw [h4] at h; cases h
          | ok suf =>
            rw [h4] at h
            cases h
            refine ⟨⟨s0, pre, args, s1, variadic, s2, suf, rfl, h1, h2, h3, h4, rfl⟩, ?_,
              by decide⟩
            intro hne
            have f0 := skip_template_parameter_declaration_peek _ _ h0
            have hne0 := not_mem_of_suffix _ _ f0.1 hne
            have f1 := prefix_loop_text name _ _ pre h1 hne0 (Or.inr ⟨rfl, f0.2⟩)
            have hne1 := not_mem_of_suffix _ _ f1.1 hne0
            have hne2 := not_mem_of_suffix _ _ (skip_template_arguments_suffix _ _ _ _ _ h2) hne1
            have hs3 : s2 <:+ s1 := by
              unfold skip_parameters at h3
              cases hb : skip_bracket_count s1 "(" ")" skip_parameters_callback (false, true) with
              | error e => rw [hb] at h3; cases h3
              | ok w =>
                rw [hb] at h3
                cases h3
                exact skip_bracket_count_suffix _ _ _ _ _ _ _ hb
            have f4 := suffix_text _ _ _ suf h4 (not_mem_of_suffix _ _ hs3 hne2)
            show (if pre.return_type ++ suf.trailing_return_type = "" then "auto"
              else erase_trailing_ws (pre.return_type ++ suf.trailing_return_type)) ≠ ""
            by_cases c : pre.return_type ++ suf.trailing_return_type = ""
            · rw [if_pos c]; decide
            · rw [if_neg c]
              exact erase_trailing_ws_has_text _ (text_concat _ _ f1.2 f4 c)

theorem return_type_text_never_empty_witness :
    parse_member_function ["int", " ", "f", "(", ")", ";"] "f" "" {} {}
      = .ok { return_type := { name := "int" }, template_args := "",
              finfo := { noexcept_expression := "false" }, minfo := {} }
    ∧ "" ∉ ["int", " ", "f", "(", ")", ";"]
    ∧ ({ return_type := { name := "int" }, template_args := "",
         finfo := { noexcept_expression := "false" }, minfo := {} }
        : member_function_result).return_type.name ≠ "" :=
  ⟨by decide, by decide,
    (return_type_text_never_empty ["int", " ", "f", "(", ")", ";"] "f" "" {} {}
      { return_type := { name := "int" }, template_args := "",
        finfo := { noexcept_expression := "false" }, minfo := {} } (by decide)).2.1
      (by decide)⟩

/-! ## `escape_html` and `escape_url` -/

theorem foldl_append_pieces (f : Nat → List Nat) (l : List Nat) (acc : List Nat) :
    l.foldl (fun result c => result ++ f c) acc = acc ++ (l.map f).flatten := by
  induction l generalizing acc with
  | nil => simp
  | cons c rest ih => simp [List.foldl_cons, ih, List.append_assoc]

theorem escape_html_pieces (str : List Nat) :
    escape_html str = (str.map escape_html_char).flatten := by
  unfold escape_html
  rw [foldl_append_pieces]
  rfl

theorem escape_url_pieces (char_is_signed : Bool) (str : List Nat) :
    escape_url char_is_signed str = (str.map (escape_url_char char_is_signed)).flatten := by
  unfold escape_url
  rw [foldl_append_pieces]
  rfl

/-- In a text put together from pieces, each of which either holds no `amp` or is one of
`refs` and holds `amp` as its first element only, every `amp` starts one of `refs`. -/
theorem pieces_reference (amp : Nat) (refs : List (List Nat)) (ps : List (List Nat))
    (h : ∀ p ∈ ps, amp ∉ p ∨ (p ∈ refs ∧ ∃ body, p = amp :: body ∧ amp ∉ body)) :
    ∀ pre post, ps.flatten = pre ++ amp :: post → ∃ r ∈ refs, r <+: amp :: post := by
  induction ps with
  | nil => intro pre post e; simp at e
  | cons p ps ih =>
    intro pre post e
    have ih2 := ih (fun q hq => h q (List.mem_cons_of_mem _ hq))
    rw [List.flatten_cons, List.append_eq_append_iff] at e
    rcases e with ⟨a, e1, e2⟩ | ⟨c, e1, e2⟩
    · exact ih2 a post e2
    · cases c with
      | nil =>
        rw [List.nil_append] at e2
        exact ih2 [] post (by rw [← e2]; rfl)
      | cons x c2 =>
        rw [List.cons_append] at e2
        have hx : x = amp := (List.cons.inj e2).1.symm
        subst hx
        rcases h p (List.mem_cons_self _ _) with hno | ⟨hr, body, hb, hnb⟩
        · exact absurd (by rw [e1]; simp) hno
        · cases pre with
          | nil =>
            rw [List.nil_append] at e1
            exact ⟨p, hr, by rw [e2, e1]; exact List.prefix_append (x :: c2) _⟩
          | cons y pre2 =>
            rw [hb, List.cons_append] at e1
            have e3 := (List.cons.inj e1).2
            exact absurd (by rw [e3]; simp) hnb

theorem escape_html_char_cases (c : Nat) :
    (c ∈ html_special ∧ escape_html_char c ∈ html_references)
    ∨ (c ∉ html_special ∧ escape_html_char c = [c]) := by
  unfold escape_html_char
  by_cases h1 : c = '&'.toNat
  · subst h1; exact Or.inl (by decide)
  by_cases h2 : c = '<'.toNat
  · subst h2; exact Or.inl (by decide)
  by_cases h3 : c = '>'.toNat
  · subst h3; exact Or.inl (by decide)
  by_cases h4 : c = '"'.toNat
  · subst h4; exact Or.inl (by decide)
  by_cases h5 : c = '\''.toNat
  · subst h5; exact Or.inl (by decide)
  by_cases h6 : c = '/'.toNat
  · subst h6; exact Or.inl (by decide)
  · refine Or.inr ⟨?_, ?_⟩
    · intro hm
      simp only [html_special, literal, List.map_cons, List.map_nil, List.mem_cons,
        List.mem_singleton, List.not_mem_nil, or_false] at hm
      rcases hm with e | e | e | e | e | e
      · exact h1 e
      · exact h2 e
      · exact h3 e
      · exact h4 e
      · exact h5 e
      · exact h6 e
    · rw [if_neg h1, if_neg h2, if_neg h3, if_neg h4, if_neg h5, if_neg h6]

theorem html_reference_shape (r : List Nat) (hr : r ∈ html_references) :
    (∃ body, r = '&'.toNat :: body ∧ '&'.toNat ∉ body)
    ∧ '<'.toNat ∉ r ∧ '>'.toNat ∉ r ∧ '"'.toNat ∉ r ∧ '\''.toNat ∉ r ∧ '/'.toNat ∉ r := by
  simp only [html_references, List.mem_cons, List.mem_singleton, List.not_mem_nil,
    or_false] at hr
  rcases hr with e | e | e | e | e | e <;> subst e <;>
    exact ⟨⟨_, rfl, by decide⟩, by decide, by decide, by decide, by decide, by decide⟩

/-- C34: the output of `escape_html` holds none of the characters `<`, `>`, `"`,
apostrophe and `/`; every `&` in it starts one of the six references; and an input
without the six special characters is returned as it is. -/
theorem escape_html_output (str : List Nat) :
    ('<'.toNat ∉ escape_html str ∧ '>'.toNat ∉ escape_html str
      ∧ '"'.toNat ∉ escape_html str ∧ '\''.toNat ∉ escape_html str
      ∧ '/'.toNat ∉ escape_html str)
    ∧ (∀ pre post, escape_html str = pre ++ '&'.toNat :: post →
        ∃ r ∈ html_references, r <+: '&'.toNat :: post)
    ∧ ((∀ c ∈ html_special, c ∉ str) → escape_html str = str)
    ∧ html_references.length = 6 ∧ html_special.length = 6 := by
  have hmem : ∀ x : Nat, x ∈ html_special → x ≠ '&'.toNat → x ∉ escape_html str := by
    intro x hx hamp hin
    rw [escape_html_pieces, List.mem_flatten] at hin
    obtain ⟨p, hp, hxp⟩ := hin
    rw [List.mem_map] at hp
    obtain ⟨c, _, hc⟩ := hp
    subst hc
    rcases escape_html_char_cases c with ⟨_, hr⟩ | ⟨hns, he⟩
    · have hs := (html_reference_shape _ hr).2
      simp only [html_special, literal, List.map_cons, List.map_nil, List.mem_cons,
        List.mem_singleton, List.not_mem_nil, or_false] at hx
      rcases hx with e | e | e | e | e | e
      · exact hamp e
      · subst e; exact hs.1 hxp
      · subst e; exact hs.2.1 hxp
      · subst e; exact hs.2.2.1 hxp
      · subst e; exact hs.2.2.2.1 hxp
      · subst e; exact hs.2.2.2.2 hxp
    · rw [he, List.mem_singleton] at hxp
      subst hxp
      exact hns hx
  refine ⟨⟨hmem _ (by decide) (by decide), hmem _ (by decide) (by decide),
    hmem _ (by decide) (by decide), hmem _ (by decide) (by decide),
    hmem _ (by decide) (by decide)⟩, ?_, ?_, rfl, rfl⟩
  · rw [escape_html_pieces]
    apply pieces_reference
    intro p hp
    rw [List.mem_map] at hp
    obtain ⟨c, _, hc⟩ := hp
    subst hc
    rcases escape_html_char_cases c with ⟨_, hr⟩ | ⟨hns, he⟩
    · exact Or.inr ⟨hr, (html_reference_shape _ hr).1⟩
    · refine Or.inl ?_
      rw [he, List.mem_singleton]
      intro e
      exact hns (by rw [← e]; decide)
  · intro h
    rw [escape_html_pieces]
    clear hmem
    induction str with
    | nil => rfl
    | cons c rest ih =>
      have hc : c ∉ html_special := fun hm => h c hm (List.mem_cons_self _ _)
      rcases escape_html_char_cases c with ⟨hs, _⟩ | ⟨_, he⟩
      · exact absurd hs hc
      · rw [List.map_cons, List.flatten_cons, he,
          ih (fun x hx hin => h x hx (List.mem_cons_of_mem _ hin))]
        rfl

set_option maxRecDepth 100000 in
theorem escape_url_char_unsigned :
    ∀ c, c < 256 → c ≠ 0 → c ≠ '&'.toNat → c ≠ '\''.toNat →
      escape_url_char false c = percent_encoded c := by
  decide

set_option maxRecDepth 100000 in
theorem escape_url_char_signed :
    ∀ c, c < 128 → c ≠ 0 → c ≠ '&'.toNat → c ≠ '\''.toNat →
      escape_url_char true c = percent_encoded c := by
  decide

set_option maxRecDepth 100000 in
theorem escape_url_char_high :
    ∀ c, c < 256 → 128 ≤ c → escape_url_char true c = literal "%FF" := by
  decide

theorem hex_digit_ne_amp (d : Nat) : hex_digit d ≠ '&'.toNat := by
  unfold hex_digit
  have e0 : '0'.toNat = 48 := rfl
  have eA : 'A'.toNat = 65 := rfl
  have eamp : '&'.toNat = 38 := rfl
  rw [e0, eA, eamp]
  split_ifs <;> omega

theorem snprintf_no_amp (v : Nat) : '&'.toNat ∉ snprintf_02X v := by
  intro h
  unfold snprintf_02X format_02X at h
  have h2 := List.mem_of_mem_take h
  rw [List.mem_append] at h2
  rcases h2 with h3 | h3
  · have := List.eq_of_mem_replicate h3
    exact absurd this (by decide)
  · rw [List.mem_map] at h3
    obtain ⟨d, _, hd⟩ := h3
    exact hex_digit_ne_amp d hd

theorem escape_url_char_cases (char_is_signed : Bool) (c : Nat) (hc : c ≠ '\''.toNat) :
    '&'.toNat ∉ escape_url_char char_is_signed c
    ∨ (escape_url_char char_is_signed c ∈ [literal "&amp;"]
        ∧ ∃ body, escape_url_char char_is_signed c = '&'.toNat :: body ∧ '&'.toNat ∉ body) := by
  unfold escape_url_char
  by_cases h1 : c = '&'.toNat
  · rw [if_pos h1]
    exact Or.inr ⟨List.mem_singleton.mpr rfl, _, rfl, by decide⟩
  rw [if_neg h1, if_neg hc]
  refine Or.inl ?_
  by_cases h2 : needs_url_escaping c = true
  · rw [if_pos h2]
    intro hm
    rw [List.mem_append] at hm
    rcases hm with hm | hm
    · exact absurd hm (by decide)
    · exact snprintf_no_amp _ hm
  · rw [if_neg h2, List.mem_singleton]
    exact fun e => h1 e.symm

/-- C35: on a text without `&` and apostrophe whose bytes are not 0 and, where `char` is
signed, below 128, `escape_url` copies the bytes of the safe set and replaces every other
byte by `%` and the two upper-case hexadecimal digits of its value; a blank gives `%20`
and, where `char` is unsigned, the byte 0xE4 gives `%E4`.  The byte 0 is copied as it is,
and where `char` is signed every byte from 128 on gives `%FF`. -/
theorem escape_url_percent_encoding (char_is_signed : Bool) (str : List Nat)
    (hrange : ∀ c ∈ str, c ≠ 0 ∧ c < (if char_is_signed = true then 128 else 256))
    (hmarkup : '&'.toNat ∉ str ∧ '\''.toNat ∉ str) :
    escape_url char_is_signed str = (str.map percent_encoded).flatten
    ∧ (∀ c ∈ safe, escape_url char_is_signed [c] = [c])
    ∧ escape_url char_is_signed (literal " ") = literal "%20"
    ∧ escape_url false [228] = literal "%E4"
    ∧ percent_encoded 228 = literal "%E4"
    ∧ escape_url true [228] = literal "%FF"
    ∧ (∀ c, c < 256 → 128 ≤ c → escape_url true [c] = literal "%FF")
    ∧ percent_encoded 0 = literal "%00"
    ∧ escape_url char_is_signed [0] = [0] := by
  refine ⟨?_, ?_, ?_, by decide, by decide, by decide, ?_, by decide, ?_⟩
  · rw [escape_url_pieces]
    congr 1
    apply List.map_congr_left
    intro c hc
    have hr := hrange c hc
    have h1 : c ≠ '&'.toNat := fun e => hmarkup.1 (e ▸ hc)
    have h2 : c ≠ '\''.toNat := fun e => hmarkup.2 (e ▸ hc)
    cases char_is_signed with
    | false => exact escape_url_char_unsigned c (by simpa using hr.2) hr.1 h1 h2
    | true => exact escape_url_char_signed c (by simpa using hr.2) hr.1 h1 h2
  · cases char_is_signed <;> decide
  · cases char_is_signed <;> decide
  · intro c h1 h2
    rw [escape_url_pieces]
    simp only [List.map_cons, List.map_nil, List.flatten_cons, List.flatten_nil,
      List.append_nil]
    exact escape_url_char_high c h1 h2
  · cases char_is_signed <;> decide

theorem escape_url_percent_encoding_witness :
    escape_url true (literal "a b/~") = ((literal "a b/~").map percent_encoded).flatten :=
  (escape_url_percent_encoding true (literal "a b/~") (by decide) (by decide)).1

/-- C36: on a text without apostrophe every `&` in the output of `escape_url` starts the
reference `&amp;`, and `&` becomes `&amp;` as in `escape_html`.  The apostrophe becomes
`&#x27` without the closing `;`, while `escape_html` gives `&#x27;`: in the output for
`it's` the `&` starts no reference that a `;` ends. -/
theorem escape_url_references (char_is_signed : Bool) (str : List Nat)
    (h : '\''.toNat ∉ str) :
    (∀ pre post, escape_url char_is_signed str = pre ++ '&'.toNat :: post →
        literal "&amp;" <+: '&'.toNat :: post)
    ∧ escape_url char_is_signed (literal "&") = literal "&amp;"
    ∧ escape_html (literal "&") = literal "&amp;"
    ∧ escape_html (literal "\'") = literal "&#x27;"
    ∧ escape_url char_is_signed (literal "\'") = literal "&#x27"
    ∧ escape_url char_is_signed (literal "it\'s") = literal "it&#x27s"
    ∧ ';'.toNat ∉ escape_url char_is_signed (literal "it\'s") := by
  refine ⟨?_, ?_, by decide, by decide, ?_, ?_, ?_⟩
  · intro pre post e
    rw [escape_url_pieces] at e
    obtain ⟨r, hr, hp⟩ := pieces_reference '&'.toNat [literal "&amp;"]
      (str.map (escape_url_char char_is_signed))
      (by
        intro p hp
        rw [List.mem_map] at hp
        obtain ⟨c, hc, e2⟩ := hp
        subst e2
        exact escape_url_char_cases char_is_signed c (fun e3 => h (e3 ▸ hc)))
      pre post e
    rw [List.mem_singleton] at hr
    subst hr
    exact hp
  · cases char_is_signed <;> decide
  · cases char_is_signed <;> decide
  · cases char_is_signed <;> decide
  · cases char_is_signed <;> decide

theorem escape_url_references_witness :
    '\''.toNat ∉ literal "a&b c"
    ∧ literal "&amp;" <+: '&'.toNat :: literal "amp;b%20c" :=
  ⟨by decide,
    (escape_url_references true (literal "a&b c") (by decide)).1 (literal "a")
      (literal "amp;b%20c") (by decide)⟩

theorem escape_html_output_witness :
    escape_html (literal "plain text") = literal "plain text" :=
  (escape_html_output (literal "plain text")).2.2.1 (by decide)

/-! ## `include_guard` -/

theorem read_line_append (l rest : List Nat) (e : Nat) (hl : line_bytes l = true)
    (he : e = 0 ∨ e = '\n'.toNat) : read_line (l ++ e :: rest) = (l, rest) := by
  induction l with
  | nil => rw [List.nil_append, read_line, if_pos he]
  | cons c l ih =>
    unfold line_bytes at hl
    rw [List.all_cons, Bool.and_eq_true] at hl
    have hc : ¬ (c = 0 ∨ c = '\n'.toNat) := by
      have h1 := hl.1
      simp only [Bool.and_eq_true, bne_iff_ne, ne_eq] at h1
      exact fun h => h.elim h1.1 h1.2
    rw [List.cons_append, read_line, if_neg hc, ih hl.2]

theorem compare_doc_comment (l : List Nat) : compare_eq l 2 "/**" = false := by
  unfold compare_eq
  rw [beq_eq_false_iff_ne]
  intro h
  have h2 := congrArg List.length h
  rw [List.length_take] at h2
  have h3 : (literal "/**").length = 3 := rfl
  omega

theorem literal_define : literal "#define" = [35, 100, 101, 102, 105, 110, 101] := rfl

theorem literal_pragma_once :
    literal "#pragma once" = [35, 112, 114, 97, 103, 109, 97, 32, 111, 110, 99, 101] := rfl

theorem include_guard_loop_passed (fuel : Nat) (l rest : List Nat) (e : Nat)
    (hp : passed_line l = true) (hl : line_bytes l = true) (he : e = 0 ∨ e = '\n'.toNat) :
    include_guard_loop (fuel + 1) (l ++ e :: rest) = include_guard_loop fuel rest := by
  rw [include_guard_loop, if_neg (by cases l <;> simp), read_line_append l rest e hl he]
  dsimp only
  unfold passed_line at hp
  simp only [Bool.or_eq_true] at hp
  rcases hp with (hp | hp) | hp
  · rw [if_pos (Or.inl hp)]
  · have : compare_eq l 2 "//" = true := by
      rw [List.isPrefixOf_iff_prefix] at hp
      obtain ⟨t, rfl⟩ := hp
      rfl
    rw [if_pos (Or.inr (Or.inr this))]
  · rw [List.isPrefixOf_iff_prefix] at hp
    obtain ⟨t, rfl⟩ := hp
    have e1 : literal "#if" ++ t = 35 :: 105 :: 102 :: t := rfl
    rw [e1]
    simp [compare_eq, literal, literal_pragma_once]

theorem include_guard_loop_lines (pre : List (List Nat))
    (hpre : ∀ l ∈ pre, passed_line l = true ∧ line_bytes l = true) (fuel : Nat)
    (buf : List Nat) :
    include_guard_loop (pre.length + fuel) (lines_text pre ++ buf)
      = include_guard_loop fuel buf := by
  induction pre with
  | nil => simp [lines_text]
  | cons l pre ih =>
    have h1 := hpre l (List.mem_cons_self _ _)
    have e1 : lines_text (l :: pre) ++ buf = l ++ '\n'.toNat :: (lines_text pre ++ buf) := by
      simp [lines_text, List.append_assoc]
    have e2 : (l :: pre).length + fuel = (pre.length + fuel) + 1 := by
      rw [List.length_cons]; omega
    rw [e1, e2, include_guard_loop_passed _ l _ _ h1.1 h1.2 (Or.inr rfl)]
    exact ih (fun q hq => hpre q (List.mem_cons_of_mem _ hq))

theorem lines_text_length (pre : List (List Nat)) : pre.length ≤ (lines_text pre).length := by
  induction pre with
  | nil => simp
  | cons l pre ih =>
    have e1 : lines_text (l :: pre) = l ++ '\n'.toNat :: lines_text pre := by
      simp [lines_text]
    rw [e1, List.length_append, List.length_cons, List.length_cons]
    omega

theorem include_guard_loop_define (fuel : Nat) (tail rest : List Nat) (e : Nat)
    (hl : line_bytes tail = true) (he : e = 0 ∨ e = '\n'.toNat) :
    include_guard_loop (fuel + 1) (literal "#define" ++ (tail ++ e :: rest))
      = .ok (tail.dropWhile byte_isspace) := by
  have hline : line_bytes (literal "#define" ++ tail) = true := by
    unfold line_bytes at *
    rw [List.all_append, hl]
    rfl
  rw [← List.append_assoc, include_guard_loop,
    if_neg (by rw [literal_define]; simp),
    read_line_append _ rest e hline he]
  dsimp only
  have e7 : "#define".length = 7 := rfl
  rw [literal_define, e7]
  simp [compare_eq, literal, literal_pragma_once]

theorem include_guard_loop_pragma (fuel : Nat) (rest : List Nat) (e : Nat)
    (he : e = 0 ∨ e = '\n'.toNat) :
    include_guard_loop (fuel + 1) (literal "#pragma once" ++ e :: rest) = .ok [] := by
  rw [include_guard_loop, if_neg (by rw [literal_pragma_once]; simp),
    read_line_append _ rest e (by decide) he]
  dsimp only
  rw [literal_pragma_once]
  simp [compare_eq, literal]

theorem include_guard_loop_other (fuel : Nat) (l rest : List Nat) (e : Nat)
    (hl : line_bytes l = true) (hne : l ≠ []) (hh : l.head? ≠ some '#'.toNat)
    (hc : (literal "//").isPrefixOf l = false) (he : e = 0 ∨ e = '\n'.toNat) :
    include_guard_loop (fuel + 1) (l ++ e :: rest) = .ok [] := by
  rw [include_guard_loop, if_neg (by cases l <;> simp), read_line_append l rest e hl he]
  dsimp only
  have h1 : ¬ (l.isEmpty = true ∨ compare_eq l 2 "/**" = true ∨ compare_eq l 2 "//" = true) := by
    rintro (h | h | h)
    · exact hne (List.isEmpty_iff.mp h)
    · rw [compare_doc_comment] at h; cases h
    · have : (literal "//").isPrefixOf l = true := by
        rw [List.isPrefixOf_iff_prefix]
        unfold compare_eq at h
        rw [beq_iff_eq] at h
        rw [← h]
        exact List.take_prefix 2 l
      rw [this] at hc; cases hc
  rw [if_neg h1, if_pos hh]

theorem include_guard_lines (pre : List (List Nat)) (body : List Nat)
    (r : Except buffer_error (List Nat))
    (hpre : ∀ l ∈ pre, passed_line l = true ∧ line_bytes l = true)
    (h : ∀ fuel, include_guard_loop (fuel + 1) (body ++ [0]) = r) :
    include_guard true (lines_text pre ++ body) = r := by
  unfold include_guard
  have hlen := lines_text_length pre
  obtain ⟨k, hk⟩ : ∃ k, (lines_text pre ++ body).length + 2 = pre.length + (k + 1) :=
    ⟨(lines_text pre ++ body).length + 1 - pre.length, by
      rw [List.length_append]; omega⟩
  rw [hk, List.append_assoc]
  simp only [Bool.not_true, Bool.false_eq_true, if_false]
  rw [include_guard_loop_lines pre hpre]
  exact h k

theorem buffer_stop (stop : List Nat) (h : stop = [] ∨ stop.head? = some '\n'.toNat) :
    ∃ e rest, (e = 0 ∨ e = '\n'.toNat) ∧ stop ++ [0] = e :: rest := by
  cases stop with
  | nil => exact ⟨0, [], Or.inl rfl, rfl⟩
  | cons c t =>
    rcases h with h | h
    · cases h
    · simp only [List.head?_cons, Option.some.injEq] at h
      exact ⟨c, t ++ [0], Or.inr h, List.cons_append _ _ _⟩

/-- C38: let the front end report the file as guarded and let the source start with
lines the code passes over, among them empty lines, lines beginning with `//` and lines
beginning with `#if`.  If the next line begins with `#define`, `include_guard` returns
what follows `#define` and the whitespace after it on that line; if it is `#pragma once`
or a line that is not empty and begins neither with `#` nor with `//`, the result is the
empty text, as it is when the file is not guarded.  A line beginning with `/**` is no
comment line for the code: the test compares two characters with a text of three, so
the result is the empty text when such a line comes before the `#define`. -/
theorem include_guard_first_define (pre : List (List Nat)) (tail stop : List Nat)
    (hpre : ∀ l ∈ pre, passed_line l = true ∧ line_bytes l = true)
    (htail : line_bytes tail = true)
    (hstop : stop = [] ∨ stop.head? = some '\n'.toNat) :
    include_guard true (lines_text pre ++ (literal "#define" ++ (tail ++ stop)))
      = .ok (tail.dropWhile byte_isspace)
    ∧ include_guard true (lines_text pre ++ (literal "#pragma once" ++ stop)) = .ok []
    ∧ (∀ l, line_bytes l = true → l ≠ [] → l.head? ≠ some '#'.toNat →
        (literal "//").isPrefixOf l = false →
        include_guard true (lines_text pre ++ (l ++ stop)) = .ok [])
    ∧ (∀ source, include_guard false source = .ok [])
    ∧ (∀ l, compare_eq l 2 "/**" = false)
    ∧ include_guard true (literal "// doc\n\n#ifndef G_H\n#define G_H\nint x;\n")
        = .ok (literal "G_H")
    ∧ include_guard true (literal "/** doc */\n#ifndef G_H\n#define G_H\nint x;\n")
        = .ok [] := by
  obtain ⟨e, rest, he, hs⟩ := buffer_stop stop hstop
  refine ⟨?_, ?_, ?_, fun _ => rfl, compare_doc_comment, by decide, by decide⟩
  · apply include_guard_lines pre _ _ hpre
    intro fuel
    rw [List.append_assoc, List.append_assoc, hs]
    exact include_guard_loop_define fuel tail rest e htail he
  · apply include_guard_lines pre _ _ hpre
    intro fuel
    rw [List.append_assoc, hs]
    exact include_guard_loop_pragma fuel rest e he
  · intro l hl hne hh hc
    apply include_guard_lines pre _ _ hpre
    intro fuel
    rw [List.append_assoc, hs]
    exact include_guard_loop_other fuel l rest e hl hne hh hc he

theorem include_guard_first_define_witness :
    include_guard true
        (lines_text [literal "// guard", [], literal "#ifndef G_H"]
          ++ (literal "#define" ++ (literal "  G_H" ++ literal "\nint x;\n")))
      = .ok (literal "G_H") :=
  (include_guard_first_define [literal "// guard", [], literal "#ifndef G_H"]
    (literal "  G_H") (literal "\nint x;\n") (by decide) (by decide) (Or.inr rfl)).1

/-! ## Conversion operators and template arguments -/

theorem conversion_op_loop_suffix (fuel : Nat) :
    ∀ (stream s2 : token_stream) (finfo f2 : cpp_function_info)
      (minfo m2 : cpp_member_function_info),
      cpp_conversion_op.parse_loop fuel stream finfo minfo = .ok (s2, f2, m2) →
      s2 <:+ stream := by
  induction fuel with
  | zero => intro stream s2 finfo f2 minfo m2 h; simp [cpp_conversion_op.parse_loop] at h
  | succ n ih =>
    intro stream s2 finfo f2 minfo m2 h
    rw [cpp_conversion_op.parse_loop] at h
    by_cases c0 : (skip_if_token stream "operator").1 = true
    · rw [if_pos c0] at h; cases h; exact skip_if_token_suffix _ _
    rw [if_neg c0] at h
    cases hsa : skip_attribute stream with
    | error e => rw [hsa] at h; cases h
    | ok s =>
      rw [hsa] at h
      dsimp only at h
      have hs := skip_attribute_suffix _ _ hsa
      by_cases c1 : (skip_if_token s "explicit").1 = true
      · rw [if_pos c1] at h
        exact ((ih _ _ _ _ _ _ h).trans (skip_if_token_suffix _ _)).trans hs
      rw [if_neg c1] at h
      by_cases c2 : (skip_if_token s "constexpr").1 = true
      · rw [if_pos c2] at h
        exact ((ih _ _ _ _ _ _ h).trans (skip_if_token_suffix _ _)).trans hs
      rw [if_neg c2] at h
      by_cases c3 : (skip_if_token s "virtual").1 = true
      · rw [if_pos c3] at h
        exact ((ih _ _ _ _ _ _ h).trans (skip_if_token_suffix _ _)).trans hs
      rw [if_neg c3] at h
      by_cases c4 : (!starts_with_space (peek s)) = true
      · rw [if_pos c4] at h
        cases hg : get s with
        | error e => rw [hg] at h; cases h
        | ok w => rw [hg] at h; cases h
      rw [if_neg c4] at h
      cases hg : get s with
      | error e => rw [hg] at h; cases h
      | ok w =>
        obtain ⟨t, s3⟩ := w
        rw [hg] at h
        have e := get_eq _ _ _ hg
        exact ((ih _ _ _ _ _ _ h).trans (by rw [e]; exact List.suffix_cons _ _)).trans hs

theorem skip_until_parameters_suffix :
    ∀ (s s2 : token_stream), cpp_conversion_op.skip_until_parameters s = .ok s2 →
      s2 <:+ s := by
  intro s
  induction s with
  | nil => intro s2 h; simp [cpp_conversion_op.skip_until_parameters] at h
  | cons t rest ih =>
    intro s2 h
    rw [cpp_conversion_op.skip_until_parameters] at h
    by_cases c : t ≠ "(" ∧ t ≠ "<"
    · rw [if_pos c] at h
      exact (ih _ h).trans (List.suffix_cons _ _)
    · rw [if_neg c] at h; cases h; exact List.suffix_refl _

theorem skip_template_arguments_none (s : token_stream) (args : String) (rf : Bool)
    (h : "<" ∉ s) : skip_template_arguments s args rf = .ok (args, s) := by
  unfold skip_template_arguments
  have hp : peek s ≠ "<" := by
    intro e
    obtain ⟨rest, e2, _⟩ := peek_eq_cons s "<" e (by decide)
    exact h (by rw [e2]; exact List.mem_cons_self _ _)
  rw [if_neg hp]

theorem conversion_op_parameters_text (stream : token_stream) (text : String)
    (variadic : Bool) (s : token_stream) (finfo : cpp_function_info)
    (minfo : cpp_member_function_info) (hno : "<" ∉ stream)
    (h : conversion_op_parameters stream = .ok (text, variadic, s, finfo, minfo)) :
    text = "" := by
  unfold conversion_op_parameters at h
  cases h0 : skip_template_parameter_declaration stream with
  | error e => rw [h0] at h; cases h
  | ok s0 =>
    rw [h0] at h
    dsimp only at h
    cases h1 : cpp_conversion_op.parse_loop (s0.length + 1) s0 {} {} with
    | error e => rw [h1] at h; cases h
    | ok v1 =>
      obtain ⟨s1, f1, m1⟩ := v1
      rw [h1] at h
      dsimp only at h
      cases h2 : cpp_conversion_op.skip_until_parameters s1 with
      | error e => rw [h2] at h; cases h
      | ok s2 =>
        rw [h2] at h
        dsimp only at h
        have hs : s2 <:+ stream :=
          ((skip_until_parameters_suffix _ _ h2).trans
            (conversion_op_loop_suffix _ _ _ _ _ _ _ h1)).trans
            (skip_template_parameter_declaration_peek _ _ h0).1
        have hno2 : "<" ∉ s2 := fun hm => hno (hs.subset hm)
        rw [skip_template_arguments_none s2 "" false hno2] at h
        dsimp only at h
        cases h3 : skip_parameters s2 with
        | error e => rw [h3] at h; cases h
        | ok v3 =>
          obtain ⟨v, s3⟩ := v3
          rw [h3] at h
          cases h
          rfl

/-- C31: when the lexemes of a conversion-operator declaration hold no `<`,
`cpp_conversion_op::parse` captures the empty text and the record carries no rename.
When the target type holds template arguments the claim fails: the scan for the
parameters stops at the `<` of the target type, so for `operator std::vector<int>();`
the text `<int>` is captured and the rename to `operator std::vector<int><int>` is
made. -/
theorem conversion_op_no_rename (stream : token_stream) (cur : cpp_cursor)
    (r : cpp_conversion_op) (h : cpp_conversion_op.parse stream cur = .ok r)
    (hno : "<" ∉ stream) :
    r.specialization_name = none
    ∧ (∃ s finfo minfo, conversion_op_parameters stream = .ok ("", false, s, finfo, minfo))
    ∧ (conversion_op_parameters
          ["operator", " ", "std", "::", "vector", "<", "int", ">", "(", ")", ";"]).map
        (fun res => res.1) = .ok "<int>"
    ∧ (cpp_conversion_op.parse
          ["operator", " ", "std", "::", "vector", "<", "int", ">", "(", ")", ";"]
          { name := "operator std::vector<int>" }).map (fun res => res.specialization_name)
        = .ok (some "operator std::vector<int><int>") := by
  obtain ⟨text, s, finfo, minfo, type, hp, _, hr, _⟩ := conversion_op_parse_rename stream cur r h
  have ht := conversion_op_parameters_text stream text false s finfo minfo hno hp
  subst ht
  exact ⟨by rw [hr]; rfl, ⟨s, finfo, minfo, hp⟩, by decide, by decide⟩

theorem conversion_op_no_rename_witness :
    cpp_conversion_op.parse ["operator", " ", "bool", "(", ")", " ", "const", ";"]
        { name := "operator bool" }
      = .ok { target_type := { name := "bool" },
              finfo := { noexcept_expression := "false" },
              info := { cv_qualifier := cpp_cv_const },
              specialization_name := none }
    ∧ "<" ∉ ["operator", " ", "bool", "(", ")", " ", "const", ";"]
    ∧ ({ target_type := { name := "bool" },
         finfo := { noexcept_expression := "false" },
         info := { cv_qualifier := cpp_cv_const },
         specialization_name := none } : cpp_conversion_op).specialization_name = none :=
  ⟨by decide, by decide,
    (conversion_op_no_rename ["operator", " ", "bool", "(", ")", " ", "const", ";"]
      { name := "operator bool" }
      { target_type := { name := "bool" },
        finfo := { noexcept_expression := "false" },
        info := { cv_qualifier := cpp_cv_const },
        specialization_name := none } (by decide) (by decide)).1⟩

/-! ## The text of a parameter -/

theorem parameter_loop_plain (name t : String) (rest : token_stream) (fuel : Nat)
    (in_type : Bool) (type_name default_value : String)
    (ht : parameter_lexeme t = true) (hn : t ≠ name) :
    cpp_function_parameter.parse_loop name (fuel + 1) (t :: rest)
        (in_type, type_name, default_value)
      = cpp_function_parameter.parse_loop name fuel rest
          (if in_type then (in_type, type_name ++ t, default_value)
           else (in_type, type_name, default_value ++ t)) := by
  unfold parameter_lexeme at ht
  simp only [Bool.and_eq_true, bne_iff_ne, ne_eq] at ht
  obtain ⟨⟨⟨h1, h2⟩, h3⟩, h4⟩ := ht
  rw [cpp_function_parameter.parse_loop]
  simp only [peek, List.headD_cons, h1, if_false, skip_attribute_other t rest h3 h4,
    skip_if_token, hn, h2, Bool.false_eq_true, get]

theorem parameter_loop_name (name : String) (rest : token_stream) (fuel : Nat)
    (in_type : Bool) (type_name default_value : String)
    (ht : parameter_lexeme name = true) :
    cpp_function_parameter.parse_loop name (fuel + 1) (name :: rest)
        (in_type, type_name, default_value)
      = cpp_function_parameter.parse_loop name fuel (skip_whitespace rest)
          (in_type, type_name, default_value) := by
  unfold parameter_lexeme at ht
  simp only [Bool.and_eq_true, bne_iff_ne, ne_eq] at ht
  obtain ⟨⟨⟨h1, h2⟩, h3⟩, h4⟩ := ht
  rw [cpp_function_parameter.parse_loop]
  simp only [peek, List.headD_cons, h1, if_false, skip_attribute_other name rest h3 h4,
    skip_if_token, if_true]

theorem parameter_loop_equals (name : String) (rest : token_stream) (fuel : Nat)
    (in_type : Bool) (type_name default_value : String) (hn : name ≠ "=") :
    cpp_function_parameter.parse_loop name (fuel + 1) ("=" :: rest)
        (in_type, type_name, default_value)
      = cpp_function_parameter.parse_loop name fuel (skip_whitespace rest)
          (false, type_name, default_value) := by
  rw [cpp_function_parameter.parse_loop]
  have h1 : ¬ ("=" = ";") := by decide
  have h2 : ¬ ("=" = name) := fun e => hn e.symm
  simp only [peek, List.headD_cons, h1, if_false,
    skip_attribute_other "=" rest (by decide) (by decide), skip_if_token, h2, if_true,
    Bool.false_eq_true]

theorem parameter_loop_end (name : String) (rest : token_stream) (fuel : Nat)
    (state : Bool × String × String) :
    cpp_function_parameter.parse_loop name (fuel + 1) (";" :: rest) state
      = .ok (state.2.1, state.2.2) := by
  obtain ⟨a, b, c⟩ := state
  rw [cpp_function_parameter.parse_loop]
  simp only [peek, List.headD_cons, if_true]

/-- The loop of `cpp_function_parameter::parse` over a run `l` of lexemes without `;`,
`=` and attributes: the kept lexemes are appended to the text of the current part. -/
theorem parameter_loop_kept (name : String) (s : token_stream)
    (hname : parameter_lexeme name = true) (hs : starts_with_space (peek s) = false) :
    ∀ (l : List String) (after : Bool) (fuel : Nat) (in_type : Bool)
      (type_name default_value : String),
      (∀ t ∈ l, parameter_lexeme t = true) → l.length ≤ fuel →
      ∃ fuel2, fuel ≤ fuel2 + l.length ∧
        cpp_function_parameter.parse_loop name fuel
            (if after then skip_whitespace (l ++ s) else l ++ s)
            (in_type, type_name, default_value)
          = cpp_function_parameter.parse_loop name fuel2 s
              (if in_type then
                (in_type, type_name ++ String.join (parameter_kept name after l),
                  default_value)
               else
                (in_type, type_name,
                  default_value ++ String.join (parameter_kept name after l))) := by
  intro l
  induction l with
  | nil =>
    intro after fuel in_type tn dv _ _
    refine ⟨fuel, Nat.le_refl _, ?_⟩
    have e1 : (if after = true then skip_whitespace ([] ++ s) else [] ++ s) = s := by
      cases after
      · rfl
      · exact skip_whitespace_of_peek s hs
    have e2 : String.join (parameter_kept name after []) = "" := by
      cases after <;> rfl
    rw [e1, e2, String.append_empty, String.append_empty]
    cases in_type <;> rfl
  | cons t l ih =>
    intro after fuel in_type tn dv hl hfuel
    have ht := hl t (List.mem_cons_self _ _)
    have hl2 : ∀ u ∈ l, parameter_lexeme u = true :=
      fun u hu => hl u (List.mem_cons_of_mem _ hu)
    rw [List.length_cons] at hfuel
    by_cases hd : (after && starts_with_space t) = true
    · have hd' := hd
      simp only [Bool.and_eq_true] at hd'
      obtain ⟨hd1, hd2⟩ := hd'
      subst hd1
      obtain ⟨fuel2, hf, he⟩ := ih true fuel in_type tn dv hl2 (by omega)
      refine ⟨fuel2, by rw [List.length_cons]; omega, ?_⟩
      have e1 : skip_whitespace (t :: l ++ s) = skip_whitespace (l ++ s) :=
        skip_whitespace_cons_space t _ hd2
      have e2 : parameter_kept name true (t :: l) = parameter_kept name true l := by
        rw [parameter_kept, if_pos hd]
      simp only [if_true] at he ⊢
      rw [e1, e2]
      exact he
    · have hstream : (if after = true then skip_whitespace (t :: l ++ s) else t :: l ++ s)
          = t :: (l ++ s) := by
        cases after
        · rfl
        · have hsp : starts_with_space t = false := by simpa using hd
          simp only [if_true]
          exact skip_whitespace_cons_other t _ hsp
      obtain ⟨k, rfl⟩ : ∃ k, fuel = k + 1 := ⟨fuel - 1, by omega⟩
      rw [hstream]
      by_cases hn : t = name
      · subst hn
        obtain ⟨fuel2, hf, he⟩ := ih true k in_type tn dv hl2 (by omega)
        refine ⟨fuel2, by rw [List.length_cons]; omega, ?_⟩
        rw [parameter_loop_name t _ k in_type tn dv ht]
        have e2 : parameter_kept t after (t :: l) = parameter_kept t true l := by
          rw [parameter_kept, if_neg hd, if_pos rfl]
        simp only [if_true] at he
        rw [e2]
        exact he
      · have e2 : String.join (parameter_kept name after (t :: l))
            = t ++ String.join (parameter_kept name false l) := by
          rw [parameter_kept, if_neg hd, if_neg hn, string_join_cons]
        rw [parameter_loop_plain name t _ k in_type tn dv ht hn, e2]
        cases in_type with
        | true =>
          obtain ⟨fuel2, hf, he⟩ := ih false k true (tn ++ t) dv hl2 (by omega)
          refine ⟨fuel2, by rw [List.length_cons]; omega, ?_⟩
          simp only [if_true, Bool.false_eq_true, if_false] at he ⊢
          rw [he, String.append_assoc]
        | false =>
          obtain ⟨fuel2, hf, he⟩ := ih false k false tn (dv ++ t) hl2 (by omega)
          refine ⟨fuel2, by rw [List.length_cons]; omega, ?_⟩
          simp only [Bool.false_eq_true, if_false] at he ⊢
          rw [he, String.append_assoc]

theorem parameter_kept_plain (name : String) :
    ∀ l : List String, name ∉ l →
      parameter_kept name false l = l
      ∧ parameter_kept name true l = l.dropWhile starts_with_space := by
  intro l
  induction l with
  | nil => intro _; exact ⟨rfl, rfl⟩
  | cons t l ih =>
    intro h
    have hn : t ≠ name := fun e => h (e ▸ List.mem_cons_self _ _)
    have ih2 := ih (fun hm => h (List.mem_cons_of_mem _ hm))
    refine ⟨?_, ?_⟩
    · rw [parameter_kept, if_neg (by simp), if_neg hn, ih2.1]
    · by_cases hs : starts_with_space t = true
      · rw [parameter_kept, if_pos (by simp [hs]), ih2.2, List.dropWhile_cons_of_pos hs]
      · rw [parameter_kept, if_neg (by simp [hs]), if_neg hn, ih2.1,
          List.dropWhile_cons_of_neg hs]

/-- C32: on the lexemes of a parameter declaration, `ty` before the first `=`, `dv` from
it to the `;`, none of them `;`, a further `=` or the start of an attribute,
`cpp_function_parameter::parse` gives as type the kept lexemes of `ty` and as default
value the kept lexemes of `dv`, each without the whitespace at its end; kept are all
lexemes but those equal to the name and the whitespace right after them and after the
`=`.  Without `=` the default value is empty.  `int a = 5;` gives `int` and `5`, and
`f(g(1), b)` is kept as it is.  But a lexeme of the default value that is equal to the
name, or a further `=`, is dropped: `int max = limits::max();` gives `limits::()` and
`int a = (b = 5);` gives `(b 5)`. -/
theorem parameter_type_and_default (name : String) (ty dv rest : List String)
    (hname : parameter_lexeme name = true)
    (hty : ∀ t ∈ ty, parameter_lexeme t = true)
    (hdv : ∀ t ∈ dv, parameter_lexeme t = true) :
    cpp_function_parameter.parse
        { is_parm_decl := true, name := name, tokens := ty ++ "=" :: (dv ++ ";" :: rest) }
      = .ok { name := name,
              type := { name := erase_trailing_ws (String.join (parameter_kept name false ty)) },
              default_value := erase_trailing_ws (String.join (parameter_kept name true dv)) }
    ∧ cpp_function_parameter.parse
        { is_parm_decl := true, name := name, tokens := ty ++ ";" :: rest }
      = .ok { name := name,
              type := { name := erase_trailing_ws (String.join (parameter_kept name false ty)) },
              default_value := "" }
    ∧ (∀ l : List String, name ∉ l →
        parameter_kept name false l = l
        ∧ parameter_kept name true l = l.dropWhile starts_with_space)
    ∧ cpp_function_parameter.parse
        { is_parm_decl := true, name := "a",
          tokens := ["int", " ", "a", " ", "=", " ", "5", ";"] }
      = .ok { name := "a", type := { name := "int" }, default_value := "5" }
    ∧ cpp_function_parameter.parse
        { is_parm_decl := true, name := "a",
          tokens := ["int", " ", "a", " ", "=", " ", "f", "(", "g", "(", "1", ")", ",", " ",
                     "b", ")", ";"] }
      = .ok { name := "a", type := { name := "int" }, default_value := "f(g(1), b)" }
    ∧ cpp_function_parameter.parse
        { is_parm_decl := true, name := "max",
          tokens := ["int", " ", "max", " ", "=", " ", "limits", "::", "max", "(", ")", ";"] }
      = .ok { name := "max", type := { name := "int" }, default_value := "limits::()" }
    ∧ cpp_function_parameter.parse
        { is_parm_decl := true, name := "a",
          tokens := ["int", " ", "a", " ", "=", " ", "(", "b", " ", "=", " ", "5", ")", ";"] }
      = .ok { name := "a", type := { name := "int" }, default_value := "(b 5)" } := by
  have hne : name ≠ "=" := by
    unfold parameter_lexeme at hname
    simp only [Bool.and_eq_true, bne_iff_ne, ne_eq] at hname
    exact hname.1.1.2
  refine ⟨?_, ?_, parameter_kept_plain name, by decide, by decide, by decide, by decide⟩
  · unfold cpp_function_parameter.parse
    simp only [Bool.not_true, Bool.false_eq_true, if_false]
    obtain ⟨f2, hf2, e1⟩ := parameter_loop_kept name ("=" :: (dv ++ ";" :: rest)) hname
      (by simp only [peek, List.headD_cons]; decide) ty false
      ((ty ++ "=" :: (dv ++ ";" :: rest)).length + 1) true "" "" hty
      (by simp only [List.length_append, List.length_cons]; omega)
    simp only [Bool.false_eq_true, if_false, if_true] at e1
    simp only [List.length_append, List.length_cons] at hf2
    obtain ⟨k, rfl⟩ : ∃ k, f2 = k + 1 := ⟨f2 - 1, by omega⟩
    rw [e1, parameter_loop_equals name _ k true _ _ hne]
    obtain ⟨f3, hf3, e2⟩ := parameter_loop_kept name (";" :: rest) hname
      (by simp only [peek, List.headD_cons]; decide) dv true k false
      ("" ++ String.join (parameter_kept name false ty)) "" hdv (by omega)
    simp only [Bool.false_eq_true, if_false, if_true] at e2
    obtain ⟨j, rfl⟩ : ∃ j, f3 = j + 1 := ⟨f3 - 1, by omega⟩
    rw [e2, parameter_loop_end]
    simp only [String.empty_append]
  · unfold cpp_function_parameter.parse
    simp only [Bool.not_true, Bool.false_eq_true, if_false]
    obtain ⟨f2, hf2, e1⟩ := parameter_loop_kept name (";" :: rest) hname
      (by simp only [peek, List.headD_cons]; decide) ty false
      ((ty ++ ";" :: rest).length + 1) true "" "" hty
      (by simp only [List.length_append, List.length_cons]; omega)
    simp only [Bool.false_eq_true, if_false, if_true] at e1
    simp only [List.length_append, List.length_cons] at hf2
    obtain ⟨k, rfl⟩ : ∃ k, f2 = k + 1 := ⟨f2 - 1, by omega⟩
    rw [e1, parameter_loop_end]
    simp only [String.empty_append]
    rfl

theorem parameter_type_and_default_witness :
    cpp_function_parameter.parse
        { is_parm_decl := true, name := "count",
          tokens := ["unsigned", " ", "count", " "] ++ "=" :: ([" ", "limit", "+", "1"]
            ++ ";" :: []) }
      = .ok { name := "count", type := { name := "unsigned" },
              default_value := "limit+1" } :=
  (parameter_type_and_default "count" ["unsigned", " ", "count", " "]
    [" ", "limit", "+", "1"] [] (by decide) (by decide) (by decide)).1.trans (by decide)

/-! ## Termination of the suffix resolver -/

theorem last_after (s r : token_stream) (t : String) (hs : (t :: r) <:+ s) (ht : t ≠ ";")
    (hl : s.getLast? = some ";") : r.getLast? = some ";" := by
  obtain ⟨pre, rfl⟩ := hs
  cases r with
  | nil =>
    rw [List.getLast?_append_of_ne_nil _ (by simp)] at hl
    simp only [List.getLast?_singleton, Option.some.injEq] at hl
    exact absurd hl ht
  | cons x xs =>
    have e : pre ++ t :: x :: xs = (pre ++ [t]) ++ (x :: xs) := by simp
    rw [e, List.getLast?_append_of_ne_nil _ (by simp)] at hl
    exact hl

theorem skip_whitespace_last (s : token_stream) (hl : s.getLast? = some ";") :
    (skip_whitespace s).getLast? = some ";" := by
  induction s with
  | nil => cases hl
  | cons t rest ih =>
    by_cases c : starts_with_space t = true
    · rw [skip_whitespace_cons_space t rest c]
      exact ih (last_after _ rest t (List.suffix_refl _)
        (space_ne t ";" c (by decide)) hl)
    · rw [skip_whitespace_cons_other t rest (by simpa using c)]
      exact hl

theorem balanced_cons_other (d : Nat) (t : String) (rest : List String)
    (h1 : t ≠ "(") (h2 : t ≠ ")") : balanced_from d (t :: rest) = balanced_from d rest := by
  rw [balanced_from, if_neg h1, if_neg h2]

theorem balanced_skip_whitespace (d : Nat) (s : token_stream) :
    balanced_from d (skip_whitespace s) = balanced_from d s := by
  induction s with
  | nil => rfl
  | cons t rest ih =>
    by_cases c : starts_with_space t = true
    · rw [skip_whitespace_cons_space t rest c, ih,
        balanced_cons_other d t rest (space_ne t "(" c (by decide))
          (space_ne t ")" c (by decide))]
    · rw [skip_whitespace_cons_other t rest (by simpa using c)]

theorem closed_suffix_tail (t : String) (rest : token_stream)
    (h : closed_suffix (t :: rest)) (h0 : t ≠ ";") (h1 : t ≠ "(") (h2 : t ≠ ")") :
    closed_suffix rest ∧ closed_suffix (skip_whitespace rest) := by
  obtain ⟨hl, hb, ha⟩ := h
  have hl2 := last_after _ rest t (List.suffix_refl _) h0 hl
  have hb2 : balanced_from 0 rest = true := by
    rw [← balanced_cons_other 0 t rest h1 h2]; exact hb
  have ha2 := no_attribute_tail _ rest ha (List.suffix_cons _ _)
  exact ⟨⟨hl2, hb2, ha2⟩, skip_whitespace_last _ hl2,
    by rw [balanced_skip_whitespace]; exact hb2,
    no_attribute_tail _ _ ha2 (skip_whitespace_suffix rest)⟩

theorem closed_suffix_ne_nil (s : token_stream) (h : closed_suffix s) : s ≠ [] := by
  intro e
  rw [e] at h
  exact absurd h.1 (by simp)

/-- With one bracket more open than the rest closes, the loop of `parse_noexcept` finds
the closing bracket, and the brackets behind it are balanced. -/
theorem parse_noexcept_loop_closed :
    ∀ (r : token_stream) (d : Nat) (expression : String),
      balanced_from (d + 1) r = true →
      ∃ v r3, parse_noexcept_loop r (d + 1) expression = .ok (v, r3)
        ∧ balanced_from 0 r3 = true := by
  intro r
  induction r with
  | nil => intro d e h; simp [balanced_from] at h
  | cons t rest ih =>
    intro d e h
    rw [parse_noexcept_loop]
    rw [balanced_from] at h
    by_cases c1 : t = "("
    · rw [if_pos c1] at h
      simp only [c1, if_true]
      rw [if_pos (by omega)]
      exact ih (d + 1) _ h
    · rw [if_neg c1] at h
      by_cases c2 : t = ")"
      · rw [if_pos c2] at h
        simp only [Bool.and_eq_true] at h
        have hb : balanced_from d rest = true := by simpa using h.2
        simp only [c1, c2, if_true, if_false]
        cases d with
        | zero => exact ⟨e, rest, by simp, hb⟩
        | succ k =>
          rw [if_pos (by simp)]
          exact ih k _ hb
      · rw [if_neg c2] at h
        simp only [c1, c2, if_false]
        rw [if_pos (by omega)]
        exact ih d _ h

/-- On a stream that ends in `;` and holds no attribute, the loop over a trailing return
type reaches a terminator; after the terminator `=` a lexeme is left. -/
theorem trailing_loop_closed (fuel : Nat) :
    ∀ (st : suffix_state), st.stream.length < fuel → st.stream.getLast? = some ";" →
      no_attribute st.stream = true →
      ∃ res, trailing_return_type_loop fuel st = .ok res
        ∧ (res.special_definition = true → res.stream ≠ []) := by
  induction fuel with
  | zero => intro st hlt; exact absurd hlt (Nat.not_lt_zero _)
  | succ n ih =>
    intro st hlt hl ha
    cases hst : st.stream with
    | nil => rw [hst] at hl; cases hl
    | cons t rest =>
      rw [hst] at hl ha hlt
      rw [trailing_return_type_loop, hst]
      by_cases ht : terminator t
      · rw [is_declaration_end_terminator t rest _ ht]
        refine ⟨_, rfl, ?_⟩
        intro hsp
        have e : t = "=" := by simpa using hsp
        have hl2 := skip_whitespace_last _
          (last_after _ rest t (List.suffix_refl _) (by rw [e]; decide) hl)
        intro h0
        simp only at h0
        rw [h0] at hl2
        cases hl2
      · rw [is_declaration_end_not (t :: rest) (t :: rest) _ (no_attribute_skip _ ha)
          (by simpa [peek] using ht)]
        simp only [get]
        have h0 : t ≠ ";" := fun e => ht (Or.inl e)
        exact ih _ (by simp only [List.length_cons] at hlt ⊢; omega)
          (last_after _ rest t (List.suffix_refl _) h0 hl)
          (no_attribute_tail _ rest ha (List.suffix_cons _ _))

/-- One iteration of the suffix loop on a stream that ends in `;`, has balanced brackets
and holds no attribute: it raises a parse error, or leaves the loop, or goes on with a
shorter stream of the same kind. -/
theorem suffix_step_closed (st : suffix_state) (h : closed_suffix st.stream) :
    (∃ msg, parse_member_function_suffix_step st = .error (.parse_error msg))
    ∨ (∃ res, parse_member_function_suffix_step st = .ok (true, res)
        ∧ (res.special_definition = true → res.stream ≠ []))
    ∨ (∃ res, parse_member_function_suffix_step st = .ok (false, res)
        ∧ closed_suffix res.stream ∧ res.stream.length < st.stream.length) := by
  cases hst : st.stream with
  | nil => exact absurd hst (closed_suffix_ne_nil _ h)
  | cons t rest =>
    rw [hst] at h
    have hskip : skip_attribute (t :: rest) = .ok (t :: rest) := no_attribute_skip _ h.2.2
    have hlen : (skip_whitespace rest).length ≤ rest.length :=
      (skip_whitespace_suffix rest).length_le
    by_cases ht : terminator t
    · refine Or.inr (Or.inl ⟨_, suffix_step_terminator st t rest hst ht, ?_⟩)
      intro hsp
      have e : t = "=" := by simpa using hsp
      have hl2 := skip_whitespace_last _
        (last_after _ rest t (List.suffix_refl _) (by rw [e]; decide) h.1)
      intro h0
      simp only at h0
      rw [h0] at hl2
      cases hl2
    have h0 : t ≠ ";" := fun e => ht (Or.inl e)
    by_cases hsp : starts_with_space t = true
    · refine Or.inr (Or.inr ⟨_, suffix_step_space st t rest hst hsp, ?_, ?_⟩)
      · exact (closed_suffix_tail t rest h h0 (space_ne t "(" hsp (by decide))
          (space_ne t ")" hsp (by decide))).1
      · simp only [List.length_cons]; omega
    by_cases hk : suffix_keyword t
    · obtain ⟨res, hr, hs⟩ := suffix_step_keyword st t rest hst hk
      have hp : t ≠ "(" ∧ t ≠ ")" := by
        rcases hk with e | e | e | e | e | e <;> subst e <;> exact ⟨by decide, by decide⟩
      refine Or.inr (Or.inr ⟨res, hr, ?_, ?_⟩)
      · rw [hs]; exact (closed_suffix_tail t rest h h0 hp.1 hp.2).2
      · rw [hs]; simp only [List.length_cons]; omega
    by_cases hn : t = "noexcept"
    · subst hn
      have hc := (closed_suffix_tail "noexcept" rest h h0 (by decide) (by decide)).2
      rw [suffix_step_noexcept st rest hst]
      by_cases hp : peek (skip_whitespace rest) = "("
      · obtain ⟨r2, e2, _⟩ := peek_eq_cons _ "(" hp (by decide)
        have hb1 : balanced_from (0 + 1) r2 = true := by
          have := hc.2.1
          rw [e2, balanced_from, if_pos rfl] at this
          exact this
        obtain ⟨v, r3, hloop, hb3⟩ := parse_noexcept_loop_closed r2 0 "" hb1
        have hpn : parse_noexcept (skip_whitespace rest) = .ok (v, r3) := by
          unfold parse_noexcept
          simp only [skip_whitespace_idem, hp, if_true]
          rw [e2]
          exact hloop
        obtain ⟨inner, hin, _⟩ := parse_noexcept_loop_inv r2 0 "" v r3 hloop
        have hsuf : (")" :: r3) <:+ skip_whitespace rest := by
          rw [e2, hin]
          exact ⟨"(" :: inner, by simp⟩
        rw [hpn]
        refine Or.inr (Or.inr ⟨_, rfl, ⟨?_, hb3, ?_⟩, ?_⟩)
        · exact last_after _ r3 ")" hsuf (by decide) hc.1
        · exact no_attribute_tail _ r3 hc.2.2 ((List.suffix_cons _ _).trans hsuf)
        · have := hsuf.length_le
          simp only [List.length_cons] at this ⊢
          omega
      · rw [parse_noexcept_bare _ (by rw [skip_whitespace_idem]; exact hp),
          skip_whitespace_idem]
        refine Or.inr (Or.inr ⟨_, rfl, hc, ?_⟩)
        simp only [List.length_cons]; omega
    by_cases ha : t = "->"
    · subst ha
      have hc := (closed_suffix_tail "->" rest h h0 (by decide) (by decide)).2
      obtain ⟨res, hr, hs⟩ := trailing_loop_closed ((skip_whitespace rest).length + 1)
        { st with stream := skip_whitespace rest } (Nat.lt_succ_self _) hc.1 hc.2.2
      rw [suffix_step_arrow st rest hst, hr]
      exact Or.inr (Or.inl ⟨res, rfl, hs⟩)
    by_cases hcl : t = ")"
    · subst hcl
      have := h.2.1
      simp [balanced_from] at this
    · refine Or.inl ⟨_, suffix_step_unexpected st t rest hst ⟨by simpa using hsp, ht, ?_⟩ hskip⟩
      intro hm
      simp only [List.mem_cons, List.mem_singleton, List.not_mem_nil, or_false] at hm
      rcases hm with e | e | e | e | e | e | e | e | e
      · exact hcl e
      · exact ha e
      · exact hk (Or.inl e)
      · exact hk (Or.inr (Or.inl e))
      · exact hk (Or.inr (Or.inr (Or.inl e)))
      · exact hk (Or.inr (Or.inr (Or.inr (Or.inl e))))
      · exact hk (Or.inr (Or.inr (Or.inr (Or.inr (Or.inl e)))))
      · exact hk (Or.inr (Or.inr (Or.inr (Or.inr (Or.inr e)))))
      · exact hn e

theorem suffix_loop_closed (fuel : Nat) :
    ∀ (st : suffix_state), st.stream.length < fuel → closed_suffix st.stream →
      (∃ msg, parse_member_function_suffix_loop fuel st = .error (.parse_error msg))
      ∨ (∃ res, parse_member_function_suffix_loop fuel st = .ok res
          ∧ (res.special_definition = true → res.stream ≠ [])) := by
  induction fuel with
  | zero => intro st hlt; exact absurd hlt (Nat.not_lt_zero _)
  | succ n ih =>
    intro st hlt h
    rw [parse_member_function_suffix_loop]
    rcases suffix_step_closed st h with ⟨msg, e⟩ | ⟨res, e, hs⟩ | ⟨res, e, hc, hl⟩
    · rw [e]; exact Or.inl ⟨msg, rfl⟩
    · rw [e]; exact Or.inr ⟨res, rfl, hs⟩
    · rw [e]; exact ih res (by omega) hc

theorem suffix_end_closed (st : suffix_state)
    (h : st.special_definition = true → st.stream ≠ []) :
    (∃ msg, parse_member_function_suffix_end st = .error (.parse_error msg))
    ∨ (∃ res, parse_member_function_suffix_end st = .ok res) := by
  unfold parse_member_function_suffix_end
  by_cases hsp : st.special_definition = true
  · rw [if_pos hsp]
    cases hst : st.stream with
    | nil => exact absurd hst (h hsp)
    | cons t rest =>
      simp only [parse_special_definition, get]
      by_cases c1 : t = "default"
      · simp [c1]
      by_cases c2 : t = "delete"
      · simp [c2]
      by_cases c3 : t = "0"
      · simp [c3]
      · simp [c1, c2, c3]
  · rw [if_neg hsp]; exact Or.inr ⟨st, rfl⟩

/-- C33: `parse_member_function_suffix` terminates on every stream: with one iteration
more than there are lexemes the loop never runs out of iterations, and every iteration
that goes on has consumed a lexeme.  On a stream that ends in `;`, has balanced brackets
and holds no attribute, every iteration that does not leave the loop consumes a lexeme or
raises a parse error, and the resolver ends with a result or a parse error: no lexeme is
read behind the `;`. -/
theorem suffix_resolver_terminates (stream : token_stream) (finfo : cpp_function_info)
    (minfo : cpp_member_function_info) (h : closed_suffix stream) :
    parse_member_function_suffix stream finfo minfo ≠ .error .out_of_fuel
    ∧ (∀ st res : suffix_state, parse_member_function_suffix_step st = .ok (false, res) →
        res.stream.length < st.stream.length)
    ∧ (∀ st : suffix_state, closed_suffix st.stream →
        (∃ msg, parse_member_function_suffix_step st = .error (.parse_error msg))
        ∨ (∃ res, parse_member_function_suffix_step st = .ok (true, res))
        ∨ (∃ res, parse_member_function_suffix_step st = .ok (false, res)
            ∧ closed_suffix res.stream ∧ res.stream.length < st.stream.length))
    ∧ ((∃ res, parse_member_function_suffix stream finfo minfo = .ok res)
        ∨ (∃ msg, parse_member_function_suffix stream finfo minfo
            = .error (.parse_error msg)))
    ∧ parse_member_function_suffix stream finfo minfo ≠ .error .end_of_stream := by
  have hmain : (∃ res, parse_member_function_suffix stream finfo minfo = .ok res)
      ∨ (∃ msg, parse_member_function_suffix stream finfo minfo
          = .error (.parse_error msg)) := by
    unfold parse_member_function_suffix
    rcases suffix_loop_closed (stream.length + 1)
        { stream := stream, trailing_return_type := "", special_definition := false,
          finfo := finfo, minfo := minfo } (Nat.lt_succ_self _) h with ⟨msg, e⟩ | ⟨res, e, hs⟩
    · rw [e]; exact Or.inr ⟨msg, rfl⟩
    · rw [e]
      rcases suffix_end_closed res hs with ⟨msg, e2⟩ | ⟨r, e2⟩
      · exact Or.inr ⟨msg, e2⟩
      · exact Or.inl ⟨r, e2⟩
  refine ⟨parse_member_function_suffix_total stream finfo minfo,
    fun st res hs => suffix_step_decreases st res hs, ?_, hmain, ?_⟩
  · intro st hc
    rcases suffix_step_closed st hc with h1 | ⟨res, e, _⟩ | h3
    · exact Or.inl h1
    · exact Or.inr (Or.inl ⟨res, e⟩)
    · exact Or.inr (Or.inr h3)
  · rcases hmain with ⟨res, e⟩ | ⟨msg, e⟩
    · rw [e]; exact fun h => nomatch h
    · rw [e]; exact fun h => nomatch h

theorem suffix_resolver_terminates_witness :
    closed_suffix [" ", "const", " ", "noexcept", "(", "(", "true", ")", ")", " ", "=", " ",
      "0", ";"]
    ∧ ((∃ res, parse_member_function_suffix
          [" ", "const", " ", "noexcept", "(", "(", "true", ")", ")", " ", "=", " ", "0", ";"]
          {} {} = .ok res)
      ∨ (∃ msg, parse_member_function_suffix
          [" ", "const", " ", "noexcept", "(", "(", "true", ")", ")", " ", "=", " ", "0", ";"]
          {} {} = .error (.parse_error msg))) :=
  ⟨⟨by decide, by decide, by decide⟩,
    (suffix_resolver_terminates
      [" ", "const", " ", "noexcept", "(", "(", "true", ")", ")", " ", "=", " ", "0", ";"]
      {} {} ⟨by decide, by decide, by decide⟩).2.2.2.1⟩

/-! ## The filter loop of the preprocessor -/

theorem filter_step_marker (full_path : List Nat) (st st2 : filter_state)
    (rest rest2 : List Nat) (m : line_marker)
    (hnewl : st.was_newl = true) (hcomment : st.in_c_comment = false)
    (hp : rest.head? ≠ some 'p'.toNat)
    (hm : parse_line_marker ('#'.toNat :: rest) = .ok (m, '\n'.toNat :: rest2))
    (hf : filter_marker full_path st m = .ok st2) :
    filter_step full_path st '#'.toNat rest = .ok (filter_write st2 '\n'.toNat, rest2) := by
  unfold filter_step
  rw [if_neg (by decide), if_neg (by rw [hcomment]; simp), if_neg (by simp),
    if_pos ⟨hnewl, hcomment, rfl, hp⟩, hm]
  simp only [ne_eq, not_true_eq_false, if_false, hf]

theorem filter_step_other (full_path : List Nat) (st st2 : filter_state) (c : Nat)
    (rest ptr : List Nat)
    (hno : ¬ (st.was_newl = true ∧ st.in_c_comment = false ∧ c = '#'.toNat
      ∧ rest.head? ≠ some 'p'.toNat))
    (hd : st.file_depth ≠ 0)
    (h : filter_step full_path st c rest = .ok (st2, ptr)) :
    st2.preprocessed = st.preprocessed ∧ st2.file_depth = st.file_depth ∧ ptr = rest := by
  unfold filter_step at h
  have hw : ∀ s : filter_state, s.file_depth = st.file_depth →
      s.preprocessed = st.preprocessed →
      (filter_write s c).preprocessed = st.preprocessed
      ∧ (filter_write s c).file_depth = st.file_depth := by
    intro s h1 h2
    unfold filter_write
    rw [if_neg (by rw [h1]; exact fun h => hd h.1), if_neg (by rw [h1]; exact hd)]
    exact ⟨h2, h1⟩
  by_cases c1 : c = '\n'.toNat
  · rw [if_pos c1] at h
    cases h
    exact ⟨(hw { st with was_newl := true } rfl rfl).1, (hw { st with was_newl := true } rfl rfl).2, rfl⟩
  rw [if_neg c1] at h
  by_cases c2 : st.in_c_comment = true ∧ c = '*'.toNat ∧ rest.head? = some '/'.toNat
  · rw [if_pos c2] at h
    cases h
    exact ⟨(hw { st with in_c_comment := false, was_newl := false } rfl rfl).1, (hw { st with in_c_comment := false, was_newl := false } rfl rfl).2, rfl⟩
  rw [if_neg c2] at h
  by_cases c3 : c = '/'.toNat ∧ rest.head? = some '*'.toNat
  · rw [if_pos c3] at h
    cases h
    exact ⟨(hw { st with in_c_comment := true, was_newl := false } rfl rfl).1, (hw { st with in_c_comment := true, was_newl := false } rfl rfl).2, rfl⟩
  rw [if_neg c3, if_neg hno] at h
  cases h
  exact ⟨(hw { st with was_newl := false } rfl rfl).1, (hw { st with was_newl := false } rfl rfl).2, rfl⟩

set_option maxRecDepth 1000000 in
theorem preprocess_includes :
    preprocess (literal "m.cpp")
        (literal ("# 1 \"m.cpp\"\n# 1 \"<built-in>\" 1\n# 1 \"<command line>\" 1\n"
          ++ "# 1 \"<built-in>\" 2\n# 1 \"m.cpp\" 2\n# 1 \"a.h\" 1\nint a;\n# 1 \"b.h\" 1\n"
          ++ "int b;\n# 2 \"a.h\" 2\n# 2 \"m.cpp\" 2\n# 1 \"/usr/s.h\" 1 3\nint s;\n"
          ++ "# 3 \"m.cpp\" 2\nint x;\n"))
      = .ok (literal "#include \"a.h\"\n#include </usr/s.h>\nint x;\n") := by
  decide

set_option maxRecDepth 1000000 in
theorem preprocess_comment_opener :
    preprocess (literal "m.cpp")
        (literal ("# 1 \"m.cpp\"\n// see /* here\n# 1 \"a.h\" 1\nint a;\n# 3 \"m.cpp\" 2\n"
          ++ "int x;\n"))
      = .ok (literal ("// see /* here\n# 1 \"a.h\" 1\nint a;\n# 3 \"m.cpp\" 2\n"
          ++ "int x;\n")) := by
  decide

set_option maxRecDepth 1000000 in
theorem preprocess_line_comment :
    preprocess (literal "m.cpp")
        (literal ("# 1 \"m.cpp\"\n// see here\n# 1 \"a.h\" 1\nint a;\n# 3 \"m.cpp\" 2\n"
          ++ "int x;\n"))
      = .ok (literal "// see here\n#include \"a.h\"\nint x;\n") := by
  decide

/-- C37: a line marker that the loop meets at the start of a line, outside of what it
takes for a comment, is not copied.  When it names the main file the depth becomes 0
and the line feed after it is dropped; when it enters another file at depth 0, other
than `<built-in>` and `<command line>`, the one line `#include <name>` (system flag) or
`#include "name"` is written; when it enters a file at depth 1 or more nothing is
written; and while the depth is not 0 no other character is copied.  But the loop opens
a comment at every `/*`, also inside a `//` comment: after `// see /* here` in the main
file the markers are not seen any more, so they and the text of the included file are
copied and no `#include` line is written. -/
theorem filter_line_markers (full_path : List Nat) (st : filter_state)
    (rest rest2 : List Nat) (m : line_marker)
    (hnewl : st.was_newl = true) (hcomment : st.in_c_comment = false)
    (hp : rest.head? ≠ some 'p'.toNat)
    (hm : parse_line_marker ('#'.toNat :: rest) = .ok (m, '\n'.toNat :: rest2)) :
    (m.file_name = full_path → st.file_depth ≤ 1 →
      filter_step full_path st '#'.toNat rest
        = .ok ({ st with file_depth := 0, write_char := true }, rest2))
    ∧ (m.file_name ≠ full_path → m.is_set enter_new = true → st.file_depth = 0 →
        m.file_name ≠ literal "<built-in>" → m.file_name ≠ literal "<command line>" →
        filter_step full_path st '#'.toNat rest
          = .ok ({ st with
                   file_depth := 1,
                   preprocessed :=
                     st.preprocessed ++ literal "#include "
                       ++ (if m.is_set system then literal "<" else literal "\"")
                       ++ m.file_name
                       ++ (if m.is_set system then literal ">" else literal "\"")
                       ++ literal "\n" }, rest2))
    ∧ (m.file_name ≠ full_path → m.is_set enter_new = true → 1 ≤ st.file_depth →
        filter_step full_path st '#'.toNat rest
          = .ok ({ st with file_depth := st.file_depth + 1 }, rest2))
    ∧ (∀ (s s2 : filter_state) (c : Nat) (r ptr : List Nat),
        ¬ (s.was_newl = true ∧ s.in_c_comment = false ∧ c = '#'.toNat
            ∧ r.head? ≠ some 'p'.toNat) →
        s.file_depth ≠ 0 → filter_step full_path s c r = .ok (s2, ptr) →
        s2.preprocessed = s.preprocessed ∧ s2.file_depth = s.file_depth ∧ ptr = r)
    ∧ preprocess (literal "m.cpp")
        (literal ("# 1 \"m.cpp\"\n# 1 \"<built-in>\" 1\n# 1 \"<command line>\" 1\n"
          ++ "# 1 \"<built-in>\" 2\n# 1 \"m.cpp\" 2\n# 1 \"a.h\" 1\nint a;\n# 1 \"b.h\" 1\n"
          ++ "int b;\n# 2 \"a.h\" 2\n# 2 \"m.cpp\" 2\n# 1 \"/usr/s.h\" 1 3\nint s;\n"
          ++ "# 3 \"m.cpp\" 2\nint x;\n"))
      = .ok (literal "#include \"a.h\"\n#include </usr/s.h>\nint x;\n")
    ∧ preprocess (literal "m.cpp")
        (literal ("# 1 \"m.cpp\"\n// see here\n# 1 \"a.h\" 1\nint a;\n# 3 \"m.cpp\" 2\n"
          ++ "int x;\n"))
      = .ok (literal "// see here\n#include \"a.h\"\nint x;\n")
    ∧ preprocess (literal "m.cpp")
        (literal ("# 1 \"m.cpp\"\n// see /* here\n# 1 \"a.h\" 1\nint a;\n# 3 \"m.cpp\" 2\n"
          ++ "int x;\n"))
      = .ok (literal ("// see /* here\n# 1 \"a.h\" 1\nint a;\n# 3 \"m.cpp\" 2\n"
          ++ "int x;\n")) := by
  refine ⟨?_, ?_, ?_, fun s s2 c r ptr hno hd h => filter_step_other full_path s s2 c r ptr hno hd h,
    preprocess_includes, preprocess_line_comment, preprocess_comment_opener⟩
  · intro hname hdepth
    rw [filter_step_marker full_path st { st with file_depth := 0, write_char := false }
      rest rest2 m hnewl hcomment hp hm
      (by unfold filter_marker; rw [if_pos hname, if_neg (by omega)])]
    simp [filter_write]
  · intro hname hnew hdepth hb hc
    rw [filter_step_marker full_path st _ rest rest2 m hnewl hcomment hp hm
      (by
        unfold filter_marker
        rw [if_neg hname, if_pos hnew]
        dsimp only
        rw [if_pos ⟨by rw [hdepth]; rfl, hb, hc⟩])]
    simp [filter_write, hdepth]
  · intro hname hnew hdepth
    rw [filter_step_marker full_path st { st with file_depth := st.file_depth + 1 }
      rest rest2 m hnewl hcomment hp hm
      (by
        unfold filter_marker
        rw [if_neg hname, if_pos hnew]
        dsimp only
        rw [if_neg (by omega)])]
    have h0 : st.file_depth + 1 ≠ 0 := by omega
    simp [filter_write, h0]

theorem filter_line_markers_witness :
    filter_step (literal "m.cpp")
        { preprocessed := literal "int y;\n", file_depth := 0, was_newl := true,
          in_c_comment := false, write_char := true }
        '#'.toNat (literal " 1 \"a.h\" 1\nint a;\n")
      = .ok ({ preprocessed := literal "int y;\n#include \"a.h\"\n", file_depth := 1,
               was_newl := true, in_c_comment := false, write_char := true },
             literal "int a;\n") :=
  ((filter_line_markers (literal "m.cpp")
    { preprocessed := literal "int y;\n", file_depth := 0, was_newl := true,
      in_c_comment := false, write_char := true }
    (literal " 1 \"a.h\" 1\nint a;\n") (literal "int a;\n")
    { file_name := literal "a.h", line := 1, flags := 1 } rfl rfl (by decide)
    (by decide)).2.1 (by decide) (by decide) rfl (by decide) (by decide)).trans (by decide)

end standardese
